import Mathlib

/-! go-configmanager: the in-memory range skip list (`mylist.go`) and the store (`confmanager.go`)

Shallow embedding of the Go sources.

* Go pointers are addresses into two heaps that live in the list state: `elems` holds every
  `myElem` object, `nodes` holds every `myNode` object.  A nil pointer is `none`.
* `uint64` values are natural numbers below `2 ^ 64`; the only arithmetic on them that can wrap,
  `startId - 1`, is written with an explicit `% 2 ^ 64`.
* A Go function either returns (`Run.done`), panics on a nil dereference or an index out of range
  (`Run.fault`), or keeps looping (`Run.diverge`, reported when a loop has run for more iterations
  than the heap has nodes and levels).
-/

set_option autoImplicit false

/-! ## Constants (`mylist.go`, `var (...)`) -/

/-- Go `MAX_RECORD_NUM`: how many elements the list keeps in memory at most. -/
def MAX_RECORD_NUM : Int := 1000

/-- Go `MAX_LEVEL_LIMIT`. -/
def MAX_LEVEL_LIMIT : Nat := 10

/-- Go `NUM_PER_TRUNCATE`: how many old elements are dropped when the limit is reached. -/
def NUM_PER_TRUNCATE : Int := 100

/-- Go `UINT64_MAX = math.MaxUint64`. -/
def UINT64_MAX : Nat := 2 ^ 64 - 1

/-- Go `MAX_RESULT_NUM`. -/
def MAX_RESULT_NUM : Nat := 10000

/-! ## Data model -/

/-- Go `errors` produced by `mylist.go`; `MEM_NOTFOUND_ERR` is the package-level value, every
other constructor stands for one `errors.New` call site. -/
inductive myErr where
  | MEM_NOTFOUND_ERR
  | notLatest
  | dontKnow
  | couldNotFind
  | whatHappened
  | elemsLessThanSum
deriving DecidableEq, Repr

/-- Go `type myElem struct`. -/
structure myElem where
  startId : Nat
  endId : Nat
  data : List Nat
deriving DecidableEq, Repr

/-- Go `type myNode struct`.  `myElem` is the embedded `*myElem`; `levels[i]` is a
`*levelPointer` (`none` when nil) whose field `next` is a `*myNode` (`none` when nil). -/
structure myNode where
  myElem : Option Nat
  maxLevel : Nat
  levels : List (Option (Option Nat))
deriving DecidableEq, Repr

/-- Go `type myList struct` together with the two heaps its pointers refer to.  The random
generator and the mutex are left out: random draws are an argument of `push`. -/
structure myList where
  elems : List myElem
  nodes : List myNode
  sum : Int
  maxLevel : Nat
  head : Nat
  tail : Nat
deriving DecidableEq, Repr

/-- Outcome of running a Go function. -/
inductive Run (α : Type) where
  | done (a : α)
  | fault
  | diverge
deriving DecidableEq, Repr

/-! ## Heap access -/

/-- Read `p.levels[L].next`; `none` is a panic (index out of range or nil `*levelPointer`). -/
def levelNext (l : myList) (p L : Nat) : Option (Option Nat) :=
  match l.nodes[p]? with
  | none => none
  | some nd =>
    match nd.levels[L]? with
    | some (some nx) => some nx
    | _ => none

/-- Write `p.levels[L].next = v`; `none` is a panic. -/
def setLevelNext (l : myList) (p L : Nat) (v : Option Nat) : Option myList :=
  match l.nodes[p]? with
  | none => none
  | some nd =>
    match nd.levels[L]? with
    | some (some _) =>
      some { l with nodes := l.nodes.set p { nd with levels := nd.levels.set L (some v) } }
    | _ => none

/-- Read the embedded pointer `p.myElem` of a non-nil node. -/
def nodeElem (l : myList) (p : Nat) : Option (Option Nat) :=
  match l.nodes[p]? with
  | none => none
  | some nd => some nd.myElem

/-- Write `p.myElem = v`. -/
def setNodeElem (l : myList) (p : Nat) (v : Option Nat) : Option myList :=
  match l.nodes[p]? with
  | none => none
  | some nd => some { l with nodes := l.nodes.set p { nd with myElem := v } }

/-- Dereference the element of node pointer `p` (as in `p.startId`, `p.endId`): the address of
the element and its contents; `none` is a panic (nil node or nil `myElem`). -/
def elemOf (l : myList) (p : Option Nat) : Option (Nat × myElem) :=
  match p with
  | none => none
  | some a =>
    match l.nodes[a]? with
    | none => none
    | some nd =>
      match nd.myElem with
      | none => none
      | some ep =>
        match l.elems[ep]? with
        | none => none
        | some e => some (ep, e)

/-- Overwrite the element stored at address `ep`. -/
def setElem (l : myList) (ep : Nat) (e : myElem) : myList :=
  { l with elems := l.elems.set ep e }

/-! ## `mylist.go` -/

/-- Go `func (this *myNode) compareTo(id uint64) int`, on the element the node embeds. -/
def compareTo (e : myElem) (id : Nat) : Int :=
  if e.endId < id then -1
  else if e.startId > id then 1
  else 0

/-- Go `func getElem(logIndex uint64, data []byte) *myElem`. -/
def conf.getElem (logIndex : Nat) (data : List Nat) : myElem :=
  { startId := logIndex, endId := UINT64_MAX, data := data }

/-- Go `func getNode(elem *myElem, maxLevel int) *myNode`: every level pointer is allocated,
its `next` is nil. -/
def getNode (elem : Nat) (maxLevel : Nat) : myNode :=
  { myElem := some elem, maxLevel := maxLevel, levels := List.replicate (maxLevel + 1) (some none) }

/-- Go `func getMyList() *myList`.  Address 0 is the head sentinel, address 1 the tail
sentinel; each owns a zero `myElem`.  The tail's `levels` are nil pointers. -/
def getMyList : myList :=
  { elems := [⟨0, 0, []⟩, ⟨0, 0, []⟩]
    nodes := [ { myElem := some 0, maxLevel := MAX_LEVEL_LIMIT,
                 levels := List.replicate MAX_LEVEL_LIMIT (some (some 1)) },
               { myElem := some 1, maxLevel := MAX_LEVEL_LIMIT,
                 levels := List.replicate MAX_LEVEL_LIMIT none } ]
    sum := 0
    maxLevel := 0
    head := 0
    tail := 1 }

/-- Loop of `getLevel`: `i` is the loop variable, `n = MAX_LEVEL_LIMIT - i`, `draw i` is the
value of the `i`-th call `this.rnd.Intn(100)`. -/
def getLevelLoop (draw : Nat → Nat) : Nat → Nat → Nat → Nat
  | 0, _, level => level
  | n + 1, i, _ => if draw i < 50 then i else getLevelLoop draw n (i + 1) i

/-- Go `func (this *myList) getLevel() int`. -/
def getLevel (draw : Nat → Nat) : Nat :=
  getLevelLoop draw MAX_LEVEL_LIMIT 0 0

/-- Go `func (this *myList) isLatest(n *myNode) bool`; `none` is the panic on
`this.head.startId` when `head.myElem` is nil. -/
def isLatest (l : myList) (n : Nat) : Option Bool :=
  match elemOf l (some n), elemOf l (some l.head) with
  | some (_, e), some (_, h) =>
    if e.startId > h.startId then some true
    else if l.sum = 0 then some true
    else some false
  | _, _ => none

/-- Go `func (this *myList) last() (*myElem, error)`. -/
def last (l : myList) : Run (Option Nat × Option myErr) :=
  if l.sum ≤ 0 then .done (none, some .MEM_NOTFOUND_ERR)
  else
    match nodeElem l l.head with
    | none => .fault
    | some ep => .done (ep, none)

/-- Main loop of `get`.  The exit `if tmpNode == nil` of the source is never taken: `tmpNode`
only changes to a `next` pointer on which `compareTo` has just run, and `compareTo` on a nil
node panics. -/
def getLoop (l : myList) (logIndex : Nat) : Nat → Nat → Nat → Run (Option Nat × Option myErr)
  | 0, _, _ => .diverge
  | fuel + 1, nowLevel, tmpNode =>
    if tmpNode = l.tail then .done (none, some .MEM_NOTFOUND_ERR)
    else
      match levelNext l tmpNode nowLevel with
      | none => .fault
      | some nx =>
        match elemOf l nx, nx with
        | some (ep, e), some b =>
          if compareTo e logIndex = 0 then .done (some ep, none)
          else if compareTo e logIndex > 0 then getLoop l logIndex fuel nowLevel b
          else if nowLevel = 0 then .done (none, some .couldNotFind)
          else getLoop l logIndex fuel (nowLevel - 1) tmpNode
        | _, _ => .fault

/-- Go `func (this *myList) get(logIndex uint64) (*myElem, error)`. -/
def myList.get (l : myList) (logIndex : Nat) : Run (Option Nat × Option myErr) :=
  getLoop l logIndex (l.nodes.length + l.maxLevel + 1) l.maxLevel l.head

/-- First loop of `listAfter`: counts the nodes from `tmpNode` on whose `compareTo` is not
negative. -/
def listAfterCount (l : myList) (logIndex : Nat) : Nat → Option Nat → Nat → Run Nat
  | 0, _, _ => .diverge
  | fuel + 1, tmpNode, count =>
    if tmpNode = some l.tail then .done count
    else
      match elemOf l tmpNode, tmpNode with
      | some (_, e), some a =>
        if compareTo e logIndex < 0 then .done count
        else
          match levelNext l a 0 with
          | none => .fault
          | some nx => listAfterCount l logIndex fuel nx (count + 1)
      | _, _ => .fault

/-- Second loop of `listAfter`: `resultElems[count] = tmpNode.myElem` fills the result from
the back, so the node visited first ends up last. -/
def listAfterFill (l : myList) : Nat → Option Nat → List (Option Nat) → Run (List (Option Nat))
  | 0, _, acc => .done acc
  | count + 1, tmpNode, acc =>
    match tmpNode with
    | none => .fault
    | some a =>
      match nodeElem l a, levelNext l a 0 with
      | some ep, some nx => listAfterFill l count nx (ep :: acc)
      | _, _ => .fault

/-- Go `func (this *myList) listAfter(logIndex uint64) ([]*myElem, error)`. -/
def listAfter (l : myList) (logIndex : Nat) : Run (List (Option Nat) × Option myErr) :=
  match levelNext l l.head 0 with
  | none => .fault
  | some first =>
    match listAfterCount l logIndex (l.nodes.length + 1) first 0 with
    | .done count =>
      match listAfterFill l (min count MAX_RESULT_NUM) first [] with
      | .done r => .done (r, none)
      | .fault => .fault
      | .diverge => .diverge
    | .fault => .fault
    | .diverge => .diverge

/-- Sequencing of Go statements: a panic or a non-terminating loop ends the run. -/
def Run.bind {α β : Type} (r : Run α) (f : α → Run β) : Run β :=
  match r with
  | .done a => f a
  | .fault => .fault
  | .diverge => .diverge

/-- A heap access that panics when it yields `none`. -/
def Run.ofOption {α : Type} (o : Option α) : Run α :=
  match o with
  | some a => .done a
  | none => .fault

/-- Inner loop of `truncateAfter` on level `nowLevel`; the state is the list and the local
`resultData`. -/
def truncateAfterWalk (logIndex nowLevel : Nat) :
    Nat → myList → Option Nat → Option Nat → Run (myList × Option Nat)
  | 0, _, _, _ => .diverge
  | fuel + 1, l, tmpNode, resultData =>
    if tmpNode = some l.tail then
      (Run.ofOption (setLevelNext l l.head nowLevel (some l.tail))).bind fun l1 =>
        .done (l1, resultData)
    else
      match elemOf l tmpNode, tmpNode with
      | some (ep, e), some a =>
        if compareTo e logIndex < 0 then
          (Run.ofOption (setLevelNext l l.head nowLevel tmpNode)).bind fun l1 =>
            .done (l1, resultData)
        else if compareTo e logIndex = 0 then
          (Run.ofOption (setLevelNext l l.head nowLevel tmpNode)).bind fun l1 =>
            .done (l1, if resultData = none then some ep else resultData)
        else
          let l1 := if nowLevel = 0 then { l with sum := l.sum - 1 } else l
          (Run.ofOption (levelNext l1 a nowLevel)).bind fun nx =>
            truncateAfterWalk logIndex nowLevel fuel l1 nx resultData
      | _, _ => .fault

/-- One iteration of the level loop of `truncateAfter`. -/
def truncateAfterLevel (logIndex nowLevel : Nat) (l : myList) (resultData : Option Nat) :
    Run (myList × Option Nat) :=
  (Run.ofOption (levelNext l l.head nowLevel)).bind fun first =>
    truncateAfterWalk logIndex nowLevel (l.nodes.length + 1) l first resultData

/-- Level loop of `truncateAfter`: `for nowLevel := this.maxLevel; nowLevel >= 0; nowLevel--`. -/
def truncateAfterLevels (logIndex : Nat) :
    Nat → myList → Option Nat → Run (myList × Option Nat)
  | 0, l, resultData => truncateAfterLevel logIndex 0 l resultData
  | n + 1, l, resultData =>
    (truncateAfterLevel logIndex (n + 1) l resultData).bind fun r =>
      truncateAfterLevels logIndex n r.1 r.2

/-- Go `func (this *myList) truncateAfter(logIndex uint64) (*myElem, error)`. -/
def truncateAfter (l : myList) (logIndex : Nat) : Run (myList × Option Nat × Option myErr) :=
  (truncateAfterLevels logIndex l.maxLevel l none).bind fun r =>
    let resultData := r.2
    (Run.ofOption (setNodeElem r.1 r.1.head resultData)).bind fun l1 =>
    (Run.ofOption (levelNext l1 l1.head 0)).bind fun nx =>
    (Run.ofOption (elemOf l1 nx)).bind fun pe =>
      let l2 := setElem l1 pe.1 { pe.2 with endId := UINT64_MAX }
      match resultData with
      | none =>
        if l2.sum ≤ 0 then .done (l2, none, some .MEM_NOTFOUND_ERR)
        else .done (l2, none, some .dontKnow)
      | some ep => .done (l2, some ep, none)

/-- Inner loop of `truncateBefore` on level `nowLevel`; the state is the list and the local
`count`.  In the "go forward" branch the loop's post statement reads
`tmpNode.levels[nowLevel].next` again, which is `nextNode`. -/
def truncateBeforeWalk (logIndex nowLevel : Nat) :
    Nat → myList → Option Nat → Int → Run (myList × Int)
  | 0, _, _, _ => .diverge
  | fuel + 1, l, tmpNode, count =>
    if tmpNode = some l.tail then .done (l, count)
    else
      match tmpNode with
      | none => .fault
      | some a =>
        match levelNext l a nowLevel with
        | none => .fault
        | some nextNode =>
          match elemOf l nextNode, nextNode with
          | some (ep, e), some b =>
            if compareTo e logIndex < 0 then
              (Run.ofOption (setLevelNext l a nowLevel (some l.tail))).bind fun l1 =>
                .done (l1, count)
            else if compareTo e logIndex = 0 then
              (Run.ofOption (setLevelNext l b nowLevel (some l.tail))).bind fun l1 =>
                if nowLevel = 0 then
                  let l2 := setElem l1 ep { e with startId := logIndex }
                  (Run.ofOption (setNodeElem l2 l2.tail (some ep))).bind fun l3 =>
                    .done (l3, count + 1)
                else .done (l1, count)
            else
              truncateBeforeWalk logIndex nowLevel fuel l nextNode
                (if nowLevel = 0 then count + 1 else count)
          | _, _ => .fault

/-- Level loop of `truncateBefore`. -/
def truncateBeforeLevels (logIndex : Nat) : Nat → myList → Int → Run (myList × Int)
  | 0, l, count => truncateBeforeWalk logIndex 0 (l.nodes.length + 1) l (some l.head) count
  | n + 1, l, count =>
    (truncateBeforeWalk logIndex (n + 1) (l.nodes.length + 1) l (some l.head) count).bind fun r =>
      truncateBeforeLevels logIndex n r.1 r.2

/-- Go `func (this *myList) truncateBefore(logIndex uint64) error`. -/
def truncateBefore (l : myList) (logIndex : Nat) : Run (myList × Option myErr) :=
  (truncateBeforeLevels logIndex l.maxLevel l 0).bind fun r =>
    .done ({ r.1 with sum := r.2 }, none)

/-- The loop `for nowLevel := this.maxLevel; nowLevel >= 0; nowLevel--` of `truncateSome` that
detaches every level from the head. -/
def truncateSomeClear : Nat → myList → Option myList
  | 0, l => setLevelNext l l.head 0 (some l.tail)
  | n + 1, l =>
    match setLevelNext l l.head (n + 1) (some l.tail) with
    | none => none
    | some l1 => truncateSomeClear n l1

/-- The level-0 loop of `truncateSome` that looks for `positionNode`; the result is
`positionNode` (possibly nil). -/
def truncateSomeFind (l : myList) (targetSum : Int) : Nat → Option Nat → Int → Run (Option Nat)
  | 0, _, _ => .diverge
  | fuel + 1, tmpNode, count =>
    if tmpNode = some l.tail then .done none
    else if count + 1 ≥ targetSum then .done tmpNode
    else
      match tmpNode with
      | none => .fault
      | some a =>
        (Run.ofOption (levelNext l a 0)).bind fun nx =>
          truncateSomeFind l targetSum fuel nx (count + 1)

/-- Inner loop of the "delete from other levels" part of `truncateSome`. -/
def truncateSomeWalk (minId nowLevel : Nat) : Nat → myList → Option Nat → Run myList
  | 0, _, _ => .diverge
  | fuel + 1, l, tmpNode =>
    if tmpNode = some l.tail then .done l
    else
      match tmpNode with
      | none => .fault
      | some a =>
        match levelNext l a nowLevel with
        | none => .fault
        | some nx =>
          match elemOf l nx with
          | none => .fault
          | some (_, e) =>
            if e.startId < minId then
              Run.ofOption (setLevelNext l a nowLevel (some l.tail))
            else truncateSomeWalk minId nowLevel fuel l nx

/-- Level loop `for nowLevel := this.maxLevel; nowLevel >= 1; nowLevel--` of `truncateSome`. -/
def truncateSomeLevels (minId : Nat) : Nat → myList → Run myList
  | 0, l => .done l
  | n + 1, l =>
    (truncateSomeWalk minId (n + 1) (l.nodes.length + 1) l (some l.head)).bind fun l1 =>
      truncateSomeLevels minId n l1

/-- Go `func (this *myList) truncateSome(n int) error`. -/
def truncateSome (l : myList) (n : Int) : Run (myList × Option myErr) :=
  if n ≥ l.sum then
    (Run.ofOption (truncateSomeClear l.maxLevel l)).bind fun l1 =>
      .done ({ l1 with sum := 0 }, none)
  else
    let targetSum := l.sum - n
    (Run.ofOption (levelNext l l.head 0)).bind fun first =>
    (truncateSomeFind l targetSum (l.nodes.length + 1) first 0).bind fun positionNode =>
      match positionNode with
      | none => .done (l, some .elemsLessThanSum)
      | some pos =>
        (Run.ofOption (setLevelNext l pos 0 (some l.tail))).bind fun l1 =>
        (Run.ofOption (elemOf l1 (some pos))).bind fun pe =>
        (truncateSomeLevels pe.2.startId l1.maxLevel l1).bind fun l2 =>
          .done ({ l2 with sum := targetSum }, none)

/-- The loop `for nowLevel := newNode.maxLevel; nowLevel >= 0; nowLevel--` of `push` that links
`newNode` behind the head on one level after the other. -/
def pushLink (newNode : Nat) : Nat → myList → Option myList
  | 0, l =>
    match levelNext l l.head 0 with
    | none => none
    | some nx =>
      match setLevelNext l newNode 0 nx with
      | none => none
      | some l1 => setLevelNext l1 l1.head 0 (some newNode)
  | n + 1, l =>
    match levelNext l l.head (n + 1) with
    | none => none
    | some nx =>
      match setLevelNext l newNode (n + 1) nx with
      | none => none
      | some l1 =>
        match setLevelNext l1 l1.head (n + 1) (some newNode) with
        | none => none
        | some l2 => pushLink newNode n l2

/-- The part of `push` after the size check: allocate the node, check `isLatest`, link the
node behind the head, patch the `endId` of the former newest element, update `head.myElem`,
`sum` and (for the first element) `tail.myElem`.  `ep` is the address of the pushed element,
`draw` gives the values of the calls `this.rnd.Intn(100)` made by `getLevel`. -/
def pushInsert (l1 : myList) (ep : Nat) (draw : Nat → Nat) : Run (myList × Option myErr) :=
  let maxLevel := getLevel draw
  let newNode := l1.nodes.length
  let l2 := { l1 with nodes := l1.nodes ++ [getNode ep maxLevel] }
  (Run.ofOption (isLatest l2 newNode)).bind fun ok =>
    if ok = false then .done (l2, some .notLatest)
    else
      let l3 := if maxLevel > l2.maxLevel then { l2 with maxLevel := maxLevel } else l2
      (Run.ofOption (pushLink newNode maxLevel l3)).bind fun l4 =>
      (Run.ofOption (levelNext l4 newNode 0)).bind fun nx =>
      (Run.ofOption (elemOf l4 nx)).bind fun pe =>
      (Run.ofOption (elemOf l4 (some newNode))).bind fun ne =>
        let l5 := setElem l4 pe.1 { pe.2 with endId := (ne.2.startId + 2 ^ 64 - 1) % 2 ^ 64 }
        (Run.ofOption (setNodeElem l5 l5.head (some ep))).bind fun l6 =>
          let l7 := { l6 with sum := l6.sum + 1 }
          if l7.sum = 1 then
            (Run.ofOption (setNodeElem l7 l7.tail (some ep))).bind fun l8 => .done (l8, none)
          else .done (l7, none)

/-- Go `func (this *myList) push(e *myElem) error`.  The caller has just allocated `e`
(every call site passes the result of `getElem`), so `e` is stored at a fresh address of the
element heap.  The error returned by `truncateSome` is ignored, as in the source. -/
def push (l : myList) (e : myElem) (draw : Nat → Nat) : Run (myList × Option myErr) :=
  let ep := l.elems.length
  let l0 := { l with elems := l.elems ++ [e] }
  (if l0.sum ≥ MAX_RECORD_NUM then (truncateSome l0 NUM_PER_TRUNCATE).bind fun r => .done r.1
   else .done l0).bind fun l1 =>
    pushInsert l1 ep draw

/-- A caller that pushes the given elements one after the other (each with the random draws
its `getLevel` call sees) and stops at the first error. -/
def pushAll (l : myList) : List (myElem × (Nat → Nat)) → Run (myList × Option myErr)
  | [] => .done (l, none)
  | (e, draw) :: rest =>
    (push l e draw).bind fun r =>
      match r.2 with
      | none => pushAll r.1 rest
      | some err => .done (r.1, some err)

/-- The arguments of successive calls `push(getElem(logIndex, data))`: each entry gives the
log index, the payload and the random draws of the call. -/
def pushArgs (ps : List (Nat × List Nat × (Nat → Nat))) : List (myElem × (Nat → Nat)) :=
  ps.map fun p => (conf.getElem p.1 p.2.1, p.2.2)

/-- The nodes on level 0 strictly between head and tail, from `tmpNode` on, as the loop
`for tmpNode := ...; tmpNode != this.tail; tmpNode = tmpNode.levels[0].next` visits them. -/
def level0Walk (l : myList) : Nat → Option Nat → List Nat
  | 0, _ => []
  | fuel + 1, tmpNode =>
    match tmpNode with
    | none => []
    | some a =>
      if a = l.tail then []
      else
        a :: (match levelNext l a 0 with
          | some nx => level0Walk l fuel nx
          | none => [])

/-- The addresses of the nodes that the list holds on level 0, newest first. -/
def level0 (l : myList) : List Nat :=
  match levelNext l l.head 0 with
  | some first => level0Walk l (l.nodes.length + 1) first
  | none => []

/-! ## `confmanager.go` -/

/-- Errors of `diskio.go` as far as `confmanager.go` tells them apart: the package-level value
`DISK_NOTFOUND_ERR` and any other error. -/
inductive diskErr where
  | DISK_NOTFOUND_ERR
  | other
deriving DecidableEq, Repr

/-- Errors returned by `ConfManager`: `CM_NOTFOUND_ERR` (`ErrorConfigNotExist`), an error passed
on from the skip list or from the disk tier, or a failure of `msgpack.Unmarshal`. -/
inductive cmErr where
  | CM_NOTFOUND_ERR
  | mem (e : myErr)
  | disk (e : diskErr)
  | unmarshal
deriving DecidableEq, Repr

/-- Go `persist.ConfigMeta`; the configuration type of the collaborator is a parameter. -/
structure ConfigMeta (Config : Type) where
  FromLogIndex : Nat
  ToLogIndex : Nat
  Conf : Config

/-- Go `func (this *ConfManager) GetConfig(logIndex uint64) (*ConfigMeta, error)`.  `mem` is
`this.mem`; `diskGet` stands for the call `this.disk.get(logIndex)` and yields
`(startId, endId, buff, err)`; `unmarshal` stands for `msgpack.Unmarshal`. -/
def GetConfig {Config : Type} (mem : myList)
    (diskGet : Nat → Run (Nat × Nat × List Nat × Option diskErr))
    (unmarshal : List Nat → Option Config) (logIndex : Nat) :
    Run (Option (ConfigMeta Config) × Option cmErr) :=
  (myList.get mem logIndex).bind fun r =>
    match r.2 with
    | some .MEM_NOTFOUND_ERR =>
      (diskGet logIndex).bind fun d =>
        match d.2.2.2 with
        | some .DISK_NOTFOUND_ERR => .done (none, some .CM_NOTFOUND_ERR)
        | some e => .done (none, some (.disk e))
        | none =>
          match unmarshal d.2.2.1 with
          | none => .done (none, some .unmarshal)
          | some conf => .done (some ⟨d.1, d.2.1, conf⟩, none)
    | some e => .done (none, some (.mem e))
    | none =>
      match r.1 with
      | none => .fault
      | some ep =>
        match mem.elems[ep]? with
        | none => .fault
        | some memElem =>
          match unmarshal memElem.data with
          | none => .done (none, some .unmarshal)
          | some conf => .done (some ⟨memElem.startId, memElem.endId, conf⟩, none)

/-! ## Callers -/

/-- One call of a mutating method of `myList`. -/
inductive Op where
  | push (e : myElem) (draw : Nat → Nat)
  | truncateBefore (logIndex : Nat)
  | truncateAfter (logIndex : Nat)
  | truncateSome (n : Int)

/-- The list after a caller has made the given calls in order, whatever errors they return;
a panic or a loop that does not end stops the run. -/
def runOps (l : myList) : List Op → Run myList
  | [] => .done l
  | .push e draw :: rest => (push l e draw).bind fun r => runOps r.1 rest
  | .truncateBefore t :: rest => (truncateBefore l t).bind fun r => runOps r.1 rest
  | .truncateAfter t :: rest => (truncateAfter l t).bind fun r => runOps r.1 rest
  | .truncateSome n :: rest => (truncateSome l n).bind fun r => runOps r.1 rest

/-- The records that the list holds on level 0, newest first. -/
def heldRecords (l : myList) : List (Option myElem) :=
  (level0 l).map fun p => (elemOf l (some p)).map (·.2)

/-- Random draws that make `getLevel` return `lvl` (for `lvl < MAX_LEVEL_LIMIT`). -/
def drawsFor (lvl : Nat) : Nat → Nat :=
  fun i => if i < lvl then 99 else 0

/-- Three pushes (log index, payload, random draws) used as a sample input. -/
def demoPushes : List (Nat × List Nat × (Nat → Nat)) :=
  [(100, [1], drawsFor 0), (200, [2], drawsFor 1), (300, [3], drawsFor 0)]

/-- The pushes `100, 200, ..., 100 * n`, each with an empty payload and node level 0. -/
def hundredPushes (n : Nat) : List (Nat × List Nat × (Nat → Nat)) :=
  (List.range n).map fun i => ((i + 1) * 100, [], drawsFor 0)

/-! ## Specification vocabulary -/

/-- Node `p` has a level pointer on level `L`. -/
def onLevel (l : myList) (p L : Nat) : Bool :=
  (levelNext l p L).isSome

/-- The level-`L` pointers lead from node `a` through exactly the nodes `ps`, in this order, and
then to the tail sentinel. -/
def Chain (l : myList) (L : Nat) : Nat → List Nat → Prop
  | a, [] => levelNext l a L = some (some 1)
  | a, p :: rest => levelNext l a L = some (some p) ∧ Chain l L p rest

/-- The `startId` of the element stored at address `p`. -/
def sid (l : myList) (p : Nat) : Nat :=
  match l.elems[p]? with
  | some e => e.startId
  | none => 0

/-- The `endId` of the element stored at address `p`. -/
def eid (l : myList) (p : Nat) : Nat :=
  match l.elems[p]? with
  | some e => e.endId
  | none => 0

/-- Structure of a skip list that holds the nodes `held` (newest first) on level 0: the head is
at address 0 and the tail at address 1, node `p` embeds the element at address `p`, every level
is the sub-chain of the nodes that have that level, and the `startId`s strictly decrease from
head to tail. -/
structure Shape (l : myList) (held : List Nat) : Prop where
  head_eq : l.head = 0
  tail_eq : l.tail = 1
  len_ge : held.length + 2 ≤ l.nodes.length
  len_le : l.nodes.length ≤ l.elems.length
  maxLevel_lt : l.maxLevel < MAX_LEVEL_LIMIT
  sum_eq : l.sum = held.length
  chain : ∀ L, L < MAX_LEVEL_LIMIT → Chain l L 0 (held.filter fun p => onLevel l p L)
  node : ∀ p ∈ held, 2 ≤ p ∧ p < l.nodes.length ∧ nodeElem l p = some (some p) ∧
    ∃ k, k ≤ l.maxLevel ∧ ∀ L, onLevel l p L = true ↔ L ≤ k
  sorted : held.Pairwise fun p q => sid l q < sid l p
  tail_elem : ∃ tp, nodeElem l 1 = some (some tp) ∧ tp < l.nodes.length
  head_elem : ∃ hp, nodeElem l 0 = some (some hp) ∧ hp < l.nodes.length ∧
    ∀ p, held.head? = some p → hp = p

/-- `Shape` for a list whose two heaps have grown in step, as they do between calls of
`push`. -/
structure ListInv (l : myList) (held : List Nat) extends Shape l held : Prop where
  len_eq : l.elems.length = l.nodes.length

/-- The state `l1` differs from `l` in `next` pointers only. -/
structure NextOnly (l l1 : myList) : Prop where
  elems : l1.elems = l.elems
  sum : l1.sum = l.sum
  maxLevel : l1.maxLevel = l.maxLevel
  head : l1.head = l.head
  tail : l1.tail = l.tail
  len : l1.nodes.length = l.nodes.length
  nodeElem : ∀ q, nodeElem l1 q = nodeElem l q
  onLevel : ∀ q M, onLevel l1 q M = onLevel l q M

/-- The list after `getNode(e, maxLevel)` has allocated the new node. -/
def allocNode (l : myList) (ep lvl : Nat) : myList :=
  { l with nodes := l.nodes ++ [getNode ep lvl] }

/-- The statement `if maxLevel > this.maxLevel { this.maxLevel = maxLevel }` of `push`. -/
def raiseMaxLevel (l : myList) (lvl : Nat) : myList :=
  if lvl > l.maxLevel then { l with maxLevel := lvl } else l

/-- The statements of `push` that follow the linking loop. -/
def pushTail (l4 : myList) (newNode ep : Nat) : Run (myList × Option myErr) :=
  (Run.ofOption (levelNext l4 newNode 0)).bind fun nx =>
  (Run.ofOption (elemOf l4 nx)).bind fun pe =>
  (Run.ofOption (elemOf l4 (some newNode))).bind fun ne =>
    let l5 := setElem l4 pe.1 { pe.2 with endId := (ne.2.startId + 2 ^ 64 - 1) % 2 ^ 64 }
    (Run.ofOption (setNodeElem l5 l5.head (some ep))).bind fun l6 =>
      let l7 := { l6 with sum := l6.sum + 1 }
      if l7.sum = 1 then
        (Run.ofOption (setNodeElem l7 l7.tail (some ep))).bind fun l8 => .done (l8, none)
      else .done (l7, none)

/-- The list after the caller of `push` has allocated the element `e`. -/
def allocElem (l : myList) (e : myElem) : myList :=
  { l with elems := l.elems ++ [e] }

/-- Number of records the list holds after `n` successful pushes onto the empty list: one more
per push, minus `NUM_PER_TRUNCATE` whenever the push finds `MAX_RECORD_NUM` records. -/
def heldCount : Nat → Nat
  | 0 => 0
  | n + 1 => (if heldCount n ≥ 1000 then heldCount n - 100 else heldCount n) + 1

/-- The addresses `hi, hi - 1, ...`, `c` of them. -/
def desc : Nat → Nat → List Nat
  | _, 0 => []
  | hi, c + 1 => hi :: desc (hi - 1) c

/-- The record that the `i`-th of the pushed elements `es` has become: its `endId` is one less
than the `startId` of the element pushed after it (in `uint64` arithmetic); the last element is
as it was pushed. -/
def gluedAt (es : List myElem) (i : Nat) : Option myElem :=
  match es[i]?, es[i + 1]? with
  | none, _ => none
  | some e, none => some e
  | some e, some e1 => some { e with endId := (e1.startId + 2 ^ 64 - 1) % 2 ^ 64 }

/-- State of a list onto which exactly the elements `es` have been pushed successfully, starting
from `getMyList`: the `i`-th element lives at address `i + 2`, and the newest
`heldCount es.length` of them are held. -/
structure Pushed (es : List myElem) (l : myList) : Prop where
  inv : ListInv l (desc (es.length + 1) (heldCount es.length))
  nodes_len : l.nodes.length = es.length + 2
  elems : ∀ i, l.elems[i + 2]? = gluedAt es i
  tail0 : es = [] → nodeElem l 1 = some (some 1)
  tail1 : es ≠ [] → nodeElem l 1 = some (some 2)

/-- What `get` returns once its walk has passed every held node: the outcome of comparing the
element `te` (at address `tp`) that the tail sentinel embeds. -/
def tailResult (tp : Nat) (te : myElem) (k : Nat) : Run (Option Nat × Option myErr) :=
  if te.endId < k then .done (none, some .couldNotFind)
  else if te.startId > k then .done (none, some .MEM_NOTFOUND_ERR)
  else .done (some tp, none)

/-- The state `l1` differs from `l` in `next` pointers and in the counter `sum` only. -/
structure NextSum (l l1 : myList) : Prop where
  elems : l1.elems = l.elems
  maxLevel : l1.maxLevel = l.maxLevel
  head : l1.head = l.head
  tail : l1.tail = l.tail
  len : l1.nodes.length = l.nodes.length
  nodeElem : ∀ q, nodeElem l1 q = nodeElem l q
  onLevel : ∀ q M, onLevel l1 q M = onLevel l q M

/-- The list after the three sample pushes `demoPushes`. -/
def demoList : myList :=
  match pushAll getMyList (pushArgs demoPushes) with
  | .done (l, _) => l
  | _ => getMyList

/-! ## `diskio.go`

The disk tier.  A file is the list of its bytes.  The data files of the directory are kept by
name in `diskIo.files`; an `*os.File` handle is the name of the file it was opened on together
with its access mode.  Every index file is only ever accessed through the handle that its
`indexInfo` holds, so its bytes are kept in `indexInfo.filePtr`.  The Go map `idxMgr.mapIndex`
is an association list (a `range` over it visits the entries in list order).  Calls into the
operating system succeed whenever the file they name exists and the handle allows the access;
a read that reaches the end of the file reports `io.EOF`.  File offsets are `uint64` values
that the source converts with `int64(...)`; a value of `2 ^ 63` or more is a negative offset,
which `ReadAt` and `WriteAt` reject. -/

/-- Go `FILE_NAME_NUMLEN`. -/
def FILE_NAME_NUMLEN : Nat := 10

/-- Go `ID_LEN`, `POS_LEN`, `SIZE_LEN`, `NUM_LEN`: the size of a `uint64` field. -/
def ID_LEN : Nat := 8

/-- Go `DATA_MAX_FILE_SIZE`. -/
def DATA_MAX_FILE_SIZE : Nat := 1024 * 1024 * 2

/-- Go `DATA_BLOCK_SIZE`. -/
def DATA_BLOCK_SIZE : Nat := 512

/-- Go `DATA_STARTID_POS`. -/
def DATA_STARTID_POS : Nat := 0

/-- Go `DATA_ENDID_POS`. -/
def DATA_ENDID_POS : Nat := DATA_STARTID_POS + ID_LEN

/-- Go `DATA_BUFFLEN_POS`. -/
def DATA_BUFFLEN_POS : Nat := DATA_ENDID_POS + ID_LEN

/-- Go `DATA_BUFF_POS`. -/
def DATA_BUFF_POS : Nat := DATA_BUFFLEN_POS + ID_LEN

/-- Go `DATA_HEAD_SIZE`. -/
def DATA_HEAD_SIZE : Nat := DATA_BUFF_POS

/-- Go `IDX_MAX_SECTION_SIZE`. -/
def IDX_MAX_SECTION_SIZE : Nat := 1024 * 1024

/-- Go `IDX_MAX_RECORD_PER_SECTION`. -/
def IDX_MAX_RECORD_PER_SECTION : Nat := 1000

/-- Go `IDX_HEADER_SIZE`: seven `uint64` fields. -/
def IDX_HEADER_SIZE : Nat := 7 * ID_LEN

/-- Go `SI_SIZE`. -/
def SI_SIZE : Nat := ID_LEN + ID_LEN

/-- Wrap-around of `uint64` arithmetic. -/
def u64 (n : Nat) : Nat := n % 2 ^ 64

/-- Go `binary.BigEndian.PutUint64`: the eight bytes of `v`, most significant first. -/
def putUint64 (v : Nat) : List Nat :=
  [v / 2 ^ 56 % 256, v / 2 ^ 48 % 256, v / 2 ^ 40 % 256, v / 2 ^ 32 % 256,
    v / 2 ^ 24 % 256, v / 2 ^ 16 % 256, v / 2 ^ 8 % 256, v % 256]

/-- Go `binary.BigEndian.Uint64`. -/
def getUint64 (b : List Nat) : Nat :=
  b.foldl (fun acc x => acc * 256 + x) 0

/-- The slice expression `buff[lo : lo + n]` on a byte array `buff` (its length is the capacity);
`none` is the panic "slice bounds out of range". -/
def sliceOf (buff : List Nat) (lo n : Nat) : Option (List Nat) :=
  if lo + n ≤ buff.length then some ((buff.drop lo).take n) else none

/-- Read `binary.BigEndian.Uint64(buff[lo : lo + 8])`. -/
def uint64At (buff : List Nat) (lo : Nat) : Option Nat :=
  (sliceOf buff lo ID_LEN).map getUint64

/-- Go `fileMeta`. -/
structure fileMeta where
  dataFileSize : Nat
  recordNum : Nat
  lastRecordPos : Nat
  minId : Nat
  maxId : Nat
deriving DecidableEq, Repr

/-- Go `indexElem`. -/
structure indexElem where
  startId : Nat
  pos : Nat
deriving DecidableEq, Repr

/-- Go `diskElem`. -/
structure diskElem where
  startId : Nat
  endId : Nat
  buff : List Nat
deriving DecidableEq, Repr

/-- Go `waterLevelInfo`. -/
structure waterLevelInfo where
  recordCount : Nat
  sizeCount : Nat
deriving DecidableEq, Repr

/-- Go `indexInfo`; `filePtr` is the contents of the index file behind the handle. -/
structure indexInfo where
  filePtr : List Nat
  meta : fileMeta
  indexs : List indexElem
  waterLevel : waterLevelInfo
deriving DecidableEq, Repr

/-- An `*os.File`: the name of the data file it was opened on, and whether it was opened for
writing. -/
structure osFile where
  name : String
  writable : Bool
deriving DecidableEq, Repr

/-- Go `diskIo` together with the data files of its directory. -/
structure diskIo where
  path : String
  header : String
  latestFileName : String
  latestFilePtr : Option osFile
  mapIndex : List (String × indexInfo)
  files : List (String × List Nat)
deriving DecidableEq, Repr

/-- Lookup `m[k]` in a Go map. -/
def mapGet {β : Type} (m : List (String × β)) (k : String) : Option β :=
  match m with
  | [] => none
  | (k1, v1) :: rest => if k1 = k then some v1 else mapGet rest k

/-- Assignment `m[k] = v` in a Go map. -/
def mapSet {β : Type} (m : List (String × β)) (k : String) (v : β) : List (String × β) :=
  match m with
  | [] => [(k, v)]
  | (k1, v1) :: rest => if k1 = k then (k, v) :: rest else (k1, v1) :: mapSet rest k v

/-- The bytes that `ReadAt(b, off)` with `len(b) = n` reads from a file. -/
def readAt (file : List Nat) (n off : Nat) : List Nat :=
  (file.drop off).take n

/-- The file after `WriteAt(b, off)`: nothing happens for an empty `b`; bytes between the old end
of the file and `off` become zero. -/
def writeAt (file : List Nat) (b : List Nat) (off : Nat) : List Nat :=
  if b = [] then file
  else (file ++ List.replicate (off - file.length) 0).take off ++ b ++ file.drop (off + b.length)

/-- Go `(*os.File).ReadAt(b, int64(off))` with `len(b) = n` and a `uint64` value `off`: the bytes
read and whether an error was returned (an offset that is negative as an `int64`, a missing
file, or `io.EOF` for a short read). -/
def osFile.ReadAt (files : List (String × List Nat)) (f : osFile) (n : Nat) (off : Nat) :
    List Nat × Bool :=
  if 2 ^ 63 ≤ off then ([], true)
  else
    match mapGet files f.name with
    | none => ([], true)
    | some data => (readAt data n off, decide ((readAt data n off).length < n))

/-- Go `(*os.File).WriteAt(b, int64(off))` with a `uint64` value `off`: the files afterwards;
`none` is an error (a read-only handle, an offset that is negative as an `int64`, or a missing
file). -/
def osFile.WriteAt (files : List (String × List Nat)) (f : osFile) (b : List Nat) (off : Nat) :
    Option (List (String × List Nat)) :=
  if f.writable = false ∨ 2 ^ 63 ≤ off then none
  else
    match mapGet files f.name with
    | none => none
    | some data => some (mapSet files f.name (writeAt data b off))

/-- Go `getPaddedSize`. -/
def getPaddedSize (buffLen : Nat) : Nat :=
  let tailSize := u64 (DATA_HEAD_SIZE + buffLen) % DATA_BLOCK_SIZE
  if tailSize = 0 then 0 else DATA_BLOCK_SIZE - tailSize

/-! ### File names -/

/-- Go `strings.TrimLeft(s, cutset)`. -/
def strings.TrimLeft (s cutset : String) : String :=
  ⟨s.data.dropWhile fun c => cutset.data.contains c⟩

/-- Go `strings.TrimRight(s, cutset)`. -/
def strings.TrimRight (s cutset : String) : String :=
  ⟨(s.data.reverse.dropWhile fun c => cutset.data.contains c).reverse⟩

/-- The path elements between the separators. -/
def filepath.split : List Char → List Char → List (List Char)
  | [], cur => [cur.reverse]
  | c :: rest, cur =>
    if c = '/' then cur.reverse :: filepath.split rest [] else filepath.split rest (c :: cur)

/-- The element stack of `filepath.Clean`, top first. -/
def filepath.cleanStack (rooted : Bool) : List (List Char) → List (List Char) → List (List Char)
  | [], stack => stack
  | c :: rest, stack =>
    if c = [] ∨ c = ['.'] then filepath.cleanStack rooted rest stack
    else if c = ['.', '.'] then
      match stack with
      | top :: below =>
        if top = ['.', '.'] then filepath.cleanStack rooted rest (c :: stack)
        else filepath.cleanStack rooted rest below
      | [] =>
        if rooted then filepath.cleanStack rooted rest []
        else filepath.cleanStack rooted rest [c]
    else filepath.cleanStack rooted rest (c :: stack)

/-- Go `filepath.Clean` (Unix). -/
def filepath.Clean (path : String) : String :=
  let rooted := path.data.head? = some '/'
  let stack := filepath.cleanStack rooted (filepath.split path.data []) []
  let body := List.intercalate ['/'] stack.reverse
  let out := if rooted then '/' :: body else body
  if out = [] then "." else ⟨out⟩

/-- Go `filepath.Join` of two elements (Unix). -/
def filepath.Join (a b : String) : String :=
  if a ≠ "" then filepath.Clean (a ++ "/" ++ b)
  else if b ≠ "" then filepath.Clean b
  else ""

/-- Go `filepath.Base` (Unix). -/
def filepath.Base (path : String) : String :=
  if path = "" then "."
  else
    let stripped := (path.data.reverse.dropWhile fun c => c = '/').reverse
    let last := (stripped.reverse.takeWhile fun c => c ≠ '/').reverse
    if last = [] then "/" else ⟨last⟩

/-- The value that Go `strconv.ParseInt(s, 10, 64)` returns, with or without an error: zero for
a syntax error, the nearest bound for a value out of range. -/
def strconv.ParseInt (s : String) : Int :=
  match s.data with
  | [] => 0
  | c :: rest =>
    let neg := decide (c = '-')
    let digits := if c = '+' ∨ c = '-' then rest else c :: rest
    if digits = [] ∨ digits.all Char.isDigit = false then 0
    else
      let v : Nat := digits.foldl (fun acc d => acc * 10 + (d.toNat - 48)) 0
      if neg then (if v > 2 ^ 63 then -(2 ^ 63) else -(v : Int))
      else (if v ≥ 2 ^ 63 then 2 ^ 63 - 1 else (v : Int))

/-- Go `fmt.Sprintf("%0*d", width, id)` for an unsigned `id`. -/
def zeroPadded (width id : Nat) : String :=
  ⟨List.replicate (width - (Nat.repr id).length) '0' ++ (Nat.repr id).data⟩

/-- Go `(*diskIo).getFileNameByStartId`. -/
def getFileNameByStartId (this : diskIo) (id : Nat) : String :=
  filepath.Join this.path (this.header ++ "_" ++ zeroPadded FILE_NAME_NUMLEN id ++ ".data")

/-- Go `(*diskIo).getStartIdByFileName`. -/
def getStartIdByFileName (this : diskIo) (fileName : String) : Nat × Option diskErr :=
  let f1 := filepath.Base fileName
  let f2 := strings.TrimLeft f1 (this.header ++ "_")
  let f3 := strings.TrimRight f2 ".data"
  if f3.utf8ByteSize ≠ FILE_NAME_NUMLEN then (0, some .other)
  else (((strconv.ParseInt f3) % 2 ^ 64).toNat, none)

/-! ### The index -/

/-- Go `(*indexInfo).addNewIndex`. -/
def indexInfo.addNewIndex (this : indexInfo) (startId pos : Nat) : indexInfo × Option diskErr :=
  let indexTailPos := u64 (IDX_HEADER_SIZE + u64 (this.indexs.length * SI_SIZE))
  let buff := putUint64 startId ++ putUint64 pos
  if 2 ^ 63 ≤ indexTailPos then (this, some .other)
  else
    ({ this with
        filePtr := writeAt this.filePtr buff indexTailPos
        indexs := this.indexs ++ [⟨startId, pos⟩] }, none)

/-- Go `(*indexInfo).updateIndex`. -/
def indexInfo.updateIndex (this : indexInfo) (count startId size : Nat) :
    indexInfo × Option diskErr :=
  if count ≠ 1 then (this, some .other)
  else
    let m1 : fileMeta :=
      if this.meta.recordNum = 0 then { this.meta with minId := startId } else this.meta
    let m2 : fileMeta :=
      { m1 with
        maxId := startId
        recordNum := u64 (m1.recordNum + count)
        lastRecordPos := m1.dataFileSize
        dataFileSize := u64 (m1.dataFileSize + size) }
    let w : waterLevelInfo :=
      ⟨u64 (this.waterLevel.recordCount + count), u64 (this.waterLevel.sizeCount + size)⟩
    let t1 : indexInfo := { this with meta := m2, waterLevel := w }
    if w.recordCount > IDX_MAX_RECORD_PER_SECTION ∨ w.sizeCount > IDX_MAX_SECTION_SIZE ∨
        w.recordCount = 1 then
      match t1.addNewIndex startId m2.lastRecordPos with
      | (t2, some e) => (t2, some e)
      | (t2, none) => ({ t2 with waterLevel := ⟨count, size⟩ }, none)
    else (t1, none)

/-- The loop of `findIndexPosById`; `n` is the number of iterations that are left. -/
def findIndexPosByIdLoop (this : indexInfo) (id : Nat) :
    Nat → Nat → Run (Nat × Nat × Option diskErr)
  | 0, _ => .done (0, 0, some .DISK_NOTFOUND_ERR)
  | n + 1, i =>
    match this.indexs[i]? with
    | none => .fault
    | some ei =>
      if ei.startId > id then .done (0, 0, some .DISK_NOTFOUND_ERR)
      else if i + 1 ≥ this.indexs.length then
        if ei.startId ≤ id then .done (ei.pos, this.meta.dataFileSize, none)
        else .done (0, 0, some .DISK_NOTFOUND_ERR)
      else
        match this.indexs[i + 1]? with
        | none => .fault
        | some ej =>
          if ei.startId < id ∧ ej.startId > id then .done (ei.pos, ej.pos, none)
          else if ei.startId = id then .done (ei.pos, ei.pos, none)
          else findIndexPosByIdLoop this id n (i + 1)

/-- Go `(*indexInfo).findIndexPosById`: `(startPos, endPos, err)`. -/
def findIndexPosById (this : indexInfo) (id : Nat) : Run (Nat × Nat × Option diskErr) :=
  if this.meta.minId ≤ id then
    match this.indexs[0]? with
    | none => .fault
    | some e0 =>
      if e0.startId > id then .done (0, e0.pos, none)
      else findIndexPosByIdLoop this id this.indexs.length 0
  else findIndexPosByIdLoop this id this.indexs.length 0

/-! ### Reading records -/

/-- The scan loop of `getElemByIdAndIndex` over the array `sectionBuff`, of which the first
`sectionSize` bytes were read from the file. -/
def getElemByIdAndIndexLoop (sectionBuff : List Nat) (id sectionSize : Nat) :
    Nat → Nat → Run (Nat × Nat × List Nat × Option diskErr)
  | 0, _ => .diverge
  | fuel + 1, readSize =>
    if readSize < sectionSize then
      match uint64At sectionBuff (readSize + DATA_STARTID_POS),
        uint64At sectionBuff (readSize + DATA_ENDID_POS),
        uint64At sectionBuff (readSize + DATA_BUFFLEN_POS) with
      | some startId, some endId, some buffLen =>
        if startId ≤ id ∧ (id ≤ endId ∨ endId = 0) then
          match sliceOf sectionBuff (readSize + DATA_BUFF_POS) buffLen with
          | none => .fault
          | some buff => .done (startId, endId, buff, none)
        else
          getElemByIdAndIndexLoop sectionBuff id sectionSize fuel
            (u64 (readSize + (DATA_HEAD_SIZE + buffLen + getPaddedSize buffLen)))
      | _, _, _ => .fault
    else .done (0, 0, [], some .other)

/-- Go `getElemByIdAndIndex` on an open data file: `(startId, endId, buff, err)`. -/
def getElemByIdAndIndex (file : List Nat) (id startPos endPos : Nat) :
    Run (Nat × Nat × List Nat × Option diskErr) :=
  let sectionSize := u64 (endPos + 2 ^ 64 - startPos)
  if 2 ^ 63 ≤ startPos then .done (0, 0, [], some .other)
  else
    let data := readAt file sectionSize startPos
    getElemByIdAndIndexLoop (data ++ List.replicate (sectionSize - data.length) 0) id
      data.length (data.length + 1) 0

/-- Go `(*diskIo).get`: `(startId, endId, buff, err)`. -/
def diskIo.get (this : diskIo) (id : Nat) : Run (Nat × Nat × List Nat × Option diskErr) :=
  match this.mapIndex.find? fun kv => decide (kv.2.meta.minId ≤ id ∧ id ≤ kv.2.meta.maxId) with
  | none => .done (0, 0, [], some .DISK_NOTFOUND_ERR)
  | some (fileName, indexInfo) =>
    if fileName = "" then .done (0, 0, [], some .DISK_NOTFOUND_ERR)
    else
      (findIndexPosById indexInfo id).bind fun r =>
        match r.2.2 with
        | some e => .done (0, 0, [], some e)
        | none =>
          match mapGet this.files fileName with
          | none => .done (0, 0, [], some .other)
          | some file => getElemByIdAndIndex file id r.1 r.2.1

/-! ### Appending -/

/-- The scan of `getLatestFileName` over `idxMgr.mapIndex`; the state is `latestStartId` and
`this.latestFileName`. -/
def getLatestFileNameScan (this : diskIo) : List (String × indexInfo) → Nat → String → String
  | [], _, name => name
  | (filename, _) :: rest, latestStartId, name =>
    match getStartIdByFileName this filename with
    | (id, none) =>
      if id > latestStartId then getLatestFileNameScan this rest id filename
      else getLatestFileNameScan this rest latestStartId name
    | (_, some _) => getLatestFileNameScan this rest latestStartId name

/-- Go `(*diskIo).getLatestFileName`. -/
def getLatestFileName (this : diskIo) : diskIo × String :=
  if this.latestFileName = "" then
    ({ this with latestFileName := getLatestFileNameScan this this.mapIndex 0 "" },
      getLatestFileNameScan this this.mapIndex 0 "")
  else (this, this.latestFileName)

/-- Go `(*diskIo).getLatestFilePtr`. -/
def getLatestFilePtr (this : diskIo) : diskIo × Option osFile × Option diskErr :=
  match (getLatestFileName this).1.latestFilePtr with
  | some f => ((getLatestFileName this).1, some f, none)
  | none =>
    if (getLatestFileName this).2 = "" then ((getLatestFileName this).1, none, none)
    else
      match mapGet (getLatestFileName this).1.files (getLatestFileName this).2 with
      | none => ((getLatestFileName this).1, none, some .other)
      | some _ =>
        ({ (getLatestFileName this).1 with
            latestFilePtr := some ⟨(getLatestFileName this).2, true⟩ },
          some ⟨(getLatestFileName this).2, true⟩, none)

/-- Go `(*diskIo).checkIdValid`. -/
def checkIdValid (this : diskIo) (startId : Nat) : Run (diskIo × Option diskErr) :=
  match getLatestFilePtr (getLatestFileName this).1 with
  | (d2, _, some _) => .done (d2, none)
  | (d2, none, none) => .done (d2, none)
  | (d2, some lastFile, none) =>
    match mapGet (getLatestFileName this).1.mapIndex (getLatestFileName this).2 with
    | none => .fault
    | some indexInfo =>
      match osFile.ReadAt d2.files lastFile ID_LEN indexInfo.meta.lastRecordPos with
      | (_, true) => .done (d2, some .other)
      | (idBuff, false) =>
        if startId ≤ getUint64 idBuff then .done (d2, some .other) else .done (d2, none)

/-- Go `(*diskIo).updateLastElem`. -/
def updateLastElem (this : diskIo) (startId : Nat) : Run (diskIo × Option diskErr) :=
  match this.latestFilePtr with
  | none => .done (this, none)
  | some lastFile =>
    match mapGet (getLatestFileName this).1.mapIndex (getLatestFileName this).2 with
    | none => .fault
    | some idxInfo =>
      match osFile.WriteAt (getLatestFileName this).1.files lastFile
          (putUint64 (u64 (startId + 2 ^ 64 - 1)))
          (u64 (idxInfo.meta.lastRecordPos + DATA_ENDID_POS)) with
      | none => .done ((getLatestFileName this).1, some .other)
      | some files => .done ({ (getLatestFileName this).1 with files := files }, none)

/-- Go `(*diskIo).createNewDataFile`. -/
def createNewDataFile (this : diskIo) (id : Nat) : diskIo × Option diskErr :=
  ({ this with
      files := mapSet this.files (getFileNameByStartId this id) []
      latestFileName := getFileNameByStartId this id
      latestFilePtr := some ⟨getFileNameByStartId this id, true⟩
      mapIndex := mapSet this.mapIndex (getFileNameByStartId this id)
        ⟨[], ⟨0, 0, 0, 0, 0⟩, [], ⟨0, 0⟩⟩ }, none)

/-- The size check of `getLatestFileToWrite`, reached with an open latest file. -/
def getLatestFileToWriteCheck (this : diskIo) (filename : String) (id buffLen : Nat) :
    Run (diskIo × Option diskErr) :=
  match mapGet this.mapIndex filename with
  | none => .fault
  | some indexInfo =>
    if u64 (indexInfo.meta.dataFileSize + u64 (buffLen + DATA_HEAD_SIZE)) > DATA_MAX_FILE_SIZE then
      .done (createNewDataFile
        { this with
          mapIndex := mapSet this.mapIndex filename
            { indexInfo with meta := { indexInfo.meta with maxId := u64 (id + 2 ^ 64 - 1) } } }
        id)
    else .done (this, none)

/-- Go `(*diskIo).getLatestFileToWrite`. -/
def getLatestFileToWrite (this : diskIo) (id buffLen : Nat) : Run (diskIo × Option diskErr) :=
  match (getLatestFileName this).1.latestFilePtr with
  | none =>
    if (getLatestFileName this).2 = "" then .done (createNewDataFile (getLatestFileName this).1 id)
    else
      match mapGet (getLatestFileName this).1.files (getLatestFileName this).2 with
      | none => .done ((getLatestFileName this).1, some .other)
      | some _ =>
        getLatestFileToWriteCheck
          { (getLatestFileName this).1 with
            latestFilePtr := some ⟨(getLatestFileName this).2, true⟩ }
          (getLatestFileName this).2 id buffLen
  | some _ =>
    getLatestFileToWriteCheck (getLatestFileName this).1 (getLatestFileName this).2 id buffLen

/-- Go `(*diskIo).appendElem`. -/
def appendElem (this : diskIo) (startId : Nat) (buff : List Nat) :
    Run (diskIo × Option diskErr) :=
  match mapGet (getLatestFileName this).1.mapIndex (getLatestFileName this).2 with
  | none => .fault
  | some info =>
    match this.latestFilePtr with
    | none => .done ((getLatestFileName this).1, some .other)
    | some file =>
      match osFile.WriteAt (getLatestFileName this).1.files file
          (putUint64 startId ++ List.replicate ID_LEN 0 ++ putUint64 buff.length)
          info.meta.dataFileSize with
      | none => .done ((getLatestFileName this).1, some .other)
      | some f1 =>
        match osFile.WriteAt f1 file buff
            (u64 (info.meta.dataFileSize + DATA_HEAD_SIZE)) with
        | none => .done ({ (getLatestFileName this).1 with files := f1 }, some .other)
        | some f2 =>
          match osFile.WriteAt f2 file (List.replicate (getPaddedSize buff.length) 0)
              (u64 (info.meta.dataFileSize + DATA_HEAD_SIZE + buff.length)) with
          | none => .done ({ (getLatestFileName this).1 with files := f2 }, some .other)
          | some f3 => .done ({ (getLatestFileName this).1 with files := f3 }, none)

/-- Go `(*diskIo).updateIndex`. -/
def diskIo.updateIndex (this : diskIo) (filename : String) (count startId size : Nat) :
    Run (diskIo × Option diskErr) :=
  match mapGet this.mapIndex filename with
  | none => if count ≠ 1 then .done (this, some .other) else .fault
  | some indexInfo =>
    .done ({ this with
        mapIndex := mapSet this.mapIndex filename (indexInfo.updateIndex count startId size).1 },
      (indexInfo.updateIndex count startId size).2)

/-- Go `(*diskIo).updateLastIndex`. -/
def updateLastIndex (this : diskIo) (count startId buffLen : Nat) :
    Run (diskIo × Option diskErr) :=
  diskIo.updateIndex (getLatestFileName this).1 (getLatestFileName this).2 count startId
    (u64 (DATA_HEAD_SIZE + buffLen + getPaddedSize buffLen))

/-- Go `(*diskIo).append`. -/
def diskIo.append (this : diskIo) (logIndex : Nat) (buff : List Nat) :
    Run (diskIo × Option diskErr) :=
  (checkIdValid this logIndex).bind fun r1 =>
    match r1.2 with
    | some e => .done (r1.1, some e)
    | none =>
      (updateLastElem r1.1 logIndex).bind fun r2 =>
        match r2.2 with
        | some e => .done (r2.1, some e)
        | none =>
          (getLatestFileToWrite r2.1 logIndex buff.length).bind fun r3 =>
            match r3.2 with
            | some e => .done (r3.1, some e)
            | none =>
              (appendElem r3.1 logIndex buff).bind fun r4 =>
                match r4.2 with
                | some e => .done (r4.1, some e)
                | none => updateLastIndex r4.1 1 logIndex buff.length

/-- The `diskIo` of `getDiskIO(path, header)` on an empty directory. -/
def emptyDisk (path header : String) : diskIo :=
  ⟨path, header, "", none, [], []⟩

/-- The calls `append(logIndex, buff)` made in order, stopping at the first error. -/
def appendAll (this : diskIo) : List (Nat × List Nat) → Run (diskIo × Option diskErr)
  | [] => .done (this, none)
  | (logIndex, buff) :: rest =>
    (diskIo.append this logIndex buff).bind fun r =>
      match r.2 with
      | some e => .done (r.1, some e)
      | none => appendAll r.1 rest

/-- State of a `diskIo` whose last successful call of `append` wrote the record `lastId`: the
latest data file `name` is open for writing and holds the bytes `file`, its index is `info`,
and the `startId` field of the record at `lastRecordPos` is `lastId`. -/
structure Appended (d : diskIo) (name : String) (info : indexInfo) (file : List Nat)
    (lastId : Nat) : Prop where
  name_ne : name ≠ ""
  latestFileName : d.latestFileName = name
  latestFilePtr : d.latestFilePtr = some ⟨name, true⟩
  index : mapGet d.mapIndex name = some info
  bytes : mapGet d.files name = some file
  pos_le : info.meta.lastRecordPos + DATA_HEAD_SIZE ≤ info.meta.dataFileSize
  size_lt : info.meta.dataFileSize < 2 ^ 62
  idx_le : info.indexs.length * DATA_BLOCK_SIZE ≤ info.meta.dataFileSize
  start : readAt file ID_LEN info.meta.lastRecordPos = putUint64 lastId

/-- The size of the slot of a record with a payload of `buffLen` bytes, as `updateLastIndex`
computes it. -/
def slotSize (buffLen : Nat) : Nat :=
  u64 (DATA_HEAD_SIZE + buffLen + getPaddedSize buffLen)

/-- The data file after `appendElem(logIndex, buff)` has written the record at offset `size`
(the `dataFileSize` of the index): the header, the payload and the padding. -/
def recordWritten (file : List Nat) (size logIndex : Nat) (buff : List Nat) : List Nat :=
  writeAt
    (writeAt
      (writeAt file (putUint64 logIndex ++ List.replicate ID_LEN 0 ++ putUint64 buff.length) size)
      buff (size + DATA_HEAD_SIZE))
    (List.replicate (getPaddedSize buff.length) 0) (size + DATA_HEAD_SIZE + buff.length)

/-- The data file after `updateLastElem(logIndex)` has patched the `endId` of the record at
offset `pos`. -/
def endIdPatched (file : List Nat) (pos logIndex : Nat) : List Nat :=
  writeAt file (putUint64 (u64 (logIndex + 2 ^ 64 - 1))) (pos + DATA_ENDID_POS)

/-- The index that `createNewDataFile` gives a new segment. -/
def freshIndex : indexInfo :=
  ⟨[], ⟨0, 0, 0, 0, 0⟩, [], ⟨0, 0⟩⟩

/-- The index of a segment after `getLatestFileToWrite(id, ...)` has sealed it:
`meta.maxId = id - 1`. -/
def sealedIndex (info : indexInfo) (id : Nat) : indexInfo :=
  { info with meta := { info.meta with maxId := u64 (id + 2 ^ 64 - 1) } }

/-- Every segment index of the disk log satisfies `P`. -/
def AllSeg (P : indexInfo → Prop) (d : diskIo) : Prop :=
  ∀ kv ∈ d.mapIndex, P kv.2

/-- The size bound of a segment: a multiple of the block size, at most
`DATA_MAX_FILE_SIZE` plus the slot of one record whose payload length is in `L`. -/
def SegSize (L : List Nat) (info : indexInfo) : Prop :=
  info.meta.dataFileSize % DATA_BLOCK_SIZE = 0 ∧
    ∃ n ∈ L, info.meta.dataFileSize ≤ DATA_MAX_FILE_SIZE + slotSize n

/-- Two appends used to exercise the disk log. -/
def demoAppends : List (Nat × List Nat) := [(100, [1, 2, 3]), (200, [4])]

/-- The disk log after `demoAppends` on an empty directory. -/
def demoDisk : diskIo :=
  match appendAll (emptyDisk "/tmp/d" "C") demoAppends with
  | .done (d, _) => d
  | _ => emptyDisk "/tmp/d" "C"

/-! ### Reading records back -/

/-- The loop of `getElemsFromBuff`; `buff` is a slice whose capacity is its length. -/
def getElemsFromBuffLoop (buff : List Nat) :
    Nat → Nat → List diskElem → Run (List diskElem × Option diskErr)
  | 0, _, _ => .diverge
  | fuel + 1, readSize, result =>
    if readSize < buff.length then
      match uint64At buff (readSize + DATA_STARTID_POS),
        uint64At buff (readSize + DATA_ENDID_POS),
        uint64At buff (readSize + DATA_BUFFLEN_POS) with
      | some startId, some endID, some elemBuffLen =>
        match sliceOf buff (readSize + DATA_BUFF_POS) elemBuffLen with
        | none => .fault
        | some b =>
          getElemsFromBuffLoop buff fuel
            (u64 (readSize + (DATA_HEAD_SIZE + elemBuffLen + getPaddedSize elemBuffLen)))
            (result ++ [⟨startId, endID, b⟩])
      | _, _, _ => .fault
    else .done (result, none)

/-- Go `getElemsFromBuff`. -/
def getElemsFromBuff (buff : List Nat) : Run (List diskElem × Option diskErr) :=
  getElemsFromBuffLoop buff (buff.length + 1) 0 []

/-- Go `getElemsFromFile` on an open data file: the whole file is read and parsed. -/
def getElemsFromFile (file : List Nat) : Run (List diskElem × Option diskErr) :=
  getElemsFromBuff file

/-- The first scan of `getElemsBetweenIdByIndex`: the offset in `buff` of the first record with
`endId >= startId` or `endId == 0`; `n` bytes of the array `buff` were read from the file. -/
def startIdScan (buff : List Nat) (startId n : Nat) : Nat → Nat → Run Nat
  | 0, _ => .diverge
  | fuel + 1, readSize =>
    if readSize < n then
      match uint64At buff (readSize + DATA_ENDID_POS),
        uint64At buff (readSize + DATA_BUFFLEN_POS) with
      | some elemEndId, some buffLen =>
        if elemEndId ≥ startId ∨ elemEndId = 0 then .done readSize
        else
          startIdScan buff startId n fuel
            (u64 (readSize + (DATA_HEAD_SIZE + buffLen + getPaddedSize buffLen)))
      | _, _ => .fault
    else .done readSize

/-- The second scan of `getElemsBetweenIdByIndex`: the offset in `buff` of the first record with
`startId > endId`. -/
def endIdScan (buff : List Nat) (endId n : Nat) : Nat → Nat → Run Nat
  | 0, _ => .diverge
  | fuel + 1, readSize =>
    if readSize < n then
      match uint64At buff (readSize + DATA_STARTID_POS),
        uint64At buff (readSize + DATA_BUFFLEN_POS) with
      | some elemStartId, some buffLen =>
        if elemStartId > endId then .done readSize
        else
          endIdScan buff endId n fuel
            (u64 (readSize + (DATA_HEAD_SIZE + buffLen + getPaddedSize buffLen)))
      | _, _ => .fault
    else .done readSize

/-- The array `make([]byte, size)` after `ReadAt` has filled it from offset `off` of `file`. -/
def rangeBuff (file : List Nat) (size off : Nat) : List Nat :=
  readAt file size off ++ List.replicate (size - (readAt file size off).length) 0

/-- Go `getElemsBetweenIdByIndex` on an open data file.  A `make([]byte, n)` whose length `n`
does not fit an `int` panics. -/
def getElemsBetweenIdByIndex (file : List Nat)
    (startId endId startIdStartPos startIdEndPos endIdStartPos endIdEndPos : Nat) :
    Run (List diskElem × Option diskErr) :=
  if 2 ^ 63 ≤ u64 (startIdEndPos + 2 ^ 64 - startIdStartPos) then .fault
  else if 2 ^ 63 ≤ startIdStartPos then .done ([], some .other)
  else
    (startIdScan (rangeBuff file (u64 (startIdEndPos + 2 ^ 64 - startIdStartPos)) startIdStartPos)
      startId (readAt file (u64 (startIdEndPos + 2 ^ 64 - startIdStartPos)) startIdStartPos).length
      ((readAt file (u64 (startIdEndPos + 2 ^ 64 - startIdStartPos)) startIdStartPos).length + 1)
      0).bind fun readSize1 =>
    if 2 ^ 63 ≤ u64 (endIdEndPos + 2 ^ 64 - endIdStartPos) then .fault
    else if 2 ^ 63 ≤ endIdStartPos then .done ([], some .other)
    else
      (endIdScan (rangeBuff file (u64 (endIdEndPos + 2 ^ 64 - endIdStartPos)) endIdStartPos)
        endId (readAt file (u64 (endIdEndPos + 2 ^ 64 - endIdStartPos)) endIdStartPos).length
        ((readAt file (u64 (endIdEndPos + 2 ^ 64 - endIdStartPos)) endIdStartPos).length + 1)
        0).bind fun readSize2 =>
      let exactlyStartPos := u64 (startIdStartPos + readSize1)
      let exactlyEndPos := u64 (endIdStartPos + readSize2)
      let totalSize := u64 (exactlyEndPos + 2 ^ 64 - exactlyStartPos)
      if totalSize = 0 then .done ([], none)
      else if 2 ^ 63 ≤ totalSize then .fault
      else if 2 ^ 63 ≤ exactlyStartPos then .done ([], some .other)
      else if (readAt file totalSize exactlyStartPos).length < totalSize then
        .done ([], some .other)
      else getElemsFromBuff (readAt file totalSize exactlyStartPos)

/-- The items of `sort.Sort(newIdxMgrSorter(this))`: the segments ordered by the start id that
`getStartIdByFileName` reads from their file names (the order of segments with equal start
ids, which `sort.Sort` leaves open, is the one of an insertion sort). -/
def sortedItems (this : diskIo) : List (String × indexInfo) :=
  this.mapIndex.insertionSort fun a b =>
    (getStartIdByFileName this a.1).1 ≤ (getStartIdByFileName this b.1).1

/-- The loop of `listBetween` over the sorted segments. -/
def listBetweenLoop (this : diskIo) (startId endId : Nat) :
    List (String × indexInfo) → List diskElem → Run (List diskElem × Option diskErr)
  | [], result => .done (result, none)
  | (filename, indexInfo) :: rest, result =>
    if indexInfo.meta.minId > endId ∨ indexInfo.meta.maxId < startId then
      listBetweenLoop this startId endId rest result
    else if indexInfo.meta.minId ≥ startId ∧ indexInfo.meta.maxId ≤ endId then
      match mapGet this.files filename with
      | none => .done ([], some .other)
      | some file =>
        (getElemsFromFile file).bind fun r =>
          match r.2 with
          | some e => .done ([], some e)
          | none => listBetweenLoop this startId endId rest (result ++ r.1)
    else
      (findIndexPosById indexInfo startId).bind fun p1 =>
        match p1.2.2 with
        | some .other => .done ([], some .other)
        | _ =>
          (findIndexPosById indexInfo endId).bind fun p2 =>
            match p2.2.2 with
            | some .other => .done ([], some .other)
            | _ =>
              match mapGet this.files filename with
              | none => .done ([], some .other)
              | some file =>
                (getElemsBetweenIdByIndex file startId endId p1.1 p1.2.1 p2.1 p2.2.1).bind
                  fun r =>
                    match r.2 with
                    | some e => .done ([], some e)
                    | none => listBetweenLoop this startId endId rest (result ++ r.1)

/-- Go `(*diskIo).listBetween`. -/
def diskIo.listBetween (this : diskIo) (startId endId : Nat) :
    Run (List diskElem × Option diskErr) :=
  listBetweenLoop this startId endId (sortedItems this) []

/-- Go `getElemByPos` on an open data file: `(startId, endId, buff, err)`. -/
def getElemByPos (file : List Nat) (pos : Nat) : Run (Nat × Nat × List Nat × Option diskErr) :=
  if 2 ^ 63 ≤ pos ∨ (readAt file DATA_BLOCK_SIZE pos).length < DATA_BLOCK_SIZE then
    .done (0, 0, [], some .other)
  else
    match uint64At (readAt file DATA_BLOCK_SIZE pos) DATA_STARTID_POS,
      uint64At (readAt file DATA_BLOCK_SIZE pos) DATA_ENDID_POS,
      uint64At (readAt file DATA_BLOCK_SIZE pos) DATA_BUFFLEN_POS with
    | some startId, some endID, some buffLen =>
      if u64 (buffLen + DATA_HEAD_SIZE) > DATA_BLOCK_SIZE then
        if 2 ^ 63 ≤ u64 (pos + DATA_BLOCK_SIZE) ∨
            (readAt file (u64 (buffLen + DATA_HEAD_SIZE + 2 ^ 64 - DATA_BLOCK_SIZE))
              (u64 (pos + DATA_BLOCK_SIZE))).length <
              u64 (buffLen + DATA_HEAD_SIZE + 2 ^ 64 - DATA_BLOCK_SIZE) then
          .done (0, 0, [], some .other)
        else
          match sliceOf (readAt file DATA_BLOCK_SIZE pos ++
              readAt file (u64 (buffLen + DATA_HEAD_SIZE + 2 ^ 64 - DATA_BLOCK_SIZE))
                (u64 (pos + DATA_BLOCK_SIZE))) DATA_HEAD_SIZE buffLen with
          | none => .fault
          | some b => .done (startId, endID, b, none)
      else
        match sliceOf (readAt file DATA_BLOCK_SIZE pos) DATA_HEAD_SIZE buffLen with
        | none => .fault
        | some b => .done (startId, endID, b, none)
    | _, _, _ => .fault

/-- Go `(*diskIo).last`: `(startId, buff, err)`. -/
def diskIo.last (this : diskIo) : Run (diskIo × Nat × List Nat × Option diskErr) :=
  if (getLatestFileName this).2 = "" then
    .done ((getLatestFileName this).1, 0, [], some .DISK_NOTFOUND_ERR)
  else
    match mapGet (getLatestFileName this).1.mapIndex (getLatestFileName this).2 with
    | none => .fault
    | some indexInfo =>
      match (getLatestFileName this).1.latestFilePtr with
      | none => .done ((getLatestFileName this).1, 0, [], some .other)
      | some lastFile =>
        match mapGet (getLatestFileName this).1.files lastFile.name with
        | none => .done ((getLatestFileName this).1, 0, [], some .other)
        | some file =>
          (getElemByPos file indexInfo.meta.lastRecordPos).bind fun r =>
            .done ((getLatestFileName this).1, r.1, r.2.2.1, r.2.2.2)

/-! ### Rebuilding an index and truncating -/

/-- Go `dataFileNameToIdxFileName`. -/
def dataFileNameToIdxFileName (dataFileName : String) : String :=
  strings.TrimRight dataFileName ".data" ++ ".idx"

/-- Go `idxFileNameToDataFileName`. -/
def idxFileNameToDataFileName (idxFileName : String) : String :=
  strings.TrimRight idxFileName ".idx" ++ ".data"

/-- Delete `m[k]` from a Go map. -/
def mapErase {β : Type} (m : List (String × β)) (k : String) : List (String × β) :=
  m.filter fun kv => decide (kv.1 ≠ k)

/-- The slice expression `arr[lo : lo + n]` on an array of `cap` bytes whose first bytes are
`bytes` and whose other bytes are zero; `none` is the panic "slice bounds out of range". -/
def sliceCap (bytes : List Nat) (cap lo n : Nat) : Option (List Nat) :=
  if lo + n ≤ cap then
    some ((bytes.drop lo).take n ++ List.replicate (n - ((bytes.drop lo).take n).length) 0)
  else none

/-- Read `binary.BigEndian.Uint64(arr[lo : lo + 8])` on such an array. -/
def uint64AtCap (bytes : List Nat) (cap lo : Nat) : Option Nat :=
  (sliceCap bytes cap lo ID_LEN).map getUint64

/-- The two errors that `buildIndexByFile` tells apart in the result of
`buildIndexByFileBuff`: the message "need more blocks", and any other error. -/
inductive buildErr where
  | needMoreBlocks
  | other
deriving DecidableEq, Repr

/-- The loop of `buildIndexByFileBuff` on the slice `arr[0 : buffLen]` of an array of `cap` bytes
with the contents `bytes` (then zeros): the index afterwards, the returned rest of the slice
and the error. -/
def buildIndexByFileBuffLoop (bytes : List Nat) (cap buffLen : Nat) :
    Nat → indexInfo → Nat → Run (indexInfo × List Nat × Option buildErr)
  | 0, _, _ => .diverge
  | fuel + 1, this, nowPos =>
    if nowPos < buffLen then
      match uint64AtCap bytes cap (nowPos + DATA_STARTID_POS),
        uint64AtCap bytes cap (nowPos + DATA_BUFFLEN_POS) with
      | some startId, some dataBuffLen =>
        if u64 (nowPos + DATA_HEAD_SIZE + dataBuffLen + getPaddedSize dataBuffLen) > buffLen then
          .done (this, (bytes.take buffLen ++ List.replicate (buffLen - bytes.length) 0).drop nowPos,
            some .needMoreBlocks)
        else
          match this.updateIndex 1 startId
              (u64 (DATA_HEAD_SIZE + dataBuffLen + getPaddedSize dataBuffLen)) with
          | (t, some _) => .done (t, [], some .other)
          | (t, none) =>
            buildIndexByFileBuffLoop bytes cap buffLen fuel t
              (u64 (nowPos + u64 (DATA_HEAD_SIZE + dataBuffLen + getPaddedSize dataBuffLen)))
      | _, _ => .fault
    else .done (this, [], none)

/-- Go `(*indexInfo).buildIndexByFileBuff(arr[0 : buffLen])`. -/
def indexInfo.buildIndexByFileBuff (this : indexInfo) (bytes : List Nat) (cap buffLen : Nat) :
    Run (indexInfo × List Nat × Option buildErr) :=
  buildIndexByFileBuffLoop bytes cap buffLen (buffLen + 1) this 0

/-- The read loop of `buildIndexByFile`.  `data` is the data file and `off` the read offset;
`bytes` and `cap` describe the array behind `buff` (a new array made by `append` is taken to
have no spare capacity); `rest` is `restBuff[0 : restBuffLen]` when `haveRestBuff` is set. -/
def buildIndexByFileLoop (data : List Nat) :
    Nat → indexInfo → List Nat → Nat → Option (List Nat) → Nat → Run (indexInfo × Option diskErr)
  | 0, _, _, _, _, _ => .diverge
  | fuel + 1, info, bytes, cap, rest, off =>
    (info.buildIndexByFileBuff
      (match rest with
        | some r => r ++ (readAt data cap off ++ bytes.drop (readAt data cap off).length)
        | none => readAt data cap off ++ bytes.drop (readAt data cap off).length)
      (match rest with
        | some r => r.length + cap
        | none => cap)
      (readAt data cap off).length).bind fun r =>
      match r.2.2 with
      | some .needMoreBlocks =>
        if (readAt data cap off).length = IDX_MAX_SECTION_SIZE then
          buildIndexByFileLoop data fuel r.1
            (match rest with
              | some r => r ++ (readAt data cap off ++ bytes.drop (readAt data cap off).length)
              | none => readAt data cap off ++ bytes.drop (readAt data cap off).length)
            (match rest with
              | some r => r.length + cap
              | none => cap)
            (some r.2.1) (off + (readAt data cap off).length)
        else .done (r.1, some .other)
      | some .other => .done (r.1, some .other)
      | none =>
        if (readAt data cap off).length < IDX_MAX_SECTION_SIZE then .done (r.1, none)
        else
          buildIndexByFileLoop data fuel r.1
            (match rest with
              | some r => r ++ (readAt data cap off ++ bytes.drop (readAt data cap off).length)
              | none => readAt data cap off ++ bytes.drop (readAt data cap off).length)
            (match rest with
              | some r => r.length + cap
              | none => cap)
            none (off + (readAt data cap off).length)

/-- Go `(*diskIo).createNewIndex`. -/
def createNewIndex (this : diskIo) (indexFileName : String) : diskIo :=
  { this with
    mapIndex := mapSet this.mapIndex (idxFileNameToDataFileName indexFileName)
      ⟨[], ⟨0, 0, 0, 0, 0⟩, [], ⟨0, 0⟩⟩ }

/-- Go `(*diskIo).buildIndexByFile`. -/
def diskIo.buildIndexByFile (this : diskIo) (dataFileName : String) :
    Run (diskIo × Option diskErr) :=
  match mapGet this.files dataFileName with
  | none => .done (createNewIndex this (dataFileNameToIdxFileName dataFileName), some .other)
  | some data =>
    match mapGet (createNewIndex this (dataFileNameToIdxFileName dataFileName)).mapIndex
        dataFileName with
    | none =>
      if data = [] then
        .done (createNewIndex this (dataFileNameToIdxFileName dataFileName), none)
      else .fault
    | some info =>
      (buildIndexByFileLoop data (data.length + 2) info [] IDX_MAX_SECTION_SIZE none 0).bind
        fun r =>
          .done ({ createNewIndex this (dataFileNameToIdxFileName dataFileName) with
              mapIndex := mapSet
                (createNewIndex this (dataFileNameToIdxFileName dataFileName)).mapIndex
                dataFileName r.1 }, r.2)

/-- The scan of `getStartPosById` over the array `buff` of `IDX_MAX_SECTION_SIZE` bytes, of which
`n` bytes (`bytes`) were read from the file: the element found and its offset in `buff`. -/
def getStartPosByIdScan (bytes : List Nat) (id n : Nat) : Nat → Nat → Run (diskElem × Nat)
  | 0, _ => .diverge
  | fuel + 1, readSize =>
    if readSize < n then
      match uint64AtCap bytes IDX_MAX_SECTION_SIZE (readSize + DATA_STARTID_POS),
        uint64AtCap bytes IDX_MAX_SECTION_SIZE (readSize + DATA_ENDID_POS),
        uint64AtCap bytes IDX_MAX_SECTION_SIZE (readSize + DATA_BUFFLEN_POS) with
      | some startId, some endID, some buffLen =>
        if startId ≤ id ∧ (id ≤ endID ∨ endID = 0) then
          match sliceCap bytes IDX_MAX_SECTION_SIZE (readSize + DATA_BUFF_POS) buffLen with
          | none => .fault
          | some b => .done (⟨startId, endID, b⟩, readSize)
        else
          getStartPosByIdScan bytes id n fuel
            (u64 (readSize + (DATA_HEAD_SIZE + buffLen + getPaddedSize buffLen)))
      | _, _, _ => .fault
    else .done (⟨0, 0, []⟩, 0)

/-- Go `(*diskIo).getStartPosById`: `(elem, pos, err)`. -/
def getStartPosById (this : diskIo) (filename : String) (id : Nat) :
    Run (diskElem × Nat × Option diskErr) :=
  match mapGet this.mapIndex filename with
  | none => .fault
  | some indexInfo =>
    (findIndexPosById indexInfo id).bind fun p =>
      match p.2.2 with
      | some e => .done (⟨0, 0, []⟩, 0, some e)
      | none =>
        match mapGet this.files filename with
        | none => .done (⟨0, 0, []⟩, 0, some .other)
        | some file =>
          if 2 ^ 63 ≤ p.1 then .done (⟨0, 0, []⟩, 0, some .other)
          else
            (getStartPosByIdScan (readAt file IDX_MAX_SECTION_SIZE p.1) id
              (readAt file IDX_MAX_SECTION_SIZE p.1).length
              ((readAt file IDX_MAX_SECTION_SIZE p.1).length + 1) 0).bind fun r =>
              .done (r.1, u64 (p.1 + r.2), none)

/-- The copy loop of `truncateFileBeforeId`: the bytes written to the new file while the old one
is read from offset `off` in pieces of `IDX_MAX_SECTION_SIZE` bytes. -/
def copyLoop (src : List Nat) : Nat → Nat → List Nat → Run (List Nat)
  | 0, _, _ => .diverge
  | fuel + 1, off, written =>
    if (readAt src IDX_MAX_SECTION_SIZE off).length ≠ IDX_MAX_SECTION_SIZE then
      .done (written ++ readAt src IDX_MAX_SECTION_SIZE off)
    else
      copyLoop src fuel (off + IDX_MAX_SECTION_SIZE)
        (written ++ readAt src IDX_MAX_SECTION_SIZE off)

/-- Go `(*diskIo).truncateFileBeforeId`: the state, the new file name and the error.  The slice
expression `elemBuff[DATA_BUFF_POS : DATA_BUFF_POS + len(elem.buff)]` on the array of
`DATA_BLOCK_SIZE` bytes panics when the payload does not fit.  The data read from the old file
is that of the start of the copy loop (when both names are the same file, the block just
written). -/
def truncateFileBeforeId (this : diskIo) (fileName : String) (id : Nat) (elem : diskElem)
    (pos : Nat) : Run (diskIo × String × Option diskErr) :=
  match mapGet this.files fileName with
  | none => .done (this, "", some .other)
  | some old =>
    if 2 ^ 63 ≤ pos then .done (this, "", some .other)
    else if DATA_BUFF_POS + elem.buff.length > DATA_BLOCK_SIZE then .fault
    else
      (copyLoop
        (if getFileNameByStartId this id = fileName then
          putUint64 elem.startId ++ putUint64 elem.endId ++ putUint64 elem.buff.length ++
            elem.buff ++ List.replicate (DATA_BLOCK_SIZE - DATA_BUFF_POS - elem.buff.length) 0
        else old)
        (old.length + 2) pos
        (putUint64 elem.startId ++ putUint64 elem.endId ++ putUint64 elem.buff.length ++
          elem.buff ++ List.replicate (DATA_BLOCK_SIZE - DATA_BUFF_POS - elem.buff.length) 0)).bind
        fun written =>
          .done ({ this with files := mapSet this.files (getFileNameByStartId this id) written },
            getFileNameByStartId this id, none)

/-- Go `(*diskIo).truncateFileAfterElem`. -/
def truncateFileAfterElem (this : diskIo) (fileName : String) (elem : diskElem) (pos : Nat) :
    diskIo × Option diskErr :=
  match mapGet this.files fileName with
  | none => (this, some .other)
  | some file =>
    if 2 ^ 63 ≤
        u64 (pos + (DATA_HEAD_SIZE + elem.buff.length + getPaddedSize elem.buff.length)) then
      (this, some .other)
    else
      ({ this with
          files := mapSet this.files fileName
            ((file ++ List.replicate
              (u64 (pos + (DATA_HEAD_SIZE + elem.buff.length + getPaddedSize elem.buff.length)) -
                file.length) 0).take
              (u64 (pos +
                (DATA_HEAD_SIZE + elem.buff.length + getPaddedSize elem.buff.length)))) },
        none)

/-- Go `(*diskIo).deleteIndexByFile`; a missing entry is a nil `*indexInfo`, whose `filePtr` is
read. -/
def deleteIndexByFile (this : diskIo) (fileName : String) : Run diskIo :=
  match mapGet this.mapIndex fileName with
  | none => .fault
  | some _ => .done { this with mapIndex := mapErase this.mapIndex fileName }

/-- Go `(*diskIo).updateLastFile`. -/
def updateLastFile (this : diskIo) : diskIo × Option diskErr :=
  if getLatestFileNameScan this this.mapIndex 0 "" = "" then (this, none)
  else
    match mapGet this.files (getLatestFileNameScan this this.mapIndex 0 "") with
    | none =>
      ({ this with latestFileName := getLatestFileNameScan this this.mapIndex 0 "" }, some .other)
    | some _ =>
      ({ this with
          latestFileName := getLatestFileNameScan this this.mapIndex 0 ""
          latestFilePtr := some ⟨getLatestFileNameScan this this.mapIndex 0 "", true⟩ }, none)

/-- Go `os.Remove(fileName)` on a data file: `none` is the error for a missing file. -/
def osRemove (this : diskIo) (fileName : String) : Option diskIo :=
  match mapGet this.files fileName with
  | none => none
  | some _ => some { this with files := mapErase this.files fileName }

/-- The loop of `(*diskIo).truncateBefore` over the segments that were in `mapIndex` when the
loop started; a segment that has been deleted in the meantime is skipped. -/
def truncateBeforeLoop (id : Nat) : List String → diskIo → Run (diskIo × Option diskErr)
  | [], this => .done (this, none)
  | fileName :: rest, this =>
    match mapGet this.mapIndex fileName with
    | none => truncateBeforeLoop id rest this
    | some indexInfo =>
      if indexInfo.meta.maxId < id ∧ indexInfo.meta.maxId ≠ 0 then
        match osRemove this fileName with
        | none => .done (this, some .other)
        | some d1 => (deleteIndexByFile d1 fileName).bind fun d2 => truncateBeforeLoop id rest d2
      else if indexInfo.meta.minId ≥ id then truncateBeforeLoop id rest this
      else
        (getStartPosById this fileName id).bind fun r =>
          match r.2.2 with
          | some e => .done (this, some e)
          | none =>
            (truncateFileBeforeId this fileName id { r.1 with startId := id } r.2.1).bind fun t =>
              match t.2.2 with
              | some e => .done (t.1, some e)
              | none =>
                match osRemove t.1 fileName with
                | none => .done (t.1, some .other)
                | some d1 =>
                  (deleteIndexByFile d1 fileName).bind fun d2 =>
                    (diskIo.buildIndexByFile d2 t.2.1).bind fun b =>
                      match b.2 with
                      | some e => .done (b.1, some e)
                      | none => truncateBeforeLoop id rest b.1

/-- Go `(*diskIo).truncateBefore`. -/
def diskIo.truncateBefore (this : diskIo) (id : Nat) : Run (diskIo × Option diskErr) :=
  (truncateBeforeLoop id (this.mapIndex.map (·.1)) this).bind fun r =>
    match r.2 with
    | some e => .done (r.1, some e)
    | none => .done (updateLastFile r.1)

/-- The loop of `(*diskIo).truncateAfter` over the segments. -/
def truncateAfterLoop (id : Nat) : List String → diskIo → Run (diskIo × Option diskErr)
  | [], this => .done (this, none)
  | fileName :: rest, this =>
    match mapGet this.mapIndex fileName with
    | none => truncateAfterLoop id rest this
    | some indexInfo =>
      if indexInfo.meta.minId > id then
        match osRemove this fileName with
        | none => .done (this, some .other)
        | some d1 => (deleteIndexByFile d1 fileName).bind fun d2 => truncateAfterLoop id rest d2
      else if indexInfo.meta.maxId < id ∧ indexInfo.meta.maxId ≠ 0 then
        truncateAfterLoop id rest this
      else
        (getStartPosById this fileName id).bind fun r =>
          match r.2.2 with
          | some e => .done (this, some e)
          | none =>
            match truncateFileAfterElem this fileName { r.1 with endId := id } r.2.1 with
            | (d1, some e) => .done (d1, some e)
            | (d1, none) =>
              (deleteIndexByFile d1 fileName).bind fun d2 =>
                (diskIo.buildIndexByFile d2 fileName).bind fun b =>
                  match b.2 with
                  | some e => .done (b.1, some e)
                  | none => truncateAfterLoop id rest b.1

/-- Go `(*diskIo).truncateAfter`. -/
def diskIo.truncateAfter (this : diskIo) (id : Nat) : Run (diskIo × Option diskErr) :=
  (truncateAfterLoop id (this.mapIndex.map (·.1)) this).bind fun r =>
    match r.2 with
    | some e => .done (r.1, some e)
    | none => .done (updateLastFile r.1)

/-! ### The index file -/

/-- Go `(*indexInfo).writeIndexToDisk`: the buffer holds the five `meta` fields, sixteen bytes
that stay zero, and the entries. -/
def indexInfo.writeIndexToDisk (this : indexInfo) : indexInfo × Option diskErr :=
  ({ this with
      filePtr := writeAt this.filePtr
        (putUint64 this.meta.dataFileSize ++ putUint64 this.meta.recordNum ++
          putUint64 this.meta.lastRecordPos ++ putUint64 this.meta.minId ++
          putUint64 this.meta.maxId ++ List.replicate (ID_LEN + ID_LEN) 0 ++
          (this.indexs.map fun idx => putUint64 idx.startId ++ putUint64 idx.pos).flatten) 0 },
    none)

/-- The loop of `readIndex` over the entries of the index file `buff`. -/
def readIndexLoop (buff : List Nat) : Nat → Nat → List indexElem → Run (List indexElem)
  | 0, _, _ => .diverge
  | fuel + 1, nowPos, indexs =>
    if nowPos < buff.length then
      match uint64At buff nowPos, uint64At buff (nowPos + ID_LEN) with
      | some startId, some pos =>
        readIndexLoop buff fuel (u64 (nowPos + SI_SIZE)) (indexs ++ [⟨startId, pos⟩])
      | _, _ => .fault
    else .done indexs

/-- Go `(*diskIo).readIndex` on the bytes `buff` of the index file: the `indexInfo` that is
stored in `mapIndex`.  The slice that `readFileAll` returns is taken to have the capacity
`len(buff)`: a slice expression that reaches beyond the end of the file is a panic here,
whereas the spare capacity that `append` may leave can make it legal in Go (the bytes read
are then zero). -/
def readIndex (buff : List Nat) : Run indexInfo :=
  match uint64At buff 0, uint64At buff ID_LEN, uint64At buff (2 * ID_LEN),
    uint64At buff (3 * ID_LEN), uint64At buff (4 * ID_LEN), uint64At buff (5 * ID_LEN),
    uint64At buff (6 * ID_LEN) with
  | some dataFileSize, some recordNum, some lastRecordPos, some minId, some maxId,
    some recordNumLevel, some recordSizeLevel =>
    (readIndexLoop buff (buff.length + 1) IDX_HEADER_SIZE []).bind fun indexs =>
      .done ⟨buff, ⟨dataFileSize, recordNum, lastRecordPos, minId, maxId⟩, indexs,
        ⟨recordNumLevel, recordSizeLevel⟩⟩
  | _, _, _, _, _, _, _ => .fault

/-! ## `confmanager.go`: writing and listing -/

/-- Errors returned by `PushConfig`: the error of `msgpack.Marshal` or the one of
`diskIo.append`. -/
inductive pushErr where
  | marshal
  | disk (e : diskErr)
deriving DecidableEq, Repr

/-- Go `func (this *ConfManager) PushConfig(logIndex uint64, conf *Config) error`: the two
tiers afterwards and the error.  `marshal` stands for `msgpack.Marshal`, `draw` gives the
random draws of the skip-list push. -/
def PushConfig {Config : Type} (marshal : Config → Option (List Nat)) (mem : myList)
    (disk : diskIo) (logIndex : Nat) (c : Config) (draw : Nat → Nat) :
    Run (myList × diskIo × Option pushErr) :=
  match marshal c with
  | none => .done (mem, disk, some .marshal)
  | some buff =>
    (diskIo.append disk logIndex buff).bind fun d =>
      match d.2 with
      | some e => .done (mem, d.1, some (.disk e))
      | none =>
        (push mem (conf.getElem logIndex buff) draw).bind fun m => .done (m.1, d.1, none)

/-- Go `memElemsToConfigMetas`; the elements are addresses in the element heap of `mem`. -/
def memElemsToConfigMetas {Config : Type} (mem : myList) (unmarshal : List Nat → Option Config) :
    List (Option Nat) → Run (List (ConfigMeta Config) × Option cmErr)
  | [] => .done ([], none)
  | none :: _ => .fault
  | some ep :: rest =>
    match mem.elems[ep]? with
    | none => .fault
    | some memElem =>
      match unmarshal memElem.data with
      | none => .done ([], some .unmarshal)
      | some cf =>
        (memElemsToConfigMetas mem unmarshal rest).bind fun r =>
          match r.2 with
          | some e => .done ([], some e)
          | none => .done (⟨memElem.startId, memElem.endId, cf⟩ :: r.1, none)

/-- Go `diskElemsToConfigMetas`. -/
def diskElemsToConfigMetas {Config : Type} (unmarshal : List Nat → Option Config) :
    List diskElem → List (ConfigMeta Config) × Option cmErr
  | [] => ([], none)
  | e :: rest =>
    match unmarshal e.buff with
    | none => ([], some .unmarshal)
    | some cf =>
      match diskElemsToConfigMetas unmarshal rest with
      | (_, some err) => ([], some err)
      | (r, none) => (⟨e.startId, e.endId, cf⟩ :: r, none)

/-- Go `func (this *ConfManager) ListAfter(logIndex uint64) ([]*ConfigMeta, error)`.
`diskListBetween` stands for the call `this.disk.listBetween`; the expression
`memElems[0]` panics on an empty result of the skip list. -/
def ListAfter {Config : Type} (mem : myList)
    (diskListBetween : Nat → Nat → Run (List diskElem × Option diskErr))
    (unmarshal : List Nat → Option Config) (logIndex : Nat) :
    Run (List (ConfigMeta Config) × Option cmErr) :=
  (listAfter mem logIndex).bind fun m =>
    match m.2 with
    | some .MEM_NOTFOUND_ERR | none =>
      (memElemsToConfigMetas mem unmarshal m.1).bind fun memCMs =>
        match memCMs.2 with
        | some e => .done ([], some e)
        | none =>
          match m.1 with
          | [] => .fault
          | none :: _ => .fault
          | some ep :: _ =>
            match mem.elems[ep]? with
            | none => .fault
            | some first =>
              if first.startId > logIndex then
                (diskListBetween logIndex (u64 (first.startId + 2 ^ 64 - 1))).bind fun d =>
                  match d.2 with
                  | some .DISK_NOTFOUND_ERR => .done ([], some .CM_NOTFOUND_ERR)
                  | some e => .done ([], some (.disk e))
                  | none =>
                    match diskElemsToConfigMetas unmarshal d.1 with
                    | (_, some e) => .done ([], some e)
                    | (diskCMs, none) => .done (diskCMs ++ memCMs.1, none)
              else .done (memCMs.1, none)
    | some e => .done ([], some (.mem e))

/-- Three appends used to exercise truncation of the disk log. -/
def demoAppends3 : List (Nat × List Nat) := [(100, [1, 2, 3]), (200, [4]), (300, [5])]

/-- The disk log after `demoAppends3` on an empty directory. -/
def demoDisk3 : diskIo :=
  match appendAll (emptyDisk "/tmp/d" "C") demoAppends3 with
  | .done (d, _) => d
  | _ => emptyDisk "/tmp/d" "C"

/-- The records that `getElemsFromFile` reads from a data file (none if it fails). -/
def fileRecords (file : List Nat) : List diskElem :=
  match getElemsFromFile file with
  | .done (es, none) => es
  | _ => []

/-- The data files of the directory: name, size in bytes and records. -/
def storedRecords (d : diskIo) : List (String × Nat × List diskElem) :=
  d.files.map fun kv => (kv.1, kv.2.length, fileRecords kv.2)

/-- The slot of a record in a data file, as the file format comment of `diskio.go` gives it: the
header of three big-endian `uint64` fields, the payload, and zeros up to the next multiple of
the block size. -/
def slotBytes (r : diskElem) : List Nat :=
  putUint64 r.startId ++ putUint64 r.endId ++ putUint64 r.buff.length ++ r.buff ++
    List.replicate (getPaddedSize r.buff.length) 0

/-! ### Sections of an index -/

/-- The calls `updateIndex(1, startId, size)` made in order for the records `(startId, size)`,
stopping at the first error. -/
def updateIndexAll (this : indexInfo) : List (Nat × Nat) → indexInfo × Option diskErr
  | [] => (this, none)
  | (startId, size) :: rest =>
    match this.updateIndex 1 startId size with
    | (t, some e) => (t, some e)
    | (t, none) => updateIndexAll t rest

/-- The bytes of a run of records `(startId, size)`. -/
def secSize (s : List (Nat × Nat)) : Nat :=
  (s.map (·.2)).sum

/-- The index entries of consecutive sections, the first of which starts at byte `pos`: the
startId of the first record of each section and the offset at which the section starts. -/
def sectionEntries : List (List (Nat × Nat)) → Nat → List indexElem
  | [], _ => []
  | s :: rest, pos => ⟨(s.head?.map (·.1)).getD 0, pos⟩ :: sectionEntries rest (pos + secSize s)

/-- The condition under which `updateIndex` closes the section `s` before a record of `size`
bytes: one more record would exceed the record limit or the byte limit of a section. -/
def sectionFull (s : List (Nat × Nat)) (size : Nat) : Prop :=
  s.length + 1 > IDX_MAX_RECORD_PER_SECTION ∨ secSize s + size > IDX_MAX_SECTION_SIZE

/-- State of an index after `updateIndex` has been called for the records `pre`: the records
fall into the closed sections `init` and the running section `last`. -/
structure Sectioned (pre : List (Nat × Nat)) (info : indexInfo)
    (init : List (List (Nat × Nat))) (last : List (Nat × Nat)) : Prop where
  flat : init.flatten ++ last = pre
  last_ne : last ≠ []
  entries : info.indexs = sectionEntries (init ++ [last]) 0
  rc : info.waterLevel.recordCount = last.length
  sc : info.waterLevel.sizeCount = secSize last
  dfs : info.meta.dataFileSize = secSize pre
  rn : info.meta.recordNum = pre.length
  bound : ∀ s ∈ init ++ [last], s ≠ [] ∧ s.length ≤ IDX_MAX_RECORD_PER_SECTION ∧
    (secSize s ≤ IDX_MAX_SECTION_SIZE ∨ s.length = 1)
  chain : (init ++ [last]).Chain' fun s t => ∀ r, t.head? = some r → sectionFull s r.2
  asc : info.indexs.Pairwise fun a b => a.startId < b.startId ∧ a.pos < b.pos
  ent : ∀ e ∈ info.indexs, (∃ r ∈ pre, e.startId = r.1) ∧ e.pos < secSize pre
  minId : ∀ r, pre.head? = some r →
    info.indexs.head? = some ⟨r.1, 0⟩ ∧ info.meta.minId = r.1
  len_le : pre.length ≤ secSize pre
  idx_le : info.indexs.length ≤ pre.length

/-- What the index of the active segment records about the ids of the records in its data
file `file`, whose last record has the startId `lastId`: `meta.maxId` is `lastId`,
`meta.minId` is the startId stored in the first record of the file, and the segment holds at
least one record. -/
structure ActiveMeta (info : indexInfo) (file : List Nat) (lastId : Nat) : Prop where
  maxId : info.meta.maxId = lastId
  minId : readAt file ID_LEN DATA_STARTID_POS = putUint64 info.meta.minId
  min_le : info.meta.minId ≤ lastId
  num_pos : 1 ≤ info.meta.recordNum
  num_le : info.meta.recordNum ≤ info.meta.dataFileSize

/-! ### A store whose skip list has evicted its oldest records -/

theorem levelNext_setLevelNext {l l1 : myList} {p L : Nat} {v : Option Nat}
    (h : setLevelNext l p L v = some l1) (q M : Nat) :
    levelNext l1 q M = if q = p ∧ M = L then some v else levelNext l q M := by
  unfold setLevelNext at h
  cases hp : l.nodes[p]? with
  | none => simp [hp] at h
  | some nd =>
    cases hL : nd.levels[L]? with
    | none => simp [hp, hL] at h
    | some o =>
      cases o with
      | none => simp [hp, hL] at h
      | some w =>
        simp only [hp, hL, Option.some.injEq] at h
        subst h
        have hlt : p < l.nodes.length := by
          by_contra hc
          rw [List.getElem?_eq_none (by omega)] at hp
          exact Option.noConfusion hp
        have hLlt : L < nd.levels.length := by
          by_contra hc
          rw [List.getElem?_eq_none (by omega)] at hL
          exact Option.noConfusion hL
        unfold levelNext
        by_cases hq : q = p
        · subst hq
          by_cases hM : M = L
          · subst hM
            simp [List.getElem?_set, hlt, hLlt]
          · have hne : L ≠ M := fun hh => hM hh.symm
            simp [List.getElem?_set, hlt, hM, hne, hp]
        · have hne : p ≠ q := fun hh => hq hh.symm
          simp [List.getElem?_set_ne hne, hq]

theorem setLevelNext_frame {l l1 : myList} {p L : Nat} {v : Option Nat}
    (h : setLevelNext l p L v = some l1) :
    l1.elems = l.elems ∧ l1.sum = l.sum ∧ l1.maxLevel = l.maxLevel ∧ l1.head = l.head ∧
      l1.tail = l.tail ∧ l1.nodes.length = l.nodes.length ∧
      ∀ q, nodeElem l1 q = nodeElem l q := by
  unfold setLevelNext at h
  cases hp : l.nodes[p]? with
  | none => simp [hp] at h
  | some nd =>
    cases hL : nd.levels[L]? with
    | none => simp [hp, hL] at h
    | some o =>
      cases o with
      | none => simp [hp, hL] at h
      | some w =>
        simp only [hp, hL, Option.some.injEq] at h
        subst h
        refine ⟨rfl, rfl, rfl, rfl, rfl, by simp, ?_⟩
        intro q
        unfold nodeElem
        by_cases hq : q = p
        · subst hq
          have hlt : q < l.nodes.length := by
            by_contra hc
            rw [List.getElem?_eq_none (by omega)] at hp
            exact Option.noConfusion hp
          simp [List.getElem?_set, hlt, hp]
        · have hne : p ≠ q := fun hh => hq hh.symm
          simp [List.getElem?_set_ne hne]

theorem setLevelNext_isSome {l : myList} {p L : Nat} {w : Option Nat} (v : Option Nat)
    (h : levelNext l p L = some w) : ∃ l1, setLevelNext l p L v = some l1 := by
  unfold levelNext at h
  unfold setLevelNext
  cases hp : l.nodes[p]? with
  | none => simp [hp] at h
  | some nd =>
    cases hL : nd.levels[L]? with
    | none => simp [hp, hL] at h
    | some o =>
      cases o with
      | none => simp [hp, hL] at h
      | some w => simp [hL]

theorem elemOf_eq (l : myList) (a : Nat) :
    elemOf l (some a) =
      match nodeElem l a with
      | some (some ep) => (l.elems[ep]?).map fun e => (ep, e)
      | _ => none := by
  cases hp : l.nodes[a]? with
  | none => simp [elemOf, nodeElem, hp]
  | some nd =>
    cases he : nd.myElem with
    | none => simp [elemOf, nodeElem, hp, he]
    | some ep =>
      cases hx : l.elems[ep]? <;> simp [elemOf, nodeElem, hp, he, hx]

theorem elemOf_congr {l l1 : myList} (he : l1.elems = l.elems)
    (hn : ∀ q, nodeElem l1 q = nodeElem l q) (p : Option Nat) : elemOf l1 p = elemOf l p := by
  cases p with
  | none => rfl
  | some a => rw [elemOf_eq, elemOf_eq, hn a, he]

theorem onLevel_setLevelNext {l l1 : myList} {p L : Nat} {v : Option Nat}
    (h : setLevelNext l p L v = some l1) (q M : Nat) : onLevel l1 q M = onLevel l q M := by
  unfold onLevel
  rw [levelNext_setLevelNext h]
  split
  · rename_i hc
    obtain ⟨rfl, rfl⟩ := hc
    have hs : (setLevelNext l q M v).isSome := by simp [h]
    cases hx : levelNext l q M with
    | some w => simp
    | none =>
      exfalso
      unfold levelNext at hx
      unfold setLevelNext at h
      cases hp : l.nodes[q]? with
      | none => simp [hp] at h
      | some nd =>
        cases hL : nd.levels[M]? with
        | none => simp [hp, hL] at h
        | some o =>
          cases o with
          | none => simp [hp, hL] at h
          | some w => simp [hp, hL] at hx
  · rfl

theorem Chain_congr {l l1 : myList} {L L1 : Nat} :
    ∀ (ps : List Nat) (a a1 : Nat), Chain l L a ps →
      levelNext l1 a1 L1 = levelNext l a L →
      (∀ q ∈ ps, levelNext l1 q L1 = levelNext l q L) → Chain l1 L1 a1 ps
  | [], a, a1, h, ha, _ => by
    unfold Chain at h ⊢
    rw [ha, h]
  | p :: rest, a, a1, h, ha, hq => by
    unfold Chain at h ⊢
    refine ⟨by rw [ha, h.1], ?_⟩
    exact Chain_congr rest p p h.2 (hq p (List.mem_cons_self _ _))
      (fun q hq1 => hq q (List.mem_cons_of_mem _ hq1))

theorem Chain_append {l : myList} {L : Nat} :
    ∀ (xs : List Nat) (a p : Nat) (ys : List Nat), Chain l L a (xs ++ p :: ys) →
      Chain l L p ys ∧ levelNext l ((a :: xs).getLast (List.cons_ne_nil _ _)) L = some (some p)
  | [], a, p, ys, h => by
    simp only [List.nil_append] at h
    unfold Chain at h
    exact ⟨h.2, by simpa using h.1⟩
  | x :: xs, a, p, ys, h => by
    simp only [List.cons_append] at h
    unfold Chain at h
    have := Chain_append xs x p ys h.2
    refine ⟨this.1, ?_⟩
    rw [List.getLast_cons (List.cons_ne_nil _ _)]
    exact this.2

theorem NextOnly.refl (l : myList) : NextOnly l l :=
  ⟨rfl, rfl, rfl, rfl, rfl, rfl, fun _ => rfl, fun _ _ => rfl⟩

theorem NextOnly.trans {l l1 l2 : myList} (h1 : NextOnly l l1) (h2 : NextOnly l1 l2) :
    NextOnly l l2 :=
  ⟨h2.elems.trans h1.elems, h2.sum.trans h1.sum, h2.maxLevel.trans h1.maxLevel,
    h2.head.trans h1.head, h2.tail.trans h1.tail, h2.len.trans h1.len,
    fun q => (h2.nodeElem q).trans (h1.nodeElem q),
    fun q M => (h2.onLevel q M).trans (h1.onLevel q M)⟩

theorem NextOnly.of_set {l l1 : myList} {p L : Nat} {v : Option Nat}
    (h : setLevelNext l p L v = some l1) : NextOnly l l1 := by
  obtain ⟨h1, h2, h3, h4, h5, h6, h7⟩ := setLevelNext_frame h
  exact ⟨h1, h2, h3, h4, h5, h6, h7, onLevel_setLevelNext h⟩

theorem NextOnly.elemOf_same {l l1 : myList} (h : NextOnly l l1) (p : Option Nat) :
    elemOf l1 p = elemOf l p :=
  elemOf_congr h.elems h.nodeElem p

theorem NextOnly.sid_eq {l l1 : myList} (h : NextOnly l l1) (p : Nat) : sid l1 p = sid l p := by
  unfold sid
  rw [h.elems]

theorem Chain_cut {l l1 : myList} {L : Nat} (drop : List Nat) :
    ∀ (keep : List Nat) (a : Nat), Chain l L a (keep ++ drop) → (a :: keep).Nodup →
      setLevelNext l ((a :: keep).getLast (List.cons_ne_nil _ _)) L (some 1) = some l1 →
      Chain l1 L a keep
  | [], a, _, _, hs => by
    unfold Chain
    rw [levelNext_setLevelNext hs]
    simp
  | x :: ks, a, h, hnd, hs => by
    simp only [List.cons_append] at h
    unfold Chain at h ⊢
    rw [List.getLast_cons (List.cons_ne_nil _ _)] at hs
    have hnd2 : (x :: ks).Nodup := (List.nodup_cons.1 hnd).2
    have hlast : (x :: ks).getLast (List.cons_ne_nil _ _) ∈ x :: ks := List.getLast_mem _
    have hne : a ≠ (x :: ks).getLast (List.cons_ne_nil _ _) := by
      intro hc
      exact (List.nodup_cons.1 hnd).1 (hc ▸ hlast)
    refine ⟨?_, Chain_cut drop ks x h.2 hnd2 hs⟩
    rw [levelNext_setLevelNext hs, if_neg (fun hc => hne hc.1), h.1]

theorem truncateSomeFind_spec {l : myList} (target : Int) (ht : l.tail = 1) (drop : List Nat) :
    ∀ (ks : List Nat) (p : Nat) (count : Int) (fuel : Nat),
      Chain l 0 p (ks ++ drop) → (∀ q ∈ p :: ks, q ≠ 1) → count + 1 + ks.length = target →
      ks.length < fuel →
      truncateSomeFind l target fuel (some p) count =
        .done (some ((p :: ks).getLast (List.cons_ne_nil _ _)))
  | [], p, count, fuel, _, hne, hc, hf => by
    obtain ⟨f, rfl⟩ : ∃ f, fuel = f + 1 := ⟨fuel - 1, by simp at hf; omega⟩
    have hp : p ≠ 1 := hne p (List.mem_cons_self _ _)
    have hge : count + 1 ≥ target := by simp at hc; omega
    simp [truncateSomeFind, ht, hp, hge]
  | x :: ks, p, count, fuel, hch, hne, hc, hf => by
    obtain ⟨f, rfl⟩ : ∃ f, fuel = f + 1 := ⟨fuel - 1, by simp at hf; omega⟩
    have hp : p ≠ 1 := hne p (List.mem_cons_self _ _)
    have hge : ¬ count + 1 ≥ target := by simp at hc; omega
    simp only [List.cons_append] at hch
    unfold Chain at hch
    have ih := truncateSomeFind_spec target ht drop ks x (count + 1) f hch.2
      (fun q hq => hne q (List.mem_cons_of_mem _ hq)) (by simp at hc; omega)
      (by simp at hf; omega)
    simp only [truncateSomeFind, ht, Option.some.injEq, hp, if_false, hge, hch.1,
      Run.ofOption, Run.bind]
    rw [ih, List.getLast_cons (List.cons_ne_nil _ _)]

theorem truncateSomeWalk_spec {l : myList} {minId L : Nat} (ht : l.tail = 1)
    (tailE : ∃ pe, elemOf l (some 1) = some pe) (drop : List Nat)
    (hdrop : ∀ d, drop.head? = some d →
      ∃ de, elemOf l (some d) = some (d, de) ∧ de.startId < minId) :
    ∀ (keep : List Nat) (a : Nat) (fuel : Nat),
      Chain l L a (keep ++ drop) → (a :: keep).Nodup → (∀ q ∈ a :: keep, q ≠ 1) →
      (∀ q ∈ keep, ∃ e, elemOf l (some q) = some (q, e) ∧ minId ≤ e.startId) →
      keep.length + 1 < fuel →
      ∃ l1, truncateSomeWalk minId L fuel l (some a) = .done l1 ∧ Chain l1 L a keep ∧
        NextOnly l l1 ∧ (∀ q M, M ≠ L → levelNext l1 q M = levelNext l q M) ∧
        (∀ q, q ∉ a :: keep → levelNext l1 q L = levelNext l q L)
  | [], a, fuel, hch, _, hne, _, hf => by
    obtain ⟨f, rfl⟩ : ∃ f, fuel = f + 1 := ⟨fuel - 1, by omega⟩
    obtain ⟨g, rfl⟩ : ∃ g, f = g + 1 := ⟨f - 1, by simp at hf; omega⟩
    have ha : a ≠ 1 := hne a (List.mem_cons_self _ _)
    simp only [List.nil_append] at hch
    have hset : ∀ w, levelNext l a L = some w → ∃ l1, setLevelNext l a L (some 1) = some l1 ∧
        Chain l1 L a [] ∧ NextOnly l l1 ∧
        (∀ q M, M ≠ L → levelNext l1 q M = levelNext l q M) ∧
        (∀ q, q ∉ [a] → levelNext l1 q L = levelNext l q L) := by
      intro w hw
      obtain ⟨l1, hl1⟩ := setLevelNext_isSome (some 1) hw
      refine ⟨l1, hl1, ?_, NextOnly.of_set hl1, ?_, ?_⟩
      · unfold Chain
        rw [levelNext_setLevelNext hl1]
        simp
      · intro q M hM
        rw [levelNext_setLevelNext hl1, if_neg (fun hc => hM hc.2)]
      · intro q hq
        rw [levelNext_setLevelNext hl1, if_neg (fun hc => hq (by simp [hc.1]))]
    cases drop with
    | nil =>
      unfold Chain at hch
      obtain ⟨⟨tp, te⟩, hte⟩ := tailE
      by_cases hlt : te.startId < minId
      · obtain ⟨l1, hl1, h1, h2, h3, h4⟩ := hset _ hch
        refine ⟨l1, ?_, h1, h2, h3, h4⟩
        simp [truncateSomeWalk, ht, ha, hch, hte, hlt, hl1, Run.ofOption]
      · refine ⟨l, ?_, ?_, NextOnly.refl l, fun _ _ _ => rfl, fun _ _ => rfl⟩
        · simp [truncateSomeWalk, ht, ha, hch, hte, hlt]
        · unfold Chain
          exact hch
    | cons d ds =>
      unfold Chain at hch
      obtain ⟨de, hde, hlt⟩ := hdrop d rfl
      obtain ⟨l1, hl1, h1, h2, h3, h4⟩ := hset _ hch.1
      refine ⟨l1, ?_, h1, h2, h3, h4⟩
      simp [truncateSomeWalk, ht, ha, hch.1, hde, hlt, hl1, Run.ofOption]
  | x :: ks, a, fuel, hch, hnd, hne, hk, hf => by
    obtain ⟨f, rfl⟩ : ∃ f, fuel = f + 1 := ⟨fuel - 1, by omega⟩
    have ha : a ≠ 1 := hne a (List.mem_cons_self _ _)
    simp only [List.cons_append] at hch
    unfold Chain at hch
    obtain ⟨e, he, hge⟩ := hk x (List.mem_cons_self _ _)
    have hnlt : ¬ e.startId < minId := by omega
    obtain ⟨l1, hl1, h1, h2, h3, h4⟩ := truncateSomeWalk_spec ht tailE drop hdrop ks x f hch.2
      (List.nodup_cons.1 hnd).2 (fun q hq => hne q (List.mem_cons_of_mem _ hq))
      (fun q hq => hk q (List.mem_cons_of_mem _ hq)) (by simp at hf; omega)
    refine ⟨l1, ?_, ?_, h2, h3, ?_⟩
    · simp [truncateSomeWalk, ht, ha, hch.1, he, hnlt, hl1]
    · unfold Chain
      refine ⟨?_, h1⟩
      rw [h4 a (List.nodup_cons.1 hnd).1, hch.1]
    · intro q hq
      exact h4 q (fun hc => hq (List.mem_cons_of_mem _ hc))

theorem nextOnly_filter_eq {l l1 : myList} (h : NextOnly l l1) (L : Nat) (xs : List Nat) :
    (xs.filter fun p => onLevel l1 p L) = xs.filter fun p => onLevel l p L := by
  have : (fun p => onLevel l1 p L) = fun p => onLevel l p L := funext fun p => h.onLevel p L
  rw [this]

theorem truncateSomeLevels_spec {minId : Nat} (keep drop : List Nat)
    (hnd : (0 :: keep).Nodup) (hne : ∀ q ∈ keep, q ≠ 1) :
    ∀ (n : Nat) (l : myList), l.head = 0 → l.tail = 1 →
      (∃ pe, elemOf l (some 1) = some pe) →
      (∀ q ∈ keep, ∃ e, elemOf l (some q) = some (q, e) ∧ minId ≤ e.startId) →
      (∀ d ∈ drop, ∃ de, elemOf l (some d) = some (d, de) ∧ de.startId < minId) →
      (∀ L, 1 ≤ L → L ≤ n → Chain l L 0 ((keep ++ drop).filter fun p => onLevel l p L)) →
      keep.length + 1 ≤ l.nodes.length →
      ∃ l1, truncateSomeLevels minId n l = .done l1 ∧ NextOnly l l1 ∧
        (∀ L, 1 ≤ L → L ≤ n → Chain l1 L 0 (keep.filter fun p => onLevel l1 p L)) ∧
        (∀ q M, (M = 0 ∨ n < M) → levelNext l1 q M = levelNext l q M)
  | 0, l, _, _, _, _, _, _, _ =>
    ⟨l, rfl, NextOnly.refl l, fun L h1 h2 => by omega, fun _ _ _ => rfl⟩
  | n + 1, l, hh, ht, tailE, hk, hd, hch, hlen => by
    have hc := hch (n + 1) (by omega) (Nat.le_refl _)
    rw [List.filter_append] at hc
    have hsub : (keep.filter fun p => onLevel l p (n + 1)).Sublist keep := List.filter_sublist _
    have hnd1 : (0 :: keep.filter fun p => onLevel l p (n + 1)).Nodup := by
      refine List.nodup_cons.2 ⟨fun hc0 => (List.nodup_cons.1 hnd).1 (hsub.subset hc0), ?_⟩
      exact (List.nodup_cons.1 hnd).2.sublist hsub
    have hne1 : ∀ q ∈ 0 :: keep.filter fun p => onLevel l p (n + 1), q ≠ 1 := by
      intro q hq
      rcases List.mem_cons.1 hq with rfl | hq
      · decide
      · exact hne q (hsub.subset hq)
    have hdrop : ∀ d, (drop.filter fun p => onLevel l p (n + 1)).head? = some d →
        ∃ de, elemOf l (some d) = some (d, de) ∧ de.startId < minId := by
      intro d hd1
      have hmem : d ∈ drop.filter fun p => onLevel l p (n + 1) := by
        cases hx : drop.filter fun p => onLevel l p (n + 1) with
        | nil => rw [hx] at hd1; simp at hd1
        | cons y ys =>
          rw [hx] at hd1
          simp only [List.head?_cons, Option.some.injEq] at hd1
          subst hd1
          exact List.mem_cons_self _ _
      exact hd d (List.mem_of_mem_filter hmem)
    have hflen : (keep.filter fun p => onLevel l p (n + 1)).length ≤ keep.length :=
      hsub.length_le
    obtain ⟨l1, hl1, hc1, hN, hfr, _⟩ := truncateSomeWalk_spec (L := n + 1) ht tailE _ hdrop _ 0
      (l.nodes.length + 1) hc hnd1 hne1 (fun q hq => hk q (hsub.subset hq)) (by omega)
    obtain ⟨l2, hl2, hN2, hch2, hfr2⟩ := truncateSomeLevels_spec keep drop hnd hne n l1
      (hN.head.trans hh) (hN.tail.trans ht)
      (by rw [hN.elemOf_same]; exact tailE)
      (fun q hq => by rw [hN.elemOf_same]; exact hk q hq)
      (fun d hd1 => by rw [hN.elemOf_same]; exact hd d hd1)
      (fun L h1 h2 => by
        rw [nextOnly_filter_eq hN]
        exact Chain_congr _ 0 0 (hch L h1 (by omega)) (hfr 0 L (by omega))
          (fun q _ => hfr q L (by omega)))
      (by rw [hN.len]; exact hlen)
    refine ⟨l2, ?_, hN.trans hN2, ?_, ?_⟩
    · simp [truncateSomeLevels, hh, hl1, Run.bind, hl2]
    · intro L h1 h2
      by_cases hL : L ≤ n
      · exact hch2 L h1 hL
      · have hLe : L = n + 1 := by omega
        subst hLe
        rw [nextOnly_filter_eq (hN.trans hN2)]
        exact Chain_congr _ 0 0 hc1 (hfr2 0 _ (by omega)) (fun q _ => hfr2 q _ (by omega))
    · intro q M hM
      rw [hfr2 q M (by omega), hfr q M (by omega)]

theorem Shape.elemOf_held {l : myList} {held : List Nat} (hS : Shape l held) {p : Nat}
    (hp : p ∈ held) :
    ∃ e, l.elems[p]? = some e ∧ elemOf l (some p) = some (p, e) ∧ sid l p = e.startId := by
  obtain ⟨_, hlt, hne, _⟩ := hS.node p hp
  have hlt2 : p < l.elems.length := Nat.lt_of_lt_of_le hlt hS.len_le
  refine ⟨l.elems[p], List.getElem?_eq_getElem hlt2, ?_, ?_⟩
  · rw [elemOf_eq, hne]
    simp [List.getElem?_eq_getElem hlt2]
  · simp [sid, List.getElem?_eq_getElem hlt2]

theorem Shape.nodup {l : myList} {held : List Nat} (hS : Shape l held) : (0 :: held).Nodup := by
  refine List.nodup_cons.2 ⟨fun h0 => ?_, ?_⟩
  · have := (hS.node 0 h0).1
    omega
  · exact hS.sorted.imp (fun {a b} h hab => by rw [hab] at h; exact Nat.lt_irrefl _ h)

theorem Shape.ne_one {l : myList} {held : List Nat} (hS : Shape l held) :
    ∀ q ∈ held, q ≠ 1 := by
  intro q hq hc
  have := (hS.node q hq).1
  omega

theorem Shape.filter_zero {l : myList} {held : List Nat} (hS : Shape l held) :
    (held.filter fun p => onLevel l p 0) = held := by
  refine List.filter_eq_self.2 (fun p hp => ?_)
  obtain ⟨_, _, _, k, _, hk⟩ := hS.node p hp
  exact (hk 0).2 (Nat.zero_le _)

theorem Shape.filter_high {l : myList} {held : List Nat} (hS : Shape l held) {L : Nat}
    (hL : l.maxLevel < L) : (held.filter fun p => onLevel l p L) = [] := by
  refine List.filter_eq_nil_iff.2 (fun p hp hc => ?_)
  obtain ⟨_, _, _, k, hkm, hk⟩ := hS.node p hp
  have := (hk L).1 hc
  omega

theorem Shape.tailE {l : myList} {held : List Nat} (hS : Shape l held) :
    ∃ pe, elemOf l (some 1) = some pe := by
  obtain ⟨tp, h1, h2⟩ := hS.tail_elem
  have h3 : tp < l.elems.length := Nat.lt_of_lt_of_le h2 hS.len_le
  refine ⟨(tp, l.elems[tp]), ?_⟩
  rw [elemOf_eq, h1]
  simp [List.getElem?_eq_getElem h3]

theorem pairwise_getLast {α : Type} {R : α → α → Prop} :
    ∀ (xs : List α) (hne : xs ≠ []), xs.Pairwise R →
      ∀ q ∈ xs, q = xs.getLast hne ∨ R q (xs.getLast hne)
  | [], hne, _, _, _ => absurd rfl hne
  | [x], _, _, q, hq => by
    left
    simpa using hq
  | x :: y :: ys, _, hp, q, hq => by
    rw [List.getLast_cons (List.cons_ne_nil _ _)]
    have hp2 := List.pairwise_cons.1 hp
    rcases List.mem_cons.1 hq with rfl | hq
    · right
      exact hp2.1 _ (List.getLast_mem _)
    · exact pairwise_getLast (y :: ys) (List.cons_ne_nil _ _) hp2.2 q hq

theorem truncateSome_spec {l : myList} {held : List Nat} (hS : Shape l held) (n : Int) (m : Nat)
    (hm : 0 < m) (hml : m ≤ held.length) (hn : (m : Int) = l.sum - n) :
    ∃ l1, truncateSome l n = .done (l1, none) ∧ Shape l1 (held.take m) ∧ l1.elems = l.elems ∧
      l1.nodes.length = l.nodes.length ∧ ∀ q, nodeElem l1 q = nodeElem l q := by
  have hsum := hS.sum_eq
  have hsplit : held.take m ++ held.drop m = held := List.take_append_drop m held
  have hklen : (held.take m).length = m := by rw [List.length_take]; omega
  obtain ⟨h0, ks, hks⟩ : ∃ h0 ks, held.take m = h0 :: ks := by
    cases hx : held.take m with
    | nil => rw [hx] at hklen; simp at hklen; omega
    | cons a b => exact ⟨a, b, rfl⟩
  rw [hks] at hsplit hklen ⊢
  generalize held.drop m = drop at hsplit
  subst hsplit
  have hnd := hS.nodup
  have hc0 : Chain l 0 0 ((h0 :: ks) ++ drop) := by
    have := hS.chain 0 (by decide)
    rw [hS.filter_zero] at this
    exact this
  have hkeepmem : ∀ q ∈ h0 :: ks, q ∈ (h0 :: ks) ++ drop :=
    fun q hq => List.mem_append_left _ hq
  have hdropmem : ∀ q ∈ drop, q ∈ (h0 :: ks) ++ drop :=
    fun q hq => List.mem_append_right _ hq
  have hsort := List.pairwise_append.1 hS.sorted
  -- the position node
  have hposk : (h0 :: ks).getLast (List.cons_ne_nil _ _) ∈ h0 :: ks := List.getLast_mem _
  generalize hpos : (h0 :: ks).getLast (List.cons_ne_nil _ _) = pos at hposk
  have hfirst : levelNext l 0 0 = some (some h0) := by
    simp only [List.cons_append] at hc0
    unfold Chain at hc0
    exact hc0.1
  have hfind : truncateSomeFind l (l.sum - n) (l.nodes.length + 1) (some h0) 0 =
      .done (some pos) := by
    have hch : Chain l 0 h0 (ks ++ drop) := by
      simp only [List.cons_append] at hc0
      unfold Chain at hc0
      exact hc0.2
    have := truncateSomeFind_spec (l.sum - n) hS.tail_eq drop ks h0 0 (l.nodes.length + 1) hch
      (fun q hq => hS.ne_one q (hkeepmem q hq))
      (by simp at hklen; omega)
      (by have := hS.len_ge; simp at this; omega)
    rw [this, hpos]
  obtain ⟨pe, hpe1, hpe2, hpe3⟩ := hS.elemOf_held (hkeepmem pos hposk)
  have hpos0 : onLevel l pos 0 = true := by
    obtain ⟨_, _, _, k, _, hk⟩ := hS.node pos (hkeepmem pos hposk)
    exact (hk 0).2 (Nat.zero_le _)
  obtain ⟨w, hw⟩ : ∃ w, levelNext l pos 0 = some w := Option.isSome_iff_exists.1 hpos0
  obtain ⟨l1, hl1⟩ := setLevelNext_isSome (some 1) hw
  have hN1 : NextOnly l l1 := NextOnly.of_set hl1
  have hcut : Chain l1 0 0 (h0 :: ks) := by
    refine Chain_cut drop (h0 :: ks) 0 hc0 ?_ ?_
    · exact (List.nodup_append.1 (List.cons_append _ _ _ ▸ hnd)).1
    · rw [List.getLast_cons (List.cons_ne_nil _ _), hpos]
      exact hl1
  have hkeepNd : (0 :: h0 :: ks).Nodup :=
    (List.nodup_append.1 (List.cons_append _ _ _ ▸ hnd)).1
  obtain ⟨l2, hl2, hN2, hch2, hfr2⟩ := @truncateSomeLevels_spec pe.startId
    (h0 :: ks) drop hkeepNd (fun q hq => hS.ne_one q (hkeepmem q hq)) l1.maxLevel l1
    (hN1.head.trans hS.head_eq) (hN1.tail.trans hS.tail_eq)
    (by rw [hN1.elemOf_same]; exact hS.tailE)
    (fun q hq => by
      rw [hN1.elemOf_same]
      obtain ⟨e, _, he2, he3⟩ := hS.elemOf_held (hkeepmem q hq)
      refine ⟨e, he2, ?_⟩
      rcases pairwise_getLast (h0 :: ks) (List.cons_ne_nil _ _) hsort.1 q hq with h | h
      · rw [hpos] at h
        subst h
        rw [← he3, hpe3]
      · rw [hpos, hpe3, he3] at h
        omega)
    (fun d hd => by
      rw [hN1.elemOf_same]
      obtain ⟨e, _, he2, he3⟩ := hS.elemOf_held (hdropmem d hd)
      refine ⟨e, he2, ?_⟩
      have := hsort.2.2 pos hposk d hd
      rw [hpe3, he3] at this
      exact this)
    (fun L h1 _ => by
      rw [nextOnly_filter_eq hN1]
      have hLlt : L < MAX_LEVEL_LIMIT := by
        have := hS.maxLevel_lt
        rw [hN1.maxLevel] at *
        omega
      refine Chain_congr _ 0 0 (hS.chain L hLlt) ?_ ?_
      · rw [levelNext_setLevelNext hl1, if_neg (fun hc => by omega)]
      · intro q _
        rw [levelNext_setLevelNext hl1, if_neg (fun hc => by omega)])
    (by rw [hN1.len]; have := hS.len_ge; simp at this ⊢; omega)
  have hN : NextOnly l l2 := hN1.trans hN2
  refine ⟨{ l2 with sum := l.sum - n }, ?_, ?_, hN.elems, hN.len, hN.nodeElem⟩
  · have hlt : ¬ n ≥ l.sum := by omega
    have hpe' : elemOf l1 (some pos) = some (pos, pe) := by rw [hN1.elemOf_same]; exact hpe2
    simp [truncateSome, hlt, hS.head_eq, hS.tail_eq, hfirst, hfind, Run.bind, Run.ofOption,
      hl1, hpe', hl2]
  · have hmax : l2.maxLevel = l.maxLevel := hN.maxLevel
    have hfilt : ∀ L, (fun p => onLevel { l2 with sum := l.sum - n } p L) =
        fun p => onLevel l p L := fun L => funext fun p => hN.onLevel p L
    refine
      { head_eq := hN.head.trans hS.head_eq
        tail_eq := hN.tail.trans hS.tail_eq
        len_ge := ?_
        len_le := ?_
        maxLevel_lt := ?_
        sum_eq := ?_
        chain := ?_
        node := ?_
        sorted := ?_
        tail_elem := ?_
        head_elem := ?_ }
    · show (h0 :: ks).length + 2 ≤ l2.nodes.length
      rw [hN.len]
      have := hS.len_ge
      simp at this ⊢
      omega
    · show l2.nodes.length ≤ l2.elems.length
      rw [hN.len, hN.elems]
      exact hS.len_le
    · show l2.maxLevel < MAX_LEVEL_LIMIT
      rw [hmax]
      exact hS.maxLevel_lt
    · show l.sum - n = ((h0 :: ks).length : Int)
      rw [hklen]
      exact hn.symm
    · intro L hL
      rw [hfilt L]
      have hfl : (fun p => onLevel l p L) = fun p => onLevel l2 p L :=
        funext fun p => (hN.onLevel p L).symm
      by_cases h0L : L = 0
      · subst h0L
        have hk : ((h0 :: ks).filter fun p => onLevel l p 0) = h0 :: ks := by
          have := hS.filter_zero
          rw [List.filter_append] at this
          have hlen := congrArg List.length this
          rw [List.length_append, List.length_append] at hlen
          have h1 := List.length_filter_le (fun p => onLevel l p 0) (h0 :: ks)
          have h2 := List.length_filter_le (fun p => onLevel l p 0) drop
          exact List.filter_eq_self.2 (fun p hp =>
            (List.filter_eq_self.1 (hS.filter_zero) p (hkeepmem p hp)))
        rw [hk]
        exact Chain_congr _ 0 0 hcut (hfr2 0 0 (Or.inl rfl)) (fun q _ => hfr2 q 0 (Or.inl rfl))
      · by_cases hLm : L ≤ l1.maxLevel
        · have := hch2 L (by omega) hLm
          rw [hfl]
          exact Chain_congr _ 0 0 this rfl (fun q _ => rfl)
        · have hhigh : l.maxLevel < L := by rw [← hN1.maxLevel]; omega
          have hemp := hS.filter_high hhigh
          have hc := hS.chain L hL
          rw [hemp] at hc
          rw [List.filter_append] at hemp
          rw [(List.append_eq_nil.1 hemp).1]
          unfold Chain at hc ⊢
          show levelNext l2 0 L = some (some 1)
          rw [hfr2 0 L (Or.inr (by omega)), levelNext_setLevelNext hl1,
            if_neg (fun hc => h0L hc.2), hc]
    · intro p hp
      obtain ⟨h1, h2, h3, k, h4, h5⟩ := hS.node p (hkeepmem p hp)
      refine ⟨h1, ?_, ?_, k, ?_, ?_⟩
      · show p < l2.nodes.length
        rw [hN.len]; exact h2
      · show nodeElem l2 p = some (some p)
        rw [hN.nodeElem]; exact h3
      · show k ≤ l2.maxLevel
        rw [hmax]; exact h4
      · intro L
        show onLevel l2 p L = true ↔ L ≤ k
        rw [hN.onLevel]; exact h5 L
    · refine hsort.1.imp (fun {a b} h => ?_)
      show sid l2 b < sid l2 a
      rw [hN.sid_eq, hN.sid_eq]
      exact h
    · obtain ⟨tp, h1, h2⟩ := hS.tail_elem
      refine ⟨tp, ?_, ?_⟩
      · show nodeElem l2 1 = some (some tp)
        rw [hN.nodeElem]; exact h1
      · show tp < l2.nodes.length
        rw [hN.len]; exact h2
    · obtain ⟨hp, h1, h2, h3⟩ := hS.head_elem
      refine ⟨hp, ?_, ?_, ?_⟩
      · show nodeElem l2 0 = some (some hp)
        rw [hN.nodeElem]; exact h1
      · show hp < l2.nodes.length
        rw [hN.len]; exact h2
      · intro p hp1
        exact h3 p (by simpa using hp1)

theorem getLevelLoop_le (draw : Nat → Nat) :
    ∀ (n i level : Nat), level ≤ i → getLevelLoop draw n i level ≤ i + n - 1 ∨
      getLevelLoop draw n i level = level
  | 0, i, level, _ => by simp [getLevelLoop]
  | n + 1, i, level, _ => by
    unfold getLevelLoop
    split
    · left; omega
    · rcases getLevelLoop_le draw n (i + 1) i (by omega) with h | h
      · left; omega
      · left; omega

theorem getLevel_lt (draw : Nat → Nat) : getLevel draw < MAX_LEVEL_LIMIT := by
  unfold getLevel
  rcases getLevelLoop_le draw MAX_LEVEL_LIMIT 0 0 (Nat.le_refl _) with h | h
  · simp only [MAX_LEVEL_LIMIT] at h ⊢
    omega
  · rw [h]
    decide

theorem levelNext_appendNode (l : myList) (nd : myNode) (q M : Nat) :
    levelNext { l with nodes := l.nodes ++ [nd] } q M =
      if q = l.nodes.length then
        (match nd.levels[M]? with
        | some (some nx) => some nx
        | _ => none)
      else levelNext l q M := by
  unfold levelNext
  by_cases hq : q = l.nodes.length
  · subst hq
    simp [List.getElem?_concat_length]
  · rw [if_neg hq]
    by_cases hlt : q < l.nodes.length
    · simp [List.getElem?_append_left hlt]
    · have h1 : (l.nodes ++ [nd])[q]? = none :=
        List.getElem?_eq_none (by simp; omega)
      have h2 : l.nodes[q]? = none := List.getElem?_eq_none (by omega)
      simp [h1, h2]

theorem nodeElem_appendNode (l : myList) (nd : myNode) (q : Nat) :
    nodeElem { l with nodes := l.nodes ++ [nd] } q =
      if q = l.nodes.length then some nd.myElem else nodeElem l q := by
  unfold nodeElem
  by_cases hq : q = l.nodes.length
  · subst hq
    simp [List.getElem?_concat_length]
  · rw [if_neg hq]
    by_cases hlt : q < l.nodes.length
    · simp [List.getElem?_append_left hlt]
    · have h1 : (l.nodes ++ [nd])[q]? = none :=
        List.getElem?_eq_none (by simp; omega)
      have h2 : l.nodes[q]? = none := List.getElem?_eq_none (by omega)
      simp [h1, h2]

theorem getNode_level (ep lvl M : Nat) :
    (match (getNode ep lvl).levels[M]? with
      | some (some nx) => some nx
      | _ => none) = if M ≤ lvl then some (none : Option Nat) else none := by
  unfold getNode
  simp only [List.getElem?_replicate]
  by_cases h : M ≤ lvl
  · have : M < lvl + 1 := by omega
    simp [h, this]
  · have : ¬ M < lvl + 1 := by omega
    simp [h, this]

theorem setNodeElem_spec {l : myList} {p : Nat} (v : Option Nat) (hp : p < l.nodes.length) :
    ∃ l1, setNodeElem l p v = some l1 ∧ l1.elems = l.elems ∧ l1.sum = l.sum ∧
      l1.maxLevel = l.maxLevel ∧ l1.head = l.head ∧ l1.tail = l.tail ∧
      l1.nodes.length = l.nodes.length ∧
      (∀ q M, levelNext l1 q M = levelNext l q M) ∧
      (∀ q, nodeElem l1 q = if q = p then some v else nodeElem l q) := by
  unfold setNodeElem
  have hx : l.nodes[p]? = some l.nodes[p] := List.getElem?_eq_getElem hp
  rw [hx]
  refine ⟨_, rfl, rfl, rfl, rfl, rfl, rfl, by simp, ?_, ?_⟩
  · intro q M
    unfold levelNext
    by_cases hq : q = p
    · subst hq
      simp [List.getElem?_set, hp, hx]
    · have hne : p ≠ q := fun hh => hq hh.symm
      simp [List.getElem?_set_ne hne]
  · intro q
    unfold nodeElem
    by_cases hq : q = p
    · subst hq
      simp [List.getElem?_set, hp]
    · have hne : p ≠ q := fun hh => hq hh.symm
      simp [List.getElem?_set_ne hne, hq]

theorem pushLink_spec (N : Nat) (hN : N ≠ 0) :
    ∀ (n : Nat) (l : myList), l.head = 0 →
      (∀ L, L ≤ n → ∃ w, levelNext l 0 L = some w) →
      (∀ L, L ≤ n → ∃ w, levelNext l N L = some w) →
      ∃ l1, pushLink N n l = some l1 ∧ NextOnly l l1 ∧
        ∀ q M, levelNext l1 q M =
          if M ≤ n then
            (if q = 0 then some (some N) else if q = N then levelNext l 0 M else levelNext l q M)
          else levelNext l q M
  | 0, l, hh, h0, hNl => by
    obtain ⟨w, hw⟩ := h0 0 (Nat.le_refl _)
    obtain ⟨w1, hw1⟩ := hNl 0 (Nat.le_refl _)
    obtain ⟨l1, hl1⟩ := setLevelNext_isSome w hw1
    have hN1 := NextOnly.of_set hl1
    have hw2 : levelNext l1 0 0 = some w := by
      rw [levelNext_setLevelNext hl1, if_neg (fun hc => hN hc.1.symm), hw]
    obtain ⟨l2, hl2⟩ := setLevelNext_isSome (some N) hw2
    refine ⟨l2, ?_, hN1.trans (NextOnly.of_set hl2), ?_⟩
    · simp [pushLink, hh, hw, hl1, hN1.head, hl2]
    · intro q M
      rw [levelNext_setLevelNext hl2, levelNext_setLevelNext hl1]
      by_cases hM : M = 0
      · subst hM
        by_cases hq : q = 0
        · simp [hq]
        · by_cases hqN : q = N
          · simp [hqN, hN, hw]
          · simp [hq, hqN]
      · have : ¬ M ≤ 0 := by omega
        simp [hM, this]
  | n + 1, l, hh, h0, hNl => by
    obtain ⟨w, hw⟩ := h0 (n + 1) (Nat.le_refl _)
    obtain ⟨w1, hw1⟩ := hNl (n + 1) (Nat.le_refl _)
    obtain ⟨l1, hl1⟩ := setLevelNext_isSome w hw1
    have hN1 := NextOnly.of_set hl1
    have hw2 : levelNext l1 0 (n + 1) = some w := by
      rw [levelNext_setLevelNext hl1, if_neg (fun hc => hN hc.1.symm), hw]
    obtain ⟨l2, hl2⟩ := setLevelNext_isSome (some N) hw2
    have hN2 := NextOnly.of_set hl2
    have hlow : ∀ q M, M ≤ n → levelNext l2 q M = levelNext l q M := by
      intro q M hM
      rw [levelNext_setLevelNext hl2, levelNext_setLevelNext hl1,
        if_neg (fun hc => by omega), if_neg (fun hc => by omega)]
    obtain ⟨l3, hl3, hN3, hf3⟩ := pushLink_spec N hN n l2 ((hN1.trans hN2).head.trans hh)
      (fun L hL => by rw [hlow 0 L hL]; exact h0 L (by omega))
      (fun L hL => by rw [hlow N L hL]; exact hNl L (by omega))
    refine ⟨l3, ?_, (hN1.trans hN2).trans hN3, ?_⟩
    · simp [pushLink, hh, hw, hl1, hN1.head, hl2, hl3]
    · intro q M
      rw [hf3 q M]
      by_cases hM : M ≤ n
      · have hM1 : M ≤ n + 1 := by omega
        simp only [hM, hM1, if_true]
        rw [hlow 0 M hM, hlow q M hM]
      · simp only [hM, if_false]
        rw [levelNext_setLevelNext hl2, levelNext_setLevelNext hl1]
        by_cases hM2 : M = n + 1
        · subst hM2
          by_cases hq : q = 0
          · simp [hq]
          · by_cases hqN : q = N
            · simp [hqN, hN, hw]
            · simp [hq, hqN]
        · have : ¬ M ≤ n + 1 := by omega
          simp [hM2, this]

theorem Chain_head {l : myList} {L a : Nat} {xs : List Nat} (h : Chain l L a xs) :
    levelNext l a L = some (some (xs.head?.getD 1)) := by
  cases xs with
  | nil => unfold Chain at h; simpa using h
  | cons x xs => unfold Chain at h; simpa using h.1

theorem sid_set {l l1 : myList} {fp : Nat} {fe x : myElem} (hfe : l.elems[fp]? = some fe)
    (hx : x.startId = fe.startId) (h : l1.elems = l.elems.set fp x) (q : Nat) :
    sid l1 q = sid l q := by
  unfold sid
  rw [h, List.getElem?_set]
  by_cases hq : fp = q
  · subst hq
    have hlt : fp < l.elems.length := by
      by_contra hc
      rw [List.getElem?_eq_none (by omega)] at hfe
      exact Option.noConfusion hfe
    simp [hlt, hfe, hx]
  · simp [hq]

theorem shape_push {l1 l2 : myList} {held : List Nat} (hS : Shape l1 held) (e : myElem)
    (lvl : Nat) (hlvl : lvl < MAX_LEVEL_LIMIT)
    (hlen : l1.elems.length = l1.nodes.length + 1)
    (he : l1.elems[l1.nodes.length]? = some e)
    (hnew : ∀ h ∈ held, sid l1 h < e.startId)
    (fp : Nat) (fe x : myElem) (hx : x.startId = fe.startId) (hfe : l1.elems[fp]? = some fe)
    (O1 : ∀ q M, levelNext l2 q M =
      if q = l1.nodes.length then (if M ≤ lvl then levelNext l1 0 M else none)
      else if q = 0 ∧ M ≤ lvl then some (some l1.nodes.length) else levelNext l1 q M)
    (O2 : l2.elems = l1.elems.set fp x)
    (O3 : ∀ q, 2 ≤ q → nodeElem l2 q =
      if q = l1.nodes.length then some (some l1.nodes.length) else nodeElem l1 q)
    (O4 : nodeElem l2 0 = some (some l1.nodes.length))
    (O5 : ∃ tp, nodeElem l2 1 = some (some tp) ∧ tp < l1.nodes.length + 1)
    (O6 : l2.head = 0 ∧ l2.tail = 1 ∧ l2.maxLevel = max l1.maxLevel lvl ∧
      l2.sum = held.length + 1 ∧ l2.nodes.length = l1.nodes.length + 1) :
    ListInv l2 (l1.nodes.length :: held) := by
  obtain ⟨o1, o2, o3, o4, o5⟩ := O6
  have hge := hS.len_ge
  have hN2 : 2 ≤ l1.nodes.length := by omega
  have hheadsome : ∀ L, L < MAX_LEVEL_LIMIT → ∃ w, levelNext l1 0 L = some w :=
    fun L hL => ⟨_, Chain_head (hS.chain L hL)⟩
  have hon_old : ∀ q ∈ held, ∀ L, onLevel l2 q L = onLevel l1 q L := by
    intro q hq L
    obtain ⟨h1, h2, _⟩ := hS.node q hq
    unfold onLevel
    rw [O1, if_neg (by omega), if_neg (fun hc => by omega)]
  have hnext_old : ∀ q ∈ held, ∀ L, levelNext l2 q L = levelNext l1 q L := by
    intro q hq L
    obtain ⟨h1, h2, _⟩ := hS.node q hq
    rw [O1, if_neg (by omega), if_neg (fun hc => by omega)]
  have hon_new : ∀ L, L < MAX_LEVEL_LIMIT → onLevel l2 l1.nodes.length L = decide (L ≤ lvl) := by
    intro L hL
    unfold onLevel
    rw [O1, if_pos rfl]
    by_cases h : L ≤ lvl
    · obtain ⟨w, hw⟩ := hheadsome L hL
      simp [h, hw]
    · simp [h]
  have hfilt : ∀ L, (held.filter fun p => onLevel l2 p L) = held.filter fun p => onLevel l1 p L :=
    fun L => List.filter_congr (fun q hq => hon_old q hq L)
  have hsid : ∀ q, sid l2 q = sid l1 q := sid_set hfe hx O2
  have hsidN : sid l1 l1.nodes.length = e.startId := by
    unfold sid
    rw [he]
  refine
    { head_eq := o1
      tail_eq := o2
      len_ge := by simp; omega
      len_le := by rw [o5, O2, List.length_set, hlen]
      maxLevel_lt := by rw [o3]; exact max_lt hS.maxLevel_lt hlvl
      sum_eq := by rw [o4]; simp
      chain := ?_
      node := ?_
      sorted := ?_
      tail_elem := ?_
      head_elem := ?_
      len_eq := by rw [o5, O2, List.length_set, hlen] }
  · intro L hL
    have hc := hS.chain L hL
    by_cases h : L ≤ lvl
    · rw [List.filter_cons, hon_new L hL, if_pos (by simpa using h), hfilt]
      unfold Chain
      refine ⟨?_, ?_⟩
      · rw [O1, if_neg (by omega), if_pos ⟨rfl, h⟩]
      · refine Chain_congr _ 0 _ hc ?_ (fun q hq => hnext_old q (List.mem_of_mem_filter hq) L)
        rw [O1, if_pos rfl, if_pos h]
    · rw [List.filter_cons, hon_new L hL, if_neg (by simpa using h), hfilt]
      refine Chain_congr _ 0 _ hc ?_ (fun q hq => hnext_old q (List.mem_of_mem_filter hq) L)
      rw [O1, if_neg (by omega), if_neg (fun hc => h hc.2)]
  · intro p hp
    rcases List.mem_cons.1 hp with rfl | hp
    · refine ⟨hN2, by omega, ?_, lvl, ?_, ?_⟩
      · rw [O3 _ hN2, if_pos rfl]
      · rw [o3]; exact le_max_right _ _
      · intro L
        by_cases hL : L < MAX_LEVEL_LIMIT
        · rw [hon_new L hL]
          simp
        · have hnl : ¬ L ≤ lvl := by omega
          unfold onLevel
          rw [O1, if_pos rfl, if_neg hnl]
          simp [hnl]
    · obtain ⟨h1, h2, h3, k, h4, h5⟩ := hS.node p hp
      refine ⟨h1, by omega, ?_, k, ?_, ?_⟩
      · rw [O3 p h1, if_neg (by omega)]
        exact h3
      · rw [o3]; exact le_trans h4 (le_max_left _ _)
      · intro L
        rw [hon_old p hp L]
        exact h5 L
  · refine List.pairwise_cons.2 ⟨?_, ?_⟩
    · intro q hq
      rw [hsid, hsid, hsidN]
      exact hnew q hq
    · exact hS.sorted.imp (fun {a b} h => by rw [hsid, hsid]; exact h)
  · obtain ⟨tp, h1, h2⟩ := O5
    exact ⟨tp, h1, by omega⟩
  · exact ⟨l1.nodes.length, O4, by omega, fun p hp => by simpa using hp⟩

theorem pushInsert_eq (l1 : myList) (ep : Nat) (draw : Nat → Nat) :
    pushInsert l1 ep draw =
      (Run.ofOption (isLatest (allocNode l1 ep (getLevel draw)) l1.nodes.length)).bind fun ok =>
        if ok = false then .done (allocNode l1 ep (getLevel draw), some .notLatest)
        else
          (Run.ofOption (pushLink l1.nodes.length (getLevel draw)
            (raiseMaxLevel (allocNode l1 ep (getLevel draw)) (getLevel draw)))).bind fun l4 =>
            pushTail l4 l1.nodes.length ep :=
  rfl

theorem pushTail_spec {l4 : myList} {N fp first : Nat} {fe e : myElem} (hh : l4.head = 0)
    (ht : l4.tail = 1) (hlen : 2 ≤ l4.nodes.length)
    (hfirst : levelNext l4 N 0 = some (some first))
    (hfe : elemOf l4 (some first) = some (fp, fe)) (heN : elemOf l4 (some N) = some (N, e)) :
    ∃ l8, pushTail l4 N N = .done (l8, none) ∧
      (∀ q M, levelNext l8 q M = levelNext l4 q M) ∧
      l8.elems = l4.elems.set fp { fe with endId := (e.startId + 2 ^ 64 - 1) % 2 ^ 64 } ∧
      (∀ q, 2 ≤ q → nodeElem l8 q = nodeElem l4 q) ∧
      nodeElem l8 0 = some (some N) ∧
      nodeElem l8 1 = (if l4.sum = 0 then some (some N) else nodeElem l4 1) ∧
      l8.head = 0 ∧ l8.tail = 1 ∧ l8.maxLevel = l4.maxLevel ∧ l8.sum = l4.sum + 1 ∧
      l8.nodes.length = l4.nodes.length := by
  unfold pushTail
  rw [hfirst]
  simp only [Run.ofOption, Run.bind, hfe, heN]
  generalize hl5 : setElem l4 fp { fe with endId := (e.startId + 2 ^ 64 - 1) % 2 ^ 64 } = l5
  have h5 : l5.head = 0 ∧ l5.tail = 1 ∧ l5.nodes = l4.nodes ∧ l5.sum = l4.sum ∧
      l5.maxLevel = l4.maxLevel ∧
      l5.elems = l4.elems.set fp { fe with endId := (e.startId + 2 ^ 64 - 1) % 2 ^ 64 } := by
    rw [← hl5]
    exact ⟨hh, ht, rfl, rfl, rfl, rfl⟩
  obtain ⟨a1, a2, a3, a4, a5, a6⟩ := h5
  have hnx5 : ∀ q M, levelNext l5 q M = levelNext l4 q M := by
    intro q M
    unfold levelNext
    rw [a3]
  have hne5 : ∀ q, nodeElem l5 q = nodeElem l4 q := by
    intro q
    unfold nodeElem
    rw [a3]
  obtain ⟨l6, hl6, b1, b2, b3, b4, b5, b6, b7, b8⟩ :=
    setNodeElem_spec (l := l5) (p := 0) (some N) (by rw [a3]; omega)
  rw [a1, hl6]
  simp only []
  by_cases hs : l4.sum = 0
  · have hs1 : l6.sum + 1 = 1 := by rw [b2, a4, hs]; rfl
    have ht6 : l6.tail = 1 := b5.trans a2
    obtain ⟨l8, hl8, c1, c2, c3, c4, c5, c6, c7, c8⟩ :=
      setNodeElem_spec (l := { l6 with sum := l6.sum + 1 }) (p := l6.tail) (some N)
        (by show l6.tail < l6.nodes.length; rw [ht6, b6, a3]; omega)
    rw [if_pos hs1, hl8]
    simp only [ht6] at c8
    refine ⟨l8, rfl, ?_, ?_, ?_, ?_, ?_, ?_, ?_, ?_, ?_, ?_⟩
    · intro q M
      rw [c7]
      show levelNext l6 q M = _
      rw [b7, hnx5]
    · rw [c1]
      show l6.elems = _
      rw [b1, a6]
    · intro q hq
      rw [c8, if_neg (by omega)]
      show nodeElem l6 q = _
      rw [b8, if_neg (by omega), hne5]
    · rw [c8, if_neg (by omega)]
      show nodeElem l6 0 = _
      rw [b8, if_pos rfl]
    · rw [c8, if_pos rfl, if_pos hs]
    · rw [c4]; show l6.head = 0; rw [b4, a1]
    · rw [c5]; show l6.tail = 1; rw [b5, a2]
    · rw [c3]; show l6.maxLevel = _; rw [b3, a5]
    · rw [c2]; show l6.sum + 1 = _; rw [b2, a4]
    · rw [c6]; show l6.nodes.length = _; rw [b6, a3]
  · have hs1 : ¬ l6.sum + 1 = 1 := by rw [b2, a4]; omega
    rw [if_neg hs1]
    refine ⟨_, rfl, ?_, ?_, ?_, ?_, ?_, ?_, ?_, ?_, ?_, ?_⟩
    · intro q M
      show levelNext l6 q M = _
      rw [b7, hnx5]
    · show l6.elems = _
      rw [b1, a6]
    · intro q hq
      show nodeElem l6 q = _
      rw [b8, if_neg (by omega), hne5]
    · show nodeElem l6 0 = _
      rw [b8, if_pos rfl]
    · rw [if_neg hs]
      show nodeElem l6 1 = _
      rw [b8, if_neg (by omega), hne5]
    · show l6.head = 0; rw [b4, a1]
    · show l6.tail = 1; rw [b5, a2]
    · show l6.maxLevel = _; rw [b3, a5]
    · show l6.sum + 1 = _; rw [b2, a4]
    · show l6.nodes.length = _; rw [b6, a3]

theorem levelNext_allocNode (l : myList) (ep lvl q M : Nat) :
    levelNext (allocNode l ep lvl) q M =
      if q = l.nodes.length then (if M ≤ lvl then some none else none) else levelNext l q M := by
  unfold allocNode
  rw [levelNext_appendNode, getNode_level]

theorem nodeElem_allocNode (l : myList) (ep lvl q : Nat) :
    nodeElem (allocNode l ep lvl) q =
      if q = l.nodes.length then some (some ep) else nodeElem l q := by
  unfold allocNode
  rw [nodeElem_appendNode]
  rfl

theorem raiseMaxLevel_frame (l : myList) (lvl : Nat) :
    (raiseMaxLevel l lvl).elems = l.elems ∧ (raiseMaxLevel l lvl).nodes = l.nodes ∧
      (raiseMaxLevel l lvl).sum = l.sum ∧ (raiseMaxLevel l lvl).head = l.head ∧
      (raiseMaxLevel l lvl).tail = l.tail ∧
      (raiseMaxLevel l lvl).maxLevel = max l.maxLevel lvl := by
  unfold raiseMaxLevel
  split
  · rename_i hc
    refine ⟨rfl, rfl, rfl, rfl, rfl, ?_⟩
    show lvl = max l.maxLevel lvl
    rw [max_eq_right (by omega)]
  · rename_i hc
    refine ⟨rfl, rfl, rfl, rfl, rfl, ?_⟩
    rw [max_eq_left (by omega)]

theorem pushInsert_ok {l1 : myList} {held : List Nat} (hS : Shape l1 held) (e : myElem)
    (draw : Nat → Nat) (hlen : l1.elems.length = l1.nodes.length + 1)
    (he : l1.elems[l1.nodes.length]? = some e)
    (hnew : ∀ h, held.head? = some h → sid l1 h < e.startId) :
    ∃ l2 fp fe, pushInsert l1 l1.nodes.length draw = .done (l2, none) ∧
      ListInv l2 (l1.nodes.length :: held) ∧ l1.elems[fp]? = some fe ∧
      l2.elems = l1.elems.set fp { fe with endId := (e.startId + 2 ^ 64 - 1) % 2 ^ 64 } ∧
      (∀ h, held.head? = some h → fp = h) ∧
      (held = [] → nodeElem l1 1 = some (some fp)) ∧ fp < l1.nodes.length ∧
      nodeElem l2 1 =
        (if held = [] then some (some l1.nodes.length) else nodeElem l1 1) := by
  have hge := hS.len_ge
  have hN2 : 2 ≤ l1.nodes.length := by omega
  have hlvl := getLevel_lt draw
  generalize hlv : getLevel draw = lvl at hlvl
  have hnx2 := levelNext_allocNode l1 l1.nodes.length lvl
  have hne2 := nodeElem_allocNode l1 l1.nodes.length lvl
  generalize hl2 : allocNode l1 l1.nodes.length lvl = l2 at hnx2 hne2
  have hsc2 : l2.elems = l1.elems ∧ l2.head = 0 ∧ l2.tail = 1 ∧ l2.sum = l1.sum ∧
      l2.maxLevel = l1.maxLevel ∧ l2.nodes.length = l1.nodes.length + 1 := by
    rw [← hl2]
    exact ⟨rfl, hS.head_eq, hS.tail_eq, rfl, rfl, by simp [allocNode]⟩
  obtain ⟨hel2, s1, s2, s3, s4, s5⟩ := hsc2
  have heN : elemOf l2 (some l1.nodes.length) = some (l1.nodes.length, e) := by
    rw [elemOf_eq, hne2, if_pos rfl, hel2]
    simp [he]
  obtain ⟨hp, hh1, hh2, hh3⟩ := hS.head_elem
  have hhp : hp < l1.elems.length := by omega
  have he0 : elemOf l2 (some 0) = some (hp, l1.elems[hp]) := by
    rw [elemOf_eq, hne2, if_neg (by omega), hh1, hel2]
    simp [List.getElem?_eq_getElem hhp]
  have hnewall : ∀ h ∈ held, sid l1 h < e.startId := by
    intro h hh
    cases held with
    | nil => simp at hh
    | cons a t =>
      have ha := hnew a rfl
      rcases List.mem_cons.1 hh with rfl | hh
      · exact ha
      · exact Nat.lt_trans ((List.pairwise_cons.1 hS.sorted).1 h hh) ha
  have hlatest : isLatest l2 l1.nodes.length = some true := by
    unfold isLatest
    rw [s1, heN, he0]
    simp only []
    cases hheld : held with
    | nil =>
      have : l2.sum = 0 := by rw [s3, hS.sum_eq, hheld]; rfl
      simp [this]
    | cons a t =>
      have ha := hnew a (by rw [hheld]; rfl)
      have hpa := hh3 a (by rw [hheld]; rfl)
      subst hpa
      have : sid l1 hp = (l1.elems[hp]).startId := by
        simp [sid, List.getElem?_eq_getElem hhp]
      rw [this] at ha
      simp [ha]
  obtain ⟨t1, t0, t4, t2, t3, t5⟩ := raiseMaxLevel_frame l2 lvl
  generalize hl3 : raiseMaxLevel l2 lvl = l3 at t1 t0 t4 t2 t3 t5
  have hnx3 : ∀ q M, levelNext l3 q M = levelNext l2 q M := by
    intro q M
    unfold levelNext
    rw [t0]
  have hne3 : ∀ q, nodeElem l3 q = nodeElem l2 q := by
    intro q
    unfold nodeElem
    rw [t0]
  have hheadsome : ∀ L, L < MAX_LEVEL_LIMIT → ∃ w, levelNext l1 0 L = some w :=
    fun L hL => ⟨_, Chain_head (hS.chain L hL)⟩
  obtain ⟨l4, hl4, hN4, hf4⟩ := pushLink_spec l1.nodes.length (by omega) lvl l3
    (t2.trans s1)
    (fun L hL => by
      rw [hnx3, hnx2, if_neg (by omega)]
      exact hheadsome L (by omega))
    (fun L hL => by
      rw [hnx3, hnx2, if_pos rfl, if_pos hL]
      exact ⟨_, rfl⟩)
  have hc0 := hS.chain 0 (by decide)
  rw [hS.filter_zero] at hc0
  have hfirst : levelNext l4 l1.nodes.length 0 = some (some (held.head?.getD 1)) := by
    rw [hf4, if_pos (Nat.zero_le _), if_neg (by omega), if_pos rfl, hnx3, hnx2,
      if_neg (by omega)]
    exact Chain_head hc0
  have heo4 : ∀ p, elemOf l4 p = elemOf l2 p := by
    intro p
    rw [hN4.elemOf_same]
    exact elemOf_congr t1 hne3 p
  obtain ⟨fp, fe, hfe1, hfe2, hfe3, hfe4, hfe5⟩ : ∃ fp fe, l1.elems[fp]? = some fe ∧
      elemOf l2 (some (held.head?.getD 1)) = some (fp, fe) ∧
      (∀ h, held.head? = some h → fp = h) ∧ (held = [] → nodeElem l1 1 = some (some fp)) ∧
      fp < l1.nodes.length := by
    cases hheld : held with
    | nil =>
      obtain ⟨tp, ht1, ht2⟩ := hS.tail_elem
      have htp : tp < l1.elems.length := by omega
      refine ⟨tp, l1.elems[tp], List.getElem?_eq_getElem htp, ?_, by simp, fun _ => ht1, ht2⟩
      simp only [List.head?_nil, Option.getD_none]
      rw [elemOf_eq, hne2, if_neg (by omega), ht1, hel2]
      simp [List.getElem?_eq_getElem htp]
    | cons a t =>
      have hmem : a ∈ held := by rw [hheld]; exact List.mem_cons_self _ _
      obtain ⟨x, hx1, hx2, _⟩ := hS.elemOf_held hmem
      obtain ⟨_, hx4, hx5, _⟩ := hS.node a hmem
      refine ⟨a, x, hx1, ?_, by simp, by simp, hx4⟩
      simp only [List.head?_cons, Option.getD_some]
      rw [elemOf_eq, hne2, if_neg (by omega), hx5, hel2]
      simp [hx1]
  obtain ⟨l8, hl8, o1, o2, o3, o4, o5, o6, o7, o8, o9, o10⟩ :=
    pushTail_spec (N := l1.nodes.length) (hN4.head.trans (t2.trans s1))
      (hN4.tail.trans (t3.trans s2)) (by rw [hN4.len, t0, s5]; omega) hfirst
      ((heo4 _).trans hfe2) ((heo4 _).trans heN)
  have hsum4 : l4.sum = held.length := by rw [hN4.sum, t4, s3, hS.sum_eq]
  have hel4 : l4.elems = l1.elems := by rw [hN4.elems, t1, hel2]
  refine ⟨l8, fp, fe, ?_, ?_, hfe1, by rw [o2, hel4], hfe3, hfe4, hfe5, ?_⟩
  · rw [pushInsert_eq, hlv, hl2, hlatest, hl3]
    simp only [Run.ofOption, Run.bind, Bool.true_eq_false, if_false, hl4]
    exact hl8
  · refine shape_push hS e lvl hlvl hlen he hnewall fp fe
      { fe with endId := (e.startId + 2 ^ 64 - 1) % 2 ^ 64 } rfl hfe1 ?_ (by rw [o2, hel4]) ?_ ?_
      ?_ ⟨o6, o7, ?_, ?_, ?_⟩
    · intro q M
      rw [o1, hf4]
      simp only [hnx3, hnx2]
      have hN0 : l1.nodes.length ≠ 0 := by omega
      have hN0' : ¬ 0 = l1.nodes.length := by omega
      by_cases hq : q = l1.nodes.length
      · subst hq
        by_cases hM : M ≤ lvl <;> simp [hM, hN0, hN0']
      · by_cases hM : M ≤ lvl <;> by_cases hq0 : q = 0 <;> simp [hq, hM, hq0, hN0, hN0']
    · intro q hq
      rw [o3 q hq, hN4.nodeElem, hne3, hne2]
    · exact o4
    · rw [o5, hsum4]
      by_cases hheld : held = []
      · subst hheld
        exact ⟨l1.nodes.length, by simp, by omega⟩
      · have : ¬ ((held.length : Int) = 0) := by
          intro hc
          exact hheld (List.length_eq_zero.1 (by exact_mod_cast hc))
        rw [if_neg this, hN4.nodeElem, hne3, hne2, if_neg (by omega)]
        obtain ⟨tp, ht1, ht2⟩ := hS.tail_elem
        exact ⟨tp, ht1, by omega⟩
    · rw [o8, hN4.maxLevel, t5, s4]
    · rw [o9, hsum4]
    · rw [o10, hN4.len, t0, s5]
  · rw [o5, hsum4]
    by_cases hheld : held = []
    · subst hheld
      simp
    · have : ¬ ((held.length : Int) = 0) := by
        intro hc
        exact hheld (List.length_eq_zero.1 (by exact_mod_cast hc))
      rw [if_neg this, if_neg hheld, hN4.nodeElem, hne3, hne2, if_neg (by omega)]

theorem push_eq (l : myList) (e : myElem) (draw : Nat → Nat) :
    push l e draw =
      (if (allocElem l e).sum ≥ MAX_RECORD_NUM then
          (truncateSome (allocElem l e) NUM_PER_TRUNCATE).bind fun r => .done r.1
        else .done (allocElem l e)).bind fun l1 => pushInsert l1 l.elems.length draw :=
  rfl

theorem sid_allocElem {l : myList} (e : myElem) {p : Nat} (hp : p < l.elems.length) :
    sid (allocElem l e) p = sid l p := by
  unfold sid allocElem
  simp only []
  rw [List.getElem?_append_left hp]

theorem shape_allocElem {l : myList} {held : List Nat} (hS : Shape l held) (e : myElem) :
    Shape (allocElem l e) held :=
  { head_eq := hS.head_eq
    tail_eq := hS.tail_eq
    len_ge := hS.len_ge
    len_le := by
      show l.nodes.length ≤ (l.elems ++ [e]).length
      have := hS.len_le
      simp
      omega
    maxLevel_lt := hS.maxLevel_lt
    sum_eq := hS.sum_eq
    chain := fun L hL => by
      show Chain (allocElem l e) L 0 (held.filter fun p => onLevel l p L)
      exact Chain_congr _ 0 0 (hS.chain L hL) rfl (fun _ _ => rfl)
    node := hS.node
    sorted := by
      refine hS.sorted.imp_of_mem (fun {a b} ha hb h => ?_)
      have h1 := (hS.node a ha).2.1
      have h2 := (hS.node b hb).2.1
      have h3 := hS.len_le
      rw [sid_allocElem e (by omega), sid_allocElem e (by omega)]
      exact h
    tail_elem := hS.tail_elem
    head_elem := hS.head_elem }

theorem push_ok {l : myList} {held : List Nat} (hI : ListInv l held) (e : myElem)
    (draw : Nat → Nat) (hnew : ∀ h, held.head? = some h → sid l h < e.startId) :
    ∃ l2 fp fe, push l e draw = .done (l2, none) ∧
      ListInv l2 (l.nodes.length ::
        (if l.sum ≥ MAX_RECORD_NUM then held.take (held.length - 100) else held)) ∧
      (l.elems ++ [e])[fp]? = some fe ∧ fp < l.nodes.length ∧
      l2.elems = (l.elems ++ [e]).set fp
        { fe with endId := (e.startId + 2 ^ 64 - 1) % 2 ^ 64 } ∧
      (∀ h, held.head? = some h → fp = h) ∧
      (held = [] → nodeElem l 1 = some (some fp)) ∧
      nodeElem l2 1 = (if held = [] then some (some l.nodes.length) else nodeElem l 1) := by
  have hS := hI.toShape
  have hS0 := shape_allocElem hS e
  have hleq := hI.len_eq
  have hsum := hS.sum_eq
  have he0 : (allocElem l e).elems[l.nodes.length]? = some e := by
    show (l.elems ++ [e])[l.nodes.length]? = some e
    rw [← hleq]
    exact List.getElem?_concat_length _ _
  have hlen0 : (allocElem l e).elems.length = (allocElem l e).nodes.length + 1 := by
    show (l.elems ++ [e]).length = l.nodes.length + 1
    simp [hleq]
  have hsid0 : ∀ h ∈ held, sid (allocElem l e) h = sid l h := by
    intro h hh
    have h1 := (hS.node h hh).2.1
    exact sid_allocElem e (by omega)
  rw [push_eq, hleq]
  by_cases hs : l.sum ≥ MAX_RECORD_NUM
  · have hs0 : (allocElem l e).sum ≥ MAX_RECORD_NUM := hs
    rw [if_pos hs0, if_pos hs]
    have hlen1000 : 1000 ≤ held.length := by
      unfold MAX_RECORD_NUM at hs
      rw [hsum] at hs
      exact_mod_cast hs
    obtain ⟨l1, hl1, hS1, e1, n1, ne1⟩ := truncateSome_spec hS0 NUM_PER_TRUNCATE
      (held.length - 100) (by omega) (by omega)
      (by
        show ((held.length - 100 : Nat) : Int) = l.sum - NUM_PER_TRUNCATE
        unfold NUM_PER_TRUNCATE
        rw [hsum]
        omega)
    have hn1 : l1.nodes.length = l.nodes.length := n1
    obtain ⟨l2, fp, fe, h1, h2, h3, h4, h5, h6, h7, h8⟩ := pushInsert_ok hS1 e draw
      (by rw [e1, n1]; exact hlen0) (by rw [e1, n1]; exact he0)
      (fun h hh => by
        have hmem : h ∈ held.take (held.length - 100) := by
          cases hx : held.take (held.length - 100) with
          | nil => rw [hx] at hh; simp at hh
          | cons a t =>
            rw [hx] at hh
            simp only [List.head?_cons, Option.some.injEq] at hh
            subst hh
            exact List.mem_cons_self _ _
        have hmem2 : h ∈ held := List.mem_of_mem_take hmem
        have hh2 : held.head? = some h := by
          rw [List.head?_take, if_neg (by omega)] at hh
          exact hh
        have : sid l1 h = sid l h := by
          unfold sid
          rw [e1]
          exact hsid0 h hmem2
        rw [this]
        exact hnew h hh2)
    have hne : held ≠ [] := by
      intro hc
      rw [hc] at hlen1000
      simp at hlen1000
    have hne2 : held.take (held.length - 100) ≠ [] := by
      intro hc
      have := congrArg List.length hc
      rw [List.length_take] at this
      simp at this
      omega
    rw [hn1] at h1 h2 h7 h8
    refine ⟨l2, fp, fe, ?_, h2, ?_, h7, ?_, ?_, fun hc => absurd hc hne, ?_⟩
    · simp only [hl1, Run.bind]
      exact h1
    · rw [e1] at h3
      exact h3
    · rw [e1] at h4
      exact h4
    · intro h hh
      exact h5 h (by rw [List.head?_take, if_neg (by omega)]; exact hh)
    · rw [h8, if_neg hne2, if_neg hne, ne1]
      rfl
  · have hs0 : ¬ (allocElem l e).sum ≥ MAX_RECORD_NUM := hs
    rw [if_neg hs0, if_neg hs]
    obtain ⟨l2, fp, fe, h1, h2, h3, h4, h5, h6, h7, h8⟩ := pushInsert_ok hS0 e draw hlen0 he0
      (fun h hh => by
        have hmem : h ∈ held := by
          cases held with
          | nil => simp at hh
          | cons a t =>
            simp only [List.head?_cons, Option.some.injEq] at hh
            subst hh
            exact List.mem_cons_self _ _
        rw [hsid0 h hmem]
        exact hnew h hh)
    exact ⟨l2, fp, fe, by simp only [Run.bind]; exact h1, h2, h3, h7, h4, h5, h6, h8⟩

theorem pushInsert_reject {l1 : myList} {held : List Nat} (hS : Shape l1 held) (e : myElem)
    (draw : Nat → Nat) (he : l1.elems[l1.nodes.length]? = some e) {h : Nat}
    (hh : held.head? = some h) (hnot : ¬ sid l1 h < e.startId) :
    pushInsert l1 l1.nodes.length draw =
      .done (allocNode l1 l1.nodes.length (getLevel draw), some .notLatest) := by
  have hge := hS.len_ge
  have hnx2 := levelNext_allocNode l1 l1.nodes.length (getLevel draw)
  have hne2 := nodeElem_allocNode l1 l1.nodes.length (getLevel draw)
  rw [pushInsert_eq]
  generalize hl2 : allocNode l1 l1.nodes.length (getLevel draw) = l2 at hnx2 hne2
  have hsc2 : l2.elems = l1.elems ∧ l2.head = 0 ∧ l2.sum = l1.sum := by
    rw [← hl2]
    exact ⟨rfl, hS.head_eq, rfl⟩
  obtain ⟨hel2, s1, s3⟩ := hsc2
  have heN : elemOf l2 (some l1.nodes.length) = some (l1.nodes.length, e) := by
    rw [elemOf_eq, hne2, if_pos rfl, hel2]
    simp [he]
  obtain ⟨hp, hh1, hh2, hh3⟩ := hS.head_elem
  have hlenle := hS.len_le
  have hhp : hp < l1.elems.length := by omega
  have he0 : elemOf l2 (some 0) = some (hp, l1.elems[hp]) := by
    rw [elemOf_eq, hne2, if_neg (by omega), hh1, hel2]
    simp [List.getElem?_eq_getElem hhp]
  have hpa := hh3 h hh
  subst hpa
  have hsid : sid l1 hp = (l1.elems[hp]).startId := by
    simp [sid, List.getElem?_eq_getElem hhp]
  rw [hsid] at hnot
  have hsum : ¬ l2.sum = 0 := by
    rw [s3, hS.sum_eq]
    cases held with
    | nil => simp at hh
    | cons a t =>
      simp only [List.length_cons]
      omega
  have hlatest : isLatest l2 l1.nodes.length = some false := by
    unfold isLatest
    rw [s1, heN, he0]
    simp only []
    rw [if_neg hnot, if_neg hsum]
  rw [hlatest]
  simp [Run.ofOption, Run.bind]

theorem push_reject {l : myList} {held : List Nat} (hI : ListInv l held) (e : myElem)
    (draw : Nat → Nat) {h : Nat} (hh : held.head? = some h) (hnot : ¬ sid l h < e.startId) :
    ∃ l2, push l e draw = .done (l2, some .notLatest) := by
  have hS := hI.toShape
  have hS0 := shape_allocElem hS e
  have hleq := hI.len_eq
  have hsum := hS.sum_eq
  have hmem : h ∈ held := by
    cases held with
    | nil => simp at hh
    | cons a t =>
      simp only [List.head?_cons, Option.some.injEq] at hh
      subst hh
      exact List.mem_cons_self _ _
  have hlt := (hS.node h hmem).2.1
  have hsid0 : sid (allocElem l e) h = sid l h := sid_allocElem e (by omega)
  have he0 : (allocElem l e).elems[l.nodes.length]? = some e := by
    show (l.elems ++ [e])[l.nodes.length]? = some e
    rw [← hleq]
    exact List.getElem?_concat_length _ _
  rw [push_eq, hleq]
  by_cases hs : l.sum ≥ MAX_RECORD_NUM
  · have hs0 : (allocElem l e).sum ≥ MAX_RECORD_NUM := hs
    rw [if_pos hs0]
    have hlen1000 : 1000 ≤ held.length := by
      unfold MAX_RECORD_NUM at hs
      rw [hsum] at hs
      exact_mod_cast hs
    obtain ⟨l1, hl1, hS1, e1, n1, ne1⟩ := truncateSome_spec hS0 NUM_PER_TRUNCATE
      (held.length - 100) (by omega) (by omega)
      (by
        show ((held.length - 100 : Nat) : Int) = l.sum - NUM_PER_TRUNCATE
        unfold NUM_PER_TRUNCATE
        rw [hsum]
        omega)
    have hn1 : l1.nodes.length = l.nodes.length := n1
    have hh2 : (held.take (held.length - 100)).head? = some h := by
      rw [List.head?_take, if_neg (by omega)]
      exact hh
    have hsid1 : sid l1 h = sid l h := by
      unfold sid
      rw [e1]
      exact hsid0
    have := pushInsert_reject hS1 e draw (by rw [e1, n1]; exact he0) hh2
      (by rw [hsid1]; exact hnot)
    rw [hn1] at this
    exact ⟨_, by simp only [hl1, Run.bind]; exact this⟩
  · have hs0 : ¬ (allocElem l e).sum ≥ MAX_RECORD_NUM := hs
    rw [if_neg hs0]
    have := pushInsert_reject hS0 e draw he0 hh (by rw [hsid0]; exact hnot)
    exact ⟨_, by simp only [Run.bind]; exact this⟩

theorem heldCount_le : ∀ n, heldCount n ≤ 1000
  | 0 => by simp [heldCount]
  | n + 1 => by
    have := heldCount_le n
    unfold heldCount
    split <;> omega

theorem heldCount_pos : ∀ n, 0 < n → 0 < heldCount n
  | 0, h => by omega
  | n + 1, _ => by
    unfold heldCount
    omega

theorem heldCount_le_self : ∀ n, heldCount n ≤ n
  | 0 => by simp [heldCount]
  | n + 1 => by
    have := heldCount_le_self n
    unfold heldCount
    split <;> omega

theorem heldCount_eq : ∀ n, n ≤ 1000 → heldCount n = n
  | 0, _ => rfl
  | n + 1, h => by
    have := heldCount_eq n (by omega)
    unfold heldCount
    rw [this, if_neg (by omega)]

theorem heldCount_succ (n : Nat) :
    heldCount (n + 1) = (if heldCount n ≥ 1000 then heldCount n - 100 else heldCount n) + 1 :=
  rfl

theorem heldCount_1001 : heldCount 1001 = 901 := by
  rw [show (1001 : Nat) = 1000 + 1 from rfl, heldCount_succ, heldCount_eq 1000 (Nat.le_refl _)]
  rfl

theorem length_desc : ∀ (c hi : Nat), (desc hi c).length = c
  | 0, _ => rfl
  | c + 1, hi => by simp [desc, length_desc c]

theorem take_desc : ∀ (c hi m : Nat), m ≤ c → (desc hi c).take m = desc hi m
  | 0, hi, m, h => by
    have : m = 0 := by omega
    subst this
    rfl
  | c + 1, hi, 0, _ => rfl
  | c + 1, hi, m + 1, h => by
    simp only [desc, List.take_succ_cons]
    rw [take_desc c (hi - 1) m (by omega)]

theorem mem_desc : ∀ (c hi p : Nat), c ≤ hi → (p ∈ desc hi c ↔ hi - c < p ∧ p ≤ hi)
  | 0, hi, p, _ => by
    simp only [desc, List.not_mem_nil, false_iff]
    omega
  | c + 1, hi, p, h => by
    simp only [desc, List.mem_cons]
    rw [mem_desc c (hi - 1) p (by omega)]
    omega

theorem head?_desc (c hi : Nat) : (desc hi (c + 1)).head? = some hi := rfl

theorem gluedAt_last (es : List myElem) (e : myElem) :
    gluedAt (es ++ [e]) es.length = some e := by
  unfold gluedAt
  rw [List.getElem?_concat_length]
  have : (es ++ [e])[es.length + 1]? = none := List.getElem?_eq_none (by simp)
  rw [this]

theorem gluedAt_none (es : List myElem) (i : Nat) (h : es.length ≤ i) : gluedAt es i = none := by
  unfold gluedAt
  rw [List.getElem?_eq_none h]

theorem gluedAt_append_lt (es : List myElem) (e : myElem) (i : Nat) (h : i + 1 < es.length) :
    gluedAt (es ++ [e]) i = gluedAt es i := by
  unfold gluedAt
  rw [List.getElem?_append_left (by omega), List.getElem?_append_left h]

theorem gluedAt_append_prev (es : List myElem) (e : myElem) (i : Nat) (h : i + 1 = es.length)
    (x : myElem) (hx : gluedAt es i = some x) :
    gluedAt (es ++ [e]) i = some { x with endId := (e.startId + 2 ^ 64 - 1) % 2 ^ 64 } := by
  unfold gluedAt at hx ⊢
  have h1 : es[i + 1]? = none := List.getElem?_eq_none (by omega)
  have h2 : (es ++ [e])[i + 1]? = some e := by
    rw [h]
    exact List.getElem?_concat_length _ _
  rw [List.getElem?_append_left (by omega), h2]
  rw [h1] at hx
  cases hi : es[i]? with
  | none => rw [hi] at hx; simp at hx
  | some y =>
    rw [hi] at hx
    simp only [Option.some.injEq] at hx
    subst hx
    rfl

theorem gluedAt_startId (es : List myElem) (i : Nat) (x : myElem) (hx : gluedAt es i = some x) :
    ∃ e, es[i]? = some e ∧ x.startId = e.startId ∧ x.data = e.data := by
  unfold gluedAt at hx
  cases hi : es[i]? with
  | none => rw [hi] at hx; simp at hx
  | some y =>
    rw [hi] at hx
    refine ⟨y, rfl, ?_⟩
    cases hj : es[i + 1]? with
    | none =>
      rw [hj] at hx
      simp only [Option.some.injEq] at hx
      subst hx
      exact ⟨rfl, rfl⟩
    | some z =>
      rw [hj] at hx
      simp only [Option.some.injEq] at hx
      subst hx
      exact ⟨rfl, rfl⟩

theorem Pushed_init : Pushed [] getMyList := by
  refine
    { inv :=
        { head_eq := rfl
          tail_eq := rfl
          len_ge := by simp [getMyList, desc, heldCount]
          len_le := by simp [getMyList]
          maxLevel_lt := by decide
          sum_eq := by simp [getMyList, desc, heldCount]
          chain := ?_
          node := by simp [desc, heldCount]
          sorted := by simp [desc, heldCount]
          tail_elem := ⟨1, rfl, by decide⟩
          head_elem := ⟨0, rfl, by decide, by simp [desc, heldCount]⟩
          len_eq := rfl }
      nodes_len := rfl
      elems := ?_
      tail0 := fun _ => rfl
      tail1 := fun h => absurd rfl h }
  · intro L hL
    have hL' : L < 10 := hL
    simp only [desc, heldCount, List.filter_nil, Chain]
    interval_cases L <;> rfl
  · intro i
    simp [getMyList, gluedAt]

theorem Pushed.sid_last {es : List myElem} {l : myList} (hP : Pushed es l) {x : myElem}
    (hx : es.getLast? = some x) : sid l (es.length + 1) = x.startId := by
  have hne : es ≠ [] := by
    intro hc
    rw [hc] at hx
    simp at hx
  have hlen : 0 < es.length := List.length_pos.2 hne
  have h1 := hP.elems (es.length - 1)
  have h2 : es.length - 1 + 2 = es.length + 1 := by omega
  rw [h2] at h1
  have h3 : es[es.length - 1]? = some x := by
    rw [List.getLast?_eq_getElem?] at hx
    exact hx
  have h4 : es[es.length - 1 + 1]? = none := List.getElem?_eq_none (by omega)
  unfold gluedAt at h1
  rw [h3, h4] at h1
  unfold sid
  rw [h1]

theorem Pushed_step {es : List myElem} {l : myList} (hP : Pushed es l) (e : myElem)
    (draw : Nat → Nat) (hnew : ∀ x, es.getLast? = some x → x.startId < e.startId) :
    ∃ l2, push l e draw = .done (l2, none) ∧ Pushed (es ++ [e]) l2 := by
  have hI := hP.inv
  have hnl := hP.nodes_len
  have hel := hI.len_eq
  have hheld0 : es = [] → desc (es.length + 1) (heldCount es.length) = [] := by
    intro h
    subst h
    rfl
  have hheld1 : es ≠ [] → ∃ c, heldCount es.length = c + 1 := by
    intro h
    have := heldCount_pos es.length (List.length_pos.2 h)
    exact ⟨heldCount es.length - 1, by omega⟩
  obtain ⟨l2, fp, fe, h1, h2, h3, h4, h5, h6, h7, h8⟩ := push_ok hI e draw (by
    intro h hh
    by_cases hes : es = []
    · rw [hheld0 hes] at hh
      simp at hh
    · obtain ⟨c, hc⟩ := hheld1 hes
      rw [hc, head?_desc] at hh
      simp only [Option.some.injEq] at hh
      subst hh
      obtain ⟨x, hx⟩ : ∃ x, es.getLast? = some x := by
        cases hg : es.getLast? with
        | none => exact absurd (List.getLast?_eq_none_iff.1 hg) hes
        | some x => exact ⟨x, rfl⟩
      rw [hP.sid_last hx]
      exact hnew x hx)
  refine ⟨l2, h1, ?_⟩
  have hlen2 : l2.elems.length = es.length + 3 := by
    rw [h5, List.length_set, List.length_append, hel, hnl]
    rfl
  have hheld2 : (l.nodes.length ::
      (if l.sum ≥ MAX_RECORD_NUM then
        (desc (es.length + 1) (heldCount es.length)).take
          ((desc (es.length + 1) (heldCount es.length)).length - 100)
      else desc (es.length + 1) (heldCount es.length))) =
      desc ((es ++ [e]).length + 1) (heldCount (es ++ [e]).length) := by
    rw [List.length_append, List.length_singleton, hnl, length_desc]
    have hsum : l.sum = (heldCount es.length : Int) := by
      rw [hI.sum_eq, length_desc]
    show _ = desc (es.length + 1 + 1) (heldCount (es.length + 1))
    conv => rhs; unfold heldCount
    unfold MAX_RECORD_NUM
    rw [hsum]
    by_cases hc : heldCount es.length ≥ 1000
    · have hc' : (heldCount es.length : Int) ≥ 1000 := by exact_mod_cast hc
      rw [if_pos hc', if_pos hc, take_desc _ _ _ (by omega)]
      rfl
    · have hc' : ¬ (heldCount es.length : Int) ≥ 1000 := by
        intro h
        exact hc (by exact_mod_cast h)
      rw [if_neg hc', if_neg hc]
      rfl
  rw [hheld2] at h2
  refine
    { inv := h2
      nodes_len := ?_
      elems := ?_
      tail0 := fun h => absurd h (by simp)
      tail1 := ?_ }
  · rw [← h2.len_eq, hlen2]
    simp
  · intro i
    rw [h5, List.getElem?_set]
    by_cases hes : es = []
    · subst hes
      have hfp := h7 rfl
      rw [hP.tail0 rfl] at hfp
      simp only [Option.some.injEq] at hfp
      subst hfp
      rw [if_neg (by omega)]
      have hl : l.elems.length = 2 := by rw [hel, hnl]; rfl
      by_cases hi : i = 0
      · subst hi
        rw [show 0 + 2 = l.elems.length from by omega, List.getElem?_concat_length]
        exact (gluedAt_last [] e).symm
      · rw [List.getElem?_eq_none (by simp; omega)]
        exact (gluedAt_none _ _ (by simp; omega)).symm
    · obtain ⟨c, hc⟩ := hheld1 hes
      have hfp := h6 (es.length + 1) (by rw [hc, head?_desc])
      subst hfp
      have hlen : 0 < es.length := List.length_pos.2 hes
      have hl : l.elems.length = es.length + 2 := by rw [hel, hnl]
      by_cases hi : es.length + 1 = i + 2
      · rw [if_pos hi, if_pos (by simp; omega)]
        have hi' : i + 1 = es.length := by omega
        have hfe : l.elems[i + 2]? = some fe := by
          rw [← hi, ← h3, List.getElem?_append_left (by omega)]
        rw [hP.elems i] at hfe
        exact (gluedAt_append_prev es e i hi' fe hfe).symm
      · rw [if_neg hi]
        by_cases hlt : i + 2 < l.elems.length
        · rw [List.getElem?_append_left hlt, hP.elems i]
          exact (gluedAt_append_lt es e i (by omega)).symm
        · by_cases heq : i + 2 = l.elems.length
          · rw [heq, List.getElem?_concat_length]
            have : i = es.length := by omega
            subst this
            exact (gluedAt_last es e).symm
          · rw [List.getElem?_eq_none (by simp; omega)]
            exact (gluedAt_none _ _ (by simp; omega)).symm
  · intro _
    rw [h8]
    by_cases hes : es = []
    · subst hes
      rw [if_pos (hheld0 rfl), hnl]
      rfl
    · obtain ⟨c, hc⟩ := hheld1 hes
      rw [if_neg (by rw [hc]; simp [desc])]
      exact hP.tail1 hes

theorem compareTo_lt {e : myElem} {k : Nat} (h : e.endId < k) : compareTo e k = -1 := by
  simp [compareTo, h]

theorem compareTo_gt {e : myElem} {k : Nat} (h1 : ¬ e.endId < k) (h2 : e.startId > k) :
    compareTo e k = 1 := by
  simp [compareTo, h1, h2]

theorem compareTo_eq {e : myElem} {k : Nat} (h1 : ¬ e.endId < k) (h2 : ¬ e.startId > k) :
    compareTo e k = 0 := by
  simp [compareTo, h1, h2]

theorem Shape.onLevel_down {l : myList} {held : List Nat} (hS : Shape l held) {p L M : Nat}
    (hp : p ∈ held) (h : onLevel l p L = true) (hM : M ≤ L) : onLevel l p M = true := by
  obtain ⟨_, _, _, k, _, hk⟩ := hS.node p hp
  exact (hk M).2 (le_trans hM ((hk L).1 h))

theorem Shape.chain_from {l : myList} {held : List Nat} (hS : Shape l held) {L : Nat}
    (hL : L < MAX_LEVEL_LIMIT) {before after : List Nat} (hsplit : held = before ++ after)
    (hon : ∀ t, before.getLast? = some t → onLevel l t L = true) :
    Chain l L ((0 :: before).getLast (List.cons_ne_nil _ _))
      (after.filter fun p => onLevel l p L) := by
  have hc := hS.chain L hL
  rw [hsplit, List.filter_append] at hc
  rcases List.eq_nil_or_concat before with rfl | ⟨pre, t, hbt⟩
  · simpa using hc
  · rw [List.concat_eq_append] at hbt
    subst hbt
    have ht : onLevel l t L = true := hon t (by simp)
    rw [List.filter_append] at hc
    have hft : ([t].filter fun p => onLevel l p L) = [t] := by simp [ht]
    rw [hft, List.append_assoc, List.singleton_append] at hc
    have := (Chain_append _ 0 t _ hc).1
    simpa using this

theorem elemOf_sid {l : myList} {p : Option Nat} {ep : Nat} {e : myElem}
    (h : elemOf l p = some (ep, e)) : sid l ep = e.startId ∧ eid l ep = e.endId := by
  cases p with
  | none => simp [elemOf] at h
  | some a =>
    rw [elemOf_eq] at h
    cases hn : nodeElem l a with
    | none => rw [hn] at h; simp at h
    | some o =>
      cases o with
      | none => rw [hn] at h; simp at h
      | some x =>
        rw [hn] at h
        simp only [Option.map_eq_some', Prod.mk.injEq] at h
        obtain ⟨y, hy1, hy2, hy3⟩ := h
        subst hy2
        subst hy3
        simp [sid, eid, hy1]

theorem getLoop_tail (l : myList) (k f L : Nat) :
    getLoop l k (f + 1) L l.tail = .done (none, some .MEM_NOTFOUND_ERR) := by
  simp [getLoop]

theorem getLoop_spec {l : myList} {held : List Nat} (hS : Shape l held) (k : Nat) {tp : Nat}
    {te : myElem} (htail : elemOf l (some 1) = some (tp, te))
    (hgap : ∀ before b rest, held = before ++ b :: rest → (∀ q ∈ before, k < sid l q) →
      k ≤ eid l b) :
    ∀ (fuel L : Nat) (before after : List Nat),
      after.length + L + 2 ≤ fuel → L < MAX_LEVEL_LIMIT → held = before ++ after →
      (∀ q ∈ before, k < sid l q) → (∀ t, before.getLast? = some t → onLevel l t L = true) →
      ((∃ t ∈ after, sid l t ≤ k) → (te.endId < k ∨ held.getLast? = some tp) →
        ∃ b ∈ after, sid l b ≤ k ∧ k ≤ eid l b ∧
          getLoop l k fuel L ((0 :: before).getLast (List.cons_ne_nil _ _)) =
            .done (some b, none)) ∧
      ((∀ t ∈ after, k < sid l t) →
        getLoop l k fuel L ((0 :: before).getLast (List.cons_ne_nil _ _)) = tailResult tp te k)
  | 0, _, _, _, hf, _, _, _, _ => by omega
  | f + 1, L, before, after, hf, hL, hsplit, hb, hon => by
    have hch := hS.chain_from hL hsplit hon
    have hmemh : ∀ q ∈ before, q ∈ held := fun q hq => hsplit ▸ List.mem_append_left _ hq
    have hmema : ∀ q ∈ after, q ∈ held := fun q hq => hsplit ▸ List.mem_append_right _ hq
    have htmp1 : (0 :: before).getLast (List.cons_ne_nil _ _) ≠ l.tail := by
      rw [hS.tail_eq]
      have := List.getLast_mem (List.cons_ne_nil 0 before)
      rcases List.mem_cons.1 this with h | h
      · rw [h]; decide
      · exact hS.ne_one _ (hmemh _ h)
    have htmpon : ∀ M, M ≤ L → ∀ t, before.getLast? = some t → onLevel l t M = true := by
      intro M hM t ht
      have hmem : t ∈ before := List.mem_of_getLast?_eq_some ht
      exact hS.onLevel_down (hmemh t hmem) (hon t ht) hM
    obtain ⟨hts, hte⟩ := elemOf_sid htail
    generalize htmp : (0 :: before).getLast (List.cons_ne_nil _ _) = tmp at hch htmp1 ⊢
    cases hc : after.filter (fun p => onLevel l p L) with
    | nil =>
      rw [hc] at hch
      unfold Chain at hch
      have hstep : getLoop l k (f + 1) L tmp =
          if compareTo te k = 0 then .done (some tp, none)
          else if compareTo te k > 0 then getLoop l k f L 1
          else if L = 0 then .done (none, some .couldNotFind)
          else getLoop l k f (L - 1) tmp := by
        rw [getLoop, if_neg htmp1, hch]
        simp only [htail]
      by_cases h1 : te.endId < k
      · rw [compareTo_lt h1] at hstep
        simp only [show ¬ ((-1 : Int) = 0) by decide, show ¬ ((-1 : Int) > 0) by decide,
          if_false] at hstep
        by_cases hL0 : L = 0
        · subst hL0
          rw [if_pos rfl] at hstep
          have hafter : after = [] := by
            have := hc
            rw [List.filter_eq_nil_iff] at this
            cases after with
            | nil => rfl
            | cons a t =>
              exfalso
              have ha := hmema a (List.mem_cons_self _ _)
              obtain ⟨_, _, _, kk, _, hk⟩ := hS.node a ha
              exact this a (List.mem_cons_self _ _) ((hk 0).2 (Nat.zero_le _))
          subst hafter
          refine ⟨fun ⟨t, ht, _⟩ => by simp at ht, fun _ => ?_⟩
          rw [hstep]
          simp [tailResult, h1]
        · rw [if_neg hL0] at hstep
          have ih := getLoop_spec hS k htail hgap f (L - 1) before after (by omega) (by omega)
            hsplit hb (htmpon (L - 1) (by omega))
          rw [htmp] at ih
          rw [hstep]
          exact ih
      · by_cases h2 : te.startId > k
        · rw [compareTo_gt h1 h2] at hstep
          simp only [show ¬ ((1 : Int) = 0) by decide, show ((1 : Int) > 0) by decide,
            if_false, if_true] at hstep
          obtain ⟨g, rfl⟩ : ∃ g, f = g + 1 := ⟨f - 1, by omega⟩
          have := getLoop_tail l k g L
          rw [hS.tail_eq] at this
          rw [this] at hstep
          refine ⟨fun ⟨t, ht, hkt⟩ hcond => ?_, fun _ => ?_⟩
          · exfalso
            rcases hcond with hcond | hcond
            · exact h1 hcond
            · have hne : after ≠ [] := List.ne_nil_of_mem ht
              have hlast : held.getLast? = after.getLast? := by
                rw [hsplit, List.getLast?_append_of_ne_nil _ hne]
              rw [hlast] at hcond
              have hsort := (List.pairwise_append.1 (hsplit ▸ hS.sorted)).2.1
              have hlm := List.getLast?_eq_getLast _ hne
              rw [hlm] at hcond
              simp only [Option.some.injEq] at hcond
              rcases pairwise_getLast after hne hsort t ht with h | h
              · rw [h, hcond, hts] at hkt
                omega
              · rw [hcond, hts] at h
                omega
          · rw [hstep]
            simp [tailResult, h1, h2]
        · rw [compareTo_eq h1 h2] at hstep
          simp only [if_true] at hstep
          refine ⟨fun ⟨t, ht, hkt⟩ hcond => ?_, fun _ => ?_⟩
          · rcases hcond with hcond | hcond
            · exact absurd hcond h1
            · have hne : after ≠ [] := List.ne_nil_of_mem ht
              have hlast : held.getLast? = after.getLast? := by
                rw [hsplit, List.getLast?_append_of_ne_nil _ hne]
              rw [hlast] at hcond
              have hmem : tp ∈ after := List.mem_of_getLast?_eq_some hcond
              exact ⟨tp, hmem, by rw [hts]; omega, by rw [hte]; omega, hstep⟩
          · rw [hstep]
            simp [tailResult, h1, h2]
    | cons b c1 =>
      rw [hc] at hch
      unfold Chain at hch
      obtain ⟨l1, l2, hal, hl1, hbon, hl2⟩ := List.filter_eq_cons_iff.1 hc
      have hbmem : b ∈ after := by rw [hal]; simp
      obtain ⟨eb, _, heb, hsb⟩ := hS.elemOf_held (hmema b hbmem)
      have heidb : eid l b = eb.endId := (elemOf_sid heb).2
      have hstep : getLoop l k (f + 1) L tmp =
          if compareTo eb k = 0 then .done (some b, none)
          else if compareTo eb k > 0 then getLoop l k f L b
          else if L = 0 then .done (none, some .couldNotFind)
          else getLoop l k f (L - 1) tmp := by
        rw [getLoop, if_neg htmp1, hch.1]
        simp only [heb]
      have hsplit2 : held = (before ++ l1) ++ b :: l2 := by
        rw [hsplit, hal, List.append_assoc]
      have hsorted := List.pairwise_append.1 (hsplit2 ▸ hS.sorted)
      have hl1gt : ∀ x ∈ l1, sid l b < sid l x := by
        intro x hx
        exact hsorted.2.2 x (List.mem_append_right _ hx) b (List.mem_cons_self _ _)
      by_cases h1 : eb.endId < k
      · rw [compareTo_lt h1] at hstep
        simp only [show ¬ ((-1 : Int) = 0) by decide, show ¬ ((-1 : Int) > 0) by decide,
          if_false] at hstep
        by_cases hL0 : L = 0
        · exfalso
          subst hL0
          have hl1nil : l1 = [] := by
            cases l1 with
            | nil => rfl
            | cons a t =>
              exfalso
              have ha : a ∈ held := hmema a (by rw [hal]; simp)
              obtain ⟨_, _, _, kk, _, hk⟩ := hS.node a ha
              exact hl1 a (List.mem_cons_self _ _) ((hk 0).2 (Nat.zero_le _))
          subst hl1nil
          have := hgap before b l2 (by simpa using hsplit2) hb
          rw [heidb] at this
          omega
        · rw [if_neg hL0] at hstep
          have ih := getLoop_spec hS k htail hgap f (L - 1) before after (by omega) (by omega)
            hsplit hb (htmpon (L - 1) (by omega))
          rw [htmp] at ih
          rw [hstep]
          refine ⟨ih.1, fun hall => ?_⟩
          exfalso
          have := hgap (before ++ l1) b l2 hsplit2 (by
            intro q hq
            rcases List.mem_append.1 hq with h | h
            · exact hb q h
            · exact hall q (by rw [hal]; exact List.mem_append_left _ h))
          rw [heidb] at this
          omega
      · by_cases h2 : eb.startId > k
        · rw [compareTo_gt h1 h2] at hstep
          simp only [show ¬ ((1 : Int) = 0) by decide, show ((1 : Int) > 0) by decide,
            if_false, if_true] at hstep
          have hlen : after.length = l1.length + (l2.length + 1) := by
            rw [hal]; simp
          have ih := getLoop_spec hS k htail hgap f L (before ++ l1 ++ [b]) l2 (by omega) hL
            (by rw [hsplit2]; simp)
            (by
              intro q hq
              rcases List.mem_append.1 hq with h | h
              · rcases List.mem_append.1 h with h | h
                · exact hb q h
                · have := hl1gt q h
                  rw [hsb] at this
                  omega
              · have : q = b := by simpa using h
                rw [this, hsb]
                exact h2)
            (by
              intro t ht
              have : b = t := by simpa using ht
              rw [← this]
              exact hbon)
          have hlast : (0 :: (before ++ l1 ++ [b])).getLast (List.cons_ne_nil _ _) = b := by
            simp
          rw [hlast] at ih
          rw [hstep]
          refine ⟨fun ⟨t, ht, hkt⟩ hcond => ?_, fun hall => ?_⟩
          · have ht2 : t ∈ l2 := by
              rw [hal] at ht
              rcases List.mem_append.1 ht with h | h
              · have := hl1gt t h
                rw [hsb] at this
                omega
              · rcases List.mem_cons.1 h with h | h
                · rw [h, hsb] at hkt
                  omega
                · exact h
            obtain ⟨b', hb', r1, r2, r3⟩ := ih.1 ⟨t, ht2, hkt⟩ hcond
            exact ⟨b', by rw [hal]; simp [hb'], r1, r2, r3⟩
          · exact ih.2 (fun t ht => hall t (by rw [hal]; simp [ht]))
        · rw [compareTo_eq h1 h2] at hstep
          simp only [if_true] at hstep
          refine ⟨fun _ _ => ⟨b, hbmem, by rw [hsb]; omega, by rw [heidb]; omega, hstep⟩,
            fun hall => ?_⟩
          exfalso
          have := hall b hbmem
          rw [hsb] at this
          omega

theorem desc_split : ∀ (before : List Nat) (c hi b : Nat) (rest : List Nat),
    desc hi c = before ++ b :: rest → c ≤ hi → b + before.length = hi
  | [], 0, _, _, _, h, _ => by simp [desc] at h
  | [], c + 1, hi, b, rest, h, _ => by
    simp only [desc, List.nil_append, List.cons.injEq] at h
    simp [h.1]
  | x :: before, 0, _, _, _, h, _ => by simp [desc] at h
  | x :: before, c + 1, hi, b, rest, h, hc => by
    simp only [desc, List.cons_append, List.cons.injEq] at h
    have := desc_split before c (hi - 1) b rest h.2 (by omega)
    simp only [List.length_cons]
    omega

theorem pred_u64 {s : Nat} (h1 : 0 < s) (h2 : s < 2 ^ 64) : (s + 2 ^ 64 - 1) % 2 ^ 64 = s - 1 := by
  have : s + 2 ^ 64 - 1 = (s - 1) + 2 ^ 64 := by omega
  rw [this, Nat.add_mod_right, Nat.mod_eq_of_lt (by omega)]

theorem Pushed.sid_at {es : List myElem} {l : myList} (hP : Pushed es l) {i : Nat} {e : myElem}
    (he : es[i]? = some e) : sid l (i + 2) = e.startId := by
  have h1 := hP.elems i
  unfold sid
  unfold gluedAt at h1
  rw [he] at h1
  cases hj : es[i + 1]? with
  | none => rw [hj] at h1; simp [h1]
  | some z => rw [hj] at h1; simp [h1]

theorem Pushed.eid_last {es : List myElem} {l : myList} (hP : Pushed es l) {i : Nat} {e : myElem}
    (he : es[i]? = some e) (hj : es[i + 1]? = none) : eid l (i + 2) = e.endId := by
  have h1 := hP.elems i
  unfold eid
  unfold gluedAt at h1
  rw [he, hj] at h1
  simp [h1]

theorem Pushed.eid_next {es : List myElem} {l : myList} (hP : Pushed es l) {i : Nat}
    {e e1 : myElem} (he : es[i]? = some e) (hj : es[i + 1]? = some e1) :
    eid l (i + 2) = (e1.startId + 2 ^ 64 - 1) % 2 ^ 64 := by
  have h1 := hP.elems i
  unfold eid
  unfold gluedAt at h1
  rw [he, hj] at h1
  simp [h1]

theorem Pushed.held_bounds {es : List myElem} {l : myList} (_hP : Pushed es l) {p : Nat}
    (hp : p ∈ desc (es.length + 1) (heldCount es.length)) : 2 ≤ p ∧ p ≤ es.length + 1 := by
  have h1 := heldCount_le_self es.length
  have := (mem_desc _ _ p (by omega)).1 hp
  omega

theorem Pushed.gap {es : List myElem} {l : myList} (hP : Pushed es l)
    (hu : ∀ e ∈ es, e.startId < 2 ^ 64) (k : Nat)
    (hk : ∀ x, es.getLast? = some x → k ≤ x.endId) :
    ∀ before b rest, desc (es.length + 1) (heldCount es.length) = before ++ b :: rest →
      (∀ q ∈ before, k < sid l q) → k ≤ eid l b := by
  intro before b rest hsplit hb
  have hcle := heldCount_le_self es.length
  have hbmem : b ∈ desc (es.length + 1) (heldCount es.length) := by rw [hsplit]; simp
  obtain ⟨hb2, hbn⟩ := hP.held_bounds hbmem
  have hpos := desc_split before _ _ b rest hsplit (by omega)
  obtain ⟨i, rfl⟩ : ∃ i, b = i + 2 := ⟨b - 2, by omega⟩
  have hi : i < es.length := by omega
  have hei : es[i]? = some es[i] := List.getElem?_eq_getElem hi
  rcases List.eq_nil_or_concat before with rfl | ⟨pre, q, hq⟩
  · have hin : i + 1 = es.length := by simp at hpos; omega
    have hj : es[i + 1]? = none := List.getElem?_eq_none (by omega)
    rw [hP.eid_last hei hj]
    refine hk _ ?_
    rw [List.getLast?_eq_getElem?, ← hei]
    congr 1
    omega
  · rw [List.concat_eq_append] at hq
    subst hq
    have hsplit2 : desc (es.length + 1) (heldCount es.length) = pre ++ q :: (i + 2) :: rest := by
      rw [hsplit]; simp
    have hq := desc_split pre _ _ q _ hsplit2 (by omega)
    have hqi : q = i + 1 + 2 := by simp at hpos; omega
    have hi1 : i + 1 < es.length := by simp at hpos; omega
    have hej : es[i + 1]? = some es[i + 1] := List.getElem?_eq_getElem hi1
    have hkq := hb q (by simp)
    rw [hqi, hP.sid_at hej] at hkq
    rw [hP.eid_next hei hej, pred_u64 (by omega) (hu _ (List.getElem_mem _))]
    omega

theorem pairwise_last_lt {es : List myElem} {e : myElem}
    (h : (es ++ [e]).Pairwise fun a b => a.startId < b.startId) :
    ∀ x, es.getLast? = some x → x.startId < e.startId := by
  intro x hx
  have hmem : x ∈ es := List.mem_of_getLast?_eq_some hx
  exact (List.pairwise_append.1 h).2.2 x hmem e (by simp)

theorem pushAll_ok : ∀ (rest : List (myElem × (Nat → Nat))) (es : List myElem) (l : myList),
    Pushed es l → (es ++ rest.map (·.1)).Pairwise (fun a b => a.startId < b.startId) →
    ∃ l2, pushAll l rest = .done (l2, none) ∧ Pushed (es ++ rest.map (·.1)) l2
  | [], es, l, hP, _ => ⟨l, rfl, by simpa using hP⟩
  | (e, draw) :: rest, es, l, hP, hinc => by
    have hinc2 : ((es ++ [e]) ++ rest.map (·.1)).Pairwise fun a b => a.startId < b.startId := by
      simpa using hinc
    obtain ⟨l1, h1, hP1⟩ := Pushed_step hP e draw
      (pairwise_last_lt (List.pairwise_append.1 hinc2).1)
    obtain ⟨l2, h2, hP2⟩ := pushAll_ok rest (es ++ [e]) l1 hP1 hinc2
    refine ⟨l2, ?_, by simpa using hP2⟩
    simp only [pushAll, h1, Run.bind]
    exact h2

theorem Pushed.head_held {es : List myElem} {l : myList} (hP : Pushed es l) {x : myElem}
    (hx : es.getLast? = some x) :
    (desc (es.length + 1) (heldCount es.length)).head? = some (es.length + 1) ∧
      sid l (es.length + 1) = x.startId := by
  have hne : es ≠ [] := by
    intro hc
    rw [hc] at hx
    simp at hx
  have := heldCount_pos es.length (List.length_pos.2 hne)
  obtain ⟨c, hc⟩ : ∃ c, heldCount es.length = c + 1 := ⟨heldCount es.length - 1, by omega⟩
  rw [hc]
  exact ⟨rfl, hP.sid_last hx⟩

theorem pushAll_inc : ∀ (rest : List (myElem × (Nat → Nat))) (es : List myElem) (l l2 : myList),
    Pushed es l → es.Pairwise (fun a b => a.startId < b.startId) →
    pushAll l rest = .done (l2, none) →
    (es ++ rest.map (·.1)).Pairwise (fun a b => a.startId < b.startId)
  | [], es, _, _, _, hinc, _ => by simpa using hinc
  | (e, draw) :: rest, es, l, l2, hP, hinc, hrun => by
    have hkey : ∀ x, es.getLast? = some x → x.startId < e.startId := by
      intro x hx
      by_contra hnot
      obtain ⟨hh, hs⟩ := hP.head_held hx
      obtain ⟨l1, h1⟩ := push_reject hP.inv e draw hh (by rw [hs]; exact hnot)
      simp [pushAll, h1, Run.bind] at hrun
    have hinc1 : (es ++ [e]).Pairwise fun a b => a.startId < b.startId := by
      refine List.pairwise_append.2 ⟨hinc, by simp, ?_⟩
      intro a ha b hb
      have hb' : b = e := by simpa using hb
      subst hb'
      have hne : es ≠ [] := List.ne_nil_of_mem ha
      have hlast := hkey _ (List.getLast?_eq_getLast _ hne)
      rcases pairwise_getLast es hne hinc a ha with h | h
      · rw [h]; exact hlast
      · exact Nat.lt_trans h hlast
    obtain ⟨l1, h1, hP1⟩ := Pushed_step hP e draw hkey
    simp only [pushAll, h1, Run.bind] at hrun
    have := pushAll_inc rest (es ++ [e]) l1 l2 hP1 hinc1 hrun
    simpa using this

theorem getLast?_desc : ∀ (c hi : Nat), (desc hi (c + 1)).getLast? = some (hi - c)
  | 0, hi => by simp [desc]
  | c + 1, hi => by
    have := getLast?_desc c (hi - 1)
    rw [desc] at this
    rw [desc, desc, List.getLast?_cons_cons, this]
    congr 1
    omega

theorem Pushed.tail_elem_first {es : List myElem} {l : myList} (hP : Pushed es l) {e0 : myElem}
    (h0 : es[0]? = some e0) : ∃ te, elemOf l (some 1) = some (2, te) ∧ l.elems[2]? = some te := by
  have hne : es ≠ [] := by
    intro hc
    rw [hc] at h0
    simp at h0
  have h1 := hP.elems 0
  obtain ⟨te, hte⟩ : ∃ te, gluedAt es 0 = some te := by
    unfold gluedAt
    rw [h0]
    cases es[0 + 1]? <;> exact ⟨_, rfl⟩
  rw [hte] at h1
  refine ⟨te, ?_, h1⟩
  rw [elemOf_eq, hP.tail1 hne]
  simp [h1]

theorem Pushed.get_hit {es : List myElem} {l : myList} (hP : Pushed es l)
    (hlen : es.length ≤ 1000) (hu : ∀ e ∈ es, e.startId < 2 ^ 64) (k : Nat)
    (hk : ∀ x, es.getLast? = some x → k ≤ x.endId) {e0 : myElem} (h0 : es[0]? = some e0)
    (hk0 : e0.startId ≤ k) :
    ∃ b ∈ desc (es.length + 1) es.length, sid l b ≤ k ∧ k ≤ eid l b ∧
      myList.get l k = .done (some b, none) := by
  have hS := hP.inv.toShape
  have hgap := hP.gap hu k hk
  rw [heldCount_eq _ hlen] at hS hgap
  obtain ⟨te, hte, _⟩ := hP.tail_elem_first h0
  have hpos : 0 < es.length := by
    by_contra hc
    rw [List.getElem?_eq_none (by omega)] at h0
    simp at h0
  obtain ⟨c, hc⟩ : ∃ c, es.length = c + 1 := ⟨es.length - 1, by omega⟩
  have hlast : (desc (es.length + 1) es.length).getLast? = some 2 := by
    rw [hc, getLast?_desc]
    congr 1
    omega
  have h2mem : 2 ∈ desc (es.length + 1) es.length := List.mem_of_getLast?_eq_some hlast
  have hlen2 := hS.len_ge
  rw [length_desc] at hlen2
  have hspec := getLoop_spec hS k hte hgap (l.nodes.length + l.maxLevel + 1) l.maxLevel []
    (desc (es.length + 1) es.length) (by rw [length_desc]; omega) hS.maxLevel_lt rfl
    (by simp) (by simp)
  obtain ⟨b, hb, r1, r2, r3⟩ := hspec.1 ⟨2, h2mem, by rw [hP.sid_at h0]; exact hk0⟩
    (Or.inr hlast)
  refine ⟨b, hb, r1, r2, ?_⟩
  unfold myList.get
  rw [hS.head_eq]
  simpa using r3

theorem pushArgs_elems (ps : List (Nat × List Nat × (Nat → Nat))) :
    (pushArgs ps).map (·.1) = ps.map fun p => conf.getElem p.1 p.2.1 := by
  simp [pushArgs, List.map_map, Function.comp_def]

theorem pushArgs_run (ps : List (Nat × List Nat × (Nat → Nat)))
    (hinc : ps.Pairwise fun a b => a.1 < b.1) :
    ∃ l, pushAll getMyList (pushArgs ps) = .done (l, none) ∧
      Pushed (ps.map fun p => conf.getElem p.1 p.2.1) l := by
  have h := pushAll_ok (pushArgs ps) [] getMyList Pushed_init (by
    rw [List.nil_append, pushArgs_elems]
    exact List.pairwise_map.2 hinc)
  rw [List.nil_append, pushArgs_elems] at h
  exact h

/-- C1: after at most `MAX_RECORD_NUM` pushes `push(getElem(s, d))` with strictly increasing
`s` onto the empty list, whatever levels the nodes get, `get(k)` for every `k` from the first
pushed `startId` on returns the pushed record with the greatest `startId <= k`, and its `endId`
is the next pushed `startId` minus one, or `UINT64_MAX` for the newest record. -/
theorem get_after_pushes (ps : List (Nat × List Nat × (Nat → Nat)))
    (hlen : (ps.length : Int) ≤ MAX_RECORD_NUM)
    (hinc : ps.Pairwise fun a b => a.1 < b.1) (hu : ∀ p ∈ ps, p.1 < 2 ^ 64) :
    ∃ l, pushAll getMyList (pushArgs ps) = .done (l, none) ∧
      ∀ k first, ps.head? = some first → first.1 ≤ k → k < 2 ^ 64 →
        ∃ i s d w ep, ps[i]? = some (s, d, w) ∧ s ≤ k ∧
          (∀ j p, ps[j]? = some p → p.1 ≤ k → j ≤ i) ∧
          myList.get l k = .done (some ep, none) ∧
          l.elems[ep]? = some ⟨s, (match ps[i + 1]? with
            | some p => p.1 - 1
            | none => UINT64_MAX), d⟩ := by
  obtain ⟨l, hrun, hP⟩ := pushArgs_run ps hinc
  refine ⟨l, hrun, ?_⟩
  intro k first hfirst hfk hk64
  have hlen' : (ps.map fun p => conf.getElem p.1 p.2.1).length ≤ 1000 := by
    rw [List.length_map]
    unfold MAX_RECORD_NUM at hlen
    exact_mod_cast hlen
  have h0 : (ps.map fun p => conf.getElem p.1 p.2.1)[0]? = some (conf.getElem first.1 first.2.1) := by
    rw [List.getElem?_map]
    cases ps with
    | nil => simp at hfirst
    | cons a t =>
      simp only [List.head?_cons, Option.some.injEq] at hfirst
      subst hfirst
      simp
  obtain ⟨b, hb, r1, r2, r3⟩ := hP.get_hit hlen'
    (by
      intro e he
      obtain ⟨p, hp, rfl⟩ := List.mem_map.1 he
      exact hu p hp)
    k
    (by
      intro x hx
      have hmem := List.mem_of_getLast?_eq_some hx
      obtain ⟨p, _, rfl⟩ := List.mem_map.1 hmem
      show k ≤ UINT64_MAX
      unfold UINT64_MAX
      omega)
    h0 hfk
  rw [List.length_map] at hb
  have hbb := (mem_desc _ _ b (by omega)).1 hb
  obtain ⟨i, rfl⟩ : ∃ i, b = i + 2 := ⟨b - 2, by omega⟩
  have hi : i < ps.length := by omega
  have hpi : ps[i]? = some ps[i] := List.getElem?_eq_getElem hi
  have hei : (ps.map fun p => conf.getElem p.1 p.2.1)[i]? = some (conf.getElem ps[i].1 ps[i].2.1) := by
    rw [List.getElem?_map, hpi]
    rfl
  have hsid := hP.sid_at hei
  rw [hsid] at r1
  have hel := hP.elems i
  refine ⟨i, ps[i].1, ps[i].2.1, ps[i].2.2, i + 2, hpi, r1, ?_, r3, ?_⟩
  · intro j p hj hpk
    by_contra hji
    have hi1 : i + 1 < ps.length := by
      have hjl : j < ps.length := by
        by_contra hc
        rw [List.getElem?_eq_none (by omega)] at hj
        simp at hj
      omega
    have hpi1 : ps[i + 1]? = some ps[i + 1] := List.getElem?_eq_getElem hi1
    have hei1 : (ps.map fun p => conf.getElem p.1 p.2.1)[i + 1]? =
        some (conf.getElem ps[i + 1].1 ps[i + 1].2.1) := by
      rw [List.getElem?_map, hpi1]
      rfl
    have heid := hP.eid_next hei hei1
    have hpos : ps[i].1 < ps[i + 1].1 :=
      List.pairwise_iff_getElem.1 hinc i (i + 1) hi hi1 (by omega)
    rw [heid] at r2
    have hu1 := hu ps[i + 1] (List.getElem_mem _)
    have hpred : (ps[i + 1].1 + 2 ^ 64 - 1) % 2 ^ 64 = ps[i + 1].1 - 1 :=
      pred_u64 (by omega) hu1
    have hr2 : k ≤ ps[i + 1].1 - 1 := by
      have : (conf.getElem ps[i + 1].1 ps[i + 1].2.1).startId = ps[i + 1].1 := rfl
      rw [this, hpred] at r2
      exact r2
    have hjl : j < ps.length := by
      by_contra hc
      rw [List.getElem?_eq_none (by omega)] at hj
      simp at hj
    have hpj : p = ps[j] := by
      rw [List.getElem?_eq_getElem hjl] at hj
      exact (Option.some.inj hj).symm
    subst hpj
    by_cases hj1 : j = i + 1
    · subst hj1
      omega
    · have := List.pairwise_iff_getElem.1 hinc (i + 1) j hi1 hjl (by omega)
      omega
  · rw [hel]
    unfold gluedAt
    rw [hei]
    by_cases hi1 : i + 1 < ps.length
    · have hpi1 : ps[i + 1]? = some ps[i + 1] := List.getElem?_eq_getElem hi1
      have hei1 : (ps.map fun p => conf.getElem p.1 p.2.1)[i + 1]? =
          some (conf.getElem ps[i + 1].1 ps[i + 1].2.1) := by
        rw [List.getElem?_map, hpi1]
        rfl
      have hpos : ps[i].1 < ps[i + 1].1 :=
        List.pairwise_iff_getElem.1 hinc i (i + 1) hi hi1 (by omega)
      have hu1 := hu ps[i + 1] (List.getElem_mem _)
      rw [hei1, hpi1]
      show some (⟨ps[i].1, (ps[i + 1].1 + 2 ^ 64 - 1) % 2 ^ 64, ps[i].2.1⟩ : myElem) =
        some ⟨ps[i].1, ps[i + 1].1 - 1, ps[i].2.1⟩
      rw [pred_u64 (by omega) hu1]
    · have hpi1 : ps[i + 1]? = none := List.getElem?_eq_none (by omega)
      have hei1 : (ps.map fun p => conf.getElem p.1 p.2.1)[i + 1]? = none := by
        rw [List.getElem?_map, hpi1]
        rfl
      rw [hei1, hpi1]
      rfl

theorem level0Walk_chain {l : myList} (ht : l.tail = 1) :
    ∀ (xs : List Nat) (a fuel : Nat), Chain l 0 a xs → (∀ q ∈ xs, q ≠ 1) → xs.length < fuel →
      level0Walk l fuel (some (xs.head?.getD 1)) = xs
  | [], _, fuel, _, _, hf => by
    obtain ⟨f, rfl⟩ : ∃ f, fuel = f + 1 := ⟨fuel - 1, by simp at hf; omega⟩
    simp [level0Walk, ht]
  | x :: xs, a, fuel, hc, hne, hf => by
    obtain ⟨f, rfl⟩ : ∃ f, fuel = f + 1 := ⟨fuel - 1, by simp at hf; omega⟩
    unfold Chain at hc
    have hx : x ≠ 1 := hne x (List.mem_cons_self _ _)
    have ih := level0Walk_chain ht xs x f hc.2 (fun q hq => hne q (List.mem_cons_of_mem _ hq))
      (by simp at hf; omega)
    simp only [level0Walk, List.head?_cons, Option.getD_some, ht, hx, if_false,
      Chain_head hc.2, ih]

theorem Shape.level0_eq {l : myList} {held : List Nat} (hS : Shape l held) :
    level0 l = held := by
  have hc := hS.chain 0 (by decide)
  rw [hS.filter_zero] at hc
  unfold level0
  rw [hS.head_eq, Chain_head hc]
  have hlen := hS.len_ge
  exact level0Walk_chain hS.tail_eq held 0 _ hc hS.ne_one (by omega)

theorem listAfterCount_chain {l : myList} (ht : l.tail = 1) (k : Nat) :
    ∀ (xs : List Nat) (a fuel count : Nat), Chain l 0 a xs →
      (∀ q ∈ xs, q ≠ 1 ∧ ∃ e, elemOf l (some q) = some (q, e)) → xs.length < fuel →
      listAfterCount l k fuel (some (xs.head?.getD 1)) count =
        .done (count + (xs.takeWhile fun p => decide (k ≤ eid l p)).length)
  | [], _, fuel, count, _, _, hf => by
    obtain ⟨f, rfl⟩ : ∃ f, fuel = f + 1 := ⟨fuel - 1, by simp at hf; omega⟩
    simp [listAfterCount, ht]
  | x :: xs, a, fuel, count, hc, hq, hf => by
    obtain ⟨f, rfl⟩ : ∃ f, fuel = f + 1 := ⟨fuel - 1, by simp at hf; omega⟩
    unfold Chain at hc
    obtain ⟨hx1, e, he⟩ := hq x (List.mem_cons_self _ _)
    have heid : eid l x = e.endId := (elemOf_sid he).2
    have ih := listAfterCount_chain ht k xs x f (count + 1) hc.2
      (fun q hq1 => hq q (List.mem_cons_of_mem _ hq1)) (by simp at hf; omega)
    have hxt : ¬ (some x = some l.tail) := by
      rw [ht]
      intro hc1
      exact hx1 (Option.some.inj hc1)
    simp only [listAfterCount, List.head?_cons, Option.getD_some, hxt, if_false, he,
      Chain_head hc.2]
    by_cases h : e.endId < k
    · rw [compareTo_lt h]
      have hd : decide (k ≤ eid l x) = false := by
        rw [heid]
        simp
        omega
      simp [List.takeWhile_cons, hd]
    · have hcmp : ¬ compareTo e k < 0 := by
        by_cases h2 : e.startId > k
        · rw [compareTo_gt h h2]; decide
        · rw [compareTo_eq h h2]; decide
      have hd : decide (k ≤ eid l x) = true := by
        rw [heid]
        simp
        omega
      rw [if_neg hcmp, ih]
      simp only [List.takeWhile_cons, hd, if_true, List.length_cons]
      congr 1
      omega

theorem listAfterFill_chain {l : myList} :
    ∀ (m : Nat) (xs : List Nat) (a : Nat) (acc : List (Option Nat)), Chain l 0 a xs →
      (∀ q ∈ xs, nodeElem l q = some (some q)) → m ≤ xs.length →
      listAfterFill l m (some (xs.head?.getD 1)) acc =
        .done (((xs.take m).map some).reverse ++ acc)
  | 0, _, _, acc, _, _, _ => by simp [listAfterFill]
  | m + 1, [], _, _, _, _, hm => by simp at hm
  | m + 1, x :: xs, a, acc, hc, hq, hm => by
    unfold Chain at hc
    have ih := listAfterFill_chain m xs x (some x :: acc) hc.2
      (fun q hq1 => hq q (List.mem_cons_of_mem _ hq1)) (by simp at hm; omega)
    simp only [listAfterFill, List.head?_cons, Option.getD_some,
      hq x (List.mem_cons_self _ _), Chain_head hc.2, ih]
    simp

theorem filter_eq_takeWhile {f : Nat → Nat} (k : Nat) :
    ∀ (xs : List Nat), xs.Pairwise (fun p q => f q ≤ f p) →
      (xs.filter fun p => decide (k ≤ f p)) = xs.takeWhile fun p => decide (k ≤ f p)
  | [], _ => rfl
  | x :: xs, h => by
    have h2 := List.pairwise_cons.1 h
    by_cases hx : k ≤ f x
    · simp only [List.filter_cons, List.takeWhile_cons, decide_eq_true hx, if_true]
      rw [filter_eq_takeWhile k xs h2.2]
    · simp only [List.filter_cons, List.takeWhile_cons, decide_eq_false hx]
      simp only [Bool.false_eq_true, if_false]
      refine List.filter_eq_nil_iff.2 (fun q hq hc => ?_)
      have := h2.1 q hq
      have hc' : k ≤ f q := of_decide_eq_true hc
      omega

theorem Shape.listAfter_eq {l : myList} {held : List Nat} (hS : Shape l held) (k : Nat)
    (hcap : held.length ≤ MAX_RESULT_NUM) :
    listAfter l k =
      .done ((((held.takeWhile fun p => decide (k ≤ eid l p)).map some).reverse), none) := by
  have hc := hS.chain 0 (by decide)
  rw [hS.filter_zero] at hc
  have hlen := hS.len_ge
  have hcount := listAfterCount_chain hS.tail_eq k held 0 (l.nodes.length + 1) 0 hc
    (fun q hq => ⟨hS.ne_one q hq, by
      obtain ⟨e, _, he, _⟩ := hS.elemOf_held hq
      exact ⟨e, he⟩⟩) (by omega)
  have hpre : (held.takeWhile fun p => decide (k ≤ eid l p)).length ≤ held.length :=
    (List.takeWhile_prefix _).length_le
  have hfill := listAfterFill_chain (held.takeWhile fun p => decide (k ≤ eid l p)).length held 0
    [] hc (fun q hq => (hS.node q hq).2.2.1) hpre
  have htake : held.take (held.takeWhile fun p => decide (k ≤ eid l p)).length =
      held.takeWhile fun p => decide (k ≤ eid l p) :=
    (List.prefix_iff_eq_take.1 (List.takeWhile_prefix _)).symm
  rw [htake] at hfill
  unfold listAfter
  rw [hS.head_eq, Chain_head hc]
  simp only [hcount, Nat.zero_add]
  rw [Nat.min_eq_left (le_trans hpre hcap), hfill]
  simp

theorem pushAll_total : ∀ (rest : List (myElem × (Nat → Nat))) (es : List myElem) (l : myList),
    Pushed es l → ∃ l2 err, pushAll l rest = .done (l2, err)
  | [], _, l, _ => ⟨l, none, rfl⟩
  | (e, draw) :: rest, es, l, hP => by
    by_cases hkey : ∀ x, es.getLast? = some x → x.startId < e.startId
    · obtain ⟨l1, h1, hP1⟩ := Pushed_step hP e draw hkey
      obtain ⟨l2, err, h2⟩ := pushAll_total rest (es ++ [e]) l1 hP1
      exact ⟨l2, err, by simp only [pushAll, h1, Run.bind]; exact h2⟩
    · have hkey' := hkey
      simp only [not_forall] at hkey'
      obtain ⟨x, hx, hnot⟩ := hkey'
      obtain ⟨hh, hs⟩ := hP.head_held hx
      obtain ⟨l1, h1⟩ := push_reject hP.inv e draw hh (by rw [hs]; exact hnot)
      exact ⟨l1, some .notLatest, by simp [pushAll, h1, Run.bind]⟩

theorem pushAll_pushed {es : List (myElem × (Nat → Nat))} {l : myList}
    (h : pushAll getMyList es = .done (l, none)) : Pushed (es.map (·.1)) l := by
  have hinc := pushAll_inc es [] getMyList l Pushed_init (by simp) h
  obtain ⟨l2, h2, hP⟩ := pushAll_ok es [] getMyList Pushed_init hinc
  rw [h] at h2
  simp only [Run.done.injEq, Prod.mk.injEq, and_true] at h2
  subst h2
  simpa using hP

theorem pushAll_append : ∀ (xs ys : List (myElem × (Nat → Nat))) (l l1 : myList),
    pushAll l xs = .done (l1, none) → pushAll l (xs ++ ys) = pushAll l1 ys
  | [], ys, l, l1, h => by
    simp only [pushAll, Run.done.injEq, Prod.mk.injEq, and_true] at h
    subst h
    rfl
  | (e, draw) :: xs, ys, l, l1, h => by
    simp only [List.cons_append, pushAll] at h ⊢
    cases hp : push l e draw with
    | fault => rw [hp] at h; simp [Run.bind] at h
    | diverge => rw [hp] at h; simp [Run.bind] at h
    | done r =>
      rw [hp] at h
      simp only [Run.bind] at h ⊢
      cases hr : r.2 with
      | some err => rw [hr] at h; simp at h
      | none =>
        rw [hr] at h
        simp only [] at h ⊢
        exact pushAll_append xs ys r.1 l1 h

theorem Pushed.sum_eq {es : List myElem} {l : myList} (hP : Pushed es l) :
    l.sum = (heldCount es.length : Int) := by
  rw [hP.inv.sum_eq, length_desc]

/-- C5: after any number of successful pushes onto the empty list the list holds at most
`MAX_RECORD_NUM` records and `last()` returns the element that was pushed last; a run of pushes
never panics and never loops. -/
theorem sum_bound_and_last (es : List (myElem × (Nat → Nat))) :
    ∃ l err, pushAll getMyList es = .done (l, err) ∧
      (err = none → l.sum ≤ MAX_RECORD_NUM ∧
        ∀ x, es.getLast? = some x →
          ∃ ep, last l = .done (some ep, none) ∧ l.elems[ep]? = some x.1) := by
  obtain ⟨l, err, h⟩ := pushAll_total es [] getMyList Pushed_init
  refine ⟨l, err, h, ?_⟩
  rintro rfl
  have hP := pushAll_pushed h
  have hsum := hP.sum_eq
  have hle := heldCount_le (es.map (·.1)).length
  refine ⟨?_, ?_⟩
  · rw [hsum]
    unfold MAX_RECORD_NUM
    exact_mod_cast hle
  · intro x hx
    have hx' : (es.map (·.1)).getLast? = some x.1 := by
      rw [List.getLast?_map, hx]
      rfl
    obtain ⟨hh, _⟩ := hP.head_held hx'
    have hne : es.map (·.1) ≠ [] := by
      intro hc
      rw [hc] at hx'
      simp at hx'
    have hpos := heldCount_pos _ (List.length_pos.2 hne)
    obtain ⟨hp, h1, _, h3⟩ := hP.inv.head_elem
    have := h3 _ hh
    subst this
    refine ⟨(es.map (·.1)).length + 1, ?_, ?_⟩
    · unfold last
      rw [if_neg (by rw [hsum]; omega), hP.inv.head_eq, h1]
    · have hel := hP.elems ((es.map (·.1)).length - 1)
      have hlen : 0 < (es.map (·.1)).length := List.length_pos.2 hne
      rw [show (es.map (·.1)).length - 1 + 2 = (es.map (·.1)).length + 1 by omega] at hel
      rw [hel]
      unfold gluedAt
      have h3' : (es.map (·.1))[(es.map (·.1)).length - 1]? = some x.1 := by
        rw [List.getLast?_eq_getElem?] at hx'
        exact hx'
      have h4 : (es.map (·.1))[(es.map (·.1)).length - 1 + 1]? = none :=
        List.getElem?_eq_none (by omega)
      rw [h3', h4]

theorem desc_pairwise : ∀ (c hi : Nat), c ≤ hi → (desc hi c).Pairwise fun p q => q < p
  | 0, _, _ => by simp [desc]
  | c + 1, hi, h => by
    rw [desc]
    refine List.pairwise_cons.2 ⟨?_, desc_pairwise c (hi - 1) (by omega)⟩
    intro q hq
    have := (mem_desc c (hi - 1) q (by omega)).1 hq
    omega

theorem Pushed.eid_antitone {es : List myElem} {l : myList} (hP : Pushed es l)
    (hinc : es.Pairwise fun a b => a.startId < b.startId) (hu : ∀ e ∈ es, e.startId < 2 ^ 64)
    (hend : ∀ x, es.getLast? = some x → x.endId = UINT64_MAX) :
    (desc (es.length + 1) (heldCount es.length)).Pairwise fun p q => eid l q ≤ eid l p := by
  have hcle := heldCount_le_self es.length
  refine (desc_pairwise _ _ (by omega)).imp_of_mem (fun {p q} hp hq hqp => ?_)
  obtain ⟨hp2, hpn⟩ := hP.held_bounds hp
  obtain ⟨hq2, hqn⟩ := hP.held_bounds hq
  obtain ⟨i, rfl⟩ : ∃ i, p = i + 2 := ⟨p - 2, by omega⟩
  obtain ⟨j, rfl⟩ : ∃ j, q = j + 2 := ⟨q - 2, by omega⟩
  have hi : i < es.length := by omega
  have hj1 : j + 1 < es.length := by omega
  have hei : es[i]? = some es[i] := List.getElem?_eq_getElem hi
  have hej : es[j]? = some es[j] := List.getElem?_eq_getElem (by omega)
  have hej1 : es[j + 1]? = some es[j + 1] := List.getElem?_eq_getElem hj1
  have huj := hu es[j + 1] (List.getElem_mem _)
  have hposj : es[j].startId < es[j + 1].startId :=
    List.pairwise_iff_getElem.1 hinc j (j + 1) (by omega) hj1 (by omega)
  rw [hP.eid_next hej hej1, pred_u64 (by omega) huj]
  by_cases hi1 : i + 1 < es.length
  · have hei1 : es[i + 1]? = some es[i + 1] := List.getElem?_eq_getElem hi1
    have hui := hu es[i + 1] (List.getElem_mem _)
    have hposi : es[i].startId < es[i + 1].startId :=
      List.pairwise_iff_getElem.1 hinc i (i + 1) hi hi1 (by omega)
    rw [hP.eid_next hei hei1, pred_u64 (by omega) hui]
    have : es[j + 1].startId < es[i + 1].startId :=
      List.pairwise_iff_getElem.1 hinc (j + 1) (i + 1) hj1 hi1 (by omega)
    omega
  · have hei1 : es[i + 1]? = none := List.getElem?_eq_none (by omega)
    rw [hP.eid_last hei hei1]
    have hlast : es.getLast? = some es[i] := by
      rw [List.getLast?_eq_getElem?, ← hei]
      congr 1
      omega
    rw [hend _ hlast]
    unfold UINT64_MAX
    omega

/-- C8: on a list built by pushes `push(getElem(s, d))` with strictly increasing `s` (any number
of them, any node levels) `listAfter(logIndex)` returns, with a nil error, exactly the records
held on level 0 whose `endId >= logIndex`, each once, in strictly ascending `startId` order. -/
theorem listAfter_after_pushes (ps : List (Nat × List Nat × (Nat → Nat)))
    (hinc : ps.Pairwise fun a b => a.1 < b.1) (hu : ∀ p ∈ ps, p.1 < 2 ^ 64) :
    ∃ l, pushAll getMyList (pushArgs ps) = .done (l, none) ∧
      (∀ p ∈ level0 l, nodeElem l p = some (some p)) ∧
      ∀ k, ∃ rs : List Nat, listAfter l k = .done (rs.map some, none) ∧
        rs.reverse = (level0 l).filter (fun p => decide (k ≤ eid l p)) ∧
        rs.Pairwise (fun a b => sid l a < sid l b) := by
  obtain ⟨l, hrun, hP⟩ := pushArgs_run ps hinc
  have hS := hP.inv.toShape
  have hl0 := hS.level0_eq
  refine ⟨l, hrun, ?_, ?_⟩
  · intro p hp
    rw [hl0] at hp
    exact (hS.node p hp).2.2.1
  · intro k
    have hanti := hP.eid_antitone (List.pairwise_map.2 hinc)
      (by
        intro e he
        obtain ⟨p, hp, rfl⟩ := List.mem_map.1 he
        exact hu p hp)
      (by
        intro x hx
        have hmem := List.mem_of_getLast?_eq_some hx
        obtain ⟨p, _, rfl⟩ := List.mem_map.1 hmem
        rfl)
    have hcap : (desc ((ps.map fun p => conf.getElem p.1 p.2.1).length + 1)
        (heldCount (ps.map fun p => conf.getElem p.1 p.2.1).length)).length ≤ MAX_RESULT_NUM := by
      rw [length_desc]
      have := heldCount_le (ps.map fun p => conf.getElem p.1 p.2.1).length
      unfold MAX_RESULT_NUM
      omega
    have hla := hS.listAfter_eq k hcap
    rw [hl0]
    generalize desc ((ps.map fun p => conf.getElem p.1 p.2.1).length + 1)
      (heldCount (ps.map fun p => conf.getElem p.1 p.2.1).length) = held at hS hanti hla
    refine ⟨(held.takeWhile fun p => decide (k ≤ eid l p)).reverse, ?_, ?_, ?_⟩
    · rw [hla, List.map_reverse]
    · rw [List.reverse_reverse, filter_eq_takeWhile k held hanti]
    · rw [List.pairwise_reverse]
      exact hS.sorted.sublist (List.takeWhile_prefix _).sublist

/-- C6: a push of a strictly newer element onto a list that was built by pushes and holds
exactly `MAX_RECORD_NUM` records drops the `NUM_PER_TRUNCATE` oldest nodes of level 0, keeps the
900 newest in their order with their `startId` and payload, puts the new node in front, and
leaves `sum == 901`; in particular 1001 strictly increasing pushes onto the empty list leave
`sum == 901`. -/
theorem eviction_on_full_push (es : List (myElem × (Nat → Nat))) (e : myElem)
    (draw : Nat → Nat)
    (hinc : (es.map (·.1) ++ [e]).Pairwise fun a b => a.startId < b.startId) :
    ∃ l, pushAll getMyList es = .done (l, none) ∧
      (l.sum = MAX_RECORD_NUM →
        ∃ l2, push l e draw = .done (l2, none) ∧ l2.sum = 901 ∧
          (level0 l).length = 1000 ∧
          level0 l2 = l.nodes.length :: (level0 l).take 900 ∧
          nodeElem l2 l.nodes.length = some (some l.nodes.length) ∧
          l2.elems[l.nodes.length]? = some e ∧
          ∀ p ∈ (level0 l).take 900, ∃ x y, l.elems[p]? = some x ∧ l2.elems[p]? = some y ∧
            y.startId = x.startId ∧ y.data = x.data) ∧
      (es.length = 1000 → l.sum = MAX_RECORD_NUM ∧
        ∃ l3, pushAll getMyList (es ++ [(e, draw)]) = .done (l3, none) ∧ l3.sum = 901) := by
  obtain ⟨l, hrun, hP⟩ := pushAll_ok es [] getMyList Pushed_init
    (by rw [List.nil_append]; exact (List.pairwise_append.1 hinc).1)
  rw [List.nil_append] at hP
  obtain ⟨l2, hpush, hP2⟩ := Pushed_step hP e draw (pairwise_last_lt hinc)
  have hsum := hP.sum_eq
  have hsum2 := hP2.sum_eq
  have hnl := hP.nodes_len
  have hfull : l.sum = MAX_RECORD_NUM → l2.sum = 901 ∧ heldCount (es.map (·.1)).length = 1000 := by
    intro h
    rw [hsum] at h
    unfold MAX_RECORD_NUM at h
    have h' : heldCount (es.map (·.1)).length = 1000 := by exact_mod_cast h
    refine ⟨?_, h'⟩
    rw [hsum2, List.length_append, List.length_singleton]
    unfold heldCount
    rw [h']
    rfl
  refine ⟨l, hrun, ?_, ?_⟩
  · intro h
    obtain ⟨h901, hc⟩ := hfull h
    have hl0 := hP.inv.toShape.level0_eq
    have hl2 := hP2.inv.toShape.level0_eq
    rw [hc] at hl0
    have hc2 : heldCount (es.map (·.1) ++ [e]).length = 901 := by
      rw [List.length_append, List.length_singleton]
      unfold heldCount
      rw [hc]
      rfl
    rw [hc2, List.length_append, List.length_singleton] at hl2
    have hmem2 : l.nodes.length ∈ desc ((es.map (·.1) ++ [e]).length + 1)
        (heldCount (es.map (·.1) ++ [e]).length) := by
      rw [hc2, List.length_append, List.length_singleton, hnl]
      exact List.mem_cons_self _ _
    refine ⟨l2, hpush, h901, by rw [hl0, length_desc], ?_, (hP2.inv.node _ hmem2).2.2.1, ?_, ?_⟩
    · rw [hl2, hl0, take_desc _ _ _ (by omega), hnl]
      rfl
    · rw [hnl, hP2.elems]
      exact gluedAt_last _ e
    · intro p hp
      rw [hl0, take_desc _ _ _ (by omega)] at hp
      have hcle := heldCount_le_self (es.map (·.1)).length
      have hb := (mem_desc _ _ p (by omega)).1 hp
      obtain ⟨i, rfl⟩ : ∃ i, p = i + 2 := ⟨p - 2, by omega⟩
      have hi : i < (es.map (·.1)).length := by omega
      have hei : (es.map (·.1))[i]? = some (es.map (·.1))[i] := List.getElem?_eq_getElem hi
      have hei2 : (es.map (·.1) ++ [e])[i]? = some (es.map (·.1))[i] := by
        rw [List.getElem?_append_left hi, hei]
      obtain ⟨x, hx⟩ : ∃ x, gluedAt (es.map (·.1)) i = some x := by
        unfold gluedAt
        rw [hei]
        cases (es.map (·.1))[i + 1]? <;> exact ⟨_, rfl⟩
      obtain ⟨y, hy⟩ : ∃ y, gluedAt (es.map (·.1) ++ [e]) i = some y := by
        unfold gluedAt
        rw [hei2]
        cases (es.map (·.1) ++ [e])[i + 1]? <;> exact ⟨_, rfl⟩
      obtain ⟨a, ha1, ha2, ha3⟩ := gluedAt_startId _ _ _ hx
      obtain ⟨b, hb1, hb2, hb3⟩ := gluedAt_startId _ _ _ hy
      rw [hei] at ha1
      rw [hei2] at hb1
      have hab : a = b := by
        rw [← Option.some.inj ha1, ← Option.some.inj hb1]
      subst hab
      exact ⟨x, y, by rw [hP.elems, hx], by rw [hP2.elems, hy], by rw [hb2, ha2],
        by rw [hb3, ha3]⟩
  · intro hlen
    have hc : heldCount (es.map (·.1)).length = 1000 := by
      rw [List.length_map, hlen]
      exact heldCount_eq 1000 (Nat.le_refl _)
    have hfullsum : l.sum = MAX_RECORD_NUM := by
      rw [hsum, hc]
      rfl
    refine ⟨hfullsum, l2, ?_, (hfull hfullsum).1⟩
    rw [pushAll_append es [(e, draw)] getMyList l hrun]
    simp [pushAll, hpush, Run.bind]

theorem Pushed.get_below {es : List myElem} {l : myList} (hP : Pushed es l)
    (hu : ∀ e ∈ es, e.startId < 2 ^ 64) (k : Nat)
    (hk : ∀ x, es.getLast? = some x → k ≤ x.endId) {e0 : myElem} (h0 : es[0]? = some e0)
    (hbelow : ∀ t ∈ desc (es.length + 1) (heldCount es.length), k < sid l t) :
    ∃ te, l.elems[2]? = some te ∧ myList.get l k = tailResult 2 te k := by
  have hS := hP.inv.toShape
  have hgap := hP.gap hu k hk
  obtain ⟨te, hte, hte2⟩ := hP.tail_elem_first h0
  have hlen2 := hS.len_ge
  have hspec := getLoop_spec hS k hte hgap (l.nodes.length + l.maxLevel + 1) l.maxLevel []
    (desc (es.length + 1) (heldCount es.length)) (by omega) hS.maxLevel_lt rfl
    (by simp) (by simp)
  refine ⟨te, hte2, ?_⟩
  unfold myList.get
  rw [hS.head_eq]
  simpa using hspec.2 hbelow

/-- C3 (evaluation at the failing input): after 1001 strictly increasing `PushConfig` calls the
skip list has evicted the 100 oldest records; for a log index `k` inside the range of an evicted
record other than the first one, `GetConfig(k)` returns the skip list's error "cound not find
data ..." and never calls `disk.get`, whatever the disk tier holds. -/
theorem GetConfig_evicted {Config : Type} (ps : List (Nat × List Nat × (Nat → Nat)))
    (hlen : ps.length = 1001) (hinc : ps.Pairwise fun a b => a.1 < b.1)
    (hu : ∀ p ∈ ps, p.1 < 2 ^ 64) (k : Nat) (p1 p100 : Nat × List Nat × (Nat → Nat))
    (h1 : ps[1]? = some p1) (h100 : ps[100]? = some p100) (hk1 : p1.1 ≤ k) (hk100 : k < p100.1)
    (diskGet : Nat → Run (Nat × Nat × List Nat × Option diskErr))
    (unmarshal : List Nat → Option Config) :
    ∃ mem, pushAll getMyList (pushArgs ps) = .done (mem, none) ∧
      myList.get mem k = .done (none, some .couldNotFind) ∧
      GetConfig mem diskGet unmarshal k = .done (none, some (.mem .couldNotFind)) := by
  obtain ⟨l, hrun, hP⟩ := pushArgs_run ps hinc
  have hn : (ps.map fun p => conf.getElem p.1 p.2.1).length = 1001 := by
    rw [List.length_map, hlen]
  have hc : heldCount (ps.map fun p => conf.getElem p.1 p.2.1).length = 901 := by
    rw [hn]
    exact heldCount_1001
  have hu' : ∀ e ∈ ps.map fun p => conf.getElem p.1 p.2.1, e.startId < 2 ^ 64 := by
    intro e he
    obtain ⟨p, hp, rfl⟩ := List.mem_map.1 he
    exact hu p hp
  have h100lt : p100.1 < 2 ^ 64 := hu p100 (List.getElem?_mem h100)
  have hp0 : ps[0]? = some ps[0] := List.getElem?_eq_getElem (by omega)
  have he0 : (ps.map fun p => conf.getElem p.1 p.2.1)[0]? = some (conf.getElem ps[0].1 ps[0].2.1) := by
    rw [List.getElem?_map, hp0]
    rfl
  have he1 : (ps.map fun p => conf.getElem p.1 p.2.1)[1]? = some (conf.getElem p1.1 p1.2.1) := by
    rw [List.getElem?_map, h1]
    rfl
  obtain ⟨te, hte, hget⟩ := hP.get_below hu' k
    (by
      intro x hx
      have hmem := List.mem_of_getLast?_eq_some hx
      obtain ⟨p, _, rfl⟩ := List.mem_map.1 hmem
      show k ≤ UINT64_MAX
      unfold UINT64_MAX
      omega)
    he0
    (by
      intro t ht
      rw [hc, hn] at ht
      have hb := (mem_desc _ _ t (by omega)).1 ht
      obtain ⟨i, rfl⟩ : ∃ i, t = i + 2 := ⟨t - 2, by omega⟩
      have hi : i < ps.length := by omega
      have hpi : ps[i]? = some ps[i] := List.getElem?_eq_getElem hi
      have hei : (ps.map fun p => conf.getElem p.1 p.2.1)[i]? =
          some (conf.getElem ps[i].1 ps[i].2.1) := by
        rw [List.getElem?_map, hpi]
        rfl
      rw [hP.sid_at hei]
      show k < ps[i].1
      have h100' : ps[100] = p100 := by
        rw [List.getElem?_eq_getElem (by omega)] at h100
        exact Option.some.inj h100
      by_cases hi100 : i = 100
      · subst hi100
        rw [h100']
        exact hk100
      · have := List.pairwise_iff_getElem.1 hinc 100 i (by omega) hi (by omega)
        rw [h100'] at this
        omega)
  have hte' : te.endId < k := by
    have hel := hP.elems 0
    rw [hte] at hel
    unfold gluedAt at hel
    rw [he0, he1] at hel
    simp only [Option.some.injEq] at hel
    have h1' : ps[1] = p1 := by
      rw [List.getElem?_eq_getElem (by omega)] at h1
      exact Option.some.inj h1
    have hpos : ps[0].1 < p1.1 := by
      have := List.pairwise_iff_getElem.1 hinc 0 1 (by omega) (by omega) (by omega)
      rw [h1'] at this
      exact this
    have hlt : p1.1 < 2 ^ 64 := hu p1 (List.getElem?_mem h1)
    have hend : te.endId = (p1.1 + 2 ^ 64 - 1) % 2 ^ 64 := by
      rw [hel]
      rfl
    rw [hend, pred_u64 (by omega) hlt]
    omega
  have hres : myList.get l k = .done (none, some .couldNotFind) := by
    rw [hget]
    simp [tailResult, hte']
  refine ⟨l, hrun, hres, ?_⟩
  unfold GetConfig
  rw [hres]
  rfl

/-- C2 (evaluation at the failing input): after `push` of 100, 200, 300 and `truncateSome(1)`
the list holds the records `[300, max]` and `[200, 299]`; `get(150)`, whose argument lies in no
held record, returns the evicted record `[100, 199]` that the tail sentinel still embeds instead
of `MEM_NOTFOUND_ERR`.  After four pushes and `truncateSome(2)`, `get(250)` returns the error
"cound not find data ...", which is not `MEM_NOTFOUND_ERR` either. -/
theorem get_after_truncateSome :
    ((runOps getMyList [.push (conf.getElem 100 []) (drawsFor 0), .push (conf.getElem 200 []) (drawsFor 0),
        .push (conf.getElem 300 []) (drawsFor 0), .truncateSome 1]).bind fun l =>
      .done (heldRecords l)) =
      .done [some ⟨300, UINT64_MAX, []⟩, some ⟨200, 299, []⟩] ∧
    ((runOps getMyList [.push (conf.getElem 100 []) (drawsFor 0), .push (conf.getElem 200 []) (drawsFor 0),
        .push (conf.getElem 300 []) (drawsFor 0), .truncateSome 1]).bind fun l =>
      myList.get l 150) = .done (some 2, none) ∧
    ((runOps getMyList [.push (conf.getElem 100 []) (drawsFor 0), .push (conf.getElem 200 []) (drawsFor 0),
        .push (conf.getElem 300 []) (drawsFor 0), .truncateSome 1]).bind fun l =>
      .done l.elems[2]?) = .done (some ⟨100, 199, []⟩) ∧
    ((runOps getMyList [.push (conf.getElem 100 []) (drawsFor 0), .push (conf.getElem 200 []) (drawsFor 0),
        .push (conf.getElem 300 []) (drawsFor 0), .push (conf.getElem 400 []) (drawsFor 0),
        .truncateSome 2]).bind fun l =>
      .done (heldRecords l)) =
      .done [some ⟨400, UINT64_MAX, []⟩, some ⟨300, 399, []⟩] ∧
    ((runOps getMyList [.push (conf.getElem 100 []) (drawsFor 0), .push (conf.getElem 200 []) (drawsFor 0),
        .push (conf.getElem 300 []) (drawsFor 0), .push (conf.getElem 400 []) (drawsFor 0),
        .truncateSome 2]).bind fun l =>
      myList.get l 250) = .done (none, some .couldNotFind) := by
  refine ⟨?_, ?_, ?_, ?_, ?_⟩ <;> decide

/-- C10 (evaluation at the failing input): after `push` of 100 with node level 0 and of 200 with
node level 1 the list holds `[200, max]` and `[100, 199]`, its top level is 1 and the oldest
node (address 2) is not on it; `truncateBefore(150)` panics: on level 1 the walk reaches the
tail sentinel, whose embedded element is the oldest record, and writes through the tail's nil
level pointer. -/
theorem truncateBefore_panics :
    ((runOps getMyList [.push (conf.getElem 100 []) (drawsFor 0),
        .push (conf.getElem 200 []) (drawsFor 1)]).bind fun l =>
      .done (heldRecords l)) = .done [some ⟨200, UINT64_MAX, []⟩, some ⟨100, 199, []⟩] ∧
    ((runOps getMyList [.push (conf.getElem 100 []) (drawsFor 0),
        .push (conf.getElem 200 []) (drawsFor 1)]).bind fun l =>
      .done (l.maxLevel, onLevel l 2 1)) = .done (1, false) ∧
    ((runOps getMyList [.push (conf.getElem 100 []) (drawsFor 0),
        .push (conf.getElem 200 []) (drawsFor 1)]).bind fun l =>
      truncateBefore l 150) = .fault := by
  refine ⟨?_, ?_, ?_⟩ <;> decide

/-- C9 (evaluation at the failing input): on the list built by `push` of 100, 200 (levels 0)
and 300 (level 2), `get(150)` returns the record `[100, 199]`, and `truncateBefore(150)` panics,
so there is no list to query afterwards. -/
theorem truncateBefore_then_get_panics :
    ((runOps getMyList [.push (conf.getElem 100 []) (drawsFor 0), .push (conf.getElem 200 []) (drawsFor 0),
        .push (conf.getElem 300 []) (drawsFor 2)]).bind fun l =>
      myList.get l 150) = .done (some 2, none) ∧
    ((runOps getMyList [.push (conf.getElem 100 []) (drawsFor 0), .push (conf.getElem 200 []) (drawsFor 0),
        .push (conf.getElem 300 []) (drawsFor 2)]).bind fun l =>
      .done l.elems[2]?) = .done (some ⟨100, 199, []⟩) ∧
    ((runOps getMyList [.push (conf.getElem 100 []) (drawsFor 0), .push (conf.getElem 200 []) (drawsFor 0),
        .push (conf.getElem 300 []) (drawsFor 2), .truncateBefore 150]).bind fun l =>
      myList.get l 150) = .fault := by
  refine ⟨?_, ?_, ?_⟩ <;> decide

/-- C7 (evaluation at the failing input): after `push` of 100, `truncateBefore(50)` and
`truncateAfter(50)` the list holds no record, yet `sum == 1` and `last()` returns a nil element
with a nil error instead of `MEM_NOTFOUND_ERR`. -/
theorem last_on_emptied_list :
    ((runOps getMyList [.push (conf.getElem 100 []) (drawsFor 0), .truncateBefore 50,
        .truncateAfter 50]).bind fun l =>
      .done (heldRecords l)) = .done [] ∧
    ((runOps getMyList [.push (conf.getElem 100 []) (drawsFor 0), .truncateBefore 50,
        .truncateAfter 50]).bind fun l =>
      .done l.sum) = .done 1 ∧
    ((runOps getMyList [.push (conf.getElem 100 []) (drawsFor 0), .truncateBefore 50,
        .truncateAfter 50]).bind fun l =>
      last l) = .done (none, none) := by
  refine ⟨?_, ?_, ?_⟩ <;> decide

/-- C4 (evaluation at the failing input): after `push` of 100 and `truncateAfter(50)`, which
empties the list and returns `MEM_NOTFOUND_ERR`, the list is empty with `sum == 0` and
`head.myElem` is nil, and a further `push` panics in `isLatest`. -/
theorem push_on_emptied_list_panics :
    ((push getMyList (conf.getElem 100 []) (drawsFor 0)).bind fun r =>
      (truncateAfter r.1 50).bind fun r2 => .done r2.2.2) = .done (some .MEM_NOTFOUND_ERR) ∧
    ((runOps getMyList [.push (conf.getElem 100 []) (drawsFor 0), .truncateAfter 50]).bind fun l =>
      .done (heldRecords l)) = .done [] ∧
    ((runOps getMyList [.push (conf.getElem 100 []) (drawsFor 0), .truncateAfter 50]).bind fun l =>
      .done (l.sum, nodeElem l l.head)) = .done (0, some none) ∧
    ((runOps getMyList [.push (conf.getElem 100 []) (drawsFor 0), .truncateAfter 50]).bind fun l =>
      push l (conf.getElem 200 []) (drawsFor 0)) = .fault := by
  refine ⟨?_, ?_, ?_, ?_⟩ <;> decide

theorem hundredPushes_pairwise (n : Nat) : (hundredPushes n).Pairwise fun a b => a.1 < b.1 := by
  unfold hundredPushes
  refine List.pairwise_map.2 ((List.pairwise_lt_range n).imp (fun {a b} h => ?_))
  show (a + 1) * 100 < (b + 1) * 100
  omega

theorem hundredPushes_bound (n : Nat) (hn : n ≤ 1001) : ∀ p ∈ hundredPushes n, p.1 < 2 ^ 64 := by
  intro p hp
  unfold hundredPushes at hp
  obtain ⟨i, hi, rfl⟩ := List.mem_map.1 hp
  have := List.mem_range.1 hi
  show (i + 1) * 100 < 2 ^ 64
  omega

theorem hundredPushes_getElem? (n i : Nat) (hi : i < n) :
    (hundredPushes n)[i]? = some ((i + 1) * 100, [], drawsFor 0) := by
  unfold hundredPushes
  rw [List.getElem?_map, List.getElem?_range hi]
  rfl

theorem get_after_pushes_witness :
    (demoPushes.length : Int) ≤ MAX_RECORD_NUM ∧
    (demoPushes.Pairwise fun a b => a.1 < b.1) ∧ (∀ p ∈ demoPushes, p.1 < 2 ^ 64) ∧
    ∃ l, pushAll getMyList (pushArgs demoPushes) = .done (l, none) ∧
      ∀ k first, demoPushes.head? = some first → first.1 ≤ k → k < 2 ^ 64 →
        ∃ i s d w ep, demoPushes[i]? = some (s, d, w) ∧ s ≤ k ∧
          (∀ j p, demoPushes[j]? = some p → p.1 ≤ k → j ≤ i) ∧
          myList.get l k = .done (some ep, none) ∧
          l.elems[ep]? = some ⟨s, (match demoPushes[i + 1]? with
            | some p => p.1 - 1
            | none => UINT64_MAX), d⟩ :=
  ⟨by decide, by decide, by decide,
    get_after_pushes demoPushes (by decide) (by decide) (by decide)⟩

theorem listAfter_after_pushes_witness :
    (demoPushes.Pairwise fun a b => a.1 < b.1) ∧ (∀ p ∈ demoPushes, p.1 < 2 ^ 64) ∧
    ∃ l, pushAll getMyList (pushArgs demoPushes) = .done (l, none) ∧
      (∀ p ∈ level0 l, nodeElem l p = some (some p)) ∧
      ∀ k, ∃ rs : List Nat, listAfter l k = .done (rs.map some, none) ∧
        rs.reverse = (level0 l).filter (fun p => decide (k ≤ eid l p)) ∧
        rs.Pairwise (fun a b => sid l a < sid l b) :=
  ⟨by decide, by decide, listAfter_after_pushes demoPushes (by decide) (by decide)⟩

theorem eviction_on_full_push_witness :
    (((pushArgs (hundredPushes 1000)).map (·.1) ++ [conf.getElem 200000 [7]]).Pairwise
      fun a b => a.startId < b.startId) ∧
    ∃ l, pushAll getMyList (pushArgs (hundredPushes 1000)) = .done (l, none) ∧
      (l.sum = MAX_RECORD_NUM →
        ∃ l2, push l (conf.getElem 200000 [7]) (drawsFor 3) = .done (l2, none) ∧ l2.sum = 901 ∧
          (level0 l).length = 1000 ∧
          level0 l2 = l.nodes.length :: (level0 l).take 900 ∧
          nodeElem l2 l.nodes.length = some (some l.nodes.length) ∧
          l2.elems[l.nodes.length]? = some (conf.getElem 200000 [7]) ∧
          ∀ p ∈ (level0 l).take 900, ∃ x y, l.elems[p]? = some x ∧ l2.elems[p]? = some y ∧
            y.startId = x.startId ∧ y.data = x.data) ∧
      ((pushArgs (hundredPushes 1000)).length = 1000 → l.sum = MAX_RECORD_NUM ∧
        ∃ l3, pushAll getMyList (pushArgs (hundredPushes 1000) ++
          [(conf.getElem 200000 [7], drawsFor 3)]) = .done (l3, none) ∧ l3.sum = 901) :=
  have h : ((pushArgs (hundredPushes 1000)).map (·.1) ++ [conf.getElem 200000 [7]]).Pairwise
      fun a b => a.startId < b.startId := by
    rw [pushArgs_elems]
    refine List.pairwise_append.2
      ⟨List.pairwise_map.2 (hundredPushes_pairwise 1000), by simp, ?_⟩
    intro a ha b hb
    obtain ⟨p, hp, rfl⟩ := List.mem_map.1 ha
    have hb' : b = conf.getElem 200000 [7] := by simpa using hb
    subst hb'
    unfold hundredPushes at hp
    obtain ⟨i, hi, rfl⟩ := List.mem_map.1 hp
    have := List.mem_range.1 hi
    show (i + 1) * 100 < 200000
    omega
  ⟨h, eviction_on_full_push (pushArgs (hundredPushes 1000)) (conf.getElem 200000 [7]) (drawsFor 3) h⟩

theorem GetConfig_evicted_witness :
    (hundredPushes 1001).length = 1001 ∧
    ((hundredPushes 1001).Pairwise fun a b => a.1 < b.1) ∧
    (∀ p ∈ hundredPushes 1001, p.1 < 2 ^ 64) ∧
    (hundredPushes 1001)[1]? = some (200, [], drawsFor 0) ∧
    (hundredPushes 1001)[100]? = some (10100, [], drawsFor 0) ∧ 200 ≤ 250 ∧ 250 < 10100 ∧
    ∃ mem, pushAll getMyList (pushArgs (hundredPushes 1001)) = .done (mem, none) ∧
      myList.get mem 250 = .done (none, some .couldNotFind) ∧
      @GetConfig Unit mem (fun _ => .done (200, 299, [], none)) (fun _ => some ())
        250 = .done (none, some (.mem .couldNotFind)) :=
  ⟨by simp [hundredPushes], hundredPushes_pairwise 1001,
    hundredPushes_bound 1001 (Nat.le_refl _),
    hundredPushes_getElem? 1001 1 (by decide), hundredPushes_getElem? 1001 100 (by decide),
    by decide, by decide,
    GetConfig_evicted (hundredPushes 1001) (by simp [hundredPushes]) (hundredPushes_pairwise 1001)
      (hundredPushes_bound 1001 (Nat.le_refl _)) 250 (200, [], drawsFor 0)
      (10100, [], drawsFor 0) (hundredPushes_getElem? 1001 1 (by decide))
      (hundredPushes_getElem? 1001 100 (by decide)) (by decide) (by decide)
      (fun _ => .done (200, 299, [], none)) (fun _ => some ())⟩

/-- C11 (evaluation at the failing input): after `push` of 100 the list holds one record and
`sum == 1`; `truncateBefore(50)`, whose argument is smaller than the oldest `startId`, removes
nothing but leaves `sum == 2`, because the level-0 walk also counts the tail sentinel (its
embedded element is the oldest record, so `compareTo` is `+1` there).  With three records on
different levels the same call leaves `sum == 4`. -/
theorem sum_after_truncateBefore :
    ((runOps getMyList [.push (conf.getElem 100 []) (drawsFor 0)]).bind fun l =>
      .done (heldRecords l, l.sum)) = .done ([some ⟨100, UINT64_MAX, []⟩], 1) ∧
    ((runOps getMyList [.push (conf.getElem 100 []) (drawsFor 0), .truncateBefore 50]).bind fun l =>
      .done (heldRecords l, l.sum)) = .done ([some ⟨100, UINT64_MAX, []⟩], 2) ∧
    ((runOps getMyList [.push (conf.getElem 100 []) (drawsFor 0),
        .push (conf.getElem 200 []) (drawsFor 3), .push (conf.getElem 300 []) (drawsFor 1),
        .truncateBefore 50]).bind fun l =>
      .done (heldRecords l, l.sum)) =
      .done ([some ⟨300, UINT64_MAX, []⟩, some ⟨200, 299, []⟩, some ⟨100, 199, []⟩], 4) := by
  refine ⟨?_, ?_, ?_⟩ <;> decide

/-- C13 (evaluation at the failing input): after `push` of 100 and `truncateBefore(50)` the list
holds the record `[100, max]` (with `sum == 2`); `truncateAfter(40)`, whose argument is smaller
than the oldest `startId`, removes the record but leaves `sum == 1` and returns the error
"i dont know" instead of `MEM_NOTFOUND_ERR`. -/
theorem truncateAfter_below_oldest :
    ((runOps getMyList [.push (conf.getElem 100 []) (drawsFor 0), .truncateBefore 50]).bind fun l =>
      .done (heldRecords l)) = .done [some ⟨100, UINT64_MAX, []⟩] ∧
    ((runOps getMyList [.push (conf.getElem 100 []) (drawsFor 0), .truncateBefore 50]).bind fun l =>
      (truncateAfter l 40).bind fun r => .done (heldRecords r.1)) = .done [] ∧
    ((runOps getMyList [.push (conf.getElem 100 []) (drawsFor 0), .truncateBefore 50]).bind fun l =>
      (truncateAfter l 40).bind fun r => .done (r.1.sum, r.2)) =
      .done (1, none, some .dontKnow) := by
  refine ⟨?_, ?_, ?_⟩ <;> decide

/-- C15: for a node whose element has `startId <= endId`, `compareTo(id)` is `-1` if
`endId < id`, `+1` if `startId > id`, and `0` exactly when `startId <= id <= endId`. -/
theorem compareTo_spec (e : myElem) (id : Nat) (h : e.startId ≤ e.endId) :
    (e.endId < id → compareTo e id = -1) ∧ (e.startId > id → compareTo e id = 1) ∧
      (compareTo e id = 0 ↔ e.startId ≤ id ∧ id ≤ e.endId) := by
  unfold compareTo
  refine ⟨fun h1 => by simp [h1], fun h1 => ?_, ?_⟩
  · have h2 : ¬ e.endId < id := by omega
    simp [h1, h2]
  · by_cases h1 : e.endId < id
    · simp [h1]
    · by_cases h2 : e.startId > id
      · simp [h1, h2]
      · simp [h1, h2]
        omega

/-- C16 (evaluation at the failing input): the calls `push(100)`, `push(200)`,
`truncateBefore(150)` are made twice, with different random draws only.  When both nodes get
level 0, `truncateBefore` returns, the list holds `[200, max]` and `[150, 199]`, `sum == 2`, and
`get(150)`, `listAfter(0)` and `last()` return records.  When the second node gets level 1,
`truncateBefore(150)` panics and none of the queries is reached. -/
theorem results_depend_on_levels :
    ((runOps getMyList [.push (conf.getElem 100 []) (drawsFor 0),
        .push (conf.getElem 200 []) (drawsFor 0), .truncateBefore 150]).bind fun l =>
      .done (heldRecords l, l.sum)) =
      .done ([some ⟨200, UINT64_MAX, []⟩, some ⟨150, 199, []⟩], 2) ∧
    ((runOps getMyList [.push (conf.getElem 100 []) (drawsFor 0),
        .push (conf.getElem 200 []) (drawsFor 0), .truncateBefore 150]).bind fun l =>
      myList.get l 150) = .done (some 2, none) ∧
    ((runOps getMyList [.push (conf.getElem 100 []) (drawsFor 0),
        .push (conf.getElem 200 []) (drawsFor 0), .truncateBefore 150]).bind fun l =>
      listAfter l 0) = .done ([some 2, some 3], none) ∧
    ((runOps getMyList [.push (conf.getElem 100 []) (drawsFor 0),
        .push (conf.getElem 200 []) (drawsFor 0), .truncateBefore 150]).bind fun l =>
      last l) = .done (some 3, none) ∧
    (getLevel (drawsFor 0), getLevel (drawsFor 1)) = (0, 1) ∧
    runOps getMyList [.push (conf.getElem 100 []) (drawsFor 0),
        .push (conf.getElem 200 []) (drawsFor 1), .truncateBefore 150] = .fault := by
  refine ⟨?_, ?_, ?_, ?_, ?_, ?_⟩ <;> decide

/-- Sample input for `compareTo_spec`: the record `[111, 222]` of `Test_compareTo` and the
id 123. -/
theorem compareTo_spec_witness :
    (111 : Nat) ≤ 222 ∧
    ((222 < 123 → compareTo ⟨111, 222, []⟩ 123 = -1) ∧
      (111 > 123 → compareTo ⟨111, 222, []⟩ 123 = 1) ∧
      (compareTo ⟨111, 222, []⟩ 123 = 0 ↔ 111 ≤ 123 ∧ 123 ≤ 222)) :=
  ⟨by decide, compareTo_spec ⟨111, 222, []⟩ 123 (by decide)⟩

theorem truncateSomeClear_spec :
    ∀ (n : Nat) (l : myList), l.head = 0 → l.tail = 1 →
      (∀ L, L ≤ n → ∃ w, levelNext l 0 L = some w) →
      ∃ l1, truncateSomeClear n l = some l1 ∧ NextOnly l l1 ∧
        ∀ q M, levelNext l1 q M = if q = 0 ∧ M ≤ n then some (some 1) else levelNext l q M
  | 0, l, hh, ht, h0 => by
    obtain ⟨w, hw⟩ := h0 0 (Nat.le_refl _)
    obtain ⟨l1, hl1⟩ := setLevelNext_isSome (some 1) hw
    refine ⟨l1, ?_, NextOnly.of_set hl1, ?_⟩
    · simp [truncateSomeClear, hh, ht, hl1]
    · intro q M
      rw [levelNext_setLevelNext hl1]
      simp
  | n + 1, l, hh, ht, h0 => by
    obtain ⟨w, hw⟩ := h0 (n + 1) (Nat.le_refl _)
    obtain ⟨l1, hl1⟩ := setLevelNext_isSome (some 1) hw
    have hN1 : NextOnly l l1 := NextOnly.of_set hl1
    obtain ⟨l2, hl2, hN2, hlv⟩ := truncateSomeClear_spec n l1 (hN1.head.trans hh)
      (hN1.tail.trans ht) (fun L hL => by
        obtain ⟨w1, hw1⟩ := h0 L (by omega)
        rw [levelNext_setLevelNext hl1]
        split
        · exact ⟨_, rfl⟩
        · exact ⟨w1, hw1⟩)
    refine ⟨l2, ?_, hN1.trans hN2, ?_⟩
    · simp [truncateSomeClear, hh, ht, hl1, hl2]
    · intro q M
      rw [hlv, levelNext_setLevelNext hl1]
      by_cases hq : q = 0
      · by_cases hM : M ≤ n
        · simp [hq, hM, Nat.le_succ_of_le hM]
        · by_cases hM1 : M = n + 1
          · simp [hq, hM1]
          · have : ¬ M ≤ n + 1 := by omega
            simp [hq, hM, hM1, this]
      · simp [hq]

theorem level0_of_chain {l : myList} {xs : List Nat} (hh : l.head = 0) (ht : l.tail = 1)
    (hc : Chain l 0 0 xs) (hne : ∀ q ∈ xs, q ≠ 1) (hlen : xs.length ≤ l.nodes.length) :
    level0 l = xs := by
  unfold level0
  rw [hh, Chain_head hc]
  exact level0Walk_chain ht xs 0 _ hc hne (by omega)

/-- C14: on every well-formed list (`Shape l held`, so `sum` is the number of records) and for
every `n >= 0`, `truncateSome(n)` returns nil and leaves every record object unchanged; if
`n >= sum` every level is empty afterwards and `sum == 0`; otherwise `sum` becomes `sum - n`,
level 0 holds exactly the `sum - n` newest records in their old order, and every level is a
chain through surviving nodes only. -/
theorem truncateSome_removes_oldest {l : myList} {held : List Nat} (hS : Shape l held) (n : Int)
    (hn : 0 ≤ n) :
    ∃ l1, truncateSome l n = .done (l1, none) ∧ l1.elems = l.elems ∧
      (∀ q, nodeElem l1 q = nodeElem l q) ∧
      (n ≥ l.sum → l1.sum = 0 ∧ level0 l1 = [] ∧ ∀ L, L < MAX_LEVEL_LIMIT → Chain l1 L 0 []) ∧
      (n < l.sum → l1.sum = l.sum - n ∧
        level0 l1 = (level0 l).take (l.sum - n).toNat ∧
        ∀ L, L < MAX_LEVEL_LIMIT →
          Chain l1 L 0 (((level0 l).take (l.sum - n).toNat).filter fun p => onLevel l1 p L)) := by
  by_cases hge : n ≥ l.sum
  · have hlev : ∀ L, L ≤ l.maxLevel → ∃ w, levelNext l 0 L = some w := by
      intro L hL
      have := Chain_head (hS.chain L (by have := hS.maxLevel_lt; omega))
      exact ⟨_, this⟩
    obtain ⟨l1, hl1, hN, hlv⟩ := truncateSomeClear_spec l.maxLevel l hS.head_eq hS.tail_eq hlev
    have hch : ∀ L, L < MAX_LEVEL_LIMIT → Chain { l1 with sum := 0 } L 0 [] := by
      intro L hL
      show levelNext l1 0 L = some (some 1)
      rw [hlv]
      by_cases hLm : L ≤ l.maxLevel
      · simp [hLm]
      · have h1 := hS.chain L hL
        rw [hS.filter_high (by omega)] at h1
        simp only [hLm, and_false, if_false]
        exact h1
    refine ⟨{ l1 with sum := 0 }, ?_, hN.elems, hN.nodeElem, ?_, fun hlt => absurd hge (by omega)⟩
    · simp [truncateSome, hge, hl1, Run.bind, Run.ofOption]
    · intro _
      exact ⟨rfl, level0_of_chain (hN.head.trans hS.head_eq) (hN.tail.trans hS.tail_eq)
        (hch 0 (by decide)) (by simp) (by simp), hch⟩
  · have hlt : n < l.sum := by omega
    have hsum := hS.sum_eq
    obtain ⟨m, hm⟩ : ∃ m : Nat, (m : Int) = l.sum - n := ⟨(l.sum - n).toNat, by omega⟩
    obtain ⟨l1, hl1, hS1, he, _, hne⟩ := truncateSome_spec hS n m (by omega) (by omega) hm
    have hmm : (l.sum - n).toNat = m := by omega
    refine ⟨l1, hl1, he, hne, fun h => absurd h hge, fun _ => ?_⟩
    rw [hmm, hS.level0_eq, hS1.level0_eq]
    refine ⟨?_, rfl, ?_⟩
    · rw [hS1.sum_eq, List.length_take]
      omega
    · exact hS1.chain

theorem NextSum.same (l : myList) : NextSum l l :=
  ⟨rfl, rfl, rfl, rfl, rfl, fun _ => rfl, fun _ _ => rfl⟩

theorem NextSum.chain {l l1 l2 : myList} (h1 : NextSum l l1) (h2 : NextSum l1 l2) :
    NextSum l l2 :=
  ⟨h2.elems.trans h1.elems, h2.maxLevel.trans h1.maxLevel, h2.head.trans h1.head,
    h2.tail.trans h1.tail, h2.len.trans h1.len, fun q => (h2.nodeElem q).trans (h1.nodeElem q),
    fun q M => (h2.onLevel q M).trans (h1.onLevel q M)⟩

theorem NextSum.of_setLevelNext {l l1 : myList} {p L : Nat} {v : Option Nat} (s : Int)
    (h : setLevelNext { l with sum := s } p L v = some l1) : NextSum l l1 := by
  have h1 := NextOnly.of_set h
  exact ⟨h1.elems, h1.maxLevel, h1.head, h1.tail, h1.len, h1.nodeElem, h1.onLevel⟩

theorem NextSum.elemOf_kept {l l1 : myList} (h : NextSum l l1) (p : Option Nat) :
    elemOf l1 p = elemOf l p :=
  elemOf_congr h.elems h.nodeElem p

theorem truncateAfterWalk_spec {t L : Nat} (keepL : List Nat) (res1 : Option Nat) :
    ∀ (dropL : List Nat) (l : myList) (a fuel : Nat) (res : Option Nat),
      l.tail = 1 →
      Chain l L a (dropL ++ keepL) →
      (∀ q ∈ dropL ++ keepL, q ≠ 1) →
      (∀ d ∈ dropL, ∃ e, elemOf l (some d) = some (d, e) ∧ compareTo e t = 1) →
      (∀ k, keepL.head? = some k → ∃ e, elemOf l (some k) = some (k, e) ∧
        ((compareTo e t < 0 ∧ res1 = res) ∨
          (compareTo e t = 0 ∧ res1 = if res = none then some k else res))) →
      (keepL = [] → res1 = res) →
      (∃ w, levelNext l l.head L = some w) →
      dropL.length < fuel →
      ∃ l1, truncateAfterWalk t L fuel l (some ((dropL ++ keepL).head?.getD 1)) res =
          .done (l1, res1) ∧
        setLevelNext { l with sum := l.sum - (if L = 0 then (dropL.length : Int) else 0) }
          l.head L (some (keepL.head?.getD 1)) = some l1
  | [], l, a, fuel, res, ht, hc, hne, hd, hk, hk0, hw, hf => by
    obtain ⟨f, rfl⟩ : ∃ f, fuel = f + 1 := ⟨fuel - 1, by omega⟩
    obtain ⟨w, hw⟩ := hw
    have hl : ({ l with sum := l.sum - (if L = 0 then ((([] : List Nat).length : Nat) : Int) else 0) } : myList) = l := by
      cases l
      simp
    rw [hl]
    obtain ⟨l1, hl1⟩ := setLevelNext_isSome (some (keepL.head?.getD 1)) hw
    refine ⟨l1, ?_, hl1⟩
    simp only [List.nil_append]
    cases hkl : keepL with
    | nil =>
      have := hk0 hkl
      subst this
      simp [truncateAfterWalk, ht, hkl] at hl1 ⊢
      simp [hl1, Run.ofOption, Run.bind]
    | cons k rest =>
      have hk1 : k ≠ 1 := hne k (by simp [hkl])
      obtain ⟨e, he, hcmp⟩ := hk k (by simp [hkl])
      simp only [hkl, List.head?_cons, Option.getD_some] at hl1 ⊢
      rcases hcmp with ⟨h1, h2⟩ | ⟨h1, h2⟩
      · subst h2
        simp [truncateAfterWalk, ht, hk1, he, h1, hl1, Run.ofOption, Run.bind]
      · subst h2
        have h3 : ¬ compareTo e t < 0 := by omega
        simp [truncateAfterWalk, ht, hk1, he, h1, hl1, Run.ofOption, Run.bind]
  | d :: ds, l, a, fuel, res, ht, hc, hne, hd, hk, hk0, hw, hf => by
    obtain ⟨f, rfl⟩ : ∃ f, fuel = f + 1 := ⟨fuel - 1, by omega⟩
    simp only [List.cons_append] at hc hne
    unfold Chain at hc
    have hd1 : d ≠ 1 := hne d (List.mem_cons_self _ _)
    obtain ⟨e, he, hcmp⟩ := hd d (List.mem_cons_self _ _)
    have hnext := Chain_head hc.2
    have h3 : ¬ compareTo e t < 0 := by omega
    have h4 : ¬ compareTo e t = 0 := by omega
    have hdt : ¬ (some d = some l.tail) := by simp [ht, hd1]
    by_cases hL : L = 0
    · subst hL
      obtain ⟨l2, hl2, hset⟩ := truncateAfterWalk_spec keepL res1 ds { l with sum := l.sum - 1 } d f
        res ht (Chain_congr _ d d hc.2 rfl (fun q _ => rfl))
        (fun q hq => hne q (List.mem_cons_of_mem _ hq))
        (fun x hx => hd x (List.mem_cons_of_mem _ hx))
        (fun k hkk => hk k hkk) hk0 hw (by simp at hf; omega)
      refine ⟨l2, ?_, ?_⟩
      · simp only [List.cons_append, List.head?_cons, Option.getD_some]
        simp only [truncateAfterWalk, hdt, if_false, he, h3, h4, if_true]
        have : levelNext { l with sum := l.sum - 1 } d 0 =
            some (some ((ds ++ keepL).head?.getD 1)) := hnext
        rw [this]
        simp only [Run.ofOption, Run.bind]
        exact hl2
      · rw [← hset]
        simp only [if_true, List.length_cons, Nat.cast_add, Nat.cast_one]
        congr 2
        omega
    · obtain ⟨l2, hl2, hset⟩ := truncateAfterWalk_spec keepL res1 ds l d f
        res ht hc.2
        (fun q hq => hne q (List.mem_cons_of_mem _ hq))
        (fun x hx => hd x (List.mem_cons_of_mem _ hx))
        (fun k hkk => hk k hkk) hk0 hw (by simp at hf; omega)
      refine ⟨l2, ?_, ?_⟩
      · simp only [List.cons_append, List.head?_cons, Option.getD_some]
        simp only [truncateAfterWalk, hdt, if_false, he, h3, h4, hL]
        rw [hnext]
        simp only [Run.ofOption, Run.bind]
        exact hl2
      · rw [← hset]
        simp only [hL, if_false]


theorem nextSum_filter_eq {l l1 : myList} (h : NextSum l l1) (L : Nat) (xs : List Nat) :
    (xs.filter fun p => onLevel l1 p L) = xs.filter fun p => onLevel l p L := by
  congr 1
  funext p
  exact h.onLevel p L

theorem Chain_suffix {l : myList} {L : Nat} :
    ∀ (xs : List Nat) (a : Nat) (ys : List Nat), Chain l L a (xs ++ ys) →
      Chain l L ((a :: xs).getLast (List.cons_ne_nil _ _)) ys
  | [], a, ys, h => by simpa using h
  | x :: xs, a, ys, h => by
    simp only [List.cons_append] at h
    unfold Chain at h
    have := Chain_suffix xs x ys h.2
    rw [List.getLast_cons (List.cons_ne_nil _ _)]
    exact this

theorem truncateAfterLevel_spec {t : Nat} (drop keep : List Nat)
    (hnd : (0 :: (drop ++ keep)).Nodup) (hne1 : ∀ q ∈ drop ++ keep, q ≠ 1)
    (L : Nat) (l : myList) (res : Option Nat) (hh : l.head = 0) (ht : l.tail = 1)
    (hdrop : ∀ d ∈ drop, ∃ e, elemOf l (some d) = some (d, e) ∧ compareTo e t = 1)
    (hkeep : ∀ r rest, keep = r :: rest →
      (∃ e, elemOf l (some r) = some (r, e) ∧ compareTo e t = 0) ∧
      ∀ p ∈ rest, ∃ e, elemOf l (some p) = some (p, e) ∧ compareTo e t < 0)
    (hon0 : L = 0 → ∀ p ∈ drop ++ keep, onLevel l p 0 = true)
    (hc : Chain l L 0 ((drop ++ keep).filter fun p => onLevel l p L))
    (hlen : drop.length + 1 ≤ l.nodes.length)
    (hres : res = none ∨ res = keep.head?) :
    ∃ l1 res1, truncateAfterLevel t L l res = .done (l1, res1) ∧ NextSum l l1 ∧
      l1.sum = l.sum - (if L = 0 then (drop.length : Int) else 0) ∧
      (res1 = none ∨ res1 = keep.head?) ∧ (L = 0 → res1 = keep.head?) ∧
      Chain l1 L 0 (keep.filter fun p => onLevel l1 p L) ∧
      (∀ q M, M ≠ L → levelNext l1 q M = levelNext l q M) := by
  rw [List.filter_append] at hc
  generalize hdL : (drop.filter fun p => onLevel l p L) = dropL at hc
  generalize hkL : (keep.filter fun p => onLevel l p L) = keepL at hc
  have hdsub : ∀ d ∈ dropL, d ∈ drop := fun d hd => by
    rw [← hdL] at hd; exact (List.mem_filter.1 hd).1
  have hksub : ∀ d ∈ keepL, d ∈ keep := fun d hd => by
    rw [← hkL] at hd; exact (List.mem_filter.1 hd).1
  have hdlen : dropL.length ≤ drop.length := by
    rw [← hdL]; exact List.length_filter_le _ _
  -- the value of `resultData` after this level
  obtain ⟨res1, hr1, hr2, hr3, hr4⟩ : ∃ res1 : Option Nat,
      (res1 = none ∨ res1 = keep.head?) ∧ (L = 0 → res1 = keep.head?) ∧
      (∀ k, keepL.head? = some k → ∃ e, elemOf l (some k) = some (k, e) ∧
        ((compareTo e t < 0 ∧ res1 = res) ∨
          (compareTo e t = 0 ∧ res1 = if res = none then some k else res))) ∧
      (keepL = [] → res1 = res) := by
    cases hkp : keep with
    | nil =>
      have : keepL = [] := by rw [← hkL, hkp]; rfl
      refine ⟨res, ?_, ?_, ?_, fun _ => rfl⟩
      · rw [hkp] at hres; simpa using hres
      · intro _; rw [hkp] at hres; simpa using hres
      · intro k hk; rw [this] at hk; simp at hk
    | cons r rest =>
      obtain ⟨⟨e, he, hcmp⟩, hrest⟩ := hkeep r rest hkp
      rw [hkp] at hres
      simp only [List.head?_cons] at hres ⊢
      by_cases hon : onLevel l r L = true
      · have hkl : keepL = r :: rest.filter fun p => onLevel l p L := by
          rw [← hkL, hkp]; simp [List.filter_cons, hon]
        refine ⟨some r, Or.inr rfl, fun _ => rfl, ?_, ?_⟩
        · intro k hk
          rw [hkl] at hk
          simp only [List.head?_cons, Option.some.injEq] at hk
          subst hk
          refine ⟨e, he, Or.inr ⟨hcmp, ?_⟩⟩
          rcases hres with h | h <;> simp [h]
        · intro h; rw [hkl] at h; simp at h
      · have hkl : keepL = rest.filter fun p => onLevel l p L := by
          rw [← hkL, hkp]; simp [List.filter_cons, hon]
        have hL0 : L ≠ 0 := by
          intro h0
          subst h0
          exact hon (hon0 rfl r (by simp [hkp]))
        refine ⟨res, hres, fun h => absurd h hL0, ?_, fun _ => rfl⟩
        intro k hk
        have hkm : k ∈ rest := by
          have : k ∈ keepL := List.mem_of_mem_head? hk
          rw [hkl] at this
          exact (List.mem_filter.1 this).1
        obtain ⟨e1, he1, hc1⟩ := hrest k hkm
        exact ⟨e1, he1, Or.inl ⟨hc1, rfl⟩⟩
  have hfirst := Chain_head hc
  obtain ⟨l1, hw1, hset⟩ := truncateAfterWalk_spec (t := t) keepL res1 dropL l 0
    (l.nodes.length + 1) res ht hc
    (fun q hq => by
      rcases List.mem_append.1 hq with h | h
      · exact hne1 q (List.mem_append_left _ (hdsub q h))
      · exact hne1 q (List.mem_append_right _ (hksub q h)))
    (fun d hd => hdrop d (hdsub d hd)) hr3 hr4 (by rw [hh]; exact ⟨_, hfirst⟩) (by omega)
  have hN : NextSum l l1 := NextSum.of_setLevelNext _ hset
  have hlv := levelNext_setLevelNext hset
  refine ⟨l1, res1, ?_, hN, ?_, hr1, hr2, ?_, ?_⟩
  · simp only [truncateAfterLevel, hh, hfirst, Run.ofOption, Run.bind]
    exact hw1
  · rw [(setLevelNext_frame hset).2.1]
    by_cases hL : L = 0
    · subst hL
      have : dropL = drop := by
        rw [← hdL]
        exact List.filter_eq_self.2 fun p hp => hon0 rfl p (List.mem_append_left _ hp)
      simp [this]
    · simp [hL]
  · rw [nextSum_filter_eq hN, hkL]
    have hsuf := Chain_suffix dropL 0 keepL hc
    have h0 : levelNext l1 0 L = some (some (keepL.head?.getD 1)) := by
      rw [hlv, hh]; simp
    cases hkl : keepL with
    | nil =>
      unfold Chain
      rw [h0, hkl]; rfl
    | cons k ks =>
      rw [hkl] at hsuf h0
      unfold Chain at hsuf ⊢
      refine ⟨by simpa using h0, ?_⟩
      have hknd : ∀ q ∈ k :: ks, q ≠ 0 := by
        intro q hq h0q
        subst h0q
        have := (List.nodup_cons.1 hnd).1
        exact this (List.mem_append_right _ (hksub 0 (hkl ▸ hq)))
      refine Chain_congr _ k k hsuf.2 ?_ ?_
      · rw [hlv, hh, if_neg (fun h => hknd k (List.mem_cons_self _ _) h.1)]
        rfl
      · intro q hq
        rw [hlv, hh, if_neg (fun h => hknd q (List.mem_cons_of_mem _ hq) h.1)]
        rfl
  · intro q M hM
    rw [hlv, if_neg (fun h => hM h.2)]
    rfl

theorem truncateAfterLevels_spec {t : Nat} (drop keep : List Nat)
    (hnd : (0 :: (drop ++ keep)).Nodup) (hne1 : ∀ q ∈ drop ++ keep, q ≠ 1) :
    ∀ (n : Nat) (l : myList) (res : Option Nat), l.head = 0 → l.tail = 1 →
      (∀ d ∈ drop, ∃ e, elemOf l (some d) = some (d, e) ∧ compareTo e t = 1) →
      (∀ r rest, keep = r :: rest →
        (∃ e, elemOf l (some r) = some (r, e) ∧ compareTo e t = 0) ∧
        ∀ p ∈ rest, ∃ e, elemOf l (some p) = some (p, e) ∧ compareTo e t < 0) →
      (∀ p ∈ drop ++ keep, onLevel l p 0 = true) →
      (∀ L, L ≤ n → Chain l L 0 ((drop ++ keep).filter fun p => onLevel l p L)) →
      drop.length + 1 ≤ l.nodes.length →
      (res = none ∨ res = keep.head?) →
      ∃ l1, truncateAfterLevels t n l res = .done (l1, keep.head?) ∧ NextSum l l1 ∧
        l1.sum = l.sum - drop.length ∧
        (∀ L, L ≤ n → Chain l1 L 0 (keep.filter fun p => onLevel l1 p L)) ∧
        (∀ q M, n < M → levelNext l1 q M = levelNext l q M)
  | 0, l, res, hh, ht, hdrop, hkeep, hon0, hch, hlen, hres => by
    obtain ⟨l1, res1, h1, hN, hsum, _, hr0, hc1, hfr⟩ := truncateAfterLevel_spec drop keep hnd hne1
      0 l res hh ht hdrop hkeep (fun _ => hon0) (hch 0 (Nat.le_refl _)) hlen hres
    refine ⟨l1, ?_, hN, by simpa using hsum, ?_, ?_⟩
    · simp only [truncateAfterLevels]
      rw [h1, hr0 rfl]
    · intro L hL
      have : L = 0 := by omega
      subst this
      exact hc1
    · intro q M hM
      exact hfr q M (by omega)
  | n + 1, l, res, hh, ht, hdrop, hkeep, hon0, hch, hlen, hres => by
    obtain ⟨l1, res1, h1, hN, hsum, hr1, _, hc1, hfr⟩ := truncateAfterLevel_spec drop keep hnd
      hne1 (n + 1) l res hh ht hdrop hkeep (fun h => by omega) (hch (n + 1) (Nat.le_refl _))
      hlen hres
    obtain ⟨l2, h2, hN2, hsum2, hc2, hfr2⟩ := truncateAfterLevels_spec drop keep hnd hne1 n l1 res1
      (hN.head.trans hh) (hN.tail.trans ht)
      (fun d hd => by rw [hN.elemOf_kept]; exact hdrop d hd)
      (fun r rest hk => by
        obtain ⟨⟨e, he, hc⟩, hrest⟩ := hkeep r rest hk
        refine ⟨⟨e, by rw [hN.elemOf_kept]; exact he, hc⟩, fun p hp => ?_⟩
        obtain ⟨e1, he1, hc1⟩ := hrest p hp
        exact ⟨e1, by rw [hN.elemOf_kept]; exact he1, hc1⟩)
      (fun p hp => by rw [hN.onLevel]; exact hon0 p hp)
      (fun L hL => by
        rw [nextSum_filter_eq hN]
        refine Chain_congr _ 0 0 (hch L (by omega)) (hfr _ _ (by omega)) ?_
        intro q _
        exact hfr _ _ (by omega))
      (by rw [hN.len]; exact hlen) hr1
    refine ⟨l2, ?_, hN.chain hN2, ?_, ?_, ?_⟩
    · simp only [truncateAfterLevels]
      rw [h1]
      simp only [Run.bind]
      exact h2
    · rw [hsum2, hsum]
      simp
    · intro L hL
      by_cases hLn : L ≤ n
      · exact hc2 L hLn
      · have : L = n + 1 := by omega
        subst this
        rw [nextSum_filter_eq hN2]
        refine Chain_congr _ 0 0 hc1 (hfr2 _ _ (by omega)) ?_
        intro q _
        exact hfr2 _ _ (by omega)
    · intro q M hM
      rw [hfr2 q M (by omega), hfr q M (by omega)]
theorem elemOf_of_nodeElem {l l1 : myList} {a : Nat} (hn : nodeElem l1 a = nodeElem l a)
    (he : l1.elems = l.elems) : elemOf l1 (some a) = elemOf l (some a) := by
  rw [elemOf_eq, elemOf_eq, hn, he]

theorem truncateAfter_run {l : myList} {held : List Nat} (hS : Shape l held) (t : Nat)
    (drop keep : List Nat) (hsplit : held = drop ++ keep)
    (hdrop : ∀ d ∈ drop, t < sid l d ∧ t ≤ eid l d)
    (hkeep : ∀ r rest, keep = r :: rest →
      sid l r ≤ t ∧ t ≤ eid l r ∧ ∀ p ∈ rest, eid l p < t) :
    ∃ l1 tp te, truncateAfter l t =
        .done (l1, keep.head?, if keep = [] then some .MEM_NOTFOUND_ERR else none) ∧
      elemOf l (some (keep.head?.getD 1)) = some (tp, te) ∧
      l1.elems = l.elems.set tp { te with endId := UINT64_MAX } ∧
      l1.sum = keep.length ∧ l1.head = 0 ∧ l1.tail = 1 ∧ l1.maxLevel = l.maxLevel ∧
      l1.nodes.length = l.nodes.length ∧
      (∀ q M, onLevel l1 q M = onLevel l q M) ∧
      (∀ q, nodeElem l1 q = if q = 0 then some keep.head? else nodeElem l q) ∧
      (∀ L, L < MAX_LEVEL_LIMIT → Chain l1 L 0 (keep.filter fun p => onLevel l1 p L)) := by
  subst hsplit
  have hnd := hS.nodup
  have hne1 := hS.ne_one
  have helem : ∀ p ∈ drop ++ keep, ∃ e, elemOf l (some p) = some (p, e) ∧
      sid l p = e.startId ∧ eid l p = e.endId := by
    intro p hp
    obtain ⟨e, _, he2, _⟩ := hS.elemOf_held hp
    exact ⟨e, he2, (elemOf_sid he2).1, (elemOf_sid he2).2⟩
  have hdrop' : ∀ d ∈ drop, ∃ e, elemOf l (some d) = some (d, e) ∧ compareTo e t = 1 := by
    intro d hd
    obtain ⟨e, he, hs, hee⟩ := helem d (List.mem_append_left _ hd)
    have := hdrop d hd
    exact ⟨e, he, compareTo_gt (by omega) (by omega)⟩
  have hkeep' : ∀ r rest, keep = r :: rest →
      (∃ e, elemOf l (some r) = some (r, e) ∧ compareTo e t = 0) ∧
      ∀ p ∈ rest, ∃ e, elemOf l (some p) = some (p, e) ∧ compareTo e t < 0 := by
    intro r rest hk
    obtain ⟨h1, h2, h3⟩ := hkeep r rest hk
    obtain ⟨e, he, hs, hee⟩ := helem r (List.mem_append_right _ (by simp [hk]))
    refine ⟨⟨e, he, compareTo_eq (by omega) (by omega)⟩, fun p hp => ?_⟩
    obtain ⟨e1, he1, hs1, hee1⟩ := helem p (List.mem_append_right _ (by simp [hk, hp]))
    have := h3 p hp
    refine ⟨e1, he1, ?_⟩
    rw [compareTo_lt (by omega)]
    decide
  have hon0 : ∀ p ∈ drop ++ keep, onLevel l p 0 = true := by
    intro p hp
    obtain ⟨_, _, _, k, _, hk⟩ := hS.node p hp
    exact (hk 0).2 (Nat.zero_le _)
  have hlen := hS.len_ge
  obtain ⟨l1, h1, hN, hsum, hc1, hfr⟩ := truncateAfterLevels_spec (t := t) drop keep hnd hne1
    l.maxLevel l none hS.head_eq hS.tail_eq hdrop' hkeep' hon0
    (fun L hL => hS.chain L (by have := hS.maxLevel_lt; omega))
    (by simp at hlen; omega) (Or.inl rfl)
  have hchain1 : ∀ L, L < MAX_LEVEL_LIMIT → Chain l1 L 0 (keep.filter fun p => onLevel l1 p L) := by
    intro L hL
    by_cases hLm : L ≤ l.maxLevel
    · exact hc1 L hLm
    · have h0 := hS.chain L hL
      rw [hS.filter_high (by omega)] at h0
      have hk0 : (keep.filter fun p => onLevel l1 p L) = [] := by
        rw [nextSum_filter_eq hN]
        have := hS.filter_high (L := L) (by omega)
        rw [List.filter_append] at this
        exact (List.append_eq_nil.1 this).2
      rw [hk0]
      exact Chain_congr _ 0 0 h0 (hfr _ _ (by omega)) (fun q hq => by simp at hq)
  have hh1 : l1.head = 0 := hN.head.trans hS.head_eq
  obtain ⟨l2, hl2, he2, hs2, hm2, hhd2, htl2, hln2, hlv2, hne2⟩ :=
    setNodeElem_spec (l := l1) (p := l1.head) keep.head?
      (by rw [hh1, hN.len]; omega)
  have hfilt0 : (keep.filter fun p => onLevel l1 p 0) = keep := by
    rw [nextSum_filter_eq hN]
    exact List.filter_eq_self.2 fun p hp => hon0 p (List.mem_append_right _ hp)
  have hnx : levelNext l2 l2.head 0 = some (some (keep.head?.getD 1)) := by
    rw [hlv2, hhd2, hh1]
    have := Chain_head (hchain1 0 (by decide))
    rw [hfilt0] at this
    exact this
  have hx0 : keep.head?.getD 1 ≠ 0 := by
    cases hk : keep with
    | nil => simp
    | cons r rest =>
      simp only [List.head?_cons, Option.getD_some]
      intro h0
      have := (List.nodup_cons.1 hnd).1
      exact this (List.mem_append_right _ (by simp [hk, h0]))
  have hpe : elemOf l2 (some (keep.head?.getD 1)) = elemOf l (some (keep.head?.getD 1)) := by
    refine elemOf_of_nodeElem ?_ (he2.trans hN.elems)
    rw [hne2, hh1, if_neg hx0, hN.nodeElem]
  obtain ⟨tp, te, hte⟩ : ∃ tp te, elemOf l (some (keep.head?.getD 1)) = some (tp, te) := by
    cases hk : keep with
    | nil =>
      obtain ⟨pe, hpe⟩ := hS.tailE
      exact ⟨pe.1, pe.2, by simpa using hpe⟩
    | cons r rest =>
      obtain ⟨e, he, _⟩ := helem r (List.mem_append_right _ (by simp [hk]))
      exact ⟨r, e, by simpa using he⟩
  refine ⟨setElem l2 tp { te with endId := UINT64_MAX }, tp, te, ?_, hte, ?_, ?_, ?_, ?_, ?_, ?_,
    ?_, ?_, ?_⟩
  · unfold truncateAfter
    rw [h1]
    simp only [Run.bind, hl2, Run.ofOption, hnx, hpe, hte]
    cases hk : keep with
    | nil =>
      have : (setElem l2 tp { te with endId := UINT64_MAX }).sum ≤ 0 := by
        show l2.sum ≤ 0
        rw [hs2, hsum, hS.sum_eq, hk]
        simp
      simp [this]
    | cons r rest => simp
  · show l2.elems.set tp _ = _
    rw [he2, hN.elems]
  · show l2.sum = _
    rw [hs2, hsum, hS.sum_eq]
    simp
  · exact hhd2.trans hh1
  · exact htl2.trans (hN.tail.trans hS.tail_eq)
  · exact hm2.trans hN.maxLevel
  · exact hln2.trans hN.len
  · intro q M
    show (levelNext l2 q M).isSome = _
    rw [hlv2]
    exact hN.onLevel q M
  · intro q
    show nodeElem l2 q = _
    rw [hne2, hh1, hN.nodeElem]
  · intro L hL
    have hon : ∀ q M, onLevel (setElem l2 tp { te with endId := UINT64_MAX }) q M =
        onLevel l1 q M := by
      intro q M
      show (levelNext l2 q M).isSome = _
      rw [hlv2]
      rfl
    have : (keep.filter fun p => onLevel (setElem l2 tp { te with endId := UINT64_MAX }) p L) =
        keep.filter fun p => onLevel l1 p L := by
      congr 1
      funext p
      exact hon p L
    rw [this]
    exact Chain_congr _ 0 0 (hchain1 L hL) (hlv2 _ _) (fun q _ => hlv2 _ _)

theorem filter_split_desc {f : Nat → Nat} (t : Nat) :
    ∀ (xs : List Nat), xs.Pairwise (fun p q => f q < f p) →
      xs = (xs.filter fun p => decide (t < f p)) ++ xs.filter fun p => decide (f p ≤ t)
  | [], _ => rfl
  | x :: xs, h => by
    have h2 := List.pairwise_cons.1 h
    have ih := filter_split_desc t xs h2.2
    by_cases hx : t < f x
    · have hx2 : ¬ f x ≤ t := by omega
      simp only [List.filter_cons, hx, hx2, decide_True, decide_False, if_true, List.cons_append]
      simp only [Bool.false_eq_true, if_false]
      rw [← ih]
    · have hx2 : f x ≤ t := by omega
      have h1 : (xs.filter fun p => decide (t < f p)) = [] := by
        refine List.filter_eq_nil_iff.2 fun q hq => ?_
        have := h2.1 q hq
        simp
        omega
      have h3 : (xs.filter fun p => decide (f p ≤ t)) = xs := by
        refine List.filter_eq_self.2 fun q hq => ?_
        have := h2.1 q hq
        simp
        omega
      simp [List.filter_cons, hx, hx2, h1, h3]

theorem Shape.after_truncateAfter {l l1 : myList} {held : List Nat} (hS : Shape l held)
    {drop : List Nat} {r : Nat} {rest : List Nat} (hsplit : held = drop ++ r :: rest)
    {e : myElem} (he : l.elems[r]? = some e)
    (h1 : l1.elems = l.elems.set r { e with endId := UINT64_MAX })
    (h2 : l1.sum = (r :: rest).length) (h3 : l1.head = 0) (h4 : l1.tail = 1)
    (h5 : l1.maxLevel = l.maxLevel) (h6 : l1.nodes.length = l.nodes.length)
    (h7 : ∀ q M, onLevel l1 q M = onLevel l q M)
    (h8 : ∀ q, nodeElem l1 q = if q = 0 then some (some r) else nodeElem l q)
    (h9 : ∀ L, L < MAX_LEVEL_LIMIT → Chain l1 L 0 ((r :: rest).filter fun p => onLevel l1 p L)) :
    Shape l1 (r :: rest) := by
  subst hsplit
  have hmem : ∀ p ∈ r :: rest, p ∈ drop ++ r :: rest := fun p hp => List.mem_append_right _ hp
  have hsid : ∀ q, sid l1 q = sid l q := sid_set (x := { e with endId := UINT64_MAX }) he rfl h1
  have hlen := hS.len_ge
  have hnd := hS.nodup
  refine
    { head_eq := h3
      tail_eq := h4
      len_ge := ?_
      len_le := ?_
      maxLevel_lt := by rw [h5]; exact hS.maxLevel_lt
      sum_eq := h2
      chain := h9
      node := ?_
      sorted := ?_
      tail_elem := ?_
      head_elem := ?_ }
  · rw [h6]
    simp at hlen ⊢
    omega
  · rw [h6, h1, List.length_set]
    exact hS.len_le
  · intro p hp
    obtain ⟨a, b, c, k, hk1, hk2⟩ := hS.node p (hmem p hp)
    refine ⟨a, by rw [h6]; exact b, ?_, k, by rw [h5]; exact hk1, fun L => by rw [h7]; exact hk2 L⟩
    rw [h8, if_neg (by omega)]
    exact c
  · have := (List.pairwise_append.1 hS.sorted).2.1
    refine this.imp ?_
    intro a b hab
    rw [hsid, hsid]
    exact hab
  · obtain ⟨tp, ht1, ht2⟩ := hS.tail_elem
    exact ⟨tp, by rw [h8, if_neg (by decide)]; exact ht1, by rw [h6]; exact ht2⟩
  · refine ⟨r, by rw [h8, if_pos rfl], ?_, fun p hp => by simpa using hp⟩
    rw [h6]
    exact (hS.node r (hmem r (List.mem_cons_self _ _))).2.1

theorem Pushed.eid_lt_sid {es : List myElem} {l : myList} (hP : Pushed es l)
    (hinc : es.Pairwise fun a b => a.startId < b.startId) (hu : ∀ e ∈ es, e.startId < 2 ^ 64)
    {p r : Nat} (hp : p ∈ desc (es.length + 1) (heldCount es.length))
    (hr : r ∈ desc (es.length + 1) (heldCount es.length)) (hpr : p < r) :
    eid l p < sid l r := by
  obtain ⟨hp2, hpn⟩ := hP.held_bounds hp
  obtain ⟨hr2, hrn⟩ := hP.held_bounds hr
  obtain ⟨j, rfl⟩ : ∃ j, p = j + 2 := ⟨p - 2, by omega⟩
  obtain ⟨i, rfl⟩ : ∃ i, r = i + 2 := ⟨r - 2, by omega⟩
  have hi : i < es.length := by omega
  have hj1 : j + 1 < es.length := by omega
  have hei : es[i]? = some es[i] := List.getElem?_eq_getElem hi
  have hej : es[j]? = some es[j] := List.getElem?_eq_getElem (by omega)
  have hej1 : es[j + 1]? = some es[j + 1] := List.getElem?_eq_getElem hj1
  have huj := hu es[j + 1] (List.getElem_mem _)
  have hposj : es[j].startId < es[j + 1].startId :=
    List.pairwise_iff_getElem.1 hinc j (j + 1) (by omega) hj1 (by omega)
  rw [hP.eid_next hej hej1, pred_u64 (by omega) huj, hP.sid_at hei]
  by_cases hji : j + 1 = i
  · subst hji
    omega
  · have : es[j + 1].startId < es[i].startId :=
      List.pairwise_iff_getElem.1 hinc (j + 1) i hj1 hi (by omega)
    omega

theorem Pushed.sorted_sid {es : List myElem} {l : myList} (hP : Pushed es l) :
    (desc (es.length + 1) (heldCount es.length)).Pairwise fun p q => sid l q < sid l p :=
  hP.inv.sorted

theorem Pushed.truncateAfter_filter {es : List myElem} {l : myList} (hP : Pushed es l)
    (hinc : es.Pairwise fun a b => a.startId < b.startId) (hu : ∀ e ∈ es, e.startId < 2 ^ 64)
    (hend : ∀ x, es.getLast? = some x → x.endId = UINT64_MAX) (t : Nat) (ht : t < 2 ^ 64) :
    ∃ l1 tp te, truncateAfter l t =
        .done (l1, ((level0 l).filter fun p => decide (sid l p ≤ t)).head?,
          if ((level0 l).filter fun p => decide (sid l p ≤ t)) = [] then
            some .MEM_NOTFOUND_ERR else none) ∧
      elemOf l (some (((level0 l).filter fun p => decide (sid l p ≤ t)).head?.getD 1)) =
        some (tp, te) ∧
      l1.elems = l.elems.set tp { te with endId := UINT64_MAX } ∧
      l1.sum = ((level0 l).filter fun p => decide (sid l p ≤ t)).length ∧
      l1.head = 0 ∧ l1.tail = 1 ∧ l1.maxLevel = l.maxLevel ∧
      l1.nodes.length = l.nodes.length ∧
      (∀ q M, onLevel l1 q M = onLevel l q M) ∧
      (∀ q, nodeElem l1 q = if q = 0 then
        some ((level0 l).filter fun p => decide (sid l p ≤ t)).head? else nodeElem l q) ∧
      (∀ L, L < MAX_LEVEL_LIMIT → Chain l1 L 0
        (((level0 l).filter fun p => decide (sid l p ≤ t)).filter fun p => onLevel l1 p L)) ∧
      (∀ r ∈ (level0 l).filter fun p => decide (sid l p ≤ t),
        (((level0 l).filter fun p => decide (sid l p ≤ t)).head? = some r → t ≤ eid l r)) := by
  have hS := hP.inv.toShape
  rw [hS.level0_eq]
  have hsplit := filter_split_desc (f := sid l) t _ hS.sorted
  generalize hd : ((desc (es.length + 1) (heldCount es.length)).filter
    fun p => decide (t < sid l p)) = drop at hsplit
  generalize hk : ((desc (es.length + 1) (heldCount es.length)).filter
    fun p => decide (sid l p ≤ t)) = keep at hsplit
  have hdm : ∀ d ∈ drop, d ∈ desc (es.length + 1) (heldCount es.length) ∧ t < sid l d := by
    intro d hdd
    rw [← hd] at hdd
    have := List.mem_filter.1 hdd
    exact ⟨this.1, by simpa using this.2⟩
  have hkm : ∀ d ∈ keep, d ∈ desc (es.length + 1) (heldCount es.length) ∧ sid l d ≤ t := by
    intro d hdd
    rw [← hk] at hdd
    have := List.mem_filter.1 hdd
    exact ⟨this.1, by simpa using this.2⟩
  have hkt : ∀ x, es.getLast? = some x → t ≤ x.endId := by
    intro x hx
    rw [hend x hx]
    unfold UINT64_MAX
    omega
  have hcle := heldCount_le_self es.length
  have hdesc := desc_pairwise (heldCount es.length) (es.length + 1) (by omega)
  have hgapr : ∀ r rest, keep = r :: rest → t ≤ eid l r := by
    intro r rest hkr
    refine hP.gap hu t hkt drop r rest (by rw [hsplit, hkr]) (fun q hq => (hdm q hq).2)
  obtain ⟨l1, tp, te, h1, h2, h3⟩ := truncateAfter_run hS t drop keep hsplit
    (fun d hdd => by
      refine ⟨(hdm d hdd).2, ?_⟩
      -- `sid d <= eid d`
      obtain ⟨pre, post, hpp⟩ := List.append_of_mem (hdm d hdd).1
      have := hP.gap hu (sid l d)
        (fun x hx => by
          rw [hend x hx]
          have hb := hP.held_bounds (hdm d hdd).1
          have hi : d - 2 < es.length := by omega
          have := hP.sid_at (List.getElem?_eq_getElem hi)
          have h2 : d - 2 + 2 = d := by omega
          rw [h2] at this
          rw [this]
          have := hu _ (List.getElem_mem hi)
          unfold UINT64_MAX
          omega)
        pre d post hpp
        (fun q hq => by
          have hs := hS.sorted
          rw [hpp] at hs
          exact (List.pairwise_append.1 hs).2.2 q hq d (List.mem_cons_self _ _))
      have h3 := (hdm d hdd).2
      omega)
    (fun r rest hkr => by
      refine ⟨(hkm r (by simp [hkr])).2, hgapr r rest hkr, fun p hp => ?_⟩
      have hpm := (hkm p (by simp [hkr, hp])).1
      have hrm := (hkm r (by simp [hkr])).1
      have hlt : p < r := by
        rw [hsplit, hkr] at hdesc
        have := (List.pairwise_append.1 hdesc).2.1
        exact (List.pairwise_cons.1 this).1 p hp
      have := hP.eid_lt_sid hinc hu hpm hrm hlt
      have := (hkm r (by simp [hkr])).2
      omega)
  refine ⟨l1, tp, te, h1, h2, h3.1, h3.2.1, h3.2.2.1, h3.2.2.2.1, h3.2.2.2.2.1, h3.2.2.2.2.2.1,
    h3.2.2.2.2.2.2.1, h3.2.2.2.2.2.2.2.1, h3.2.2.2.2.2.2.2.2, ?_⟩
  intro r _ hr
  cases hkr : keep with
  | nil => rw [hkr] at hr; simp at hr
  | cons a rest =>
    rw [hkr] at hr
    simp only [List.head?_cons, Option.some.injEq] at hr
    subst hr
    exact hgapr a rest hkr

/-- C12: on a list built by pushes `push(getElem(s, d))` with strictly increasing `s` (any
number of them, any node levels) and for every `t` that is at least the oldest held `startId`,
`truncateAfter(t)` returns with a nil error the record `r` whose range contained `t` before the
call, afterwards level 0 holds exactly the records whose `startId` is at most `t` (in their old
order), no record object other than `r` has changed, `r.endId` is `UINT64_MAX`, and `last()`
returns `r`. -/
theorem truncateAfter_after_pushes (ps : List (Nat × List Nat × (Nat → Nat)))
    (hinc : ps.Pairwise fun a b => a.1 < b.1) (hu : ∀ p ∈ ps, p.1 < 2 ^ 64) (t : Nat)
    (ht : t < 2 ^ 64) :
    ∃ l, pushAll getMyList (pushArgs ps) = .done (l, none) ∧
      (∀ p ∈ level0 l, nodeElem l p = some (some p)) ∧
      ∀ oldest, (level0 l).getLast? = some oldest → sid l oldest ≤ t →
        ∃ l1 r e, truncateAfter l t = .done (l1, some r, none) ∧
          r ∈ level0 l ∧ l.elems[r]? = some e ∧ e.startId ≤ t ∧ t ≤ e.endId ∧
          level0 l1 = (level0 l).filter (fun p => decide (sid l p ≤ t)) ∧
          l1.elems = l.elems.set r { e with endId := UINT64_MAX } ∧
          (∀ p ∈ level0 l1, nodeElem l1 p = some (some p)) ∧
          last l1 = .done (some r, none) := by
  obtain ⟨l, hrun, hP⟩ := pushArgs_run ps hinc
  have hS := hP.inv.toShape
  have hnode : ∀ p ∈ level0 l, nodeElem l p = some (some p) := by
    intro p hp
    rw [hS.level0_eq] at hp
    exact (hS.node p hp).2.2.1
  refine ⟨l, hrun, hnode, ?_⟩
  intro oldest hold hot
  obtain ⟨l1, tp, te, h1, h2, h3, h4, h5, h6, h7, h8, h9, h10, h11, h12⟩ :=
    hP.truncateAfter_filter (List.pairwise_map.2 hinc)
      (by
        intro e he
        obtain ⟨p, hp, rfl⟩ := List.mem_map.1 he
        exact hu p hp)
      (by
        intro x hx
        have hmem := List.mem_of_getLast?_eq_some hx
        obtain ⟨p, _, rfl⟩ := List.mem_map.1 hmem
        rfl) t ht
  have hsplit := filter_split_desc (f := sid l) t _ hS.sorted
  rw [← hS.level0_eq] at hsplit
  have hl0 := hS.level0_eq
  generalize hk : ((level0 l).filter fun p => decide (sid l p ≤ t)) = keep at *
  generalize ((level0 l).filter fun p => decide (t < sid l p)) = drop at hsplit
  have hom : oldest ∈ keep := by
    rw [← hk]
    exact List.mem_filter.2 ⟨List.mem_of_getLast?_eq_some hold, by simpa using hot⟩
  obtain ⟨r, rest, hkr⟩ : ∃ r rest, keep = r :: rest := by
    cases hkk : keep with
    | nil => rw [hkk] at hom; simp at hom
    | cons a b => exact ⟨a, b, rfl⟩
  have hrk : r ∈ keep := by rw [hkr]; simp
  have hrl : r ∈ level0 l := by
    rw [← hk] at hrk
    exact (List.mem_filter.1 hrk).1
  have hrt : sid l r ≤ t := by
    rw [← hk] at hrk
    simpa using (List.mem_filter.1 hrk).2
  obtain ⟨e, he1, he2, he3⟩ := hS.elemOf_held (hl0 ▸ hrl)
  have hte : tp = r ∧ te = e := by
    rw [hkr] at h2
    simp only [List.head?_cons, Option.getD_some] at h2
    rw [he2] at h2
    simp only [Option.some.injEq, Prod.mk.injEq] at h2
    exact ⟨h2.1.symm, h2.2.symm⟩
  obtain ⟨rfl, rfl⟩ := hte
  have htr := h12 tp hrk (by rw [hkr]; rfl)
  have hS1 : Shape l1 (tp :: rest) := by
    rw [hl0] at hsplit
    refine hS.after_truncateAfter (hkr ▸ hsplit) he1 h3 (by rw [h4, hkr]) h5 h6 h7 h8 h9
      (fun q => by rw [h10 q, hkr]; rfl) (fun L hL => by have := h11 L hL; rwa [hkr] at this)
  refine ⟨l1, tp, te, ?_, hrl, he1, by omega, ?_, ?_, h3, ?_, ?_⟩
  · rw [h1, hkr]
    simp
  · have := (elemOf_sid he2).2
    omega
  · rw [hS1.level0_eq, hkr]
  · intro p hp
    rw [hS1.level0_eq] at hp
    exact (hS1.node p hp).2.2.1
  · have hsum : ¬ l1.sum ≤ 0 := by
      rw [h4, hkr]
      simp
    simp only [last, hsum, if_false, h5]
    rw [h10 0, hkr]
    simp

/-- On a list built by strictly increasing pushes alone, `truncateAfter(t)` with `t` smaller
than every held `startId` removes every record, leaves `sum == 0` and returns
`MEM_NOTFOUND_ERR`. -/
theorem truncateAfter_all_after_pushes (ps : List (Nat × List Nat × (Nat → Nat)))
    (hinc : ps.Pairwise fun a b => a.1 < b.1) (hu : ∀ p ∈ ps, p.1 < 2 ^ 64) (t : Nat)
    (ht : t < 2 ^ 64) :
    ∃ l, pushAll getMyList (pushArgs ps) = .done (l, none) ∧
      ((∀ p ∈ level0 l, t < sid l p) →
        ∃ l1, truncateAfter l t = .done (l1, none, some .MEM_NOTFOUND_ERR) ∧
          level0 l1 = [] ∧ l1.sum = 0) := by
  obtain ⟨l, hrun, hP⟩ := pushArgs_run ps hinc
  have hS := hP.inv.toShape
  refine ⟨l, hrun, fun hall => ?_⟩
  obtain ⟨l1, tp, te, h1, h2, h3, h4, h5, h6, h7, h8, h9, h10, h11, h12⟩ :=
    hP.truncateAfter_filter (List.pairwise_map.2 hinc)
      (by
        intro e he
        obtain ⟨p, hp, rfl⟩ := List.mem_map.1 he
        exact hu p hp)
      (by
        intro x hx
        have hmem := List.mem_of_getLast?_eq_some hx
        obtain ⟨p, _, rfl⟩ := List.mem_map.1 hmem
        rfl) t ht
  have hk : ((level0 l).filter fun p => decide (sid l p ≤ t)) = [] := by
    refine List.filter_eq_nil_iff.2 fun q hq => ?_
    have := hall q hq
    simp
    omega
  rw [hk] at h1 h4 h11
  refine ⟨l1, by simpa using h1, ?_, by simpa using h4⟩
  exact level0_of_chain h5 h6 (h11 0 (by decide)) (by simp) (by simp)

theorem demoList_run : pushAll getMyList (pushArgs demoPushes) = .done (demoList, none) := by
  decide

theorem demoList_shape : Shape demoList [4, 3, 2] := by
  have h := (pushAll_pushed demoList_run).inv.toShape
  exact h

/-- Sample input for `truncateAfter_after_pushes`: the three sample pushes and `t = 250`. -/
theorem truncateAfter_after_pushes_witness :
    (demoPushes.Pairwise fun a b => a.1 < b.1) ∧ (∀ p ∈ demoPushes, p.1 < 2 ^ 64) ∧
    (250 : Nat) < 2 ^ 64 ∧
    ∃ l, pushAll getMyList (pushArgs demoPushes) = .done (l, none) ∧
      (∀ p ∈ level0 l, nodeElem l p = some (some p)) ∧
      ∀ oldest, (level0 l).getLast? = some oldest → sid l oldest ≤ 250 →
        ∃ l1 r e, truncateAfter l 250 = .done (l1, some r, none) ∧
          r ∈ level0 l ∧ l.elems[r]? = some e ∧ e.startId ≤ 250 ∧ 250 ≤ e.endId ∧
          level0 l1 = (level0 l).filter (fun p => decide (sid l p ≤ 250)) ∧
          l1.elems = l.elems.set r { e with endId := UINT64_MAX } ∧
          (∀ p ∈ level0 l1, nodeElem l1 p = some (some p)) ∧
          last l1 = .done (some r, none) :=
  ⟨by decide, by decide, by decide,
    truncateAfter_after_pushes demoPushes (by decide) (by decide) 250 (by decide)⟩

/-- Sample input for `truncateSome_removes_oldest`: the list after the three sample pushes and
`n = 1`. -/
theorem truncateSome_removes_oldest_witness :
    Shape demoList [4, 3, 2] ∧ (0 : Int) ≤ 1 ∧
    ∃ l1, truncateSome demoList 1 = .done (l1, none) ∧ l1.elems = demoList.elems ∧
      (∀ q, nodeElem l1 q = nodeElem demoList q) ∧
      ((1 : Int) ≥ demoList.sum → l1.sum = 0 ∧ level0 l1 = [] ∧
        ∀ L, L < MAX_LEVEL_LIMIT → Chain l1 L 0 []) ∧
      ((1 : Int) < demoList.sum → l1.sum = demoList.sum - 1 ∧
        level0 l1 = (level0 demoList).take (demoList.sum - 1).toNat ∧
        ∀ L, L < MAX_LEVEL_LIMIT →
          Chain l1 L 0
            (((level0 demoList).take (demoList.sum - 1).toNat).filter
              fun p => onLevel l1 p L)) :=
  ⟨demoList_shape, by decide, truncateSome_removes_oldest demoList_shape 1 (by decide)⟩

theorem u64_of_lt {n : Nat} (h : n < 2 ^ 64) : u64 n = n := Nat.mod_eq_of_lt h

theorem length_putUint64 (v : Nat) : (putUint64 v).length = 8 := rfl

theorem getUint64_putUint64 {v : Nat} (h : v < 2 ^ 64) : getUint64 (putUint64 v) = v := by
  simp only [getUint64, putUint64, List.foldl]
  omega

theorem mapGet_mapSet {β : Type} (m : List (String × β)) (k : String) (v : β) (k1 : String) :
    mapGet (mapSet m k v) k1 = if k = k1 then some v else mapGet m k1 := by
  induction m with
  | nil =>
    simp [mapSet, mapGet]
  | cons kv rest ih =>
    obtain ⟨k0, v0⟩ := kv
    by_cases h0 : k0 = k
    · subst h0
      by_cases h1 : k0 = k1
      · simp [mapSet, mapGet, h1]
      · simp [mapSet, mapGet, h1]
    · by_cases h1 : k0 = k1
      · subst h1
        simp [mapSet, mapGet, h0, Ne.symm h0]
      · simp [mapSet, mapGet, h0, h1, ih]

theorem length_writeAt (f b : List Nat) (off : Nat) :
    (writeAt f b off).length = if b = [] then f.length else max f.length (off + b.length) := by
  unfold writeAt
  split
  · rfl
  · simp only [List.length_append, List.length_take, List.length_replicate, List.length_drop]
    omega

theorem readAt_writeAt_self (f b : List Nat) (off : Nat) :
    readAt (writeAt f b off) b.length off = b := by
  unfold writeAt readAt
  split
  · next h => simp [h]
  · have h1 : ((f ++ List.replicate (off - f.length) 0).take off).length = off := by
      simp only [List.length_take, List.length_append, List.length_replicate]
      omega
    rw [List.append_assoc, List.drop_append_eq_append_drop, h1]
    rw [List.drop_eq_nil_of_le (by omega)]
    simp

theorem readAt_writeAt_of_le (f b : List Nat) (off n p : Nat) (h1 : p + n ≤ off)
    (h2 : p + n ≤ f.length) : readAt (writeAt f b off) n p = readAt f n p := by
  unfold writeAt readAt
  split
  · rfl
  · have hl : ((f ++ List.replicate (off - f.length) 0).take off).length = off := by
      simp only [List.length_take, List.length_append, List.length_replicate]
      omega
    apply List.ext_getElem?
    intro i
    simp only [List.getElem?_take, List.getElem?_drop]
    by_cases hi : i < n
    · simp only [hi, if_true]
      rw [List.append_assoc, List.getElem?_append_left (by omega)]
      rw [List.getElem?_take, if_pos (by omega), List.getElem?_append_left (by omega)]
    · simp [hi]

theorem getPaddedSize_lt (n : Nat) : getPaddedSize n < 512 := by
  unfold getPaddedSize u64 DATA_BLOCK_SIZE
  simp only []
  split <;> omega

theorem slotSize_eq {n : Nat} (h : n < 2 ^ 62) :
    slotSize n = 24 + n + getPaddedSize n ∧ 512 ≤ slotSize n ∧ slotSize n % 512 = 0 := by
  have hp := getPaddedSize_lt n
  have h1 : slotSize n = 24 + n + getPaddedSize n := by
    unfold slotSize u64 DATA_HEAD_SIZE DATA_BUFF_POS DATA_BUFFLEN_POS DATA_ENDID_POS
      DATA_STARTID_POS ID_LEN
    omega
  refine ⟨h1, ?_, ?_⟩
  · rw [h1]
    unfold getPaddedSize u64 DATA_BLOCK_SIZE DATA_HEAD_SIZE DATA_BUFF_POS DATA_BUFFLEN_POS
      DATA_ENDID_POS DATA_STARTID_POS ID_LEN
    simp only []
    split <;> omega
  · rw [h1]
    unfold getPaddedSize u64 DATA_BLOCK_SIZE DATA_HEAD_SIZE DATA_BUFF_POS DATA_BUFFLEN_POS
      DATA_ENDID_POS DATA_STARTID_POS ID_LEN
    simp only []
    split <;> omega

theorem getLatestFileName_of_ne {d : diskIo} (h : d.latestFileName ≠ "") :
    getLatestFileName d = (d, d.latestFileName) := by
  unfold getLatestFileName
  rw [if_neg h]

theorem getLatestFilePtr_of_open {d : diskIo} {f : osFile} (h : d.latestFileName ≠ "")
    (hf : d.latestFilePtr = some f) : getLatestFilePtr d = (d, some f, none) := by
  unfold getLatestFilePtr
  rw [getLatestFileName_of_ne h]
  dsimp only
  rw [hf]

theorem osFile_ReadAt_eq {files : List (String × List Nat)} {f : osFile} {data : List Nat}
    {n off : Nat} (hf : mapGet files f.name = some data) (hoff : off < 2 ^ 63) :
    osFile.ReadAt files f n off = (readAt data n off, decide ((readAt data n off).length < n)) := by
  unfold osFile.ReadAt
  rw [if_neg (by omega), hf]

theorem osFile_WriteAt_eq {files : List (String × List Nat)} {name : String} {data : List Nat}
    (b : List Nat) {off : Nat} (hf : mapGet files name = some data) (hoff : off < 2 ^ 63) :
    osFile.WriteAt files ⟨name, true⟩ b off = some (mapSet files name (writeAt data b off)) := by
  unfold osFile.WriteAt
  rw [if_neg (by simp; omega)]
  dsimp only
  rw [hf]

theorem checkIdValid_appended {d : diskIo} {name : String} {info : indexInfo} {file : List Nat}
    {lastId : Nat} (hA : Appended d name info file lastId) (hl : lastId < 2 ^ 64)
    (logIndex : Nat) :
    checkIdValid d logIndex = .done (d, if logIndex ≤ lastId then some .other else none) := by
  have hne : d.latestFileName ≠ "" := by rw [hA.latestFileName]; exact hA.name_ne
  have h1 := hA.pos_le
  have h2 := hA.size_lt
  have hrd : osFile.ReadAt d.files ⟨name, true⟩ ID_LEN info.meta.lastRecordPos =
      (putUint64 lastId, false) := by
    rw [osFile_ReadAt_eq (f := ⟨name, true⟩) hA.bytes (by omega), hA.start]
    rfl
  unfold checkIdValid
  rw [getLatestFileName_of_ne hne, getLatestFilePtr_of_open hne hA.latestFilePtr]
  dsimp only
  rw [hA.latestFileName, hA.index]
  dsimp only
  rw [hrd]
  dsimp only
  rw [getUint64_putUint64 hl]
  split <;> rfl

theorem append_reject {d : diskIo} {name : String} {info : indexInfo} {file : List Nat}
    {lastId : Nat} (hA : Appended d name info file lastId) (hl : lastId < 2 ^ 64)
    {logIndex : Nat} (h : logIndex ≤ lastId) (buff : List Nat) :
    diskIo.append d logIndex buff = .done (d, some .other) := by
  unfold diskIo.append
  rw [checkIdValid_appended hA hl, if_pos h]
  rfl

theorem readAt_writeAt_take (f b : List Nat) (off n : Nat) (hn : n ≤ b.length) (hn0 : 0 < n) :
    readAt (writeAt f b off) n off = b.take n := by
  unfold writeAt readAt
  have hb : b ≠ [] := by
    intro h
    rw [h] at hn
    simp at hn
    omega
  rw [if_neg hb]
  have h1 : ((f ++ List.replicate (off - f.length) 0).take off).length = off := by
    simp only [List.length_take, List.length_append, List.length_replicate]
    omega
  rw [List.append_assoc, List.drop_append_eq_append_drop, h1]
  rw [List.drop_eq_nil_of_le (by omega)]
  simp only [Nat.sub_self, List.drop_zero, List.nil_append]
  rw [List.take_append_of_le_length hn]

theorem ite_nonempty_ne (out : List Char) :
    (if out = [] then "." else (⟨out⟩ : String)) ≠ "" := by
  split
  · decide
  · next h =>
    intro hc
    exact h (congrArg String.data hc)

theorem filepath_Clean_ne (s : String) : filepath.Clean s ≠ "" :=
  ite_nonempty_ne _

theorem getFileNameByStartId_ne (d : diskIo) (id : Nat) : getFileNameByStartId d id ≠ "" := by
  unfold getFileNameByStartId filepath.Join
  split
  · exact filepath_Clean_ne _
  · split
    · exact filepath_Clean_ne _
    · next h1 h2 =>
      exfalso
      apply h2
      intro hc
      have := congrArg String.length hc
      simp only [String.length_append] at this
      have h5 : ".data".length = 5 := by decide
      have h0 : "".length = 0 := by decide
      omega

theorem updateIndex_ok {info : indexInfo} (hs : info.meta.dataFileSize < 2 ^ 62)
    (hi : info.indexs.length * DATA_BLOCK_SIZE ≤ info.meta.dataFileSize) (id : Nat)
    {size : Nat} (hsz : size < 2 ^ 62) :
    (info.updateIndex 1 id size).2 = none ∧
    (info.updateIndex 1 id size).1.meta.lastRecordPos = info.meta.dataFileSize ∧
    (info.updateIndex 1 id size).1.meta.dataFileSize = info.meta.dataFileSize + size ∧
    (info.updateIndex 1 id size).1.meta.maxId = id ∧
    (info.updateIndex 1 id size).1.meta.minId =
      (if info.meta.recordNum = 0 then id else info.meta.minId) ∧
    (info.updateIndex 1 id size).1.indexs.length ≤ info.indexs.length + 1 := by
  have htail : ¬ 2 ^ 63 ≤ u64 (IDX_HEADER_SIZE + u64 (info.indexs.length * SI_SIZE)) := by
    unfold DATA_BLOCK_SIZE at hi
    unfold u64 IDX_HEADER_SIZE SI_SIZE ID_LEN
    omega
  have hds : u64 (info.meta.dataFileSize + size) = info.meta.dataFileSize + size := by
    unfold u64
    omega
  unfold indexInfo.updateIndex
  rw [if_neg (by decide)]
  by_cases hr : info.meta.recordNum = 0
  · simp only [hr, if_true]
    split
    · unfold indexInfo.addNewIndex
      dsimp only
      rw [if_neg htail]
      dsimp only
      exact ⟨rfl, rfl, hds, rfl, rfl, by simp⟩
    · exact ⟨rfl, rfl, hds, rfl, rfl, by dsimp only; omega⟩
  · simp only [hr, if_false]
    split
    · unfold indexInfo.addNewIndex
      dsimp only
      rw [if_neg htail]
      dsimp only
      exact ⟨rfl, rfl, hds, rfl, rfl, by simp⟩
    · exact ⟨rfl, rfl, hds, rfl, rfl, by dsimp only; omega⟩

theorem mapSet_mapSet {β : Type} (m : List (String × β)) (k : String) (v w : β) :
    mapSet (mapSet m k v) k w = mapSet m k w := by
  induction m with
  | nil => simp [mapSet]
  | cons kv rest ih =>
    obtain ⟨k0, v0⟩ := kv
    by_cases h0 : k0 = k
    · simp [mapSet, h0]
    · simp [mapSet, h0, ih]

theorem mapGet_mapSet_same {β : Type} (m : List (String × β)) (k : String) (v : β) :
    mapGet (mapSet m k v) k = some v := by
  rw [mapGet_mapSet, if_pos rfl]

theorem appendElem_ok {d : diskIo} {name : String} {info : indexInfo} {f : List Nat}
    (hne : name ≠ "") (hn : d.latestFileName = name) (hp : d.latestFilePtr = some ⟨name, true⟩)
    (hi : mapGet d.mapIndex name = some info) (hf : mapGet d.files name = some f)
    (hs : info.meta.dataFileSize < 2 ^ 62) (id : Nat) (buff : List Nat)
    (hb : buff.length < 2 ^ 61) :
    appendElem d id buff =
      .done ({ d with
        files := mapSet d.files name (recordWritten f info.meta.dataFileSize id buff) },
        none) := by
  have hdne : d.latestFileName ≠ "" := by rw [hn]; exact hne
  have h1 : u64 (info.meta.dataFileSize + DATA_HEAD_SIZE) =
      info.meta.dataFileSize + DATA_HEAD_SIZE := by
    unfold u64 DATA_HEAD_SIZE DATA_BUFF_POS DATA_BUFFLEN_POS DATA_ENDID_POS DATA_STARTID_POS ID_LEN
    omega
  have h2 : u64 (info.meta.dataFileSize + DATA_HEAD_SIZE + buff.length) =
      info.meta.dataFileSize + DATA_HEAD_SIZE + buff.length := by
    unfold u64 DATA_HEAD_SIZE DATA_BUFF_POS DATA_BUFFLEN_POS DATA_ENDID_POS DATA_STARTID_POS ID_LEN
    omega
  have h3 : info.meta.dataFileSize + DATA_HEAD_SIZE + buff.length < 2 ^ 63 := by
    unfold DATA_HEAD_SIZE DATA_BUFF_POS DATA_BUFFLEN_POS DATA_ENDID_POS DATA_STARTID_POS ID_LEN
    omega
  have h4 : info.meta.dataFileSize + DATA_HEAD_SIZE < 2 ^ 63 := by omega
  unfold appendElem
  rw [getLatestFileName_of_ne hdne]
  dsimp only
  rw [hn, hi]
  dsimp only
  rw [hp]
  dsimp only
  rw [osFile_WriteAt_eq _ hf (by omega)]
  dsimp only
  rw [h1, osFile_WriteAt_eq _ (mapGet_mapSet_same _ _ _) h4]
  dsimp only
  rw [h2, osFile_WriteAt_eq _ (mapGet_mapSet_same _ _ _) h3]
  dsimp only
  rw [mapSet_mapSet, mapSet_mapSet]
  rfl

theorem updateLastIndex_ok {d : diskIo} {name : String} {info : indexInfo}
    (hne : name ≠ "") (hn : d.latestFileName = name)
    (hi : mapGet d.mapIndex name = some info) (id len : Nat) :
    updateLastIndex d 1 id len =
      .done ({ d with
        mapIndex := mapSet d.mapIndex name (info.updateIndex 1 id (slotSize len)).1 },
        (info.updateIndex 1 id (slotSize len)).2) := by
  have hdne : d.latestFileName ≠ "" := by rw [hn]; exact hne
  unfold updateLastIndex diskIo.updateIndex
  rw [getLatestFileName_of_ne hdne]
  dsimp only
  rw [hn, hi]
  rfl

theorem append_of_stages {d d1 d2 d3 d4 : diskIo} {id : Nat} {buff : List Nat}
    {r : Run (diskIo × Option diskErr)}
    (h1 : checkIdValid d id = .done (d1, none)) (h2 : updateLastElem d1 id = .done (d2, none))
    (h3 : getLatestFileToWrite d2 id buff.length = .done (d3, none))
    (h4 : appendElem d3 id buff = .done (d4, none))
    (h5 : updateLastIndex d4 1 id buff.length = r) : diskIo.append d id buff = r := by
  unfold diskIo.append
  rw [h1]
  dsimp only [Run.bind]
  rw [h2]
  dsimp only [Run.bind]
  rw [h3]
  dsimp only [Run.bind]
  rw [h4]
  dsimp only [Run.bind]
  exact h5

theorem updateLastElem_appended {d : diskIo} {name : String} {info : indexInfo}
    {file : List Nat} {lastId : Nat} (hA : Appended d name info file lastId) (logIndex : Nat) :
    updateLastElem d logIndex =
      .done ({ d with
        files := mapSet d.files name (endIdPatched file info.meta.lastRecordPos logIndex) },
        none) := by
  have hne : d.latestFileName ≠ "" := by rw [hA.latestFileName]; exact hA.name_ne
  have h1 := hA.pos_le
  have h2 := hA.size_lt
  have hu : u64 (info.meta.lastRecordPos + DATA_ENDID_POS) =
      info.meta.lastRecordPos + DATA_ENDID_POS := by
    unfold DATA_HEAD_SIZE DATA_BUFF_POS DATA_BUFFLEN_POS DATA_ENDID_POS DATA_STARTID_POS
      ID_LEN at *
    unfold u64
    omega
  have hlt : info.meta.lastRecordPos + DATA_ENDID_POS < 2 ^ 63 := by
    unfold DATA_HEAD_SIZE DATA_BUFF_POS DATA_BUFFLEN_POS DATA_ENDID_POS DATA_STARTID_POS
      ID_LEN at *
    omega
  unfold updateLastElem
  rw [hA.latestFilePtr]
  dsimp only
  rw [getLatestFileName_of_ne hne]
  dsimp only
  rw [hA.latestFileName, hA.index]
  dsimp only
  rw [hu, osFile_WriteAt_eq _ hA.bytes hlt]
  dsimp only
  rw [hA.latestFilePtr]
  rfl

theorem getLatestFileToWrite_open {d : diskIo} {f : osFile} (h : d.latestFileName ≠ "")
    (hf : d.latestFilePtr = some f) (id len : Nat) :
    getLatestFileToWrite d id len = getLatestFileToWriteCheck d d.latestFileName id len := by
  unfold getLatestFileToWrite
  rw [getLatestFileName_of_ne h]
  dsimp only
  rw [hf]

theorem writeSize_eq {dfs len : Nat} (hs : dfs < 2 ^ 62) (hb : len < 2 ^ 61) :
    u64 (dfs + u64 (len + DATA_HEAD_SIZE)) = dfs + (len + 24) := by
  unfold u64 DATA_HEAD_SIZE DATA_BUFF_POS DATA_BUFFLEN_POS DATA_ENDID_POS DATA_STARTID_POS ID_LEN
  omega

theorem Appended.after_record {d : diskIo} {name : String} {info : indexInfo} {f : List Nat}
    (hne : name ≠ "") (hn : d.latestFileName = name) (hp : d.latestFilePtr = some ⟨name, true⟩)
    (hx : info.indexs.length * DATA_BLOCK_SIZE ≤ info.meta.dataFileSize)
    (id : Nat) (buff : List Nat) (hb : buff.length < 2 ^ 61)
    (hsl : info.meta.dataFileSize + (buff.length + 24) ≤ DATA_MAX_FILE_SIZE ∨
      info.meta.dataFileSize = 0) :
    Appended
      { d with
        files := mapSet d.files name (recordWritten f info.meta.dataFileSize id buff)
        mapIndex := mapSet d.mapIndex name (info.updateIndex 1 id (slotSize buff.length)).1 }
      name (info.updateIndex 1 id (slotSize buff.length)).1
      (recordWritten f info.meta.dataFileSize id buff) id := by
  have hsl1 := slotSize_eq (n := buff.length) (by omega)
  have hpad := getPaddedSize_lt buff.length
  have hdfs : info.meta.dataFileSize < 2 ^ 62 := by
    unfold DATA_MAX_FILE_SIZE at hsl
    omega
  obtain ⟨_, u2, u3, _, _, u6⟩ := @updateIndex_ok _ hdfs hx id (slotSize buff.length)
    (by omega)
  refine
    { name_ne := hne
      latestFileName := hn
      latestFilePtr := hp
      index := mapGet_mapSet_same _ _ _
      bytes := mapGet_mapSet_same _ _ _
      pos_le := ?_
      size_lt := ?_
      idx_le := ?_
      start := ?_ }
  · rw [u2, u3]
    unfold DATA_HEAD_SIZE DATA_BUFF_POS DATA_BUFFLEN_POS DATA_ENDID_POS DATA_STARTID_POS ID_LEN
    omega
  · rw [u3]
    unfold DATA_MAX_FILE_SIZE at hsl
    omega
  · rw [u3]
    unfold DATA_BLOCK_SIZE at hx ⊢
    omega
  · rw [u2]
    unfold recordWritten
    have hID : ID_LEN = 8 := rfl
    have hH : DATA_HEAD_SIZE = 24 := rfl
    have hl1 : info.meta.dataFileSize + 24 ≤
        (writeAt f (putUint64 id ++ List.replicate ID_LEN 0 ++ putUint64 buff.length)
          info.meta.dataFileSize).length := by
      rw [length_writeAt, if_neg (by simp [putUint64])]
      simp only [List.length_append, length_putUint64, List.length_replicate, hID]
      omega
    have hl2 : info.meta.dataFileSize + 24 ≤
        (writeAt (writeAt f (putUint64 id ++ List.replicate ID_LEN 0 ++ putUint64 buff.length)
          info.meta.dataFileSize) buff (info.meta.dataFileSize + DATA_HEAD_SIZE)).length := by
      rw [length_writeAt]
      split <;> omega
    rw [readAt_writeAt_of_le _ _ _ _ _ (by omega) (by omega)]
    rw [readAt_writeAt_of_le _ _ _ _ _ (by omega) (by omega)]
    rw [List.append_assoc]
    have := readAt_writeAt_take f (putUint64 id ++ (List.replicate ID_LEN 0 ++
      putUint64 buff.length)) info.meta.dataFileSize 8 (by simp [putUint64]) (by omega)
    rw [hID] at this ⊢
    rw [this]
    rfl

/-- The state after a successful `append` that stays in the latest data file. -/
theorem append_same_file {d : diskIo} {name : String} {info : indexInfo} {file : List Nat}
    {lastId : Nat} (hA : Appended d name info file lastId) (hl : lastId < 2 ^ 64)
    {logIndex : Nat} (h : lastId < logIndex) (buff : List Nat) (hb : buff.length < 2 ^ 61)
    (hno : info.meta.dataFileSize + (buff.length + 24) ≤ DATA_MAX_FILE_SIZE) :
    diskIo.append d logIndex buff =
      .done ({ d with
        files := mapSet d.files name
          (recordWritten (endIdPatched file info.meta.lastRecordPos logIndex)
            info.meta.dataFileSize logIndex buff)
        mapIndex := mapSet d.mapIndex name
          (info.updateIndex 1 logIndex (slotSize buff.length)).1 }, none) ∧
    Appended
      { d with
        files := mapSet d.files name
          (recordWritten (endIdPatched file info.meta.lastRecordPos logIndex)
            info.meta.dataFileSize logIndex buff)
        mapIndex := mapSet d.mapIndex name
          (info.updateIndex 1 logIndex (slotSize buff.length)).1 }
      name (info.updateIndex 1 logIndex (slotSize buff.length)).1
      (recordWritten (endIdPatched file info.meta.lastRecordPos logIndex)
        info.meta.dataFileSize logIndex buff) logIndex := by
  have hne : d.latestFileName ≠ "" := by rw [hA.latestFileName]; exact hA.name_ne
  have hsl := slotSize_eq (n := buff.length) (by omega)
  have hpad := getPaddedSize_lt buff.length
  obtain ⟨u1, _⟩ := @updateIndex_ok _ hA.size_lt hA.idx_le logIndex (slotSize buff.length)
    (by omega)
  obtain ⟨d2, hd2⟩ : ∃ d2 : diskIo, d2 = { d with
      files := mapSet d.files name (endIdPatched file info.meta.lastRecordPos logIndex) } :=
    ⟨_, rfl⟩
  have e1 : d2.latestFileName = name := by rw [hd2]; exact hA.latestFileName
  have e2 : d2.latestFilePtr = some ⟨name, true⟩ := by rw [hd2]; exact hA.latestFilePtr
  have e3 : mapGet d2.mapIndex name = some info := by rw [hd2]; exact hA.index
  have e4 : mapGet d2.files name =
      some (endIdPatched file info.meta.lastRecordPos logIndex) := by
    rw [hd2]; exact mapGet_mapSet_same _ _ _
  have hne2 : d2.latestFileName ≠ "" := by rw [e1]; exact hA.name_ne
  have hA2 := @Appended.after_record d2 _ info
    (endIdPatched file info.meta.lastRecordPos logIndex) hA.name_ne e1 e2 hA.idx_le
    logIndex buff hb (Or.inl hno)
  have hfin : ({ d2 with
      files := mapSet d2.files name
        (recordWritten (endIdPatched file info.meta.lastRecordPos logIndex)
          info.meta.dataFileSize logIndex buff)
      mapIndex := mapSet d2.mapIndex name
        (info.updateIndex 1 logIndex (slotSize buff.length)).1 } : diskIo) =
      { d with
        files := mapSet d.files name
          (recordWritten (endIdPatched file info.meta.lastRecordPos logIndex)
            info.meta.dataFileSize logIndex buff)
        mapIndex := mapSet d.mapIndex name
          (info.updateIndex 1 logIndex (slotSize buff.length)).1 } := by
    rw [hd2]
    dsimp only
    rw [mapSet_mapSet]
  rw [← hfin]
  refine ⟨?_, hA2⟩
  obtain ⟨d4, hd4⟩ : ∃ d4 : diskIo, d4 = { d2 with
      files := mapSet d2.files name
        (recordWritten (endIdPatched file info.meta.lastRecordPos logIndex)
          info.meta.dataFileSize logIndex buff) } := ⟨_, rfl⟩
  have f1 : d4.latestFileName = name := by rw [hd4]; exact e1
  have f3 : mapGet d4.mapIndex name = some info := by rw [hd4]; exact e3
  refine @append_of_stages _ d d2 d2 d4 _ _ _ ?_ ?_ ?_ ?_ ?_
  · rw [checkIdValid_appended hA hl, if_neg (by omega)]
  · rw [hd2]
    exact updateLastElem_appended hA logIndex
  · rw [getLatestFileToWrite_open (d := d2) hne2 e2]
    unfold getLatestFileToWriteCheck
    rw [e1, e3]
    dsimp only
    rw [writeSize_eq hA.size_lt hb, if_neg (by omega)]
  · rw [hd4]
    exact appendElem_ok (d := d2) hA.name_ne e1 e2 e3 e4 hA.size_lt logIndex buff hb
  · rw [@updateLastIndex_ok _ _ info hA.name_ne f1 f3, u1, hd4]

theorem appendElem_updateLastIndex_new {d : diskIo} (id : Nat) (buff : List Nat)
    (hb : buff.length < 2 ^ 61) :
    appendElem (createNewDataFile d id).1 id buff =
      .done ({ (createNewDataFile d id).1 with
        files := mapSet d.files (getFileNameByStartId d id) (recordWritten [] 0 id buff) },
        none) ∧
    updateLastIndex
      { (createNewDataFile d id).1 with
        files := mapSet d.files (getFileNameByStartId d id) (recordWritten [] 0 id buff) }
      1 id buff.length =
      .done ({ d with
        files := mapSet d.files (getFileNameByStartId d id) (recordWritten [] 0 id buff)
        latestFileName := getFileNameByStartId d id
        latestFilePtr := some ⟨getFileNameByStartId d id, true⟩
        mapIndex := mapSet d.mapIndex (getFileNameByStartId d id)
          (freshIndex.updateIndex 1 id (slotSize buff.length)).1 }, none) ∧
    Appended
      { d with
        files := mapSet d.files (getFileNameByStartId d id) (recordWritten [] 0 id buff)
        latestFileName := getFileNameByStartId d id
        latestFilePtr := some ⟨getFileNameByStartId d id, true⟩
        mapIndex := mapSet d.mapIndex (getFileNameByStartId d id)
          (freshIndex.updateIndex 1 id (slotSize buff.length)).1 }
      (getFileNameByStartId d id) (freshIndex.updateIndex 1 id (slotSize buff.length)).1
      (recordWritten [] 0 id buff) id := by
  have hN := getFileNameByStartId_ne d id
  have hsl := slotSize_eq (n := buff.length) (by omega)
  have hp := getPaddedSize_lt buff.length
  obtain ⟨u1, _⟩ := @updateIndex_ok freshIndex (by decide) (by decide) id
    (slotSize buff.length) (by omega)
  generalize hNe : getFileNameByStartId d id = N at *
  obtain ⟨d3, hd3⟩ : ∃ d3 : diskIo, d3 = (createNewDataFile d id).1 := ⟨_, rfl⟩
  have hd3' : d3 = { d with
      files := mapSet d.files N []
      latestFileName := N
      latestFilePtr := some ⟨N, true⟩
      mapIndex := mapSet d.mapIndex N freshIndex } := by
    rw [hd3]
    unfold createNewDataFile
    dsimp only
    rw [hNe]
    rfl
  have e1 : d3.latestFileName = N := by rw [hd3']
  have e2 : d3.latestFilePtr = some ⟨N, true⟩ := by rw [hd3']
  have e3 : mapGet d3.mapIndex N = some freshIndex := by
    rw [hd3']; exact mapGet_mapSet_same _ _ _
  have e4 : mapGet d3.files N = some [] := by rw [hd3']; exact mapGet_mapSet_same _ _ _
  have hae := appendElem_ok (d := d3) hN e1 e2 e3 e4 (by decide) id buff hb
  have hfiles : mapSet d3.files N (recordWritten [] freshIndex.meta.dataFileSize id buff) =
      mapSet d.files N (recordWritten [] 0 id buff) := by
    rw [hd3']
    dsimp only
    rw [mapSet_mapSet]
    rfl
  rw [← hd3]
  rw [hfiles] at hae
  refine ⟨hae, ?_, ?_⟩
  · obtain ⟨d4, hd4⟩ : ∃ d4 : diskIo, d4 = { d3 with
        files := mapSet d.files N (recordWritten [] 0 id buff) } := ⟨_, rfl⟩
    have f1 : d4.latestFileName = N := by rw [hd4]; exact e1
    have f3 : mapGet d4.mapIndex N = some freshIndex := by rw [hd4]; exact e3
    rw [← hd4, @updateLastIndex_ok _ _ freshIndex hN f1 f3, u1, hd4, hd3']
    dsimp only
    rw [mapSet_mapSet]
  · have := @Appended.after_record { d with
        files := mapSet d.files N []
        latestFileName := N
        latestFilePtr := some ⟨N, true⟩
        mapIndex := mapSet d.mapIndex N freshIndex } N freshIndex
      [] hN rfl rfl (by decide) id buff hb (Or.inr rfl)
    dsimp only at this
    rw [mapSet_mapSet, mapSet_mapSet] at this
    exact this

/-- The state after a successful `append` that seals the latest data file and starts a new
one. -/
theorem append_rollover {d : diskIo} {name : String} {info : indexInfo} {file : List Nat}
    {lastId : Nat} (hA : Appended d name info file lastId) (hl : lastId < 2 ^ 64)
    {logIndex : Nat} (h : lastId < logIndex) (buff : List Nat) (hb : buff.length < 2 ^ 61)
    (hroll : DATA_MAX_FILE_SIZE < info.meta.dataFileSize + (buff.length + 24)) :
    diskIo.append d logIndex buff =
      .done ({ d with
        files := mapSet
          (mapSet d.files name (endIdPatched file info.meta.lastRecordPos logIndex))
          (getFileNameByStartId d logIndex) (recordWritten [] 0 logIndex buff)
        latestFileName := getFileNameByStartId d logIndex
        latestFilePtr := some ⟨getFileNameByStartId d logIndex, true⟩
        mapIndex := mapSet (mapSet d.mapIndex name (sealedIndex info logIndex))
          (getFileNameByStartId d logIndex)
          (freshIndex.updateIndex 1 logIndex (slotSize buff.length)).1 }, none) ∧
    Appended
      { d with
        files := mapSet
          (mapSet d.files name (endIdPatched file info.meta.lastRecordPos logIndex))
          (getFileNameByStartId d logIndex) (recordWritten [] 0 logIndex buff)
        latestFileName := getFileNameByStartId d logIndex
        latestFilePtr := some ⟨getFileNameByStartId d logIndex, true⟩
        mapIndex := mapSet (mapSet d.mapIndex name (sealedIndex info logIndex))
          (getFileNameByStartId d logIndex)
          (freshIndex.updateIndex 1 logIndex (slotSize buff.length)).1 }
      (getFileNameByStartId d logIndex)
      (freshIndex.updateIndex 1 logIndex (slotSize buff.length)).1
      (recordWritten [] 0 logIndex buff) logIndex := by
  obtain ⟨d2, hd2⟩ : ∃ d2 : diskIo, d2 = { d with
      files := mapSet d.files name (endIdPatched file info.meta.lastRecordPos logIndex) } :=
    ⟨_, rfl⟩
  have e1 : d2.latestFileName = name := by rw [hd2]; exact hA.latestFileName
  have e2 : d2.latestFilePtr = some ⟨name, true⟩ := by rw [hd2]; exact hA.latestFilePtr
  have e3 : mapGet d2.mapIndex name = some info := by rw [hd2]; exact hA.index
  have hne2 : d2.latestFileName ≠ "" := by rw [e1]; exact hA.name_ne
  obtain ⟨d2s, hd2s⟩ : ∃ d2s : diskIo, d2s = { d2 with
      mapIndex := mapSet d2.mapIndex name (sealedIndex info logIndex) } := ⟨_, rfl⟩
  have hN : getFileNameByStartId d2s logIndex = getFileNameByStartId d logIndex := by
    rw [hd2s, hd2]; rfl
  obtain ⟨n1, n2, n3⟩ := appendElem_updateLastIndex_new (d := d2s) logIndex buff hb
  rw [hN] at n1 n2 n3
  have hfiles : d2s.files =
      mapSet d.files name (endIdPatched file info.meta.lastRecordPos logIndex) := by
    rw [hd2s, hd2]
  have hidx : d2s.mapIndex = mapSet d.mapIndex name (sealedIndex info logIndex) := by
    rw [hd2s, hd2]
  have hfin : ({ d2s with
      files := mapSet d2s.files (getFileNameByStartId d logIndex)
        (recordWritten [] 0 logIndex buff)
      latestFileName := getFileNameByStartId d logIndex
      latestFilePtr := some ⟨getFileNameByStartId d logIndex, true⟩
      mapIndex := mapSet d2s.mapIndex (getFileNameByStartId d logIndex)
        (freshIndex.updateIndex 1 logIndex (slotSize buff.length)).1 } : diskIo) =
      { d with
        files := mapSet
          (mapSet d.files name (endIdPatched file info.meta.lastRecordPos logIndex))
          (getFileNameByStartId d logIndex) (recordWritten [] 0 logIndex buff)
        latestFileName := getFileNameByStartId d logIndex
        latestFilePtr := some ⟨getFileNameByStartId d logIndex, true⟩
        mapIndex := mapSet (mapSet d.mapIndex name (sealedIndex info logIndex))
          (getFileNameByStartId d logIndex)
          (freshIndex.updateIndex 1 logIndex (slotSize buff.length)).1 } := by
    rw [hfiles, hidx, hd2s, hd2]
  rw [hfin] at n2 n3
  refine ⟨?_, n3⟩
  refine @append_of_stages _ d d2 (createNewDataFile d2s logIndex).1 _ _ _ _
    ?_ ?_ ?_ n1 n2
  · rw [checkIdValid_appended hA hl, if_neg (by omega)]
  · rw [hd2]
    exact updateLastElem_appended hA logIndex
  · rw [getLatestFileToWrite_open (d := d2) hne2 e2]
    unfold getLatestFileToWriteCheck
    rw [e1, e3]
    dsimp only
    rw [writeSize_eq hA.size_lt hb, if_pos (by omega), hd2s]
    rfl

theorem append_first (path header : String) (logIndex : Nat) (buff : List Nat)
    (hb : buff.length < 2 ^ 61) :
    diskIo.append (emptyDisk path header) logIndex buff =
      .done ({ emptyDisk path header with
        files := mapSet [] (getFileNameByStartId (emptyDisk path header) logIndex)
          (recordWritten [] 0 logIndex buff)
        latestFileName := getFileNameByStartId (emptyDisk path header) logIndex
        latestFilePtr := some ⟨getFileNameByStartId (emptyDisk path header) logIndex, true⟩
        mapIndex := mapSet [] (getFileNameByStartId (emptyDisk path header) logIndex)
          (freshIndex.updateIndex 1 logIndex (slotSize buff.length)).1 }, none) ∧
    Appended
      { emptyDisk path header with
        files := mapSet [] (getFileNameByStartId (emptyDisk path header) logIndex)
          (recordWritten [] 0 logIndex buff)
        latestFileName := getFileNameByStartId (emptyDisk path header) logIndex
        latestFilePtr := some ⟨getFileNameByStartId (emptyDisk path header) logIndex, true⟩
        mapIndex := mapSet [] (getFileNameByStartId (emptyDisk path header) logIndex)
          (freshIndex.updateIndex 1 logIndex (slotSize buff.length)).1 }
      (getFileNameByStartId (emptyDisk path header) logIndex)
      (freshIndex.updateIndex 1 logIndex (slotSize buff.length)).1
      (recordWritten [] 0 logIndex buff) logIndex := by
  obtain ⟨n1, n2, n3⟩ := appendElem_updateLastIndex_new (d := emptyDisk path header) logIndex
    buff hb
  refine ⟨?_, n3⟩
  exact @append_of_stages _ (emptyDisk path header) (emptyDisk path header)
    (createNewDataFile (emptyDisk path header) logIndex).1 _ _ _ _ rfl rfl rfl n1 n2

theorem mem_mapSet {β : Type} {m : List (String × β)} {k : String} {v : β} {kv : String × β}
    (h : kv ∈ mapSet m k v) : kv = (k, v) ∨ kv ∈ m := by
  induction m with
  | nil =>
    simp only [mapSet, List.mem_singleton] at h
    exact Or.inl h
  | cons a rest ih =>
    obtain ⟨k1, v1⟩ := a
    simp only [mapSet] at h
    split at h
    · rcases List.mem_cons.1 h with h | h
      · exact Or.inl h
      · exact Or.inr (List.mem_cons_of_mem _ h)
    · rcases List.mem_cons.1 h with h | h
      · exact Or.inr (h ▸ List.mem_cons_self _ _)
      · rcases ih h with h | h
        · exact Or.inl h
        · exact Or.inr (List.mem_cons_of_mem _ h)

theorem mapGet_mem {β : Type} {m : List (String × β)} {k : String} {v : β}
    (h : mapGet m k = some v) : (k, v) ∈ m := by
  induction m with
  | nil => simp [mapGet] at h
  | cons a rest ih =>
    obtain ⟨k1, v1⟩ := a
    simp only [mapGet] at h
    split at h
    · next hk =>
      simp only [Option.some.injEq] at h
      subst hk; subst h
      exact List.mem_cons_self _ _
    · exact List.mem_cons_of_mem _ (ih h)

theorem AllSeg.mapSet {P : indexInfo → Prop} {d d1 : diskIo} {k : String} {v : indexInfo}
    (h : AllSeg P d) (hv : P v) (hd : d1.mapIndex = mapSet d.mapIndex k v) : AllSeg P d1 := by
  intro kv hkv
  rw [hd] at hkv
  rcases mem_mapSet hkv with h1 | h1
  · rw [h1]; exact hv
  · exact h _ h1

theorem SegSize.updateIndex {L : List Nat} {info : indexInfo} {n : Nat} (hn : n ∈ L)
    (hn1 : n < 2 ^ 61) (hs : info.meta.dataFileSize < 2 ^ 62)
    (hi : info.indexs.length * DATA_BLOCK_SIZE ≤ info.meta.dataFileSize)
    (h5 : info.meta.dataFileSize % DATA_BLOCK_SIZE = 0)
    (hsl : info.meta.dataFileSize + (n + 24) ≤ DATA_MAX_FILE_SIZE ∨
      info.meta.dataFileSize = 0) (id : Nat) :
    SegSize L (info.updateIndex 1 id (slotSize n)).1 := by
  have hsl1 := slotSize_eq (n := n) (by omega)
  have hpad := getPaddedSize_lt n
  obtain ⟨_, _, u3, _⟩ := @updateIndex_ok _ hs hi id (slotSize n) (by omega)
  refine ⟨?_, n, hn, ?_⟩
  · rw [u3]
    unfold DATA_BLOCK_SIZE at *
    omega
  · rw [u3]
    omega

theorem sealedIndex_meta (info : indexInfo) (id : Nat) :
    (sealedIndex info id).meta = { info.meta with maxId := u64 (id + 2 ^ 64 - 1) } := rfl

theorem sealedIndex_dataFileSize (info : indexInfo) (id : Nat) :
    (sealedIndex info id).meta.dataFileSize = info.meta.dataFileSize := by
  rw [sealedIndex_meta]

theorem SegSize.sealed {L : List Nat} {info : indexInfo} (h : SegSize L info) (id : Nat) :
    SegSize L (sealedIndex info id) := by
  unfold SegSize
  rw [sealedIndex_dataFileSize]
  exact h

theorem append_step (L : List Nat) {d : diskIo} {name : String} {info : indexInfo}
    {file : List Nat} {lastId : Nat} (hA : Appended d name info file lastId)
    (hl : lastId < 2 ^ 64) (hS : AllSeg (SegSize L) d)
    {logIndex : Nat} (h : lastId < logIndex) (buff : List Nat) (hb : buff.length < 2 ^ 61)
    (hL : buff.length ∈ L) :
    ∃ d1 name1 info1 file1, diskIo.append d logIndex buff = .done (d1, none) ∧
      Appended d1 name1 info1 file1 logIndex ∧ AllSeg (SegSize L) d1 := by
  have hinfo : SegSize L info := hS _ (mapGet_mem hA.index)
  by_cases hno : info.meta.dataFileSize + (buff.length + 24) ≤ DATA_MAX_FILE_SIZE
  · obtain ⟨h1, h2⟩ := append_same_file hA hl h buff hb hno
    refine ⟨_, _, _, _, h1, h2, ?_⟩
    have hv := SegSize.updateIndex hL hb hA.size_lt hA.idx_le hinfo.1 (Or.inl hno) logIndex
    exact AllSeg.mapSet hS hv (by dsimp only)
  · obtain ⟨h1, h2⟩ := append_rollover hA hl h buff hb (Nat.lt_of_not_le hno)
    refine ⟨_, _, _, _, h1, h2, ?_⟩
    have hS1 : AllSeg (SegSize L)
        { d with mapIndex := mapSet d.mapIndex name (sealedIndex info logIndex) } :=
      AllSeg.mapSet hS (v := sealedIndex info logIndex)
        (hinfo.sealed logIndex) rfl
    exact AllSeg.mapSet hS1
      (@SegSize.updateIndex _ freshIndex _ hL hb (by decide) (by decide) (by decide)
        (Or.inr rfl) logIndex) rfl

theorem appendAll_appended (L : List Nat) :
    ∀ (xs : List (Nat × List Nat)) (d : diskIo) (name : String) (info : indexInfo)
      (file : List Nat) (lastId : Nat) (d1 : diskIo),
      Appended d name info file lastId → lastId < 2 ^ 64 → AllSeg (SegSize L) d →
      (∀ x ∈ xs, x.1 < 2 ^ 64 ∧ x.2.length < 2 ^ 61 ∧ x.2.length ∈ L) →
      appendAll d xs = .done (d1, none) →
      ∃ name1 info1 file1,
        Appended d1 name1 info1 file1 ((xs.getLast?.map Prod.fst).getD lastId) ∧
        AllSeg (SegSize L) d1
  | [], d, name, info, file, lastId, d1, hA, _, hS, _, hrun => by
    simp only [appendAll, Run.done.injEq, Prod.mk.injEq, and_true] at hrun
    subst hrun
    exact ⟨name, info, file, hA, hS⟩
  | (logIndex, buff) :: rest, d, name, info, file, lastId, d1, hA, hl, hS, hx, hrun => by
    obtain ⟨hx1, hx2, hx3⟩ := hx _ (List.mem_cons_self _ _)
    by_cases h : lastId < logIndex
    · obtain ⟨d2, name2, info2, file2, ha, hA2, hS2⟩ := append_step L hA hl hS h buff hx2 hx3
      rw [appendAll, ha] at hrun
      dsimp only [Run.bind] at hrun
      obtain ⟨n3, i3, f3, hA3, hS3⟩ := appendAll_appended L rest d2 name2 info2 file2 logIndex
        d1 hA2 hx1 hS2 (fun x hx0 => hx x (List.mem_cons_of_mem _ hx0)) hrun
      refine ⟨n3, i3, f3, ?_, hS3⟩
      cases rest with
      | nil => exact hA3
      | cons y ys =>
        rw [List.getLast?_cons_cons]
        exact hA3
    · rw [appendAll, append_reject hA hl (by omega)] at hrun
      simp [Run.bind] at hrun

theorem appendAll_empty_appended (path header : String) (x : Nat × List Nat)
    (xs : List (Nat × List Nat)) (d1 : diskIo)
    (hx : ∀ y ∈ x :: xs, y.1 < 2 ^ 64 ∧ y.2.length < 2 ^ 61)
    (hrun : appendAll (emptyDisk path header) (x :: xs) = .done (d1, none)) :
    ∃ name1 info1 file1,
      Appended d1 name1 info1 file1 (((x :: xs).getLast?.map Prod.fst).getD 0) ∧
      AllSeg (SegSize ((x :: xs).map fun y => y.2.length)) d1 := by
  obtain ⟨id, buff⟩ := x
  obtain ⟨hx1, hx2⟩ := hx _ (List.mem_cons_self _ _)
  obtain ⟨ha, hA⟩ := append_first path header id buff hx2
  rw [appendAll, ha] at hrun
  dsimp only [Run.bind] at hrun
  have hS : AllSeg (SegSize (((id, buff) :: xs).map fun y => y.2.length))
      { emptyDisk path header with
        files := mapSet [] (getFileNameByStartId (emptyDisk path header) id)
          (recordWritten [] 0 id buff)
        latestFileName := getFileNameByStartId (emptyDisk path header) id
        latestFilePtr := some ⟨getFileNameByStartId (emptyDisk path header) id, true⟩
        mapIndex := mapSet [] (getFileNameByStartId (emptyDisk path header) id)
          (freshIndex.updateIndex 1 id (slotSize buff.length)).1 } := by
    refine AllSeg.mapSet (d := emptyDisk path header) (fun kv hkv => ?_)
      (@SegSize.updateIndex _ freshIndex buff.length (by simp) hx2 (by decide)
        (by decide) (by decide) (Or.inr rfl) id) rfl
    simp [emptyDisk] at hkv
  obtain ⟨n3, i3, f3, hA3, hS3⟩ := appendAll_appended _ xs _ _ _ _ id d1 hA hx1 hS
    (fun y hy => ⟨(hx y (List.mem_cons_of_mem _ hy)).1, (hx y (List.mem_cons_of_mem _ hy)).2,
      List.mem_map.2 ⟨y, List.mem_cons_of_mem _ hy, rfl⟩⟩) hrun
  refine ⟨n3, i3, f3, ?_, hS3⟩
  cases xs with
  | nil => exact hA3
  | cons y ys =>
    rw [List.getLast?_cons_cons]
    cases hq : (y :: ys).getLast? with
    | none => simp at hq
    | some z =>
      rw [hq] at hA3
      exact hA3

theorem demoDisk_run :
    appendAll (emptyDisk "/tmp/d" "C") demoAppends = .done (demoDisk, none) := by
  decide!

theorem getLast_fst (x : Nat × List Nat) (xs : List (Nat × List Nat)) :
    (((x :: xs).getLast?.map Prod.fst).getD 0) = ((x :: xs).getLast (List.cons_ne_nil x xs)).1 := by
  rw [List.getLast?_eq_getLast _ (List.cons_ne_nil x xs)]
  rfl

/-- C19: on a disk log built by successful appends from an empty directory, `append` with a
`logIndex` not above the last record's startId returns an error and leaves the whole
state (data file bytes, index maps, latest file) unchanged; with a larger `logIndex` the
ordering check `checkIdValid` passes. -/
theorem append_ordering_check (path header : String) (x : Nat × List Nat)
    (xs : List (Nat × List Nat)) (d : diskIo)
    (hx : ∀ y ∈ x :: xs, y.1 < 2 ^ 64 ∧ y.2.length < 2 ^ 61)
    (hrun : appendAll (emptyDisk path header) (x :: xs) = .done (d, none))
    (logIndex : Nat) (buff : List Nat) :
    (logIndex ≤ ((x :: xs).getLast (List.cons_ne_nil x xs)).1 →
      diskIo.append d logIndex buff = .done (d, some .other)) ∧
    (((x :: xs).getLast (List.cons_ne_nil x xs)).1 < logIndex →
      checkIdValid d logIndex = .done (d, none)) := by
  obtain ⟨name, info, file, hA, _⟩ := appendAll_empty_appended path header x xs d hx hrun
  rw [getLast_fst] at hA
  have hl : ((x :: xs).getLast (List.cons_ne_nil x xs)).1 < 2 ^ 64 :=
    (hx _ (List.getLast_mem _)).1
  refine ⟨fun h => append_reject hA hl h buff, fun h => ?_⟩
  rw [checkIdValid_appended hA hl, if_neg (by omega)]

theorem append_ordering_check_witness :
    (150 ≤ (demoAppends.getLast (List.cons_ne_nil _ _)).1 →
      diskIo.append demoDisk 150 [9] = .done (demoDisk, some .other)) ∧
    ((demoAppends.getLast (List.cons_ne_nil _ _)).1 < 150 →
      checkIdValid demoDisk 150 = .done (demoDisk, none)) :=
  append_ordering_check "/tmp/d" "C" (100, [1, 2, 3]) [(200, [4])] demoDisk (by decide)
    demoDisk_run 150 [9]

theorem getElemByIdAndIndex_zero (file : List Nat) (id : Nat) :
    getElemByIdAndIndex file id 0 0 = .done (0, 0, [], some .other) := by
  unfold getElemByIdAndIndex
  have h : u64 (0 + 2 ^ 64 - 0) = 0 := by decide
  rw [h]
  have h2 : readAt file 0 0 = [] := by simp [readAt]
  simp only [h2]
  rfl

theorem appendAll_cons {d d1 : diskIo} {id : Nat} {b : List Nat}
    (h : diskIo.append d id b = .done (d1, none)) (rest : List (Nat × List Nat)) :
    appendAll d ((id, b) :: rest) = appendAll d1 rest := by
  rw [appendAll, h]
  rfl

theorem appendAll_two {d d1 d2 : diskIo} {i1 i2 : Nat} {b1 b2 : List Nat}
    (h1 : diskIo.append d i1 b1 = .done (d1, none))
    (h2 : diskIo.append d1 i2 b2 = .done (d2, none)) :
    appendAll d [(i1, b1), (i2, b2)] = .done (d2, none) := by
  rw [appendAll_cons h1, appendAll_cons h2]
  rfl

/-- C18: two appends with payloads of 600000 bytes put both records into one data file with an
index entry each; `get` with the startId of the first record, which lies in the segment's
`[minId, maxId]`, then fails: `findIndexPosById` returns the empty byte range `(0, 0)`. -/
theorem get_first_of_section (path header : String) (b1 b2 : List Nat)
    (h1 : b1.length = 600000) (h2 : b2.length = 600000) :
    ∃ d info, appendAll (emptyDisk path header) [(100, b1), (200, b2)] = .done (d, none) ∧
      d.mapIndex = [(getFileNameByStartId (emptyDisk path header) 100, info)] ∧
      info.indexs = [⟨100, 0⟩, ⟨200, 600064⟩] ∧ info.meta.minId = 100 ∧
      info.meta.maxId = 200 ∧
      findIndexPosById info 100 = .done (0, 0, none) ∧
      diskIo.get d 100 = .done (0, 0, [], some .other) := by
  obtain ⟨a1, A1⟩ := append_first path header 100 b1 (by omega)
  have hN := getFileNameByStartId_ne (emptyDisk path header) 100
  generalize getFileNameByStartId (emptyDisk path header) 100 = N at *
  rw [h1] at a1 A1
  have hd : (freshIndex.updateIndex 1 100 (slotSize 600000)).1.meta.dataFileSize = 600064 := by
    decide!
  obtain ⟨a2, -⟩ := append_same_file A1 (by decide) (by decide : 100 < 200) b2 (by omega)
    (by rw [hd, h2]; decide)
  rw [h2] at a2
  refine ⟨_, ((freshIndex.updateIndex 1 100 (slotSize 600000)).1.updateIndex 1 200
    (slotSize 600000)).1, appendAll_two a1 a2, ?_, ?_, ?_, ?_, ?_, ?_⟩
  · simp [mapSet]
  · decide!
  · decide!
  · decide!
  · decide!
  · have hf : findIndexPosById ((freshIndex.updateIndex 1 100 (slotSize 600000)).1.updateIndex
        1 200 (slotSize 600000)).1 100 = .done (0, 0, none) := by decide!
    have hm : decide ((((freshIndex.updateIndex 1 100 (slotSize 600000)).1.updateIndex
        1 200 (slotSize 600000)).1.meta.minId ≤ 100) ∧ 100 ≤ (((freshIndex.updateIndex 1 100
        (slotSize 600000)).1.updateIndex 1 200 (slotSize 600000)).1.meta.maxId)) = true := by
      decide!
    generalize ((freshIndex.updateIndex 1 100 (slotSize 600000)).1.updateIndex
        1 200 (slotSize 600000)).1 = U2 at *
    unfold diskIo.get
    simp only [mapSet, if_true, List.find?, hm, hN, if_false, hf, Run.bind, mapGet,
      getElemByIdAndIndex_zero]

theorem get_first_of_section_witness :
    ∃ d info, appendAll (emptyDisk "/tmp/d" "C")
        [(100, List.replicate 600000 7), (200, List.replicate 600000 8)] = .done (d, none) ∧
      d.mapIndex = [(getFileNameByStartId (emptyDisk "/tmp/d" "C") 100, info)] ∧
      info.indexs = [⟨100, 0⟩, ⟨200, 600064⟩] ∧ info.meta.minId = 100 ∧
      info.meta.maxId = 200 ∧
      findIndexPosById info 100 = .done (0, 0, none) ∧
      diskIo.get d 100 = .done (0, 0, [], some .other) :=
  get_first_of_section "/tmp/d" "C" (List.replicate 600000 7) (List.replicate 600000 8)
    (List.length_replicate _ _) (List.length_replicate _ _)

/-- C17: for the ascending index `[(100, 0), (200, 600064)]` of a data file of 1200128 bytes and
`id = 100`, the startId of the non-last entry 0, `findIndexPosById` returns the empty range
`(0, 0)` and not `(0, 600064)`; for `id = 150` it returns `(0, 600064)` and for `id = 200`
the range `(600064, 1200128)` up to `dataFileSize`. -/
theorem findIndexPosById_at_entry_start :
    findIndexPosById ⟨[], ⟨1200128, 2, 600064, 100, 200⟩, [⟨100, 0⟩, ⟨200, 600064⟩],
      ⟨1, 600064⟩⟩ 100 = .done (0, 0, none) ∧
    findIndexPosById ⟨[], ⟨1200128, 2, 600064, 100, 200⟩, [⟨100, 0⟩, ⟨200, 600064⟩],
      ⟨1, 600064⟩⟩ 150 = .done (0, 600064, none) ∧
    findIndexPosById ⟨[], ⟨1200128, 2, 600064, 100, 200⟩, [⟨100, 0⟩, ⟨200, 600064⟩],
      ⟨1, 600064⟩⟩ 200 = .done (600064, 1200128, none) := by
  decide

/-- C20: for a payload of `n` bytes with `24 + n` below `2 ^ 64`, `getPaddedSize n < 512`, and
`24 + n + getPaddedSize n` is `ceil((24 + n) / 512) * 512`, a positive multiple of the block
size and the smallest multiple that holds header and payload; `appendElem` on a new data
file writes a file of exactly that length. -/
theorem getPaddedSize_spec (buff : List Nat) (h : 24 + buff.length < 2 ^ 64) :
    getPaddedSize buff.length < 512 ∧
    24 + buff.length + getPaddedSize buff.length = (24 + buff.length + 511) / 512 * 512 ∧
    0 < 24 + buff.length + getPaddedSize buff.length ∧
    (∀ m, m % 512 = 0 → 24 + buff.length ≤ m →
      24 + buff.length + getPaddedSize buff.length ≤ m) ∧
    (buff.length < 2 ^ 61 → ∀ (d : diskIo) (id : Nat), ∃ d1 f,
      appendElem (createNewDataFile d id).1 id buff = .done (d1, none) ∧
      mapGet d1.files (getFileNameByStartId d id) = some f ∧
      f.length = 24 + buff.length + getPaddedSize buff.length) := by
  have hp : getPaddedSize buff.length < 512 ∧
      (24 + buff.length + getPaddedSize buff.length) % 512 = 0 := by
    unfold getPaddedSize u64 DATA_BLOCK_SIZE DATA_HEAD_SIZE DATA_BUFF_POS DATA_BUFFLEN_POS
      DATA_ENDID_POS DATA_STARTID_POS ID_LEN
    simp only []
    split <;> omega
  refine ⟨hp.1, by omega, by omega, fun m hm hle => by omega, fun hb d id => ?_⟩
  obtain ⟨n1, -, -⟩ := appendElem_updateLastIndex_new (d := d) id buff hb
  refine ⟨_, _, n1, mapGet_mapSet_same _ _ _, ?_⟩
  unfold recordWritten
  have hH : DATA_HEAD_SIZE = 24 := rfl
  rw [length_writeAt, length_writeAt, length_writeAt]
  simp only [List.length_append, length_putUint64, List.length_replicate, List.length_nil,
    hH, ID_LEN]
  by_cases hb0 : buff = []
  · subst hb0
    simp only [List.length_nil]
    have : getPaddedSize 0 = 488 := by decide
    rw [this]
    simp
  · have hbl : 0 < buff.length := List.length_pos.2 hb0
    by_cases hq : getPaddedSize buff.length = 0
    · simp [hq, hb0]
    · have : List.replicate (getPaddedSize buff.length) 0 ≠ [] := by
        intro hc
        have := congrArg List.length hc
        simp at this
        exact hq this
      simp [this, hb0]

theorem getPaddedSize_spec_witness :
    getPaddedSize [1, 2, 3].length < 512 ∧
    24 + [1, 2, 3].length + getPaddedSize [1, 2, 3].length =
      (24 + [1, 2, 3].length + 511) / 512 * 512 ∧
    0 < 24 + [1, 2, 3].length + getPaddedSize [1, 2, 3].length ∧
    (∀ m, m % 512 = 0 → 24 + [1, 2, 3].length ≤ m →
      24 + [1, 2, 3].length + getPaddedSize [1, 2, 3].length ≤ m) ∧
    ([1, 2, 3].length < 2 ^ 61 → ∀ (d : diskIo) (id : Nat), ∃ d1 f,
      appendElem (createNewDataFile d id).1 id [1, 2, 3] = .done (d1, none) ∧
      mapGet d1.files (getFileNameByStartId d id) = some f ∧
      f.length = 24 + [1, 2, 3].length + getPaddedSize [1, 2, 3].length) :=
  getPaddedSize_spec [1, 2, 3] (by decide)

/-- C21: after successful appends from an empty log every segment's `dataFileSize` is a
multiple of the block size and at most `DATA_MAX_FILE_SIZE` plus the slot of one appended
record; and `getLatestFileToWrite` starts a new segment (sealing the latest one) exactly when
`dataFileSize + 24 + payloadLen` exceeds `DATA_MAX_FILE_SIZE`, else keeps the latest file. -/
theorem segment_size_after_appends (path header : String) (x : Nat × List Nat)
    (xs : List (Nat × List Nat)) (d : diskIo)
    (hx : ∀ y ∈ x :: xs, y.1 < 2 ^ 64 ∧ y.2.length < 2 ^ 61)
    (hrun : appendAll (emptyDisk path header) (x :: xs) = .done (d, none)) :
    (∀ kv ∈ d.mapIndex, kv.2.meta.dataFileSize % DATA_BLOCK_SIZE = 0 ∧
      ∃ y ∈ x :: xs, kv.2.meta.dataFileSize ≤ DATA_MAX_FILE_SIZE + slotSize y.2.length) ∧
    ∃ info, mapGet d.mapIndex d.latestFileName = some info ∧
      ∀ (fs : List (String × List Nat)) (logIndex len : Nat), len < 2 ^ 61 →
        getLatestFileToWrite { d with files := fs } logIndex len =
          if DATA_MAX_FILE_SIZE < info.meta.dataFileSize + 24 + len then
            .done (createNewDataFile
              { d with
                files := fs
                mapIndex := mapSet d.mapIndex d.latestFileName (sealedIndex info logIndex) }
              logIndex)
          else .done ({ d with files := fs }, none) := by
  obtain ⟨name, info, file, hA, hS⟩ := appendAll_empty_appended path header x xs d hx hrun
  refine ⟨fun kv hkv => ?_, info, ?_, fun fs logIndex len hlen => ?_⟩
  · obtain ⟨h1, n, hn, h2⟩ := hS kv hkv
    obtain ⟨y, hy, rfl⟩ := List.mem_map.1 hn
    exact ⟨h1, y, hy, h2⟩
  · rw [hA.latestFileName]
    exact hA.index
  · obtain ⟨d2, hd2⟩ : ∃ d2 : diskIo, d2 = { d with files := fs } := ⟨_, rfl⟩
    have e1 : d2.latestFileName = name := by rw [hd2]; exact hA.latestFileName
    have e2 : d2.latestFilePtr = some ⟨name, true⟩ := by rw [hd2]; exact hA.latestFilePtr
    have e3 : mapGet d2.mapIndex name = some info := by rw [hd2]; exact hA.index
    have hne2 : d2.latestFileName ≠ "" := by rw [e1]; exact hA.name_ne
    have e5 : ({ d with
        files := fs
        mapIndex := mapSet d.mapIndex d.latestFileName (sealedIndex info logIndex) } : diskIo) =
        { d2 with mapIndex := mapSet d2.mapIndex name (sealedIndex info logIndex) } := by
      rw [hd2, hA.latestFileName]
    rw [e5, ← hd2, getLatestFileToWrite_open (d := d2) hne2 e2]
    unfold getLatestFileToWriteCheck
    rw [e1, e3]
    dsimp only
    rw [writeSize_eq hA.size_lt hlen]
    by_cases hc : DATA_MAX_FILE_SIZE < info.meta.dataFileSize + 24 + len
    · rw [if_pos hc, if_pos (by omega)]
      rfl
    · rw [if_neg hc, if_neg (by omega)]

theorem segment_size_after_appends_witness :
    (∀ kv ∈ demoDisk.mapIndex, kv.2.meta.dataFileSize % DATA_BLOCK_SIZE = 0 ∧
      ∃ y ∈ (100, [1, 2, 3]) :: [(200, [4])],
        kv.2.meta.dataFileSize ≤ DATA_MAX_FILE_SIZE + slotSize y.2.length) ∧
    ∃ info, mapGet demoDisk.mapIndex demoDisk.latestFileName = some info ∧
      ∀ (fs : List (String × List Nat)) (logIndex len : Nat), len < 2 ^ 61 →
        getLatestFileToWrite { demoDisk with files := fs } logIndex len =
          if DATA_MAX_FILE_SIZE < info.meta.dataFileSize + 24 + len then
            .done (createNewDataFile
              { demoDisk with
                files := fs
                mapIndex := mapSet demoDisk.mapIndex demoDisk.latestFileName
                  (sealedIndex info logIndex) }
              logIndex)
          else .done ({ demoDisk with files := fs }, none) :=
  segment_size_after_appends "/tmp/d" "C" (100, [1, 2, 3]) [(200, [4])] demoDisk (by decide)
    demoDisk_run

/-- C22: after the appends of records 100 and 200 the active segment has `meta.minId = 100`
and `meta.maxId = 200`, the startId of its last record, not `UINT64_MAX`; the endId bytes of
that record on disk are 0.  In line with that, `get 250`, an id above the newest startId,
returns `DISK_NOTFOUND_ERR`, and `get 200` returns the last record. -/
theorem maxId_of_active_segment :
    appendAll (emptyDisk "/tmp/d" "C") demoAppends = .done (demoDisk, none) ∧
    demoDisk.mapIndex.map (fun kv => (kv.2.meta.minId, kv.2.meta.maxId)) = [(100, 200)] ∧
    demoDisk.files.map (fun kv => readAt kv.2 8 (512 + 8)) = [[0, 0, 0, 0, 0, 0, 0, 0]] ∧
    UINT64_MAX ≠ 200 ∧
    diskIo.get demoDisk 250 = .done (0, 0, [], some .DISK_NOTFOUND_ERR) ∧
    diskIo.get demoDisk 200 = .done (200, 0, [4], none) := by
  decide!

/-- C28: with the header `"C0"` the name generated for startId 100 does not parse back
(`TrimLeft` with the cutset `"C0_"` also strips the zero padding), and with the header `"C"`
the name generated for the 11-digit startId 12345678901 does not parse back either. -/
theorem fileName_round_trip_fails :
    getFileNameByStartId (emptyDisk "/tmp/d" "C0") 100 = "/tmp/d/C0_0000000100.data" ∧
    getStartIdByFileName (emptyDisk "/tmp/d" "C0")
      (getFileNameByStartId (emptyDisk "/tmp/d" "C0") 100) = (0, some .other) ∧
    getFileNameByStartId (emptyDisk "/tmp/d" "C") 12345678901 = "/tmp/d/C_12345678901.data" ∧
    getStartIdByFileName (emptyDisk "/tmp/d" "C")
      (getFileNameByStartId (emptyDisk "/tmp/d" "C") 12345678901) = (0, some .other) ∧
    getStartIdByFileName (emptyDisk "/tmp/d" "C")
      (getFileNameByStartId (emptyDisk "/tmp/d" "C") 100) = (100, none) := by
  decide!
theorem readAt_recordWritten_header (f : List Nat) (size id : Nat) (buff : List Nat) :
    readAt (recordWritten f size id buff) DATA_HEAD_SIZE size =
      putUint64 id ++ putUint64 0 ++ putUint64 buff.length := by
  unfold recordWritten
  have hH : DATA_HEAD_SIZE = 24 := rfl
  have hI : ID_LEN = 8 := rfl
  have hz : List.replicate ID_LEN 0 = putUint64 0 := by decide
  rw [hz]
  have hl : (putUint64 id ++ putUint64 0 ++ putUint64 buff.length).length = 24 := by
    simp [length_putUint64]
  have hw : size + 24 ≤
      (writeAt f (putUint64 id ++ putUint64 0 ++ putUint64 buff.length) size).length := by
    rw [length_writeAt, hl]
    split
    · next h => rw [h] at hl; simp at hl
    · omega
  rw [hH, readAt_writeAt_of_le _ _ _ _ _ (by omega)
    (by rw [length_writeAt]; split <;> omega)]
  rw [readAt_writeAt_of_le _ _ _ _ _ (by omega) hw]
  have := readAt_writeAt_self f (putUint64 id ++ putUint64 0 ++ putUint64 buff.length) size
  rw [hl] at this
  exact this

/-- C24 (amended): the 24 header bytes that `appendElem` writes for a new record at the end of
the latest data file are the big-endian startId in bytes 0..7, `endId == 0` (the value every
reader of the data file tests for to recognise an open-ended record) in bytes 8..15 and the
big-endian payload length in bytes 16..23. -/
theorem appendElem_header {d : diskIo} {name : String} {info : indexInfo} {f : List Nat}
    (hne : name ≠ "") (hn : d.latestFileName = name) (hp : d.latestFilePtr = some ⟨name, true⟩)
    (hi : mapGet d.mapIndex name = some info) (hf : mapGet d.files name = some f)
    (hs : info.meta.dataFileSize < 2 ^ 62) (id : Nat) (buff : List Nat)
    (hb : buff.length < 2 ^ 61) :
    ∃ d1 f1, appendElem d id buff = .done (d1, none) ∧
      mapGet d1.files name = some f1 ∧
      readAt f1 DATA_HEAD_SIZE info.meta.dataFileSize =
        putUint64 id ++ putUint64 0 ++ putUint64 buff.length :=
  ⟨_, _, appendElem_ok hne hn hp hi hf hs id buff hb, mapGet_mapSet_same _ _ _,
    readAt_recordWritten_header f info.meta.dataFileSize id buff⟩

theorem appendElem_header_witness :
    ∃ d1 f1, appendElem (createNewDataFile (emptyDisk "/tmp/d" "C") 100).1 100 [1, 2, 3] =
        .done (d1, none) ∧
      mapGet d1.files "/tmp/d/C_0000000100.data" = some f1 ∧
      readAt f1 DATA_HEAD_SIZE 0 = putUint64 100 ++ putUint64 0 ++ putUint64 [1, 2, 3].length :=
  @appendElem_header (createNewDataFile (emptyDisk "/tmp/d" "C") 100).1
    "/tmp/d/C_0000000100.data" ⟨[], ⟨0, 0, 0, 0, 0⟩, [], ⟨0, 0⟩⟩ [] (by decide) (by decide)
    (by decide) (by decide) (by decide) (by decide) 100 [1, 2, 3] (by decide)

/-- C24: the header that `appendElem` writes for the record `(100, [1, 2, 3])` of a new data
file has eight zero bytes in `DATA_ENDID_POS..+8`, not the big-endian `UINT64_MAX`. -/
theorem appendElem_endId_bytes :
    ∃ d1 f1, appendElem (createNewDataFile (emptyDisk "/tmp/d" "C") 100).1 100 [1, 2, 3] =
        .done (d1, none) ∧
      mapGet d1.files "/tmp/d/C_0000000100.data" = some f1 ∧
      readAt f1 ID_LEN DATA_ENDID_POS = [0, 0, 0, 0, 0, 0, 0, 0] ∧
      readAt f1 ID_LEN DATA_ENDID_POS ≠ putUint64 UINT64_MAX :=
  ⟨_, _, (appendElem_updateLastIndex_new 100 [1, 2, 3] (by decide)).1,
    mapGet_mapSet_same _ _ _, by decide, by decide⟩

theorem demoDisk3_run :
    appendAll (emptyDisk "/tmp/d" "C") demoAppends3 = .done (demoDisk3, none) := by
  decide!

/-- C26: the log holds the records `[100, 199]`, `[200, 299]` and `[300, open]` in one segment.
`truncateBefore(250)` returns without error, and the new segment holds three records: the
record that contained 250 with its startId set to 250, then the same record once more with
its old startId 200 (the copy loop starts at the straddling record, not behind it), then
record 300.  The startIds 250, 200, 300 are not increasing and 200 is smaller than 250. -/
theorem truncateBefore_duplicates_record :
    appendAll (emptyDisk "/tmp/d" "C") demoAppends3 = .done (demoDisk3, none) ∧
    storedRecords demoDisk3 = [("/tmp/d/C_0000000100.data", 1536,
      [⟨100, 199, [1, 2, 3]⟩, ⟨200, 299, [4]⟩, ⟨300, 0, [5]⟩])] ∧
    ((diskIo.truncateBefore demoDisk3 250).bind fun r => .done (r.2, storedRecords r.1)) =
      .done (none, [("/tmp/d/C_0000000250.data", 1536,
        [⟨250, 299, [4]⟩, ⟨200, 299, [4]⟩, ⟨300, 0, [5]⟩])]) := by
  decide!

/-- C27: on the same log `truncateAfter(250)` returns without error, cuts the data file to
1024 bytes, the end of the slot of record 200, keeps record 100, and `last()` returns record
200; but the endId stored on disk for record 200 is still 299, not 250 (only the in-memory
copy of the element gets the new endId). -/
theorem truncateAfter_keeps_endId :
    ((diskIo.truncateAfter demoDisk3 250).bind fun r => .done (r.2, storedRecords r.1)) =
      .done (none, [("/tmp/d/C_0000000100.data", 1024,
        [⟨100, 199, [1, 2, 3]⟩, ⟨200, 299, [4]⟩])]) ∧
    ((diskIo.truncateAfter demoDisk3 250).bind fun r =>
      (diskIo.last r.1).bind fun q => .done q.2) = .done (200, [4], none) ∧
    512 + (24 + [4].length + getPaddedSize [4].length) = 1024 := by
  decide!

/-- C40: the log holds record 100 with a payload of 489 bytes and record 200.
`truncateBefore(150)`, for which record 100 is the straddling record, panics in
`truncateFileBeforeId`: the slice `elemBuff[24 : 24 + 489]` exceeds the array of 512 bytes.
With a payload of 488 bytes the call returns. -/
theorem truncateFileBeforeId_large_payload :
    ((appendAll (emptyDisk "/tmp/d" "C") [(100, List.replicate 489 7), (200, [4])]).bind fun r =>
      .done r.2) = .done none ∧
    ((appendAll (emptyDisk "/tmp/d" "C") [(100, List.replicate 489 7), (200, [4])]).bind fun r =>
      diskIo.truncateBefore r.1 150) = .fault ∧
    ((appendAll (emptyDisk "/tmp/d" "C") [(100, List.replicate 488 7), (200, [4])]).bind fun r =>
      (diskIo.truncateBefore r.1 150).bind fun t => .done t.2) = .done none := by
  decide!

/-- C34: for the index `meta = (1024, 2, 512, 100, 200)`, entries `[(100, 0)]`, water level
`(2, 1024)`, `writeIndexToDisk` writes `56 + 16 * 1` bytes and `readIndex` gets back the same
`meta` and entries, but the water level `(0, 0)`: the two water-level fields of the header are
never filled in by `writeIndexToDisk`. -/
theorem index_file_round_trip :
    (indexInfo.writeIndexToDisk ⟨[], ⟨1024, 2, 512, 100, 200⟩, [⟨100, 0⟩], ⟨2, 1024⟩⟩).1.filePtr.length
      = 56 + 16 * 1 ∧
    ((readIndex (indexInfo.writeIndexToDisk
        ⟨[], ⟨1024, 2, 512, 100, 200⟩, [⟨100, 0⟩], ⟨2, 1024⟩⟩).1.filePtr).bind fun r =>
      .done (r.meta, r.indexs, r.waterLevel)) =
      .done (⟨1024, 2, 512, 100, 200⟩, [⟨100, 0⟩], ⟨0, 0⟩) := by
  decide!

/-- C31: on a store into which nothing has been pushed the skip list's `listAfter` returns an
empty result without error, and `ConfManager.ListAfter` panics on `memElems[0]`, whatever the
disk tier holds. -/
theorem ListAfter_on_empty_memory {Config : Type}
    (diskListBetween : Nat → Nat → Run (List diskElem × Option diskErr))
    (unmarshal : List Nat → Option Config) (logIndex : Nat) :
    listAfter getMyList logIndex = .done ([], none) ∧
    ListAfter getMyList diskListBetween unmarshal logIndex = .fault := by
  have h : listAfter getMyList logIndex = .done ([], none) := by
    unfold listAfter
    simp [listAfterCount, listAfterFill, getMyList, levelNext, Run.bind, MAX_LEVEL_LIMIT,
      MAX_RESULT_NUM]
  refine ⟨h, ?_⟩
  unfold ListAfter
  rw [h]
  rfl

theorem writeAt_end (f b : List Nat) : writeAt f b f.length = f ++ b := by
  unfold writeAt
  split
  · next h => simp [h]
  · simp

theorem writeAt_mid (a old c new : List Nat) (h : old.length = new.length) :
    writeAt (a ++ old ++ c) new a.length = a ++ new ++ c := by
  unfold writeAt
  split
  · next hn =>
    subst hn
    have : old = [] := List.length_eq_zero.1 (by simpa using h)
    simp [this]
  · have h1 : a.length - (a ++ old ++ c).length = 0 := by simp
    rw [h1]
    simp only [List.replicate_zero, List.append_nil, List.append_assoc]
    rw [List.take_append_of_le_length (Nat.le_refl _), List.take_length]
    rw [List.drop_append_eq_append_drop, List.drop_eq_nil_of_le (by omega)]
    simp only [List.nil_append]
    have h2 : a.length + new.length - a.length = old.length := by omega
    rw [h2, List.drop_append_eq_append_drop, List.drop_length]
    simp

theorem length_slotBytes (r : diskElem) :
    (slotBytes r).length = 24 + r.buff.length + getPaddedSize r.buff.length := by
  unfold slotBytes
  simp only [List.length_append, length_putUint64, List.length_replicate]

theorem recordWritten_eq (f : List Nat) (id : Nat) (buff : List Nat) :
    recordWritten f f.length id buff = f ++ slotBytes ⟨id, 0, buff⟩ := by
  unfold recordWritten slotBytes
  have hH : DATA_HEAD_SIZE = 24 := rfl
  have hI : ID_LEN = 8 := rfl
  have h0 : putUint64 0 = List.replicate 8 0 := by decide
  rw [writeAt_end]
  have hl : (f ++ (putUint64 id ++ List.replicate ID_LEN 0 ++ putUint64 buff.length)).length =
      f.length + DATA_HEAD_SIZE := by
    simp [length_putUint64, hH, hI]
  rw [← hl, writeAt_end]
  have hl2 : (f ++ (putUint64 id ++ List.replicate ID_LEN 0 ++ putUint64 buff.length) ++
      buff).length = (f ++ (putUint64 id ++ List.replicate ID_LEN 0 ++
        putUint64 buff.length)).length + buff.length := by
    simp only [List.length_append]
  rw [← hl2, writeAt_end, h0, hI]
  simp only [List.append_assoc]

theorem endIdPatched_eq (f : List Nat) (id e0 : Nat) (buff : List Nat) (id1 : Nat) :
    endIdPatched (f ++ slotBytes ⟨id, e0, buff⟩) f.length id1 =
      f ++ slotBytes ⟨id, u64 (id1 + 2 ^ 64 - 1), buff⟩ := by
  unfold endIdPatched slotBytes
  have hE : DATA_ENDID_POS = 8 := rfl
  have := writeAt_mid (f ++ putUint64 id) (putUint64 e0)
    (putUint64 buff.length ++ buff ++ List.replicate (getPaddedSize buff.length) 0)
    (putUint64 (u64 (id1 + 2 ^ 64 - 1))) (by simp [length_putUint64])
  simp only [List.length_append, length_putUint64, List.append_assoc] at this ⊢
  rw [hE]
  exact this

theorem sliceOf_append_mid (pre x post : List Nat) :
    sliceOf (pre ++ x ++ post) pre.length x.length = some x := by
  unfold sliceOf
  rw [if_pos (by simp)]
  simp [List.drop_append_eq_append_drop, List.take_append_eq_append_take]

theorem uint64At_append_mid (pre post : List Nat) {v : Nat} (hv : v < 2 ^ 64) :
    uint64At (pre ++ putUint64 v ++ post) pre.length = some v := by
  unfold uint64At
  have := sliceOf_append_mid pre (putUint64 v) post
  rw [length_putUint64] at this
  have hI : ID_LEN = 8 := rfl
  rw [hI, this]
  simp [getUint64_putUint64 hv]

theorem slot_header (pre post : List Nat) (r : diskElem) (h1 : r.startId < 2 ^ 64)
    (h2 : r.endId < 2 ^ 64) (h3 : r.buff.length < 2 ^ 64) :
    uint64At (pre ++ slotBytes r ++ post) (pre.length + DATA_STARTID_POS) = some r.startId ∧
    uint64At (pre ++ slotBytes r ++ post) (pre.length + DATA_ENDID_POS) = some r.endId ∧
    uint64At (pre ++ slotBytes r ++ post) (pre.length + DATA_BUFFLEN_POS) =
      some r.buff.length ∧
    sliceOf (pre ++ slotBytes r ++ post) (pre.length + DATA_BUFF_POS) r.buff.length =
      some r.buff := by
  have e0 : DATA_STARTID_POS = 0 := rfl
  have e1 : DATA_ENDID_POS = 8 := rfl
  have e2 : DATA_BUFFLEN_POS = 16 := rfl
  have e3 : DATA_BUFF_POS = 24 := rfl
  rw [e0, e1, e2, e3]
  unfold slotBytes
  refine ⟨?_, ?_, ?_, ?_⟩
  · have := uint64At_append_mid pre (putUint64 r.endId ++ putUint64 r.buff.length ++ r.buff ++
      List.replicate (getPaddedSize r.buff.length) 0 ++ post) h1
    simpa only [List.append_assoc, Nat.add_zero] using this
  · have := uint64At_append_mid (pre ++ putUint64 r.startId) (putUint64 r.buff.length ++ r.buff ++
      List.replicate (getPaddedSize r.buff.length) 0 ++ post) h2
    simpa only [List.append_assoc, List.length_append, length_putUint64] using this
  · have := uint64At_append_mid (pre ++ putUint64 r.startId ++ putUint64 r.endId) (r.buff ++
      List.replicate (getPaddedSize r.buff.length) 0 ++ post) h3
    simpa only [List.append_assoc, List.length_append, length_putUint64] using this
  · have := sliceOf_append_mid (pre ++ putUint64 r.startId ++ putUint64 r.endId ++
      putUint64 r.buff.length) r.buff (List.replicate (getPaddedSize r.buff.length) 0 ++ post)
    simpa only [List.append_assoc, List.length_append, length_putUint64] using this

theorem getElemsFromBuffLoop_slots :
    ∀ (rs : List diskElem) (pre : List Nat) (acc : List diskElem) (fuel : Nat),
      (∀ r ∈ rs, r.startId < 2 ^ 64 ∧ r.endId < 2 ^ 64) →
      (pre ++ (rs.map slotBytes).flatten).length < 2 ^ 64 → rs.length < fuel →
      getElemsFromBuffLoop (pre ++ (rs.map slotBytes).flatten) fuel pre.length acc =
        .done (acc ++ rs, none)
  | [], pre, acc, fuel, _, _, hf => by
    obtain ⟨k, rfl⟩ : ∃ k, fuel = k + 1 := ⟨fuel - 1, by simp at hf; omega⟩
    simp [getElemsFromBuffLoop]
  | r :: rs, pre, acc, fuel, hr, hlen, hf => by
    obtain ⟨k, rfl⟩ : ∃ k, fuel = k + 1 := ⟨fuel - 1, by simp at hf; omega⟩
    have hr0 := hr r (List.mem_cons_self _ _)
    have hsl := length_slotBytes r
    have hpad := getPaddedSize_lt r.buff.length
    have hB : pre ++ ((r :: rs).map slotBytes).flatten =
        pre ++ slotBytes r ++ (rs.map slotBytes).flatten := by
      simp
    have hlen2 : pre.length + (slotBytes r).length + ((rs.map slotBytes).flatten).length <
        2 ^ 64 := by
      rw [hB] at hlen
      simpa only [List.length_append] using hlen
    obtain ⟨s1, s2, s3, s4⟩ := slot_header pre (rs.map slotBytes).flatten r hr0.1 hr0.2
      (by omega)
    have hH : DATA_HEAD_SIZE = 24 := rfl
    have hnext : u64 (pre.length +
        (DATA_HEAD_SIZE + r.buff.length + getPaddedSize r.buff.length)) =
        (pre ++ slotBytes r).length := by
      rw [List.length_append, hsl, hH]
      exact u64_of_lt (by omega)
    have ih := getElemsFromBuffLoop_slots rs (pre ++ slotBytes r) (acc ++ [r]) k
      (fun x hx => hr x (List.mem_cons_of_mem _ hx))
      (by rw [← hB]; exact hlen) (by simpa using hf)
    rw [hB, getElemsFromBuffLoop, if_pos (by simp only [List.length_append]; omega), s1, s2, s3]
    dsimp only
    rw [s4]
    dsimp only
    rw [hnext, ih]
    simp

/-- C35: for every list of records whose `startId` and `endId` are `uint64` values,
`getElemsFromBuff` on the concatenation of their slots (24-byte big-endian header, payload,
`getPaddedSize` zero bytes) returns exactly these records, in order. -/
theorem getElemsFromBuff_slots (rs : List diskElem)
    (hr : ∀ r ∈ rs, r.startId < 2 ^ 64 ∧ r.endId < 2 ^ 64)
    (hlen : ((rs.map slotBytes).flatten).length < 2 ^ 64) :
    getElemsFromBuff (rs.map slotBytes).flatten = .done (rs, none) := by
  have hfuel : rs.length < ((rs.map slotBytes).flatten).length + 1 := by
    have : ∀ (l : List diskElem), l.length ≤ ((l.map slotBytes).flatten).length := by
      intro l
      induction l with
      | nil => simp
      | cons a t ih =>
        have := length_slotBytes a
        simp only [List.map_cons, List.flatten_cons, List.length_append, List.length_cons]
        omega
    have := this rs
    omega
  have := getElemsFromBuffLoop_slots rs [] [] (((rs.map slotBytes).flatten).length + 1) hr
    (by simpa using hlen) hfuel
  simpa [getElemsFromBuff] using this

theorem getElemsFromBuff_slots_witness :
    getElemsFromBuff ([⟨100, 199, [1, 2, 3]⟩, ⟨200, 0, [4]⟩].map slotBytes).flatten =
      .done ([⟨100, 199, [1, 2, 3]⟩, ⟨200, 0, [4]⟩], none) :=
  getElemsFromBuff_slots [⟨100, 199, [1, 2, 3]⟩, ⟨200, 0, [4]⟩] (by decide) (by decide!)

/-- The return paths of `PushConfig`: it returns the error of `msgpack.Marshal` when that
fails, without touching either tier; it returns the error of `diskIo.append` when that fails,
with the in-memory list unmodified; and when `diskIo.append` succeeds and the skip-list push
returns, it returns nil, whether or not the push returned an error. -/
theorem PushConfig_errors {Config : Type} (marshal : Config → Option (List Nat)) (mem : myList)
    (disk : diskIo) (logIndex : Nat) (c : Config) (draw : Nat → Nat) :
    (marshal c = none →
      PushConfig marshal mem disk logIndex c draw = .done (mem, disk, some .marshal)) ∧
    (∀ buff d1 e, marshal c = some buff →
      diskIo.append disk logIndex buff = .done (d1, some e) →
      PushConfig marshal mem disk logIndex c draw = .done (mem, d1, some (.disk e))) ∧
    (∀ buff d1 m1 r, marshal c = some buff →
      diskIo.append disk logIndex buff = .done (d1, none) →
      push mem (conf.getElem logIndex buff) draw = .done (m1, r) →
      PushConfig marshal mem disk logIndex c draw = .done (m1, d1, none)) := by
  refine ⟨fun h => ?_, fun buff d1 e h ha => ?_, fun buff d1 m1 r h ha hp => ?_⟩
  · unfold PushConfig
    rw [h]
  · unfold PushConfig
    rw [h]
    dsimp only
    rw [ha]
    rfl
  · unfold PushConfig
    rw [h]
    dsimp only
    rw [ha]
    dsimp only [Run.bind]
    rw [hp]

theorem demoDisk_reject : diskIo.append demoDisk 150 [9] = .done (demoDisk, some .other) := by
  decide!

theorem PushConfig_errors_witness :
    PushConfig (fun c : List Nat => some c) getMyList demoDisk 150 [9] (drawsFor 0) =
      .done (getMyList, demoDisk, some (.disk .other)) :=
  (PushConfig_errors (fun c : List Nat => some c) getMyList demoDisk 150 [9]
    (drawsFor 0)).2.1 [9] demoDisk .other rfl demoDisk_reject

/-- C23: after `append(100, [])` and `append(200, b2)` with a payload of 2 MiB the first data
file is sealed with one record.  Its incrementally maintained index has `maxId = 199`, the
index that `buildIndexByFileBuff` rebuilds from its bytes has `maxId = 100`; `get(150)` finds
record 100 with the maintained index and returns `DISK_NOTFOUND_ERR` with the rebuilt one. -/
theorem rebuilt_index_of_sealed_segment (b2 : List Nat) (h2 : b2.length = 2097152) :
    ∃ d info1 f1 reb,
      appendAll (emptyDisk "/tmp/d" "C") [(100, []), (200, b2)] = .done (d, none) ∧
      mapGet d.mapIndex "/tmp/d/C_0000000100.data" = some info1 ∧
      mapGet d.files "/tmp/d/C_0000000100.data" = some f1 ∧
      d.latestFileName = "/tmp/d/C_0000000200.data" ∧
      info1.meta.maxId = 199 ∧
      indexInfo.buildIndexByFileBuff freshIndex f1 f1.length f1.length = .done (reb, [], none) ∧
      reb.meta.maxId = 100 ∧
      diskIo.get d 150 = .done (100, 199, [], none) ∧
      diskIo.get { d with mapIndex := mapSet d.mapIndex "/tmp/d/C_0000000100.data" reb } 150 =
        .done (0, 0, [], some .DISK_NOTFOUND_ERR) := by
  obtain ⟨a1, A1⟩ := append_first "/tmp/d" "C" 100 [] (by decide)
  have hN1 : getFileNameByStartId (emptyDisk "/tmp/d" "C") 100 = "/tmp/d/C_0000000100.data" := by
    decide!
  rw [hN1] at a1 A1
  obtain ⟨U1, hU1⟩ : ∃ U1 : indexInfo,
      U1 = (freshIndex.updateIndex 1 100 (slotSize ([] : List Nat).length)).1 := ⟨_, rfl⟩
  obtain ⟨R1, hR1⟩ : ∃ R1 : List Nat, R1 = recordWritten [] 0 100 [] := ⟨_, rfl⟩
  rw [← hU1, ← hR1] at a1 A1
  obtain ⟨d1, hd1⟩ : ∃ d1 : diskIo, d1 = ⟨"/tmp/d", "C", "/tmp/d/C_0000000100.data",
      some ⟨"/tmp/d/C_0000000100.data", true⟩, [("/tmp/d/C_0000000100.data", U1)],
      [("/tmp/d/C_0000000100.data", R1)]⟩ := ⟨_, rfl⟩
  have a1' : diskIo.append (emptyDisk "/tmp/d" "C") 100 [] = .done (d1, none) := by
    rw [hd1]; exact a1
  have A1' : Appended d1 "/tmp/d/C_0000000100.data" U1 R1 100 := by
    rw [hd1]; exact A1
  have hdfs : U1.meta.dataFileSize = 512 := by rw [hU1]; decide!
  have hpos : U1.meta.lastRecordPos = 0 := by rw [hU1]; decide!
  obtain ⟨a2, -⟩ := append_rollover A1' (by decide) (by decide : 100 < 200) b2 (by omega)
    (by rw [hdfs, h2]; decide)
  have hN2 : getFileNameByStartId d1 200 = "/tmp/d/C_0000000200.data" := by
    have : getFileNameByStartId (emptyDisk "/tmp/d" "C") 200 = "/tmp/d/C_0000000200.data" := by
      decide!
    rw [hd1]
    exact this
  have ef : d1.files = [("/tmp/d/C_0000000100.data", R1)] := by rw [hd1]
  have ei : d1.mapIndex = [("/tmp/d/C_0000000100.data", U1)] := by rw [hd1]
  rw [h2, hN2, ef, ei, hpos] at a2
  have h12 : ("/tmp/d/C_0000000100.data" = "/tmp/d/C_0000000200.data") = False := by decide
  have hS1 : (sealedIndex U1 200).meta.maxId = 199 := by rw [hU1]; decide!
  have hreb : indexInfo.buildIndexByFileBuff freshIndex (endIdPatched R1 0 200)
      (endIdPatched R1 0 200).length (endIdPatched R1 0 200).length =
      .done ((freshIndex.updateIndex 1 100 512).1, [], none) := by
    rw [hR1]; decide!
  have hrebmax : (freshIndex.updateIndex 1 100 512).1.meta.maxId = 100 := by decide!
  have hfind1 : decide ((sealedIndex U1 200).meta.minId ≤ 150 ∧
      150 ≤ (sealedIndex U1 200).meta.maxId) = true := by rw [hU1]; decide!
  have hpos1 : findIndexPosById (sealedIndex U1 200) 150 = .done (0, 512, none) := by
    rw [hU1]; decide!
  have hget1 : getElemByIdAndIndex (endIdPatched R1 0 200) 150 0 512 =
      .done (100, 199, [], none) := by
    rw [hR1]; decide!
  have hfind2 : decide ((freshIndex.updateIndex 1 100 512).1.meta.minId ≤ 150 ∧
      150 ≤ (freshIndex.updateIndex 1 100 512).1.meta.maxId) = false := by decide!
  have hfind3 : decide ((freshIndex.updateIndex 1 200 (slotSize 2097152)).1.meta.minId ≤ 150 ∧
      150 ≤ (freshIndex.updateIndex 1 200 (slotSize 2097152)).1.meta.maxId) = false := by
    decide!
  generalize sealedIndex U1 200 = S1 at *
  generalize (freshIndex.updateIndex 1 200 (slotSize 2097152)).1 = U2 at *
  generalize (freshIndex.updateIndex 1 100 512).1 = REB at *
  generalize endIdPatched R1 0 200 = F1 at *
  refine ⟨_, S1, F1, REB, appendAll_two a1' a2, ?_, ?_, rfl, hS1, hreb, hrebmax, ?_, ?_⟩
  · simp only [mapSet, mapGet, if_true, h12, if_false]
  · simp only [mapSet, mapGet, if_true, h12, if_false]
  · unfold diskIo.get
    simp only [mapSet, mapGet, if_true, h12, if_false, List.find?, hfind1, hpos1, Run.bind,
      hget1]
    rfl
  · unfold diskIo.get
    simp only [mapSet, mapGet, if_true, h12, if_false, List.find?, hfind2, hfind3]

theorem rebuilt_index_of_sealed_segment_witness :
    ∃ d info1 f1 reb,
      appendAll (emptyDisk "/tmp/d" "C") [(100, []), (200, List.replicate 2097152 7)] =
        .done (d, none) ∧
      mapGet d.mapIndex "/tmp/d/C_0000000100.data" = some info1 ∧
      mapGet d.files "/tmp/d/C_0000000100.data" = some f1 ∧
      d.latestFileName = "/tmp/d/C_0000000200.data" ∧
      info1.meta.maxId = 199 ∧
      indexInfo.buildIndexByFileBuff freshIndex f1 f1.length f1.length = .done (reb, [], none) ∧
      reb.meta.maxId = 100 ∧
      diskIo.get d 150 = .done (100, 199, [], none) ∧
      diskIo.get { d with mapIndex := mapSet d.mapIndex "/tmp/d/C_0000000100.data" reb } 150 =
        .done (0, 0, [], some .DISK_NOTFOUND_ERR) :=
  rebuilt_index_of_sealed_segment (List.replicate 2097152 7) (List.length_replicate _ _)

theorem readAt_append_left (a b : List Nat) : readAt (a ++ b) a.length 0 = a := by
  unfold readAt
  simp

theorem getElemsBetween_section (b1 : List Nat) (rest : List Nat) (h1 : b1.length = 600000) :
    getElemsBetweenIdByIndex (slotBytes ⟨100, 199, b1⟩ ++ rest) 150 200 0 600064 600064 600064 =
      .done ([⟨100, 199, b1⟩], none) := by
  have hl : (slotBytes ⟨100, 199, b1⟩).length = 600064 := by
    rw [length_slotBytes]
    show 24 + b1.length + getPaddedSize b1.length = 600064
    rw [h1]
    decide
  obtain ⟨-, s2, s3, -⟩ := slot_header [] [] ⟨100, 199, b1⟩
    (by show (100 : Nat) < 2 ^ 64; decide) (by show (199 : Nat) < 2 ^ 64; decide)
    (by show b1.length < 2 ^ 64; omega)
  simp only [List.nil_append, List.append_nil, List.length_nil] at s2 s3
  have hloop := getElemsFromBuffLoop_slots [⟨100, 199, b1⟩] [] [] 600065
    (by
      intro r hr
      simp only [List.mem_singleton] at hr
      subst hr
      exact ⟨by show (100 : Nat) < 2 ^ 64; decide, by show (199 : Nat) < 2 ^ 64; decide⟩)
    (by simp only [List.map_cons, List.map_nil, List.flatten_cons, List.flatten_nil,
          List.append_nil, List.nil_append, hl]; decide)
    (by simp)
  simp only [List.map_cons, List.map_nil, List.flatten_cons, List.flatten_nil,
    List.append_nil, List.nil_append, List.length_nil] at hloop
  generalize hS : slotBytes ⟨100, 199, b1⟩ = S at *
  have u1 : u64 (600064 + 2 ^ 64 - 0) = 600064 := by decide
  have u2 : u64 (600064 + 2 ^ 64 - 600064) = 0 := by decide
  have r1 : readAt (S ++ rest) 600064 0 = S := by
    rw [← hl]; exact readAt_append_left S rest
  have r2 : readAt (S ++ rest) 0 600064 = [] := by simp [readAt]
  unfold getElemsBetweenIdByIndex
  rw [u1, u2, if_neg (by decide), if_neg (by decide)]
  unfold rangeBuff
  rw [r1, r2, hl]
  simp only [Nat.sub_self, List.replicate_zero, List.append_nil, List.length_nil, Nat.zero_add]
  have hs : startIdScan S 150 600064 (600064 + 1) 0 = .done 0 := by
    rw [startIdScan, if_pos (by decide), s2, s3]
    rfl
  have he : endIdScan [] 200 0 1 0 = .done 0 := rfl
  rw [hs, he]
  dsimp only [Run.bind]
  rw [if_neg (by decide), if_neg (by decide)]
  have u3 : u64 (0 + 0) = 0 := by decide
  have u4 : u64 (600064 + 0) = 600064 := by decide
  rw [u3, u4, u1, if_neg (by decide), if_neg (by decide), if_neg (by decide), r1,
    if_neg (by rw [hl]; decide)]
  unfold getElemsFromBuff
  rw [hl]
  exact hloop

theorem appendAll_three {d d1 d2 d3 : diskIo} {i1 i2 i3 : Nat} {b1 b2 b3 : List Nat}
    (h1 : diskIo.append d i1 b1 = .done (d1, none))
    (h2 : diskIo.append d1 i2 b2 = .done (d2, none))
    (h3 : diskIo.append d2 i3 b3 = .done (d3, none)) :
    appendAll d [(i1, b1), (i2, b2), (i3, b3)] = .done (d3, none) := by
  rw [appendAll_cons h1, appendAll_cons h2, appendAll_cons h3]
  rfl

theorem demoDisk3_listBetween : diskIo.listBetween demoDisk3 350 400 = .done ([], none) := by
  decide!

/-- C25: three appends with payloads of 600000 bytes put the records `[100, 199]`,
`[200, 299]` and `[300, open]` into one data file with an index entry each.
`listBetween(150, 200)` returns record 100 only: record 200, whose startId equals the upper
bound and which starts the second index section, is missing, because `findIndexPosById(200)`
gives the empty byte range `(600064, 600064)`. -/
theorem listBetween_section_start (b1 b2 b3 : List Nat) (h1 : b1.length = 600000)
    (h2 : b2.length = 600000) (h3 : b3.length = 600000) :
    ∃ d file info,
      appendAll (emptyDisk "/tmp/d" "C") [(100, b1), (200, b2), (300, b3)] = .done (d, none) ∧
      d.files = [("/tmp/d/C_0000000100.data", file)] ∧
      d.mapIndex = [("/tmp/d/C_0000000100.data", info)] ∧
      getElemsFromFile file = .done ([⟨100, 199, b1⟩, ⟨200, 299, b2⟩, ⟨300, 0, b3⟩], none) ∧
      info.indexs = [⟨100, 0⟩, ⟨200, 600064⟩, ⟨300, 1200128⟩] ∧
      findIndexPosById info 200 = .done (600064, 600064, none) ∧
      diskIo.listBetween d 150 200 = .done ([⟨100, 199, b1⟩], none) := by
  obtain ⟨a1, A1⟩ := append_first "/tmp/d" "C" 100 b1 (by omega)
  have hN1 : getFileNameByStartId (emptyDisk "/tmp/d" "C") 100 = "/tmp/d/C_0000000100.data" := by
    decide!
  rw [hN1, h1] at a1 A1
  obtain ⟨U1, hU1⟩ : ∃ U1 : indexInfo,
      U1 = (freshIndex.updateIndex 1 100 (slotSize 600000)).1 := ⟨_, rfl⟩
  rw [← hU1] at a1 A1
  obtain ⟨d1, hd1⟩ : ∃ d1 : diskIo, d1 = ⟨"/tmp/d", "C", "/tmp/d/C_0000000100.data",
      some ⟨"/tmp/d/C_0000000100.data", true⟩, [("/tmp/d/C_0000000100.data", U1)],
      [("/tmp/d/C_0000000100.data", recordWritten [] 0 100 b1)]⟩ := ⟨_, rfl⟩
  have a1' : diskIo.append (emptyDisk "/tmp/d" "C") 100 b1 = .done (d1, none) := by
    rw [hd1]; exact a1
  have A1' : Appended d1 "/tmp/d/C_0000000100.data" U1 (recordWritten [] 0 100 b1) 100 := by
    rw [hd1]; exact A1
  have hdfs1 : U1.meta.dataFileSize = 600064 := by rw [hU1]; decide!
  have hpos1 : U1.meta.lastRecordPos = 0 := by rw [hU1]; decide!
  obtain ⟨a2, A2⟩ := append_same_file A1' (by decide) (by decide : 100 < 200) b2 (by omega)
    (by rw [hdfs1, h2]; decide)
  have ef1 : d1.files = [("/tmp/d/C_0000000100.data", recordWritten [] 0 100 b1)] := by
    rw [hd1]
  have ei1 : d1.mapIndex = [("/tmp/d/C_0000000100.data", U1)] := by rw [hd1]
  rw [h2, ef1, ei1, hpos1, hdfs1] at a2 A2
  obtain ⟨U2, hU2⟩ : ∃ U2 : indexInfo, U2 = (U1.updateIndex 1 200 (slotSize 600000)).1 :=
    ⟨_, rfl⟩
  rw [← hU2] at a2 A2
  have hdfs2 : U2.meta.dataFileSize = 1200128 := by rw [hU2, hU1]; decide!
  have hpos2 : U2.meta.lastRecordPos = 600064 := by rw [hU2, hU1]; decide!
  obtain ⟨a3, -⟩ := append_same_file A2 (by decide) (by decide : 200 < 300) b3 (by omega)
    (by rw [hdfs2, h3]; decide)
  have hm1 : mapSet [("/tmp/d/C_0000000100.data", recordWritten [] 0 100 b1)]
      "/tmp/d/C_0000000100.data"
      (recordWritten (endIdPatched (recordWritten [] 0 100 b1) 0 200) 600064 200 b2) =
      [("/tmp/d/C_0000000100.data",
        recordWritten (endIdPatched (recordWritten [] 0 100 b1) 0 200) 600064 200 b2)] := by
    simp only [mapSet, if_true]
  have hm2 : mapSet [("/tmp/d/C_0000000100.data", U1)] "/tmp/d/C_0000000100.data" U2 =
      [("/tmp/d/C_0000000100.data", U2)] := by
    simp only [mapSet, if_true]
  rw [hm1, hm2] at a2 A2 a3
  dsimp only at a3
  rw [h3, hpos2, hdfs2] at a3
  simp only [mapSet, if_true] at a3
  -- the bytes of the data file
  have hu1 : u64 (200 + 2 ^ 64 - 1) = 199 := by decide
  have hu2 : u64 (300 + 2 ^ 64 - 1) = 299 := by decide
  have hl1 : (slotBytes ⟨100, 199, b1⟩).length = 600064 := by
    rw [length_slotBytes]
    show 24 + b1.length + getPaddedSize b1.length = 600064
    rw [h1]; decide
  have hl2 : (slotBytes ⟨100, 199, b1⟩ ++ slotBytes ⟨200, 299, b2⟩).length = 1200128 := by
    rw [List.length_append, hl1, length_slotBytes]
    show 600064 + (24 + b2.length + getPaddedSize b2.length) = 1200128
    rw [h2]; decide
  have hF : recordWritten (endIdPatched
      (recordWritten (endIdPatched (recordWritten [] 0 100 b1) 0 200) 600064 200 b2)
      600064 300) 1200128 300 b3 =
      slotBytes ⟨100, 199, b1⟩ ++ (slotBytes ⟨200, 299, b2⟩ ++ slotBytes ⟨300, 0, b3⟩) := by
    have e1 := recordWritten_eq [] 100 b1
    simp only [List.length_nil, List.nil_append] at e1
    have e2 := endIdPatched_eq [] 100 0 b1 200
    simp only [List.length_nil, List.nil_append] at e2
    rw [e1, e2, hu1]
    have e3 := recordWritten_eq (slotBytes ⟨100, 199, b1⟩) 200 b2
    rw [hl1] at e3
    have e4 := endIdPatched_eq (slotBytes ⟨100, 199, b1⟩) 200 0 b2 300
    rw [hl1] at e4
    rw [e3, e4, hu2]
    have e5 := recordWritten_eq (slotBytes ⟨100, 199, b1⟩ ++ slotBytes ⟨200, 299, b2⟩) 300 b3
    rw [hl2] at e5
    rw [e5, List.append_assoc]
  rw [hF] at a3
  have hall := appendAll_three a1' a2 a3
  have hidx : ((U2.updateIndex 1 300 (slotSize 600000)).1).indexs =
      [⟨100, 0⟩, ⟨200, 600064⟩, ⟨300, 1200128⟩] := by rw [hU2, hU1]; decide!
  have hp1 : findIndexPosById (U2.updateIndex 1 300 (slotSize 600000)).1 150 =
      .done (0, 600064, none) := by rw [hU2, hU1]; decide!
  have hp2 : findIndexPosById (U2.updateIndex 1 300 (slotSize 600000)).1 200 =
      .done (600064, 600064, none) := by rw [hU2, hU1]; decide!
  have hc1 : ¬ ((U2.updateIndex 1 300 (slotSize 600000)).1.meta.minId > 200 ∨
      (U2.updateIndex 1 300 (slotSize 600000)).1.meta.maxId < 150) := by
    rw [hU2, hU1]; decide!
  have hc2 : ¬ ((U2.updateIndex 1 300 (slotSize 600000)).1.meta.minId ≥ 150 ∧
      (U2.updateIndex 1 300 (slotSize 600000)).1.meta.maxId ≤ 200) := by
    rw [hU2, hU1]; decide!
  generalize (U2.updateIndex 1 300 (slotSize 600000)).1 = U3 at *
  refine ⟨_, _, U3, hall, rfl, rfl, ?_, hidx, hp2, ?_⟩
  · have hloop := getElemsFromBuffLoop_slots [⟨100, 199, b1⟩, ⟨200, 299, b2⟩, ⟨300, 0, b3⟩] []
      [] ((slotBytes ⟨100, 199, b1⟩ ++
        (slotBytes ⟨200, 299, b2⟩ ++ slotBytes ⟨300, 0, b3⟩)).length + 1)
      (by
        intro r hr
        simp only [List.mem_cons, List.mem_singleton, List.not_mem_nil, or_false] at hr
        rcases hr with rfl | rfl | rfl
        · exact ⟨by show (100 : Nat) < 2 ^ 64; decide, by show (199 : Nat) < 2 ^ 64; decide⟩
        · exact ⟨by show (200 : Nat) < 2 ^ 64; decide, by show (299 : Nat) < 2 ^ 64; decide⟩
        · exact ⟨by show (300 : Nat) < 2 ^ 64; decide, by show (0 : Nat) < 2 ^ 64; decide⟩)
      (by
        simp only [List.map_cons, List.map_nil, List.flatten_cons, List.flatten_nil,
          List.append_nil, List.nil_append, List.length_append, length_slotBytes]
        show 24 + b1.length + getPaddedSize b1.length +
          (24 + b2.length + getPaddedSize b2.length +
            (24 + b3.length + getPaddedSize b3.length)) < 2 ^ 64
        have := getPaddedSize_lt b1.length
        have := getPaddedSize_lt b2.length
        have := getPaddedSize_lt b3.length
        omega)
      (by
        simp only [List.length_cons, List.length_nil, List.length_append, length_slotBytes]
        omega)
    simp only [List.map_cons, List.map_nil, List.flatten_cons, List.flatten_nil,
      List.append_nil, List.nil_append, List.length_nil] at hloop
    exact hloop
  · unfold diskIo.listBetween sortedItems
    simp only [List.insertionSort, List.orderedInsert]
    rw [listBetweenLoop, if_neg hc1, if_neg hc2, hp1]
    dsimp only [Run.bind]
    rw [hp2]
    dsimp only [Run.bind]
    simp only [mapGet, if_true]
    rw [getElemsBetween_section b1 _ h1]
    rfl

theorem listBetween_section_start_witness :
    ∃ d file info,
      appendAll (emptyDisk "/tmp/d" "C") [(100, List.replicate 600000 1),
        (200, List.replicate 600000 2), (300, List.replicate 600000 3)] = .done (d, none) ∧
      d.files = [("/tmp/d/C_0000000100.data", file)] ∧
      d.mapIndex = [("/tmp/d/C_0000000100.data", info)] ∧
      getElemsFromFile file = .done ([⟨100, 199, List.replicate 600000 1⟩,
        ⟨200, 299, List.replicate 600000 2⟩, ⟨300, 0, List.replicate 600000 3⟩], none) ∧
      info.indexs = [⟨100, 0⟩, ⟨200, 600064⟩, ⟨300, 1200128⟩] ∧
      findIndexPosById info 200 = .done (600064, 600064, none) ∧
      diskIo.listBetween d 150 200 = .done ([⟨100, 199, List.replicate 600000 1⟩], none) :=
  listBetween_section_start _ _ _ (List.length_replicate _ _) (List.length_replicate _ _)
    (List.length_replicate _ _)

theorem getLevelLoop_char (draw : Nat → Nat) :
    ∀ (n i level : Nat), 0 < n →
      i ≤ getLevelLoop draw n i level ∧ getLevelLoop draw n i level ≤ i + n - 1 ∧
      (∀ j, i ≤ j → j < getLevelLoop draw n i level → ¬ draw j < 50) ∧
      (draw (getLevelLoop draw n i level) < 50 ∨ getLevelLoop draw n i level = i + n - 1)
  | 0, _, _, h => absurd h (Nat.lt_irrefl 0)
  | n + 1, i, level, _ => by
    unfold getLevelLoop
    by_cases hd : draw i < 50
    · rw [if_pos hd]
      exact ⟨Nat.le_refl _, by omega, fun j h1 h2 => by omega, Or.inl hd⟩
    · rw [if_neg hd]
      cases n with
      | zero =>
        simp only [getLevelLoop]
        refine ⟨Nat.le_refl _, by omega, fun j h1 h2 => by omega, Or.inr (by omega)⟩
      | succ m =>
        obtain ⟨h1, h2, h3, h4⟩ := getLevelLoop_char draw (m + 1) (i + 1) i (by omega)
        refine ⟨by omega, by omega, fun j hj1 hj2 => ?_, ?_⟩
        · by_cases hji : j = i
          · subst hji; exact hd
          · exact h3 j (by omega) hj2
        · rcases h4 with h4 | h4
          · exact Or.inl h4
          · exact Or.inr (by omega)

theorem getLevelLoop_congr (draw draw1 : Nat → Nat) :
    ∀ (n i level : Nat), (∀ j, i ≤ j → j < i + n → draw1 j = draw j) →
      getLevelLoop draw1 n i level = getLevelLoop draw n i level
  | 0, _, _, _ => rfl
  | n + 1, i, level, h => by
    unfold getLevelLoop
    rw [h i (Nat.le_refl _) (by omega)]
    split
    · rfl
    · exact getLevelLoop_congr draw draw1 n (i + 1) i (fun j h1 h2 => h j (by omega) (by omega))

/-- C36: for every sequence `draw` of outcomes of the random generator, `getLevel` returns a
level between 0 and `MAX_LEVEL_LIMIT - 1`: the index of the first draw below 50, or
`MAX_LEVEL_LIMIT - 1` if none of the first `MAX_LEVEL_LIMIT` draws is below 50.  It makes
`level + 1` draws, at most `MAX_LEVEL_LIMIT`: the result does not depend on any later draw. -/
theorem getLevel_range (draw : Nat → Nat) :
    getLevel draw ≤ MAX_LEVEL_LIMIT - 1 ∧
    (∀ j, j < getLevel draw → ¬ draw j < 50) ∧
    (draw (getLevel draw) < 50 ∨ getLevel draw = MAX_LEVEL_LIMIT - 1) ∧
    ∀ draw1 : Nat → Nat, (∀ j, j < MAX_LEVEL_LIMIT → draw1 j = draw j) →
      getLevel draw1 = getLevel draw := by
  obtain ⟨-, h2, h3, h4⟩ := getLevelLoop_char draw MAX_LEVEL_LIMIT 0 0 (by decide)
  unfold getLevel
  refine ⟨by omega, fun j hj => h3 j (Nat.zero_le _) hj, ?_, fun draw1 h => ?_⟩
  · rcases h4 with h4 | h4
    · exact Or.inl h4
    · exact Or.inr (by omega)
  · exact getLevelLoop_congr draw draw1 MAX_LEVEL_LIMIT 0 0 (fun j _ hj => h j (by omega))

theorem getLevel_range_witness :
    getLevel (drawsFor 3) ≤ MAX_LEVEL_LIMIT - 1 ∧
    (∀ j, j < getLevel (drawsFor 3) → ¬ drawsFor 3 j < 50) ∧
    (drawsFor 3 (getLevel (drawsFor 3)) < 50 ∨ getLevel (drawsFor 3) = MAX_LEVEL_LIMIT - 1) ∧
    ∀ draw1 : Nat → Nat, (∀ j, j < MAX_LEVEL_LIMIT → draw1 j = drawsFor 3 j) →
      getLevel draw1 = getLevel (drawsFor 3) :=
  getLevel_range (drawsFor 3)

/-- C37: after `push` of 100 (node level 0) and of 200 (node level 1), `truncateAfter(50)`
removes both records and returns `MEM_NOTFOUND_ERR`; the list is empty with `sum == 0` and
`head.myElem` is nil, and the next `push` panics in `isLatest` instead of storing its
element. -/
theorem push_after_emptying_truncateAfter :
    ((runOps getMyList [.push (conf.getElem 100 []) (drawsFor 0),
        .push (conf.getElem 200 []) (drawsFor 1)]).bind fun l =>
      (truncateAfter l 50).bind fun r => .done (heldRecords r.1, r.1.sum, r.2.2)) =
      .done ([], 0, some .MEM_NOTFOUND_ERR) ∧
    ((runOps getMyList [.push (conf.getElem 100 []) (drawsFor 0),
        .push (conf.getElem 200 []) (drawsFor 1), .truncateAfter 50]).bind fun l =>
      .done (nodeElem l l.head)) = .done (some none) ∧
    ((runOps getMyList [.push (conf.getElem 100 []) (drawsFor 0),
        .push (conf.getElem 200 []) (drawsFor 1), .truncateAfter 50]).bind fun l =>
      push l (conf.getElem 300 [7]) (drawsFor 0)) = .fault := by
  refine ⟨?_, ?_, ?_⟩ <;> decide

theorem level0_allocNode {l : myList} {held : List Nat} (hS : Shape l held) (ep lvl : Nat) :
    level0 (allocNode l ep lvl) = held := by
  have hc := hS.chain 0 (by decide)
  rw [hS.filter_zero] at hc
  have hge := hS.len_ge
  have hc2 : Chain (allocNode l ep lvl) 0 0 held := by
    refine Chain_congr held 0 0 hc ?_ (fun q hq => ?_)
    · rw [levelNext_allocNode, if_neg (by omega)]
    · rw [levelNext_allocNode, if_neg (by have := (hS.node q hq).2.1; omega)]
  unfold level0
  have hh : (allocNode l ep lvl).head = 0 := hS.head_eq
  have ht : (allocNode l ep lvl).tail = 1 := hS.tail_eq
  rw [hh, Chain_head hc2]
  have hl : (allocNode l ep lvl).nodes.length = l.nodes.length + 1 := by
    simp [allocNode]
  exact level0Walk_chain ht held 0 _ hc2 hS.ne_one (by omega)

theorem push_reject_full {l : myList} {held : List Nat} (hI : ListInv l held) (e : myElem)
    (draw : Nat → Nat) {h : Nat} (hh : held.head? = some h) (hnot : ¬ sid l h < e.startId)
    (hs : l.sum ≥ MAX_RECORD_NUM) :
    ∃ l2, push l e draw = .done (l2, some .notLatest) ∧
      l2.sum = ((held.length - 100 : Nat) : Int) ∧ level0 l2 = held.take (held.length - 100) := by
  have hS := hI.toShape
  have hS0 := shape_allocElem hS e
  have hleq := hI.len_eq
  have hsum := hS.sum_eq
  have hmem : h ∈ held := by
    cases held with
    | nil => simp at hh
    | cons a t =>
      simp only [List.head?_cons, Option.some.injEq] at hh
      subst hh
      exact List.mem_cons_self _ _
  have hlt := (hS.node h hmem).2.1
  have hsid0 : sid (allocElem l e) h = sid l h := sid_allocElem e (by omega)
  have he0 : (allocElem l e).elems[l.nodes.length]? = some e := by
    show (l.elems ++ [e])[l.nodes.length]? = some e
    rw [← hleq]
    exact List.getElem?_concat_length _ _
  rw [push_eq, hleq]
  have hs0 : (allocElem l e).sum ≥ MAX_RECORD_NUM := hs
  rw [if_pos hs0]
  have hlen1000 : 1000 ≤ held.length := by
    unfold MAX_RECORD_NUM at hs
    rw [hsum] at hs
    exact_mod_cast hs
  obtain ⟨l1, hl1, hS1, e1, n1, ne1⟩ := truncateSome_spec hS0 NUM_PER_TRUNCATE
    (held.length - 100) (by omega) (by omega)
    (by
      show ((held.length - 100 : Nat) : Int) = l.sum - NUM_PER_TRUNCATE
      unfold NUM_PER_TRUNCATE
      rw [hsum]
      omega)
  have hn1 : l1.nodes.length = l.nodes.length := n1
  have hh2 : (held.take (held.length - 100)).head? = some h := by
    rw [List.head?_take, if_neg (by omega)]
    exact hh
  have hsid1 : sid l1 h = sid l h := by
    unfold sid
    rw [e1]
    exact hsid0
  have := pushInsert_reject hS1 e draw (by rw [e1, n1]; exact he0) hh2
    (by rw [hsid1]; exact hnot)
  rw [hn1] at this
  refine ⟨_, by simp only [hl1, Run.bind]; exact this, ?_, level0_allocNode hS1 _ _⟩
  show l1.sum = _
  rw [hS1.sum_eq, List.length_take]
  congr 1
  omega

/-- C38: when the list holds `MAX_RECORD_NUM` records (built by 1000 pushes), a push of an
element that is not newer than the newest record is rejected with an error, but the list has
changed: `truncateSome` has already run, `sum` has dropped from 1000 to 900 and level 0 holds
only the 900 newest nodes. -/
theorem rejected_push_evicts (es : List (myElem × (Nat → Nat))) (e : myElem)
    (draw : Nat → Nat) (hinc : (es.map (·.1)).Pairwise fun a b => a.startId < b.startId)
    (hlen : es.length = 1000)
    (hnot : ∀ x, (es.map (·.1)).getLast? = some x → e.startId ≤ x.startId) :
    ∃ l l2, pushAll getMyList es = .done (l, none) ∧ l.sum = 1000 ∧
      (level0 l).length = 1000 ∧ push l e draw = .done (l2, some .notLatest) ∧
      l2.sum = 900 ∧ level0 l2 = (level0 l).take 900 := by
  obtain ⟨l, hrun, hP⟩ := pushAll_ok es [] getMyList Pushed_init
    (by rw [List.nil_append]; exact hinc)
  rw [List.nil_append] at hP
  have hlen2 : (es.map (·.1)).length = 1000 := by rw [List.length_map]; exact hlen
  have hsum := hP.sum_eq
  rw [hlen2, heldCount_eq 1000 (Nat.le_refl _)] at hsum
  have hl0 := hP.inv.toShape.level0_eq
  have hheld : (desc ((es.map (·.1)).length + 1) (heldCount (es.map (·.1)).length)).length =
      1000 := by
    rw [length_desc, hlen2, heldCount_eq 1000 (Nat.le_refl _)]
  obtain ⟨x, hx⟩ : ∃ x, (es.map (·.1)).getLast? = some x := by
    cases hq : (es.map (·.1)).getLast? with
    | none =>
      rw [List.getLast?_eq_none_iff] at hq
      rw [hq] at hlen2
      simp at hlen2
    | some x => exact ⟨x, rfl⟩
  obtain ⟨hh, hs⟩ := hP.head_held hx
  obtain ⟨l2, h2, h3, h4⟩ := push_reject_full hP.inv e draw hh
    (by rw [hs]; have := hnot x hx; omega)
    (by rw [hsum]; decide)
  refine ⟨l, l2, hrun, by rw [hsum]; rfl, by rw [hl0, hheld], h2, ?_, ?_⟩
  · rw [h3, hheld]
    rfl
  · rw [h4, hl0, hheld]

theorem rejected_push_evicts_witness :
    ∃ l l2, pushAll getMyList (pushArgs (hundredPushes 1000)) = .done (l, none) ∧
      l.sum = 1000 ∧ (level0 l).length = 1000 ∧
      push l (conf.getElem 50 [7]) (drawsFor 0) = .done (l2, some .notLatest) ∧
      l2.sum = 900 ∧ level0 l2 = (level0 l).take 900 :=
  rejected_push_evicts (pushArgs (hundredPushes 1000)) (conf.getElem 50 [7]) (drawsFor 0)
    (by
      rw [pushArgs_elems]
      exact List.pairwise_map.2 (hundredPushes_pairwise 1000))
    (by simp [pushArgs, hundredPushes])
    (by
      intro x hx
      rw [pushArgs_elems] at hx
      have hmem := List.mem_of_getLast?_eq_some hx
      obtain ⟨p, hp, rfl⟩ := List.mem_map.1 hmem
      unfold hundredPushes at hp
      obtain ⟨i, -, rfl⟩ := List.mem_map.1 hp
      show 50 ≤ (i + 1) * 100
      omega)

theorem updateIndex_fields {info : indexInfo} (id size : Nat)
    (hd : info.meta.dataFileSize + size < 2 ^ 64) (hn : info.meta.recordNum + 1 < 2 ^ 64)
    (hrc : info.waterLevel.recordCount + 1 < 2 ^ 64)
    (hsc : info.waterLevel.sizeCount + size < 2 ^ 64)
    (hi : info.indexs.length < 2 ^ 58) :
    (info.updateIndex 1 id size).2 = none ∧
    (info.updateIndex 1 id size).1.meta.dataFileSize = info.meta.dataFileSize + size ∧
    (info.updateIndex 1 id size).1.meta.recordNum = info.meta.recordNum + 1 ∧
    (info.updateIndex 1 id size).1.meta.minId =
      (if info.meta.recordNum = 0 then id else info.meta.minId) ∧
    ((info.waterLevel.recordCount + 1 > IDX_MAX_RECORD_PER_SECTION ∨
        info.waterLevel.sizeCount + size > IDX_MAX_SECTION_SIZE ∨
        info.waterLevel.recordCount + 1 = 1) →
      (info.updateIndex 1 id size).1.indexs = info.indexs ++ [⟨id, info.meta.dataFileSize⟩] ∧
      (info.updateIndex 1 id size).1.waterLevel = ⟨1, size⟩) ∧
    (¬ (info.waterLevel.recordCount + 1 > IDX_MAX_RECORD_PER_SECTION ∨
        info.waterLevel.sizeCount + size > IDX_MAX_SECTION_SIZE ∨
        info.waterLevel.recordCount + 1 = 1) →
      (info.updateIndex 1 id size).1.indexs = info.indexs ∧
      (info.updateIndex 1 id size).1.waterLevel =
        ⟨info.waterLevel.recordCount + 1, info.waterLevel.sizeCount + size⟩) := by
  have htail : ¬ 2 ^ 63 ≤ u64 (IDX_HEADER_SIZE + u64 (info.indexs.length * SI_SIZE)) := by
    unfold u64 IDX_HEADER_SIZE SI_SIZE ID_LEN
    omega
  have hds : u64 (info.meta.dataFileSize + size) = info.meta.dataFileSize + size :=
    u64_of_lt hd
  have hrn : u64 (info.meta.recordNum + 1) = info.meta.recordNum + 1 := u64_of_lt hn
  have hw1 : u64 (info.waterLevel.recordCount + 1) = info.waterLevel.recordCount + 1 :=
    u64_of_lt hrc
  have hw2 : u64 (info.waterLevel.sizeCount + size) = info.waterLevel.sizeCount + size :=
    u64_of_lt hsc
  unfold indexInfo.updateIndex
  rw [if_neg (by decide)]
  by_cases hr : info.meta.recordNum = 0
  · simp only [hr, if_true, hw1, hw2]
    split
    · next hc =>
      unfold indexInfo.addNewIndex
      dsimp only
      rw [if_neg htail]
      dsimp only
      rw [hr] at hrn
      exact ⟨rfl, hds, hrn, rfl, fun _ => ⟨rfl, rfl⟩, fun h => absurd hc h⟩
    · next hc =>
      rw [hr] at hrn
      exact ⟨rfl, hds, hrn, rfl, fun h => absurd h hc, fun _ => ⟨rfl, rfl⟩⟩
  · simp only [hr, if_false, hw1, hw2]
    split
    · next hc =>
      unfold indexInfo.addNewIndex
      dsimp only
      rw [if_neg htail]
      dsimp only
      exact ⟨rfl, hds, hrn, rfl, fun _ => ⟨rfl, rfl⟩, fun h => absurd hc h⟩
    · next hc =>
      exact ⟨rfl, hds, hrn, rfl, fun h => absurd h hc, fun _ => ⟨rfl, rfl⟩⟩

theorem secSize_append (a b : List (Nat × Nat)) : secSize (a ++ b) = secSize a + secSize b := by
  simp [secSize]

theorem secSize_flatten_append (a : List (List (Nat × Nat))) (s : List (Nat × Nat)) :
    secSize (a ++ [s]).flatten = secSize a.flatten + secSize s := by
  simp [secSize_append]

theorem sectionEntries_append (a : List (List (Nat × Nat))) (s : List (Nat × Nat)) :
    ∀ (p : Nat), sectionEntries (a ++ [s]) p =
      sectionEntries a p ++ [⟨(s.head?.map (·.1)).getD 0, p + secSize a.flatten⟩] := by
  induction a with
  | nil => intro p; simp [sectionEntries, secSize]
  | cons x xs ih =>
    intro p
    have e := ih (p + secSize x)
    rw [Nat.add_assoc] at e
    show _ :: sectionEntries (xs ++ [s]) (p + secSize x) = _
    rw [e, List.flatten_cons, secSize_append]
    rfl

theorem Sectioned.first (r : Nat × Nat) (h0 : 0 < r.2) (h1 : r.2 < 2 ^ 58) :
    (freshIndex.updateIndex 1 r.1 r.2).2 = none ∧
    Sectioned [r] (freshIndex.updateIndex 1 r.1 r.2).1 [] [r] := by
  obtain ⟨u1, u2, u3, u4, u5, -⟩ := @updateIndex_fields freshIndex r.1 r.2
    (by show 0 + r.2 < 2 ^ 64; omega) (by decide) (by decide)
    (by show 0 + r.2 < 2 ^ 64; omega) (by decide)
  obtain ⟨u5a, u5b⟩ := u5 (Or.inr (Or.inr rfl))
  have hs : secSize [r] = r.2 := by simp [secSize]
  refine ⟨u1, ?_⟩
  refine
    { flat := rfl
      last_ne := by simp
      entries := by rw [u5a]; simp [sectionEntries, freshIndex]
      rc := by rw [u5b]; rfl
      sc := by rw [u5b, hs]
      dfs := by rw [u2, hs]; show 0 + r.2 = r.2; omega
      rn := by rw [u3]; rfl
      bound := by
        intro s hs1
        simp only [List.nil_append, List.mem_singleton] at hs1
        subst hs1
        exact ⟨by simp, by simp [IDX_MAX_RECORD_PER_SECTION], Or.inr rfl⟩
      chain := by simp
      asc := by rw [u5a]; simp [freshIndex]
      ent := by
        intro e he
        rw [u5a] at he
        simp only [freshIndex, List.nil_append, List.mem_singleton] at he
        subst he
        exact ⟨⟨r, by simp, rfl⟩, by rw [hs]; exact h0⟩
      minId := by
        intro x hx
        simp only [List.head?_cons, Option.some.injEq] at hx
        subst hx
        rw [u5a, u4]
        simp [freshIndex]
      len_le := by rw [hs]; simp only [List.length_singleton]; omega
      idx_le := by rw [u5a]; simp [freshIndex] }

theorem Sectioned.step {pre : List (Nat × Nat)} {info : indexInfo}
    {init : List (List (Nat × Nat))} {last : List (Nat × Nat)}
    (hS : Sectioned pre info init last) (r : Nat × Nat) (h0 : 0 < r.2)
    (hnew : ∀ x ∈ pre, x.1 < r.1) (htot : secSize pre + r.2 < 2 ^ 58) :
    (info.updateIndex 1 r.1 r.2).2 = none ∧
    ∃ init1 last1, Sectioned (pre ++ [r]) (info.updateIndex 1 r.1 r.2).1 init1 last1 := by
  have hlast_le : secSize last ≤ secSize pre := by
    rw [← hS.flat, secSize_append]; omega
  have hlen := hS.len_le
  have hidx := hS.idx_le
  have hlb := (hS.bound last (by simp)).2.1
  have hR : IDX_MAX_RECORD_PER_SECTION = 1000 := rfl
  have hM : IDX_MAX_SECTION_SIZE = 1024 * 1024 := rfl
  have hlpos : 0 < last.length := List.length_pos.2 hS.last_ne
  have hpre_ne : pre ≠ [] := by
    intro hc
    have := hS.flat
    rw [hc] at this
    have h2 := congrArg List.length this
    simp only [List.length_append, List.length_nil] at h2
    omega
  obtain ⟨u1, u2, u3, u4, u5, u6⟩ := @updateIndex_fields info r.1 r.2
    (by rw [hS.dfs]; omega) (by rw [hS.rn]; omega) (by rw [hS.rc]; omega)
    (by rw [hS.sc]; omega) (by omega)
  rw [hS.rc, hS.sc] at u5 u6
  rw [hS.dfs] at u2 u5
  rw [hS.rn] at u3 u4
  have hsr : secSize (pre ++ [r]) = secSize pre + r.2 := by simp [secSize]
  have hflat2 : (init ++ [last]).flatten = pre := by
    rw [List.flatten_append]; simpa using hS.flat
  have hmin : ∀ x, (pre ++ [r]).head? = some x →
      ((info.updateIndex 1 r.1 r.2).1.indexs.head? = info.indexs.head? →
        (info.updateIndex 1 r.1 r.2).1.indexs.head? = some ⟨x.1, 0⟩ ∧
          (info.updateIndex 1 r.1 r.2).1.meta.minId = x.1) := by
    intro x hx hh
    have hx2 : pre.head? = some x := by
      cases pre with
      | nil => exact absurd rfl hpre_ne
      | cons a t => simpa using hx
    obtain ⟨m1, m2⟩ := hS.minId x hx2
    rw [hh, u4, if_neg (by
      intro hc
      have := List.length_pos.2 hpre_ne
      omega)]
    exact ⟨m1, m2⟩
  have hne_idx : info.indexs ≠ [] := by
    rw [hS.entries, sectionEntries_append]
    simp
  refine ⟨u1, ?_⟩
  by_cases hc : last.length + 1 > IDX_MAX_RECORD_PER_SECTION ∨
      secSize last + r.2 > IDX_MAX_SECTION_SIZE ∨ last.length + 1 = 1
  · obtain ⟨v1, v2⟩ := u5 hc
    have hfull : sectionFull last r.2 := by
      rcases hc with hc | hc | hc
      · exact Or.inl hc
      · exact Or.inr hc
      · omega
    refine ⟨init ++ [last], [r],
      { flat := by rw [hflat2]
        last_ne := by simp
        entries := by
          rw [v1, hS.entries, sectionEntries_append (init ++ [last]) [r] 0, hflat2]
          simp
        rc := by rw [v2]; rfl
        sc := by rw [v2]; simp [secSize]
        dfs := by rw [u2, hsr]
        rn := by rw [u3]; simp
        bound := by
          intro s hs
          rcases List.mem_append.1 hs with hs | hs
          · exact hS.bound s hs
          · simp only [List.mem_singleton] at hs
            subst hs
            exact ⟨by simp, by simp [IDX_MAX_RECORD_PER_SECTION], Or.inr rfl⟩
        chain := by
          refine List.Chain'.append hS.chain (by simp) ?_
          intro x hx y hy
          have hx2 : x = last := by
            rw [List.getLast?_concat] at hx
            simpa using hx.symm
          simp only [List.head?_cons, Option.mem_def, Option.some.injEq] at hy
          subst hx2; subst hy
          intro q hq
          simp only [List.head?_cons, Option.some.injEq] at hq
          subst hq
          exact hfull
        asc := by
          rw [v1]
          refine List.pairwise_append.2 ⟨hS.asc, by simp, ?_⟩
          intro a ha b hb
          simp only [List.mem_singleton] at hb
          subst hb
          obtain ⟨⟨x, hx, hax⟩, hp⟩ := hS.ent a ha
          exact ⟨by rw [hax]; exact hnew x hx, hp⟩
        ent := by
          intro e he
          rw [v1] at he
          rcases List.mem_append.1 he with he | he
          · obtain ⟨⟨x, hx, hax⟩, hp⟩ := hS.ent e he
            exact ⟨⟨x, List.mem_append_left _ hx, hax⟩, by rw [hsr]; omega⟩
          · simp only [List.mem_singleton] at he
            subst he
            exact ⟨⟨r, by simp, rfl⟩, by rw [hsr]; show secSize pre < _; omega⟩
        minId := fun x hx => hmin x hx (by
          rw [v1]
          cases hi : info.indexs with
          | nil => exact absurd hi hne_idx
          | cons a t => rfl)
        len_le := by rw [hsr]; simp only [List.length_append, List.length_singleton]; omega
        idx_le := by
          rw [v1]
          simp only [List.length_append, List.length_singleton]
          omega }⟩
  · obtain ⟨v1, v2⟩ := u6 hc
    have hhead : (last ++ [r]).head? = last.head? := by
      cases last with
      | nil => exact absurd rfl hS.last_ne
      | cons a t => rfl
    refine ⟨init, last ++ [r],
      { flat := by rw [← List.append_assoc, hS.flat]
        last_ne := by simp
        entries := by
          rw [v1, hS.entries, sectionEntries_append, sectionEntries_append, hhead]
        rc := by rw [v2]; simp
        sc := by rw [v2]; simp [secSize]
        dfs := by rw [u2, hsr]
        rn := by rw [u3]; simp
        bound := by
          intro s hs
          rcases List.mem_append.1 hs with hs | hs
          · exact hS.bound s (List.mem_append_left _ hs)
          · simp only [List.mem_singleton] at hs
            subst hs
            refine ⟨by simp, ?_, Or.inl ?_⟩
            · simp only [List.length_append, List.length_singleton]
              omega
            · rw [secSize_append]
              have : secSize [r] = r.2 := by simp [secSize]
              omega
        chain := by
          have hch := hS.chain
          rw [List.chain'_append] at hch ⊢
          refine ⟨hch.1, by simp, ?_⟩
          intro x hx y hy
          simp only [List.head?_cons, Option.mem_def, Option.some.injEq] at hy
          subst hy
          intro q hq
          rw [hhead] at hq
          exact hch.2.2 x hx last (by simp) q hq
        asc := by rw [v1]; exact hS.asc
        ent := by
          intro e he
          rw [v1] at he
          obtain ⟨⟨x, hx, hax⟩, hp⟩ := hS.ent e he
          exact ⟨⟨x, List.mem_append_left _ hx, hax⟩, by rw [hsr]; omega⟩
        minId := fun x hx => hmin x hx (by rw [v1])
        len_le := by rw [hsr]; simp only [List.length_append, List.length_singleton]; omega
        idx_le := by
          rw [v1]
          simp only [List.length_append, List.length_singleton]
          omega }⟩

theorem updateIndexAll_sectioned :
    ∀ (suffix pre : List (Nat × Nat)) (info : indexInfo) (init : List (List (Nat × Nat)))
      (last : List (Nat × Nat)), Sectioned pre info init last →
      ((pre ++ suffix).Pairwise fun a b => a.1 < b.1) → (∀ r ∈ suffix, 0 < r.2) →
      secSize (pre ++ suffix) < 2 ^ 58 →
      ∃ info1 init1 last1, updateIndexAll info suffix = (info1, none) ∧
        Sectioned (pre ++ suffix) info1 init1 last1
  | [], pre, info, init, last, hS, _, _, _ => by
    refine ⟨info, init, last, rfl, ?_⟩
    rw [List.append_nil]
    exact hS
  | r :: rest, pre, info, init, last, hS, hinc, hpos, htot => by
    have hsplit : pre ++ r :: rest = (pre ++ [r]) ++ rest := by simp
    have htot1 : secSize pre + r.2 < 2 ^ 58 := by
      rw [hsplit, secSize_append, secSize_append] at htot
      have : secSize [r] = r.2 := by simp [secSize]
      omega
    obtain ⟨u1, init1, last1, hS1⟩ := hS.step r (hpos r (List.mem_cons_self _ _))
      (fun x hx => (List.pairwise_append.1 hinc).2.2 x hx r (List.mem_cons_self _ _)) htot1
    obtain ⟨info2, init2, last2, h2, hS2⟩ := updateIndexAll_sectioned rest (pre ++ [r]) _ init1
      last1 hS1 (by rw [← hsplit]; exact hinc) (fun x hx => hpos x (List.mem_cons_of_mem _ hx))
      (by rw [← hsplit]; exact htot)
    refine ⟨info2, init2, last2, ?_, by rw [hsplit]; exact hS2⟩
    rw [updateIndexAll]
    generalize hq : info.updateIndex 1 r.1 r.2 = q at *
    obtain ⟨t, e⟩ := q
    simp only at u1
    subst u1
    exact h2

/-- C33: for `updateIndex` calls with strictly increasing startIds and positive sizes (less than
`2 ^ 58` bytes in all) on an empty index, no call fails and the records fall into consecutive
sections, one per index entry: each entry is the startId of the first record of its section
and the byte offset where the section starts; every section holds at most 1000 records and,
when no record exceeds 1 MiB, at most 1 MiB; a section ends only when one more record would
exceed one of the limits; the entries ascend strictly in both fields, and the first entry is
`(minId, 0)` with `minId` the first startId. -/
theorem updateIndex_sections (r : Nat × Nat) (rest : List (Nat × Nat))
    (hinc : (r :: rest).Pairwise fun a b => a.1 < b.1) (hpos : ∀ x ∈ r :: rest, 0 < x.2)
    (htot : secSize (r :: rest) < 2 ^ 58) :
    ∃ info secs, updateIndexAll freshIndex (r :: rest) = (info, none) ∧
      secs.flatten = r :: rest ∧ info.indexs = sectionEntries secs 0 ∧
      (∀ s ∈ secs, s ≠ [] ∧ s.length ≤ IDX_MAX_RECORD_PER_SECTION ∧
        ((∀ x ∈ r :: rest, x.2 ≤ IDX_MAX_SECTION_SIZE) → secSize s ≤ IDX_MAX_SECTION_SIZE)) ∧
      (secs.Chain' fun s t => ∀ x, t.head? = some x → sectionFull s x.2) ∧
      (info.indexs.Pairwise fun a b => a.startId < b.startId ∧ a.pos < b.pos) ∧
      info.indexs.head? = some ⟨r.1, 0⟩ ∧ info.meta.minId = r.1 := by
  have hr2 : r.2 < 2 ^ 58 := by
    have : secSize (r :: rest) = r.2 + secSize rest := by simp [secSize]
    omega
  obtain ⟨u1, hS1⟩ := Sectioned.first r (hpos r (List.mem_cons_self _ _)) hr2
  obtain ⟨info2, init2, last2, h2, hS2⟩ := updateIndexAll_sectioned rest [r] _ [] [r] hS1
    (by simpa using hinc) (fun x hx => hpos x (List.mem_cons_of_mem _ hx)) (by simpa using htot)
  have hflat : (init2 ++ [last2]).flatten = r :: rest := by
    rw [List.flatten_append]
    simpa using hS2.flat
  refine ⟨info2, init2 ++ [last2], ?_, hflat, hS2.entries, ?_, hS2.chain, hS2.asc, ?_⟩
  · rw [updateIndexAll]
    generalize hq : freshIndex.updateIndex 1 r.1 r.2 = q at *
    obtain ⟨t, e⟩ := q
    simp only at u1
    subst u1
    exact h2
  · intro s hs
    obtain ⟨b1, b2, b3⟩ := hS2.bound s hs
    refine ⟨b1, b2, fun hall => ?_⟩
    rcases b3 with b3 | b3
    · exact b3
    · obtain ⟨x, rfl⟩ := List.length_eq_one.1 b3
      have hx : x ∈ r :: rest := by
        rw [← hflat]
        exact List.mem_flatten.2 ⟨[x], hs, by simp⟩
      have : secSize [x] = x.2 := by simp [secSize]
      rw [this]
      exact hall x hx
  · exact hS2.minId r (by simp)

theorem updateIndex_sections_witness :
    ∃ info secs, updateIndexAll freshIndex ((100, 512) :: [(200, 1048576), (300, 512)]) =
        (info, none) ∧
      secs.flatten = (100, 512) :: [(200, 1048576), (300, 512)] ∧
      info.indexs = sectionEntries secs 0 ∧
      (∀ s ∈ secs, s ≠ [] ∧ s.length ≤ IDX_MAX_RECORD_PER_SECTION ∧
        ((∀ x ∈ (100, 512) :: [(200, 1048576), (300, 512)], x.2 ≤ IDX_MAX_SECTION_SIZE) →
          secSize s ≤ IDX_MAX_SECTION_SIZE)) ∧
      (secs.Chain' fun s t => ∀ x, t.head? = some x → sectionFull s x.2) ∧
      (info.indexs.Pairwise fun a b => a.startId < b.startId ∧ a.pos < b.pos) ∧
      info.indexs.head? = some ⟨((100, 512) : Nat × Nat).1, 0⟩ ∧
      info.meta.minId = ((100, 512) : Nat × Nat).1 :=
  updateIndex_sections (100, 512) [(200, 1048576), (300, 512)] (by decide) (by decide)
    (by decide)
theorem push_fault_of_head_nil {l : myList} (hh : nodeElem l l.head = some none)
    (hs : l.sum < MAX_RECORD_NUM) (e : myElem) (draw : Nat → Nat) :
    push l e draw = .fault := by
  have hlt : l.head < l.nodes.length := by
    unfold nodeElem at hh
    cases hq : l.nodes[l.head]? with
    | none => rw [hq] at hh; simp at hh
    | some nd =>
      by_contra hc
      rw [List.getElem?_eq_none (by omega)] at hq
      simp at hq
  rw [push_eq]
  have h0 : ¬ (allocElem l e).sum ≥ MAX_RECORD_NUM := by
    show ¬ l.sum ≥ MAX_RECORD_NUM
    omega
  rw [if_neg h0]
  dsimp only [Run.bind]
  rw [pushInsert_eq]
  have h1 : isLatest (allocNode (allocElem l e) l.elems.length (getLevel draw))
      (allocElem l e).nodes.length = none := by
    unfold isLatest
    have h2 : elemOf (allocNode (allocElem l e) l.elems.length (getLevel draw))
        (some (allocNode (allocElem l e) l.elems.length (getLevel draw)).head) = none := by
      rw [elemOf_eq, nodeElem_allocNode]
      show (match (if l.head = l.nodes.length then _ else nodeElem (allocElem l e) l.head) with
        | some (some ep) => _ | _ => none) = none
      rw [if_neg (by omega)]
      show (match nodeElem l l.head with | some (some ep) => _ | _ => none) = none
      rw [hh]
    rw [h2]
    split <;> simp_all
  rw [h1]
  rfl

theorem truncateAfter_all_head_nil (ps : List (Nat × List Nat × (Nat → Nat)))
    (hinc : ps.Pairwise fun a b => a.1 < b.1) (hu : ∀ p ∈ ps, p.1 < 2 ^ 64) (t : Nat)
    (ht : t < 2 ^ 64) (l : myList) (hrun : pushAll getMyList (pushArgs ps) = .done (l, none))
    (hall : ∀ p ∈ level0 l, t < sid l p) :
    ∃ l1, truncateAfter l t = .done (l1, none, some .MEM_NOTFOUND_ERR) ∧
      nodeElem l1 l1.head = some none ∧ l1.sum = 0 := by
  obtain ⟨l0, hrun0, hP⟩ := pushArgs_run ps hinc
  rw [hrun] at hrun0
  cases hrun0
  obtain ⟨l1, tp, te, h1, h2, h3, h4, h5, h6, h7, h8, h9, h10, h11, h12⟩ :=
    hP.truncateAfter_filter (List.pairwise_map.2 hinc)
      (by
        intro e he
        obtain ⟨p, hp, rfl⟩ := List.mem_map.1 he
        exact hu p hp)
      (by
        intro x hx
        have hmem := List.mem_of_getLast?_eq_some hx
        obtain ⟨p, _, rfl⟩ := List.mem_map.1 hmem
        rfl) t ht
  have hk : ((level0 l).filter fun p => decide (sid l p ≤ t)) = [] := by
    refine List.filter_eq_nil_iff.2 fun q hq => ?_
    have := hall q hq
    simp
    omega
  rw [hk] at h1 h4 h10
  refine ⟨l1, by simpa using h1, ?_, by simpa using h4⟩
  rw [h5]
  simpa using h10 0

/-- C29: when the in-memory list has been emptied by `truncateAfter` (every record it holds
is newer than `t`, as after `TruncateAfter(t)` on a store whose list has evicted its oldest
records), `PushConfig` does not return nil although serialization and `diskIo.append`
succeed: the skip-list `push` panics in `isLatest` on the nil `head.myElem`, and so does
`PushConfig`. -/
theorem PushConfig_panics_on_emptied_list {Config : Type} (marshal : Config → Option (List Nat))
    (ps : List (Nat × List Nat × (Nat → Nat)))
    (hinc : ps.Pairwise fun a b => a.1 < b.1) (hu : ∀ p ∈ ps, p.1 < 2 ^ 64) (t : Nat)
    (ht : t < 2 ^ 64) (l : myList) (hrun : pushAll getMyList (pushArgs ps) = .done (l, none))
    (hall : ∀ p ∈ level0 l, t < sid l p) (disk d1 : diskIo) (logIndex : Nat) (c : Config)
    (buff : List Nat) (draw : Nat → Nat) (hm : marshal c = some buff)
    (ha : diskIo.append disk logIndex buff = .done (d1, none)) :
    ∃ l1, truncateAfter l t = .done (l1, none, some .MEM_NOTFOUND_ERR) ∧
      PushConfig marshal l1 disk logIndex c draw = .fault := by
  obtain ⟨l1, h1, h2, h3⟩ := truncateAfter_all_head_nil ps hinc hu t ht l hrun hall
  refine ⟨l1, h1, ?_⟩
  unfold PushConfig
  rw [hm]
  dsimp only
  rw [ha]
  dsimp only [Run.bind]
  rw [push_fault_of_head_nil h2 (by rw [h3]; decide)]

theorem demoDisk_append : diskIo.append demoDisk 300 [5] = .done (demoDisk3, none) := by
  decide!

theorem PushConfig_panics_on_emptied_list_witness :
    ∃ l1, truncateAfter demoList 50 = .done (l1, none, some .MEM_NOTFOUND_ERR) ∧
      PushConfig (fun c : List Nat => some c) l1 demoDisk 300 [5] (drawsFor 0) = .fault :=
  PushConfig_panics_on_emptied_list (fun c : List Nat => some c) demoPushes (by decide)
    (by decide) 50 (by decide) demoList demoList_run (by decide) demoDisk demoDisk3 300 [5] [5]
    (drawsFor 0) rfl demoDisk_append
theorem updateIndex_recordNum {info : indexInfo} (hs : info.meta.dataFileSize < 2 ^ 62)
    (hi : info.indexs.length * DATA_BLOCK_SIZE ≤ info.meta.dataFileSize) (id size : Nat) :
    (info.updateIndex 1 id size).1.meta.recordNum = u64 (info.meta.recordNum + 1) := by
  have htail : ¬ 2 ^ 63 ≤ u64 (IDX_HEADER_SIZE + u64 (info.indexs.length * SI_SIZE)) := by
    unfold DATA_BLOCK_SIZE at hi
    unfold u64 IDX_HEADER_SIZE SI_SIZE ID_LEN
    omega
  unfold indexInfo.updateIndex
  rw [if_neg (by decide)]
  by_cases hr : info.meta.recordNum = 0
  · simp only [hr, if_true]
    split
    · unfold indexInfo.addNewIndex
      dsimp only
      rw [if_neg htail]
    · rfl
  · simp only [hr, if_false]
    split
    · unfold indexInfo.addNewIndex
      dsimp only
      rw [if_neg htail]
    · rfl

theorem readAt_writeAt_low (f b : List Nat) (off n : Nat) (h1 : n ≤ off) (h2 : n ≤ f.length) :
    readAt (writeAt f b off) n 0 = readAt f n 0 ∧ n ≤ (writeAt f b off).length := by
  refine ⟨readAt_writeAt_of_le f b off n 0 (by omega) (by omega), ?_⟩
  rw [length_writeAt]
  split <;> omega

theorem length_le_of_readAt {f : List Nat} {n p : Nat} {b : List Nat} (h : readAt f n p = b) :
    p + b.length ≤ f.length ∨ b = [] := by
  subst h
  unfold readAt
  simp only [List.length_take, List.length_drop]
  by_cases hq : (List.take n (List.drop p f)) = []
  · exact Or.inr hq
  · left
    have : 0 < (List.take n (List.drop p f)).length := List.length_pos.2 hq
    simp only [List.length_take, List.length_drop] at this
    omega

theorem readAt_recordWritten_low (f : List Nat) (size id : Nat) (buff : List Nat) (n : Nat)
    (h1 : n ≤ size) (h2 : n ≤ f.length) :
    readAt (recordWritten f size id buff) n 0 = readAt f n 0 := by
  unfold recordWritten
  obtain ⟨a1, a2⟩ := readAt_writeAt_low f
    (putUint64 id ++ List.replicate ID_LEN 0 ++ putUint64 buff.length) size n h1 h2
  obtain ⟨b1, b2⟩ := readAt_writeAt_low _ buff (size + DATA_HEAD_SIZE) n (by omega) a2
  obtain ⟨c1, _⟩ := readAt_writeAt_low _ (List.replicate (getPaddedSize buff.length) 0)
    (size + DATA_HEAD_SIZE + buff.length) n (by omega) b2
  rw [c1, b1, a1]

theorem readAt_recordWritten_start (f : List Nat) (size id : Nat) (buff : List Nat) :
    readAt (recordWritten f size id buff) ID_LEN size = putUint64 id := by
  have h := readAt_recordWritten_header f size id buff
  have e : readAt (recordWritten f size id buff) ID_LEN size =
      (readAt (recordWritten f size id buff) DATA_HEAD_SIZE size).take ID_LEN := by
    unfold readAt
    rw [List.take_take]
    rfl
  rw [e, h, List.append_assoc]
  exact List.take_left' (length_putUint64 id)

theorem updateIndex_fresh_minId (id : Nat) {size : Nat} (hsz : size < 2 ^ 62) :
    (freshIndex.updateIndex 1 id size).1.meta.minId = id := by
  rw [(@updateIndex_ok freshIndex (by decide) (by decide) id size hsz).2.2.2.2.1]
  exact if_pos rfl

theorem ActiveMeta.fresh (id : Nat) (buff : List Nat) (hb : buff.length < 2 ^ 61) :
    ActiveMeta (freshIndex.updateIndex 1 id (slotSize buff.length)).1
      (recordWritten [] 0 id buff) id := by
  obtain ⟨s1, s2, _⟩ := slotSize_eq (n := buff.length) (by omega)
  have hp := getPaddedSize_lt buff.length
  obtain ⟨_, _, u3, u4, u5, _⟩ := @updateIndex_ok freshIndex (by decide) (by decide) id
    (slotSize buff.length) (by omega)
  have u6 := @updateIndex_recordNum freshIndex (by decide) (by decide) id (slotSize buff.length)
  have hmin : (freshIndex.updateIndex 1 id (slotSize buff.length)).1.meta.minId = id := by
    rw [u5]
    exact if_pos rfl
  have hnum : (freshIndex.updateIndex 1 id (slotSize buff.length)).1.meta.recordNum = 1 := by
    rw [u6]
    rfl
  have hdfs : (freshIndex.updateIndex 1 id (slotSize buff.length)).1.meta.dataFileSize =
      slotSize buff.length := by
    rw [u3]
    exact Nat.zero_add _
  refine ⟨u4, ?_, by rw [hmin], by rw [hnum], by rw [hnum, hdfs]; omega⟩
  rw [hmin]
  exact readAt_recordWritten_start [] 0 id buff

theorem ActiveMeta.same_file {d : diskIo} {name : String} {info : indexInfo} {file : List Nat}
    {lastId : Nat} (hA : Appended d name info file lastId) (hM : ActiveMeta info file lastId)
    {logIndex : Nat} (h : lastId < logIndex) (buff : List Nat) (hb : buff.length < 2 ^ 61) :
    ActiveMeta (info.updateIndex 1 logIndex (slotSize buff.length)).1
      (recordWritten (endIdPatched file info.meta.lastRecordPos logIndex)
        info.meta.dataFileSize logIndex buff) logIndex := by
  obtain ⟨s1, s2, _⟩ := slotSize_eq (n := buff.length) (by omega)
  have hp := getPaddedSize_lt buff.length
  obtain ⟨_, _, u3, u4, u5, _⟩ := @updateIndex_ok info hA.size_lt hA.idx_le logIndex
    (slotSize buff.length) (by omega)
  have u6 := @updateIndex_recordNum info hA.size_lt hA.idx_le logIndex (slotSize buff.length)
  have hpos := hM.num_pos
  have hle := hM.num_le
  have hsz := hA.size_lt
  have hmin : (info.updateIndex 1 logIndex (slotSize buff.length)).1.meta.minId =
      info.meta.minId := by
    rw [u5]
    exact if_neg (by omega)
  have hnum : (info.updateIndex 1 logIndex (slotSize buff.length)).1.meta.recordNum =
      info.meta.recordNum + 1 := by
    rw [u6]
    unfold u64
    omega
  have hml := hM.min_le
  refine ⟨u4, ?_, by rw [hmin]; omega, by rw [hnum]; omega, by rw [hnum, u3]; omega⟩
  rw [hmin, ← hM.minId]
  have hH : DATA_HEAD_SIZE = 24 := rfl
  have hI : ID_LEN = 8 := rfl
  have hS : DATA_STARTID_POS = 0 := rfl
  have hE : DATA_ENDID_POS = 8 := rfl
  have hlen : ID_LEN ≤ file.length := by
    have := length_le_of_readAt hM.minId
    rw [length_putUint64] at this
    rcases this with h1 | h1
    · omega
    · exact absurd h1 (List.cons_ne_nil _ _)
  have hpl := hA.pos_le
  obtain ⟨a1, a2⟩ := readAt_writeAt_low file (putUint64 (u64 (logIndex + 2 ^ 64 - 1)))
    (info.meta.lastRecordPos + DATA_ENDID_POS) ID_LEN (by omega) hlen
  unfold endIdPatched
  rw [hS, readAt_recordWritten_low _ _ _ _ _ (by omega) a2]
  exact a1

theorem append_step_meta {d : diskIo} {name : String} {info : indexInfo}
    {file : List Nat} {lastId : Nat} (hA : Appended d name info file lastId)
    (hM : ActiveMeta info file lastId) (hl : lastId < 2 ^ 64)
    {logIndex : Nat} (h : lastId < logIndex) (buff : List Nat) (hb : buff.length < 2 ^ 61) :
    ∃ d1 name1 info1 file1, diskIo.append d logIndex buff = .done (d1, none) ∧
      Appended d1 name1 info1 file1 logIndex ∧ ActiveMeta info1 file1 logIndex := by
  by_cases hno : info.meta.dataFileSize + (buff.length + 24) ≤ DATA_MAX_FILE_SIZE
  · obtain ⟨h1, h2⟩ := append_same_file hA hl h buff hb hno
    exact ⟨_, _, _, _, h1, h2, hM.same_file hA h buff hb⟩
  · obtain ⟨h1, h2⟩ := append_rollover hA hl h buff hb (Nat.lt_of_not_le hno)
    exact ⟨_, _, _, _, h1, h2, ActiveMeta.fresh logIndex buff hb⟩

theorem appendAll_meta :
    ∀ (xs : List (Nat × List Nat)) (d : diskIo) (name : String) (info : indexInfo)
      (file : List Nat) (lastId : Nat) (d1 : diskIo),
      Appended d name info file lastId → ActiveMeta info file lastId → lastId < 2 ^ 64 →
      (∀ x ∈ xs, x.1 < 2 ^ 64 ∧ x.2.length < 2 ^ 61) →
      appendAll d xs = .done (d1, none) →
      ∃ name1 info1 file1,
        Appended d1 name1 info1 file1 ((xs.getLast?.map Prod.fst).getD lastId) ∧
        ActiveMeta info1 file1 ((xs.getLast?.map Prod.fst).getD lastId)
  | [], d, name, info, file, lastId, d1, hA, hM, _, _, hrun => by
    simp only [appendAll, Run.done.injEq, Prod.mk.injEq, and_true] at hrun
    subst hrun
    exact ⟨name, info, file, hA, hM⟩
  | (logIndex, buff) :: rest, d, name, info, file, lastId, d1, hA, hM, hl, hx, hrun => by
    obtain ⟨hx1, hx2⟩ := hx _ (List.mem_cons_self _ _)
    by_cases h : lastId < logIndex
    · obtain ⟨d2, name2, info2, file2, ha, hA2, hM2⟩ := append_step_meta hA hM hl h buff hx2
      rw [appendAll, ha] at hrun
      dsimp only [Run.bind] at hrun
      obtain ⟨n3, i3, f3, hA3, hM3⟩ := appendAll_meta rest d2 name2 info2 file2 logIndex
        d1 hA2 hM2 hx1 (fun x hx0 => hx x (List.mem_cons_of_mem _ hx0)) hrun
      refine ⟨n3, i3, f3, ?_, ?_⟩
      · cases rest with
        | nil => exact hA3
        | cons y ys =>
          rw [List.getLast?_cons_cons]
          exact hA3
      · cases rest with
        | nil => exact hM3
        | cons y ys =>
          rw [List.getLast?_cons_cons]
          exact hM3
    · rw [appendAll, append_reject hA hl (by omega)] at hrun
      simp [Run.bind] at hrun

theorem appendAll_empty_meta (path header : String) (x : Nat × List Nat)
    (xs : List (Nat × List Nat)) (d1 : diskIo)
    (hx : ∀ y ∈ x :: xs, y.1 < 2 ^ 64 ∧ y.2.length < 2 ^ 61)
    (hrun : appendAll (emptyDisk path header) (x :: xs) = .done (d1, none)) :
    ∃ name1 info1 file1,
      Appended d1 name1 info1 file1 (((x :: xs).getLast?.map Prod.fst).getD 0) ∧
      ActiveMeta info1 file1 (((x :: xs).getLast?.map Prod.fst).getD 0) := by
  obtain ⟨id, buff⟩ := x
  obtain ⟨hx1, hx2⟩ := hx _ (List.mem_cons_self _ _)
  obtain ⟨ha, hA⟩ := append_first path header id buff hx2
  rw [appendAll, ha] at hrun
  dsimp only [Run.bind] at hrun
  obtain ⟨n3, i3, f3, hA3, hM3⟩ := appendAll_meta xs _ _ _ _ id d1 hA
    (ActiveMeta.fresh id buff hx2) hx1
    (fun y hy => hx y (List.mem_cons_of_mem _ hy)) hrun
  refine ⟨n3, i3, f3, ?_, ?_⟩
  · cases xs with
    | nil => exact hA3
    | cons y ys =>
      rw [List.getLast?_cons_cons]
      cases hq : (y :: ys).getLast? with
      | none => simp at hq
      | some z =>
        rw [hq] at hA3
        exact hA3
  · cases xs with
    | nil => exact hM3
    | cons y ys =>
      rw [List.getLast?_cons_cons]
      cases hq : (y :: ys).getLast? with
      | none => simp at hq
      | some z =>
        rw [hq] at hM3
        exact hM3

/-- C22 (amended): after any non-empty sequence of successful appends to an empty log, the
index of the active segment has `meta.maxId` equal to the startId of the last appended
record, which is the startId stored in the record at `meta.lastRecordPos` of its data file
(not that record's endId), and `meta.minId` equal to the startId stored in the first record
of that file.  An append that rolls over to a new data file seals the segment with
`meta.maxId = logIndex - 1` and an unchanged `meta.minId`, and the index of the new active
segment has `minId = maxId = logIndex`. -/
theorem active_segment_meta (path header : String) (x : Nat × List Nat)
    (xs : List (Nat × List Nat)) (d : diskIo)
    (hx : ∀ y ∈ x :: xs, y.1 < 2 ^ 64 ∧ y.2.length < 2 ^ 61)
    (hrun : appendAll (emptyDisk path header) (x :: xs) = .done (d, none)) :
    ∃ info file, mapGet d.mapIndex d.latestFileName = some info ∧
      mapGet d.files d.latestFileName = some file ∧
      info.meta.maxId = ((x :: xs).getLast (List.cons_ne_nil x xs)).1 ∧
      readAt file ID_LEN info.meta.lastRecordPos = putUint64 info.meta.maxId ∧
      readAt file ID_LEN DATA_STARTID_POS = putUint64 info.meta.minId ∧
      info.meta.minId ≤ info.meta.maxId ∧
      ∀ (logIndex : Nat) (buff : List Nat), info.meta.maxId < logIndex → logIndex < 2 ^ 64 →
        buff.length < 2 ^ 61 →
        DATA_MAX_FILE_SIZE < info.meta.dataFileSize + (buff.length + 24) →
        diskIo.append d logIndex buff =
          .done ({ d with
            files := mapSet
              (mapSet d.files d.latestFileName
                (endIdPatched file info.meta.lastRecordPos logIndex))
              (getFileNameByStartId d logIndex) (recordWritten [] 0 logIndex buff)
            latestFileName := getFileNameByStartId d logIndex
            latestFilePtr := some ⟨getFileNameByStartId d logIndex, true⟩
            mapIndex := mapSet (mapSet d.mapIndex d.latestFileName (sealedIndex info logIndex))
              (getFileNameByStartId d logIndex)
              (freshIndex.updateIndex 1 logIndex (slotSize buff.length)).1 }, none) ∧
        (sealedIndex info logIndex).meta.minId = info.meta.minId ∧
        (sealedIndex info logIndex).meta.maxId = logIndex - 1 ∧
        (freshIndex.updateIndex 1 logIndex (slotSize buff.length)).1.meta.minId = logIndex ∧
        (freshIndex.updateIndex 1 logIndex (slotSize buff.length)).1.meta.maxId = logIndex := by
  obtain ⟨name, info, file, hA, hM⟩ := appendAll_empty_meta path header x xs d hx hrun
  rw [getLast_fst] at hA hM
  have hl : ((x :: xs).getLast (List.cons_ne_nil x xs)).1 < 2 ^ 64 :=
    (hx _ (List.getLast_mem _)).1
  have hn := hA.latestFileName
  subst hn
  have hmax := hM.maxId
  refine ⟨info, file, hA.index, hA.bytes, hmax, ?_, hM.minId, ?_, ?_⟩
  · rw [hmax]
    exact hA.start
  · rw [hmax]
    exact hM.min_le
  · intro logIndex buff h1 h2 hb hroll
    rw [hmax] at h1
    have hF := ActiveMeta.fresh logIndex buff hb
    have hmin : (freshIndex.updateIndex 1 logIndex (slotSize buff.length)).1.meta.minId =
        logIndex := by
      have hp := getPaddedSize_lt buff.length
      have s1 := (slotSize_eq (n := buff.length) (by omega)).1
      exact updateIndex_fresh_minId logIndex (by omega)
    refine ⟨(append_rollover hA hl h1 buff hb hroll).1, ?_, ?_, hmin, hF.maxId⟩
    · rw [sealedIndex_meta]
    · rw [sealedIndex_meta]
      show u64 (logIndex + 2 ^ 64 - 1) = logIndex - 1
      unfold u64
      omega

theorem active_segment_meta_witness :
    ∃ info file, mapGet demoDisk.mapIndex demoDisk.latestFileName = some info ∧
      mapGet demoDisk.files demoDisk.latestFileName = some file ∧
      info.meta.maxId = 200 ∧
      readAt file ID_LEN info.meta.lastRecordPos = putUint64 200 ∧
      readAt file ID_LEN DATA_STARTID_POS = putUint64 info.meta.minId ∧
      info.meta.minId ≤ 200 ∧
      diskIo.append demoDisk 300 (List.replicate 2097152 7) =
        .done ({ demoDisk with
          files := mapSet
            (mapSet demoDisk.files demoDisk.latestFileName
              (endIdPatched file info.meta.lastRecordPos 300))
            (getFileNameByStartId demoDisk 300)
            (recordWritten [] 0 300 (List.replicate 2097152 7))
          latestFileName := getFileNameByStartId demoDisk 300
          latestFilePtr := some ⟨getFileNameByStartId demoDisk 300, true⟩
          mapIndex := mapSet
            (mapSet demoDisk.mapIndex demoDisk.latestFileName (sealedIndex info 300))
            (getFileNameByStartId demoDisk 300)
            (freshIndex.updateIndex 1 300 (slotSize (List.replicate 2097152 7).length)).1 },
          none) ∧
      (sealedIndex info 300).meta.minId = info.meta.minId ∧
      (sealedIndex info 300).meta.maxId = 300 - 1 ∧
      (freshIndex.updateIndex 1 300 (slotSize (List.replicate 2097152 7).length)).1.meta.minId =
        300 ∧
      (freshIndex.updateIndex 1 300 (slotSize (List.replicate 2097152 7).length)).1.meta.maxId =
        300 := by
  obtain ⟨info, file, h1, h2, h3, h4, h5, h6, h7⟩ :=
    active_segment_meta "/tmp/d" "C" (100, [1, 2, 3]) [(200, [4])] demoDisk (by decide)
      demoDisk_run
  have e : info.meta.maxId = 200 := h3
  rw [e] at h4 h6
  have hlen : (List.replicate 2097152 7).length = 2097152 := List.length_replicate _ _
  have hD : DATA_MAX_FILE_SIZE = 2097152 := rfl
  exact ⟨info, file, h1, h2, e, h4, h5, h6,
    h7 300 (List.replicate 2097152 7) (by rw [e]; decide) (by decide)
      (by rw [hlen]; decide) (by rw [hlen, hD]; omega)⟩
